import Mathlib

/-!
# libcuebin: disc layout resolution and sector access

A shallow embedding of the C++ library `libcuebin` (timecodes, cue sheet data
model, `CueParser::parseString`, `Disc::fromCue` layout resolver,
`Disc::findTrack`, `Disc::readSector`) together with theorems about it.

Conventions of the embedding:

* `uint8_t` values are `Byte = Fin 256`; `uint16_t` and `size_t` values are `Nat`.
* `int32_t` and `int64_t` values are `Int`.  Where the C++ arithmetic can leave
  the range of its type the result is reduced with `wrap32` / `wrap64`
  (two's complement); arithmetic whose operands are bounded so that it cannot
  leave the range is written without a reduction.
* `Result<T>` keeps the error code and drops the message text.
* The `std::ifstream` of every backing file is an explicit `StreamState`.
-/

namespace cuebin

/-! ## Machine integers -/

/-- A `uint8_t`. -/
abbrev Byte := Fin 256

/-- Reduction of an integer to the `int32_t` range `[-2^31, 2^31)`. -/
def wrap32 (x : Int) : Int := (x + 2147483648) % 4294967296 - 2147483648

/-- Reduction of an integer to the `int64_t` range `[-2^63, 2^63)`. -/
def wrap64 (x : Int) : Int :=
  (x + 9223372036854775808) % 18446744073709551616 - 9223372036854775808

/-- Addition of `int32_t` values. -/
def add32 (a b : Int) : Int := wrap32 (a + b)

/-- Subtraction of `int32_t` values. -/
def sub32 (a b : Int) : Int := wrap32 (a - b)

/-- The value is representable as an `int32_t`. -/
def inInt32 (x : Int) : Prop := -2147483648 ≤ x ∧ x < 2147483648

instance (x : Int) : Decidable (inInt32 x) := by unfold inInt32; exact inferInstance

/-! ## error.hpp -/

/-- The `enum class ErrorCode`. -/
inductive ErrorCode where
  | InvalidCueFormat
  | InvalidMSF
  | InvalidTrackMode
  | InvalidFileType
  | MissingFile
  | MissingTrack
  | DuplicateIndex
  | UnexpectedDirective
  | FileNotFound
  | FileReadError
  | FileSeekError
  | LBAOutOfRange
  | TrackNotFound
  | InvalidArgument
  deriving DecidableEq, Repr

/-- The class `Result<T>`: a value or an error (the message text is not modelled). -/
inductive Result (α : Type) where
  | ok (value : α)
  | error (code : ErrorCode)
  deriving DecidableEq, Repr

/-! ## msf.hpp -/

/-- The `struct MSF`: minute, second, frame, three `uint8_t`. -/
structure MSF where
  minute : Byte
  second : Byte
  frame : Byte
  deriving DecidableEq, Repr

/-- The constant `MSF::FRAMES_PER_SECOND`. -/
def MSF.FRAMES_PER_SECOND : Int := 75

/-- The constant `MSF::SECONDS_PER_MINUTE`. -/
def MSF.SECONDS_PER_MINUTE : Int := 60

/-- The constant `MSF::FRAMES_PER_MINUTE`. -/
def MSF.FRAMES_PER_MINUTE : Int := MSF.FRAMES_PER_SECOND * MSF.SECONDS_PER_MINUTE

/-- The function `MSF::toLba`: the three products and sums are at most `255*4500 + 255*75 + 255`,
so the `int32_t` arithmetic is exact. -/
def MSF.toLba (m : MSF) : Int :=
  (m.minute.val : Int) * MSF.FRAMES_PER_MINUTE
    + (m.second.val : Int) * MSF.FRAMES_PER_SECOND
    + (m.frame.val : Int)

/-- The function `MSF::toLba` with every `int32_t` product and sum reduced to
the range of the type, in the order the expression is evaluated. -/
def MSF.toLba32 (m : MSF) : Int :=
  add32
    (add32 (wrap32 ((m.minute.val : Int) * MSF.FRAMES_PER_MINUTE))
      (wrap32 ((m.second.val : Int) * MSF.FRAMES_PER_SECOND)))
    (m.frame.val : Int)

/-- The conversion `static_cast<uint8_t>` of an `int`: the value modulo 256. -/
def toUint8 (x : Int) : Byte := ⟨(x % 256).toNat, by omega⟩

/-- The function `MSF::fromLba`: `/` and `%` of C++ truncate toward zero. -/
def MSF.fromLba (lba : Int) : MSF :=
  let minute := toUint8 (Int.tdiv lba MSF.FRAMES_PER_MINUTE)
  let lba := Int.tmod lba MSF.FRAMES_PER_MINUTE
  { minute := minute
    second := toUint8 (Int.tdiv lba MSF.FRAMES_PER_SECOND)
    frame := toUint8 (Int.tmod lba MSF.FRAMES_PER_SECOND) }

/-- The constant `MSF::PREGAP_FRAMES`. -/
def MSF.PREGAP_FRAMES : Int := 150

/-- The function `MSF::toPhysicalMsf`; the sum is an `int32_t` sum. -/
def MSF.toPhysicalMsf (lba : Int) : MSF := MSF.fromLba (add32 lba MSF.PREGAP_FRAMES)

/-- The operator `==` of `MSF`: field-wise. -/
def MSF.eq (a b : MSF) : Bool :=
  a.minute == b.minute && a.second == b.second && a.frame == b.frame

/-- The operator `!=` of `MSF`. -/
def MSF.ne (a b : MSF) : Bool := !(a.eq b)

/-- The operator `<` of `MSF`. -/
def MSF.lt (a b : MSF) : Bool := decide (a.toLba < b.toLba)

/-- The operator `<=` of `MSF`. -/
def MSF.le (a b : MSF) : Bool := decide (a.toLba ≤ b.toLba)

/-- The operator `>` of `MSF`. -/
def MSF.gt (a b : MSF) : Bool := decide (a.toLba > b.toLba)

/-- The operator `>=` of `MSF`. -/
def MSF.ge (a b : MSF) : Bool := decide (a.toLba ≥ b.toLba)

/-! ## cueTypes.hpp, cueTypes.cpp -/

/-- The `enum class TrackMode`. -/
inductive TrackMode where
  | Audio
  | CDG
  | Mode1_2048
  | Mode1_2352
  | Mode2_2336
  | Mode2_2352
  | CDI_2336
  | CDI_2352
  deriving DecidableEq, Repr

/-- The `enum class FileType`. -/
inductive FileType where
  | Binary
  | Motorola
  | Aiff
  | Wave
  | MP3
  deriving DecidableEq, Repr

/-- The function `sectorSizeForMode` (a `uint16_t`). -/
def sectorSizeForMode : TrackMode → Nat
  | .Audio => 2352
  | .CDG => 2448
  | .Mode1_2048 => 2048
  | .Mode1_2352 => 2352
  | .Mode2_2336 => 2336
  | .Mode2_2352 => 2352
  | .CDI_2336 => 2336
  | .CDI_2352 => 2352

/-- The `struct CueIndex`. -/
structure CueIndex where
  number : Byte
  position : MSF
  deriving DecidableEq, Repr

/-- The `struct CueTrack`. -/
structure CueTrack where
  number : Byte
  mode : TrackMode
  indices : List CueIndex
  pregap : Option MSF
  postgap : Option MSF
  flags : Byte
  isrc : Option String
  title : Option String
  performer : Option String
  songwriter : Option String
  deriving DecidableEq, Repr

/-- The `struct CueFile`. -/
structure CueFile where
  filename : String
  type : FileType
  tracks : List CueTrack
  deriving DecidableEq, Repr

/-- The `struct CueSheet`. -/
structure CueSheet where
  files : List CueFile
  catalog : Option String
  cdtextfile : Option String
  title : Option String
  performer : Option String
  songwriter : Option String
  remarks : List String
  deriving DecidableEq, Repr

/-! ## track.hpp -/

/-- The `class Track`: the private members, in the order of the constructor. -/
structure Track where
  number : Byte
  mode : TrackMode
  sectorSize : Nat
  startLba : Int
  lengthSectors : Int
  pregapSectors : Int
  postgapSectors : Int
  indices : List CueIndex
  title : Option String
  performer : Option String
  isrc : Option String
  fileIndex : Nat
  fileByteOffset : Int
  fileStartLba : Int
  deriving DecidableEq, Repr

/-- The method `Track::endLba`: `m_startLba + m_lengthSectors` in `int32_t`. -/
def Track.endLba (t : Track) : Int := add32 t.startLba t.lengthSectors

/-! ## sector.hpp -/

/-- The constant `RAW_SECTOR_SIZE`. -/
def RAW_SECTOR_SIZE : Nat := 2352

/-- The `struct SectorData`: the 2352 bytes of `data` and the mode. -/
structure SectorData where
  data : List Byte
  mode : TrackMode
  deriving DecidableEq, Repr

/-! ## disc.cpp: the data of a disc -/

/-- The `struct FileHandle`, its immutable part: the path and the size read when the
disc was built (`int64_t`).  The mutable part (`openFlag`, `stream`) is
`StreamState`. -/
structure FileHandle where
  path : String
  fileSize : Int
  deriving DecidableEq, Repr

/-- The `struct Disc::Impl`.  `baseDir` only serves to resolve file names and is part
of the file system view `FileSystem`. -/
structure Disc where
  sheet : CueSheet
  tracks : List Track
  fileHandles : List FileHandle
  totalSectors : Int
  title : Option String
  performer : Option String
  catalog : Option String
  deriving DecidableEq, Repr

/-! ## disc.cpp: `Disc::fromCue`, the layout resolver -/

/-- What `std::filesystem::exists` and `std::filesystem::file_size` report for a
path: the file does not exist, it exists and its size cannot be read, or it has a
size (a `uintmax_t`). -/
inductive FileProbe where
  | absent
  | unsized
  | sized (bytes : Nat)
  deriving DecidableEq, Repr

/-- The file system as seen from the cue sheet's directory: the probe result of
`baseDir / filename` for every file name. -/
abbrev FileSystem := String → FileProbe

/-- Lines 51-68 of disc.cpp: one handle per `FILE` entry, in document order;
the first file that does not exist gives `FileNotFound`, the first whose size
cannot be read gives `FileReadError`.  The size is cast to `int64_t`. -/
def probeFiles (fs : FileSystem) : List CueFile → Result (List FileHandle)
  | [] => .ok []
  | cueFile :: rest =>
    match fs cueFile.filename with
    | .absent => .error .FileNotFound
    | .unsized => .error .FileReadError
    | .sized bytes =>
      match probeFiles fs rest with
      | .error e => .error e
      | .ok handles => .ok (⟨cueFile.filename, wrap64 bytes⟩ :: handles)

/-- Lines 88-91: the loop that finds `index01Offset`; every index numbered 1
overwrites the value, the initial value is 0. -/
def index01Offset (indices : List CueIndex) : Int :=
  indices.foldl (fun acc idx => if idx.number = 1 then idx.position.toLba else acc) 0

/-- Lines 110-114: the loop that finds `nextStart` in the next track's indices,
started with the current value `acc`; an index numbered 0 ends the loop
(`break`), an index numbered 1 overwrites the value. -/
def nextStartLoop : List CueIndex → Int → Int
  | [], acc => acc
  | idx :: rest, acc =>
    if idx.number = 0 then idx.position.toLba
    else if idx.number = 1 then nextStartLoop rest idx.position.toLba
    else nextStartLoop rest acc

/-- The expression `impl->fileHandles[fi]->fileSize`. -/
def fileSizeAt (fileHandles : List FileHandle) (fi : Nat) : Int :=
  match fileHandles[fi]? with
  | some h => h.fileSize
  | none => 0

/-- Lines 105-121: `trackSectors`.  `next` is the following track of the same
file when there is one (`ti + 1 < cueFile.tracks.size()`).  The subtraction of
two timecode LBAs is exact in `int32_t`; the last track of a file subtracts in
`int64_t`, divides (C++ division truncates toward zero) and casts to `int32_t`. -/
def trackSectors (fileHandles : List FileHandle) (fi : Nat) (ct : CueTrack)
    (next : Option CueTrack) : Int :=
  match next with
  | some nx => nextStartLoop nx.indices 0 - index01Offset ct.indices
  | none =>
    let remainingBytes :=
      wrap64 (fileSizeAt fileHandles fi
        - index01Offset ct.indices * (sectorSizeForMode ct.mode : Int))
    wrap32 (Int.tdiv remainingBytes (sectorSizeForMode ct.mode : Int))

/-- Lines 81-85: `pregap`. -/
def pregapOf (ct : CueTrack) : Int :=
  match ct.pregap with
  | some p => p.toLba
  | none => 0

/-- Lines 123-126: `postgap`. -/
def postgapOf (ct : CueTrack) : Int :=
  match ct.postgap with
  | some p => p.toLba
  | none => 0

/-- Lines 77-138: the body of the track loop for track `ct` of file `fi`, entered
with cursor `currentLba`; returns the emplaced `Track` and the cursor after it. -/
def resolveTrack (fileHandles : List FileHandle) (fi : Nat) (ct : CueTrack)
    (next : Option CueTrack) (currentLba : Int) : Track × Int :=
  let ss := sectorSizeForMode ct.mode
  let pregap := pregapOf ct
  let currentLba :=
    match ct.pregap with
    | some _ => add32 currentLba pregap
    | none => currentLba
  let index01 := index01Offset ct.indices
  let trackFileByteOffset : Int := index01 * (ss : Int)
  let sectors := trackSectors fileHandles fi ct next
  let postgap := postgapOf ct
  ({ number := ct.number, mode := ct.mode, sectorSize := ss,
     startLba := currentLba, lengthSectors := sectors,
     pregapSectors := pregap, postgapSectors := postgap,
     indices := ct.indices,
     title := ct.title, performer := ct.performer, isrc := ct.isrc,
     fileIndex := fi, fileByteOffset := trackFileByteOffset,
     fileStartLba := currentLba },
   add32 currentLba (add32 sectors postgap))

/-- Lines 76-139: the loop over the tracks of file `fi`; the head of the remaining
list is `cueFile.tracks[ti]` and the head of its tail is `cueFile.tracks[ti + 1]`.
Returns the tracks emplaced, in order, and the cursor after the file. -/
def resolveFileTracks (fileHandles : List FileHandle) (fi : Nat) :
    List CueTrack → Int → List Track × Int
  | [], currentLba => ([], currentLba)
  | ct :: rest, currentLba =>
    let r := resolveTrack fileHandles fi ct rest.head? currentLba
    let rs := resolveFileTracks fileHandles fi rest r.2
    (r.1 :: rs.1, rs.2)

/-- Lines 73-140: the loop over the files, from file index `fi`. -/
def resolveFiles (fileHandles : List FileHandle) :
    Nat → List CueFile → Int → List Track × Int
  | _, [], currentLba => ([], currentLba)
  | fi, cueFile :: rest, currentLba =>
    let r := resolveFileTracks fileHandles fi cueFile.tracks currentLba
    let rs := resolveFiles fileHandles (fi + 1) rest r.2
    (r.1 ++ rs.1, rs.2)

/-- The function `Disc::fromCue` after the parse step (lines 43-147 of disc.cpp): probe the
backing files, then walk files and tracks with the cursor starting at 0. -/
def Disc.fromSheet (fs : FileSystem) (sheet : CueSheet) : Result Disc :=
  match probeFiles fs sheet.files with
  | .error e => .error e
  | .ok handles =>
    let r := resolveFiles handles 0 sheet.files 0
    .ok { sheet := sheet, tracks := r.1, fileHandles := handles,
          totalSectors := r.2,
          title := sheet.title, performer := sheet.performer,
          catalog := sheet.catalog }

/-! ## disc.cpp: queries

`Disc::totalSectors()` returns the member `totalSectors`; it is the field
projection `Disc.totalSectors`. -/

/-- The method `Disc::leadOutLba`. -/
def Disc.leadOutLba (d : Disc) : Int := d.totalSectors

/-- Lines 196-204: the `while (lo <= hi)` loop of `Disc::findTrack`.  `found` is
the index of the track the pointer `found` points at.  The first argument bounds
the number of iterations still allowed; `Disc.findTrackIndex` starts the loop
with the track count, which the loop never exhausts because every iteration
shrinks the interval from `lo` to `hi`. -/
def findTrackLoop (tracks : List Track) (lba : Int) :
    Nat → Int → Int → Option Nat → Option Nat
  | 0, _, _, found => found
  | fuel + 1, lo, hi, found =>
    if lo ≤ hi then
      let mid := lo + Int.tdiv (hi - lo) 2
      match tracks[mid.toNat]? with
      | none => found
      | some t =>
        if t.startLba ≤ lba then
          findTrackLoop tracks lba fuel (mid + 1) hi (some mid.toNat)
        else
          findTrackLoop tracks lba fuel lo (mid - 1) found
    else found

/-- The method `Disc::findTrack`, as the index of the track returned: `hi` starts at
`static_cast<int>(tracks.size()) - 1`, and the track found by the loop is
returned when `lba < found->endLba()`. -/
def Disc.findTrackIndex (d : Disc) (lba : Int) : Option Nat :=
  let hi := wrap32 (d.tracks.length : Int) - 1
  match findTrackLoop d.tracks lba d.tracks.length 0 hi none with
  | none => none
  | some i =>
    match d.tracks[i]? with
    | none => none
    | some t => if lba < t.endLba then some i else none

/-- The method `Disc::findTrack`: the track pointed at, `none` for `nullptr`. -/
def Disc.findTrack (d : Disc) (lba : Int) : Option Track :=
  match d.findTrackIndex lba with
  | none => none
  | some i => d.tracks[i]?

/-- The loop of `Disc::findTrack` once more, with a counter: the value of `found`
when the loop is left, the number of times the body has run, and whether the
loop was left because `lo <= hi` became false (`false` when the allowance of
iterations given in the first argument ran out first, or on an index outside
the vector). -/
def findTrackLoopCounted (tracks : List Track) (lba : Int) :
    Nat → Int → Int → Option Nat → Option Nat × Nat × Bool
  | 0, lo, hi, found => (found, 0, decide (¬ lo ≤ hi))
  | fuel + 1, lo, hi, found =>
    if lo ≤ hi then
      let mid := lo + Int.tdiv (hi - lo) 2
      match tracks[mid.toNat]? with
      | none => (found, 1, false)
      | some t =>
        if t.startLba ≤ lba then
          let r := findTrackLoopCounted tracks lba fuel (mid + 1) hi (some mid.toNat)
          (r.1, r.2.1 + 1, r.2.2)
        else
          let r := findTrackLoopCounted tracks lba fuel lo (mid - 1) found
          (r.1, r.2.1 + 1, r.2.2)
    else (found, 0, true)

/-- The bound of the claim on the number of iterations for `n` tracks:
`floor(log2(n)) + 1`, and 0 for no track. -/
def searchBound (n : Nat) : Nat := if n = 0 then 0 else Nat.log 2 n + 1

/-! ## disc.cpp: `Disc::readSector` -/

/-- A backing file as the operating system presents it when the disc is read:
whether it can be opened, its bytes, and which absolute offsets `seekg`
accepts. -/
structure BackingFile where
  openable : Bool
  bytes : List Byte
  seekable : Int → Bool

/-- The files behind the paths of the file handles. -/
abbrev DiskContents := String → BackingFile

/-- The mutable part of a `FileHandle`: whether `openFlag` has fired, whether
`stream.is_open()`, and whether `failbit` is set (`!fh.stream`).  `eofbit` is not
kept: `seekg` clears it before every read. -/
structure StreamState where
  opened : Bool
  isOpen : Bool
  failed : Bool
  deriving DecidableEq, Repr

/-- The stream of a handle that has not been used. -/
def StreamState.fresh : StreamState := { opened := false, isOpen := false, failed := false }

/-- The streams of a disc that has just been built. -/
def Disc.freshStreams (d : Disc) : List StreamState :=
  d.fileHandles.map (fun _ => StreamState.fresh)

/-- Lines 226-231: `std::call_once(fh.openFlag, ...)`; `open` sets `failbit`
when it fails. -/
def streamOpen (file : BackingFile) (s : StreamState) : StreamState :=
  if s.opened then s
  else { opened := true, isOpen := file.openable, failed := !file.openable }

/-- Line 243: `fh.stream.seekg(offset)` does nothing on a stream whose `failbit`
is set, and sets `failbit` when the position is refused. -/
def streamSeek (file : BackingFile) (s : StreamState) (offset : Int) : StreamState :=
  if s.failed then s
  else if file.seekable offset then s
  else { s with failed := true }

/-- Line 255: `fh.stream.read(buf, readSize)` on a stream in good state positioned
at `offset`: the bytes read (`gcount()` is their number), and `failbit` set when
fewer than `readSize` bytes were available. -/
def streamRead (file : BackingFile) (s : StreamState) (offset : Int) (readSize : Nat) :
    List Byte × StreamState :=
  let got := (file.bytes.drop offset.toNat).take readSize
  (got, if got.length < readSize then { s with failed := true } else s)

/-- The sector buffer after `got` was read into the zero-initialised `data` and
the tail was zero-filled (lines 249, 264 and 270). -/
def sectorBuffer (got : List Byte) : List Byte :=
  got ++ List.replicate (RAW_SECTOR_SIZE - got.length) (0 : Byte)

/-- The method `Disc::readSector(int32_t lba)`, lines 209-274, with the contents of the
backing files and the streams of the handles (one per file index) made explicit;
returns the result and the streams after the call.  A file index without a
handle cannot occur for a disc built by `Disc.fromSheet`; it is treated as a file
that cannot be opened. -/
def Disc.readSector (d : Disc) (disk : DiskContents) (streams : List StreamState)
    (lba : Int) : Result SectorData × List StreamState :=
  if lba < 0 ∨ lba ≥ d.totalSectors then (.error .LBAOutOfRange, streams)
  else
    match d.findTrack lba with
    | none => (.error .TrackNotFound, streams)
    | some trk =>
      match d.fileHandles[trk.fileIndex]?, streams[trk.fileIndex]? with
      | some fh, some s0 =>
        let file := disk fh.path
        let s1 := streamOpen file s0
        if !s1.isOpen then (.error .FileReadError, streams.set trk.fileIndex s1)
        else
          let offset : Int :=
            trk.fileByteOffset + sub32 lba trk.fileStartLba * (trk.sectorSize : Int)
          let s2 := streamSeek file s1 offset
          if s2.failed then (.error .FileSeekError, streams.set trk.fileIndex s2)
          else
            let readSize := min trk.sectorSize RAW_SECTOR_SIZE
            let r := streamRead file s2 offset readSize
            if r.2.failed then
              if r.1.length = 0 then
                (.error .FileReadError, streams.set trk.fileIndex r.2)
              else
                (.ok { data := sectorBuffer r.1, mode := trk.mode },
                 streams.set trk.fileIndex { r.2 with failed := false })
            else
              (.ok { data := sectorBuffer r.1, mode := trk.mode },
               streams.set trk.fileIndex r.2)
      | _, _ => (.error .FileReadError, streams)


/-- The method `Disc::trackCount`. -/
def Disc.trackCount (d : Disc) : Nat := d.tracks.length

/-- The `for` loop of `Disc::readSectors` (disc.cpp lines 291-295) with `n`
iterations left, at loop counter `i`: the sectors read from here on, or the first
error, and the streams after the loop.  `lba + i` is an `int32_t` sum. -/
def Disc.readSectorsLoop (d : Disc) (disk : DiskContents) (lba : Int) :
    Nat → Int → List StreamState → Result (List SectorData) × List StreamState
  | 0, _, streams => (.ok [], streams)
  | n + 1, i, streams =>
    match d.readSector disk streams (add32 lba i) with
    | (.error e, streams1) => (.error e, streams1)
    | (.ok sector, streams1) =>
      match Disc.readSectorsLoop d disk lba n (i + 1) streams1 with
      | (.error e, streams2) => (.error e, streams2)
      | (.ok sectors, streams2) => (.ok (sector :: sectors), streams2)

/-- The method `Disc::readSectors`, lines 281-298. -/
def Disc.readSectors (d : Disc) (disk : DiskContents) (streams : List StreamState)
    (lba count : Int) : Result (List SectorData) × List StreamState :=
  if count ≤ 0 then (.error .InvalidArgument, streams)
  else d.readSectorsLoop disk lba count.toNat 0 streams

/-! ## cueParser.cpp

A `std::string_view` is a `List Char`, one `Char` for each `char`. -/

/-- The function `std::isspace` in the C locale: space, `\t`, `\n`, `\v`, `\f`, `\r`. -/
def isspace (c : Char) : Bool :=
  c = ' ' || (9 ≤ c.toNat && c.toNat ≤ 13)

/-- The function `std::toupper` in the C locale. -/
def toupper (c : Char) : Char :=
  if 97 ≤ c.toNat ∧ c.toNat ≤ 122 then Char.ofNat (c.toNat - 32) else c

/-- The function `trim` of cueParser.cpp: drop leading, then trailing, white space. -/
def trim (sv : List Char) : List Char :=
  ((sv.dropWhile isspace).reverse.dropWhile isspace).reverse

/-- The function `toUpper` of cueParser.cpp. -/
def toUpper (sv : List Char) : List Char := sv.map toupper

/-- The function `nextToken`: the token and the line after it.  A token that
starts with a double quote runs to the next double quote (or to the end of the
line); any other token runs to the next space or tab. -/
def nextToken (line : List Char) : List Char × List Char :=
  match trim line with
  | [] => ([], [])
  | c :: rest =>
    if c = '"' then
      match rest.span (fun x => x ≠ '"') with
      | (tok, []) => (tok, [])
      | (tok, _ :: after) => (tok, after)
    else
      (c :: rest).span (fun x => x ≠ ' ' ∧ x ≠ '\t')

/-- The function `restAsString`: a quoted string, or the whole rest of the line. -/
def restAsString (line : List Char) : List Char × List Char :=
  match trim line with
  | [] => ([], [])
  | c :: rest =>
    if c = '"' then
      match rest.span (fun x => x ≠ '"') with
      | (s, []) => (s, [])
      | (s, _ :: after) => (s, after)
    else
      (c :: rest, [])

/-- The error condition `std::errc` of `std::from_chars`. -/
inductive Errc where
  | none
  | invalid_argument
  | result_out_of_range
  deriving DecidableEq, Repr

/-- The decimal digit a character stands for. -/
def isDigit (c : Char) : Bool := 48 ≤ c.toNat && c.toNat ≤ 57

/-- The value of a run of decimal digits. -/
def decimalValue (digits : List Char) : Nat :=
  digits.foldl (fun acc c => acc * 10 + (c.toNat - 48)) 0

/-- The call `std::from_chars(first, last, val)` for a `uint8_t` in base 10: the
number of characters consumed, the error condition and the value stored (`val`
keeps its initial 0 on error).  The longest run of digits at the start is
consumed; no sign and no white space is accepted. -/
def fromCharsUint8 (sv : List Char) : Nat × Errc × Nat :=
  let digits := sv.takeWhile isDigit
  if digits.isEmpty then (0, .invalid_argument, 0)
  else if decimalValue digits > 255 then (digits.length, .result_out_of_range, 0)
  else (digits.length, .none, decimalValue digits)

/-- The function `parseUint8` of cueParser.cpp. -/
def parseUint8 (sv : List Char) : Result Byte :=
  match fromCharsUint8 sv with
  | (consumed, ec, val) =>
    if ec ≠ .none ∨ consumed ≠ sv.length then .error .InvalidCueFormat
    else .ok (Fin.ofNat val)

/-- The loop of `parseFlags`; the first argument bounds the iterations, and
`parseFlags` starts it above the length of the line, which bounds them since
every `nextToken` on a non-empty line consumes a character.  Unknown flags are
logged and ignored. -/
def parseFlagsLoop : Nat → List Char → Nat → Nat
  | 0, _, flags => flags
  | fuel + 1, line, flags =>
    if line.isEmpty then flags
    else
      let r := nextToken line
      let tok := toUpper r.1
      let flags :=
        if tok = "DCP".toList then flags ||| 1
        else if tok = "4CH".toList then flags ||| 2
        else if tok = "PRE".toList then flags ||| 4
        else if tok = "SCMS".toList then flags ||| 8
        else flags
      parseFlagsLoop fuel r.2 flags

/-- The function `parseFlags` of cueParser.cpp. -/
def parseFlags (line : List Char) : Byte :=
  Fin.ofNat (parseFlagsLoop (line.length + 1) line 0)

/-- The function `parseTrackMode` of cueTypes.cpp. -/
def parseTrackMode (str : List Char) : Result TrackMode :=
  let upper := toUpper str
  if upper = "AUDIO".toList then .ok .Audio
  else if upper = "CDG".toList then .ok .CDG
  else if upper = "MODE1/2048".toList then .ok .Mode1_2048
  else if upper = "MODE1/2352".toList then .ok .Mode1_2352
  else if upper = "MODE2/2336".toList then .ok .Mode2_2336
  else if upper = "MODE2/2352".toList then .ok .Mode2_2352
  else if upper = "CDI/2336".toList then .ok .CDI_2336
  else if upper = "CDI/2352".toList then .ok .CDI_2352
  else .error .InvalidTrackMode

/-- The function `parseFileType` of cueTypes.cpp. -/
def parseFileType (str : List Char) : Result FileType :=
  let upper := toUpper str
  if upper = "BINARY".toList then .ok .Binary
  else if upper = "MOTOROLA".toList then .ok .Motorola
  else if upper = "AIFF".toList then .ok .Aiff
  else if upper = "WAVE".toList then .ok .Wave
  else if upper = "MP3".toList then .ok .MP3
  else .error .InvalidFileType

/-- The lambda `parsePart` of `MSF::parse`. -/
def MSF.parsePart (part : List Char) : Result Byte :=
  match fromCharsUint8 part with
  | (consumed, ec, val) =>
    if ec ≠ .none ∨ consumed ≠ part.length then .error .InvalidMSF
    else .ok (Fin.ofNat val)

/-- The function `MSF::parse` of msf.cpp. -/
def MSF.parse (str : List Char) : Result MSF :=
  if str.length < 5 then .error .InvalidMSF
  else
    match str.span (fun x => x ≠ ':') with
    | (_, []) => .error .InvalidMSF
    | (mPart, _ :: rest1) =>
      match rest1.span (fun x => x ≠ ':') with
      | (_, []) => .error .InvalidMSF
      | (sPart, _ :: fPart) =>
        match MSF.parsePart mPart with
        | .error e => .error e
        | .ok m =>
          match MSF.parsePart sPart with
          | .error e => .error e
          | .ok s =>
            match MSF.parsePart fPart with
            | .error e => .error e
            | .ok f =>
              if s.val ≥ 60 then .error .InvalidMSF
              else if f.val ≥ 75 then .error .InvalidMSF
              else .ok ⟨m, s, f⟩

/-- The conversion `%02u` of `snprintf`: the decimal digits of the value, padded
with zeros on the left to at least two characters. -/
def formatU02 (n : Nat) : List Char :=
  let digits := Nat.toDigits 10 n
  List.replicate (2 - digits.length) '0' ++ digits

/-- The function `MSF::toString` of msf.cpp: `snprintf` with the format
`"%02u:%02u:%02u"` into a buffer of 16 characters, which holds at most 15
characters of text. -/
def MSF.toString (m : MSF) : List Char :=
  (formatU02 m.minute.val ++ ':' :: (formatU02 m.second.val ++ ':' :: formatU02 m.frame.val)).take 15

/-- The lines `std::getline` reads from the content: the text between line
feeds; the text after the last line feed is a line when it is not empty.
`cur` holds the characters of the line being read, last first. -/
def getlines : List Char → List Char → List (List Char)
  | [], cur => if cur.isEmpty then [] else [cur.reverse]
  | c :: rest, cur =>
    if c = '\n' then cur.reverse :: getlines rest []
    else getlines rest (c :: cur)

/-- Apply `f` to the last element of the list (`v.back()`). -/
def modifyLast {α : Type} (f : α → α) : List α → List α
  | [] => []
  | [x] => [f x]
  | x :: y :: rest => x :: modifyLast f (y :: rest)

/-- The local state of `CueParser::parseString`: the sheet, whether
`currentFile` is set (it then points at `sheet.files.back()`) and whether
`currentTrack` is set (it then points at `currentFile->tracks.back()`). -/
structure ParseState where
  sheet : CueSheet
  currentFile : Bool
  currentTrack : Bool
  deriving DecidableEq, Repr

/-- The track `currentTrack` points at. -/
def ParseState.track (st : ParseState) : Option CueTrack :=
  match st.sheet.files.getLast? with
  | none => none
  | some cueFile => cueFile.tracks.getLast?

/-- The sheet after `sheet.files.emplace_back()` and the assignments to the new file. -/
def CueSheet.pushFile (sheet : CueSheet) (cueFile : CueFile) : CueSheet :=
  { sheet with files := sheet.files ++ [cueFile] }

/-- The file after `tracks.emplace_back()` and the assignments to the new track. -/
def CueFile.pushTrack (cueFile : CueFile) (ct : CueTrack) : CueFile :=
  { cueFile with tracks := cueFile.tracks ++ [ct] }

/-- The file after an assignment `f` to its last track. -/
def CueFile.setLastTrack (cueFile : CueFile) (f : CueTrack → CueTrack) : CueFile :=
  { cueFile with tracks := modifyLast f cueFile.tracks }

/-- The sheet after `currentFile->tracks.emplace_back()` and the assignments to
the new track. -/
def CueSheet.pushTrack (sheet : CueSheet) (ct : CueTrack) : CueSheet :=
  { sheet with files := modifyLast (fun cueFile => cueFile.pushTrack ct) sheet.files }

/-- An assignment through `currentTrack`. -/
def ParseState.setTrack (st : ParseState) (f : CueTrack → CueTrack) : ParseState :=
  { st with sheet :=
      { st.sheet with files := modifyLast (fun cueFile => cueFile.setLastTrack f) st.sheet.files } }

/-- A new `CueTrack` as `emplace_back()` makes it. -/
def CueTrack.empty : CueTrack :=
  { number := 0, mode := .Audio, indices := [], pregap := none, postgap := none,
    flags := 0, isrc := none, title := none, performer := none, songwriter := none }

/-- A new `CueSheet` as its default constructor makes it. -/
def CueSheet.empty : CueSheet :=
  { files := [], catalog := none, cdtextfile := none, title := none, performer := none,
    songwriter := none, remarks := [] }

/-- The body of the `while (std::getline(...))` loop of `CueParser::parseString`
(cueParser.cpp lines 133-272) for one line. -/
def parseLine (st : ParseState) (lineBuf : List Char) : Result ParseState :=
  let line := trim lineBuf
  if line.isEmpty then .ok st
  else
    let k := nextToken line
    let keyword := toUpper k.1
    let remaining := k.2
    if keyword = "FILE".toList then
      let a := nextToken remaining
      let b := nextToken a.2
      if a.1.isEmpty ∨ b.1.isEmpty then .error .InvalidCueFormat
      else
        match parseFileType b.1 with
        | .error e => .error e
        | .ok fileType =>
          .ok { sheet := st.sheet.pushFile ⟨String.mk a.1, fileType, []⟩,
                currentFile := true, currentTrack := false }
    else if keyword = "TRACK".toList then
      if !st.currentFile then .error .UnexpectedDirective
      else
        let a := nextToken remaining
        let b := nextToken a.2
        if a.1.isEmpty ∨ b.1.isEmpty then .error .InvalidCueFormat
        else
          match parseUint8 a.1 with
          | .error e => .error e
          | .ok num =>
            match parseTrackMode b.1 with
            | .error e => .error e
            | .ok mode =>
              .ok { sheet :=
                      st.sheet.pushTrack { CueTrack.empty with number := num, mode := mode },
                    currentFile := st.currentFile, currentTrack := true }
    else if keyword = "INDEX".toList then
      if !st.currentTrack then .error .UnexpectedDirective
      else
        let a := nextToken remaining
        let b := nextToken a.2
        if a.1.isEmpty ∨ b.1.isEmpty then .error .InvalidCueFormat
        else
          match parseUint8 a.1 with
          | .error e => .error e
          | .ok num =>
            match MSF.parse b.1 with
            | .error e => .error e
            | .ok msf =>
              let indices := match st.track with
                | some ct => ct.indices
                | none => []
              if indices.any (fun idx => idx.number = num) then .error .DuplicateIndex
              else .ok (st.setTrack (fun ct => { ct with indices := ct.indices ++ [⟨num, msf⟩] }))
    else if keyword = "PREGAP".toList then
      if !st.currentTrack then .error .UnexpectedDirective
      else
        match MSF.parse (nextToken remaining).1 with
        | .error e => .error e
        | .ok msf => .ok (st.setTrack (fun ct => { ct with pregap := some msf }))
    else if keyword = "POSTGAP".toList then
      if !st.currentTrack then .error .UnexpectedDirective
      else
        match MSF.parse (nextToken remaining).1 with
        | .error e => .error e
        | .ok msf => .ok (st.setTrack (fun ct => { ct with postgap := some msf }))
    else if keyword = "FLAGS".toList then
      if !st.currentTrack then .error .UnexpectedDirective
      else .ok (st.setTrack (fun ct => { ct with flags := parseFlags remaining }))
    else if keyword = "ISRC".toList then
      if !st.currentTrack then .error .UnexpectedDirective
      else .ok (st.setTrack (fun ct => { ct with isrc := some (String.mk (nextToken remaining).1) }))
    else if keyword = "CATALOG".toList then
      .ok { st with sheet := { st.sheet with catalog := some (String.mk (nextToken remaining).1) } }
    else if keyword = "CDTEXTFILE".toList then
      .ok { st with sheet :=
        { st.sheet with cdtextfile := some (String.mk (restAsString remaining).1) } }
    else if keyword = "TITLE".toList then
      let val := String.mk (restAsString remaining).1
      if st.currentTrack then .ok (st.setTrack (fun ct => { ct with title := some val }))
      else .ok { st with sheet := { st.sheet with title := some val } }
    else if keyword = "PERFORMER".toList then
      let val := String.mk (restAsString remaining).1
      if st.currentTrack then .ok (st.setTrack (fun ct => { ct with performer := some val }))
      else .ok { st with sheet := { st.sheet with performer := some val } }
    else if keyword = "SONGWRITER".toList then
      let val := String.mk (restAsString remaining).1
      if st.currentTrack then .ok (st.setTrack (fun ct => { ct with songwriter := some val }))
      else .ok { st with sheet := { st.sheet with songwriter := some val } }
    else if keyword = "REM".toList then
      .ok { st with sheet :=
        { st.sheet with remarks := st.sheet.remarks ++ [String.mk remaining] } }
    else .ok st

/-- The `while (std::getline(...))` loop of `CueParser::parseString` over the
lines still to read; the first error ends it. -/
def parseLines : ParseState → List (List Char) → Result ParseState
  | st, [] => .ok st
  | st, lineBuf :: rest =>
    match parseLine st lineBuf with
    | .error e => .error e
    | .ok st1 => parseLines st1 rest

/-- The function `CueParser::parseString`. -/
def parseString (content : String) : Result CueSheet :=
  match parseLines { sheet := CueSheet.empty, currentFile := false, currentTrack := false }
      (getlines content.toList []) with
  | .error e => .error e
  | .ok st =>
    if st.sheet.files.isEmpty then .error .InvalidCueFormat
    else .ok st.sheet

/-- The function `Disc::fromCue` on the text of the cue sheet: parse it, then
resolve the layout over the file system seen from the sheet's directory. -/
def Disc.fromCueText (fs : FileSystem) (content : String) : Result Disc :=
  match parseString content with
  | .error e => .error e
  | .ok sheet => Disc.fromSheet fs sheet

/-! ## cueParser.cpp: the loop body, branch by branch

The branches of the loop body as definitions of their own; `parseDirective`
chains them as `parseLine` does. -/

/-- The `FILE` branch (cueParser.cpp lines 140-155). -/
def parseFileDirective (st : ParseState) (remaining : List Char) : Result ParseState :=
  let a := nextToken remaining
  let b := nextToken a.2
  if a.1.isEmpty ∨ b.1.isEmpty then .error .InvalidCueFormat
  else
    match parseFileType b.1 with
    | .error e => .error e
    | .ok fileType =>
      .ok { sheet := st.sheet.pushFile ⟨String.mk a.1, fileType, []⟩,
            currentFile := true, currentTrack := false }

/-- The `TRACK` branch (cueParser.cpp lines 156-176). -/
def parseTrackDirective (st : ParseState) (remaining : List Char) : Result ParseState :=
  if !st.currentFile then .error .UnexpectedDirective
  else
    let a := nextToken remaining
    let b := nextToken a.2
    if a.1.isEmpty ∨ b.1.isEmpty then .error .InvalidCueFormat
    else
      match parseUint8 a.1 with
      | .error e => .error e
      | .ok num =>
        match parseTrackMode b.1 with
        | .error e => .error e
        | .ok mode =>
          .ok { sheet :=
                  st.sheet.pushTrack { CueTrack.empty with number := num, mode := mode },
                currentFile := st.currentFile, currentTrack := true }

/-- The `INDEX` branch (cueParser.cpp lines 177-202). -/
def parseIndexDirective (st : ParseState) (remaining : List Char) : Result ParseState :=
  if !st.currentTrack then .error .UnexpectedDirective
  else
    let a := nextToken remaining
    let b := nextToken a.2
    if a.1.isEmpty ∨ b.1.isEmpty then .error .InvalidCueFormat
    else
      match parseUint8 a.1 with
      | .error e => .error e
      | .ok num =>
        match MSF.parse b.1 with
        | .error e => .error e
        | .ok msf =>
          let indices := match st.track with
            | some ct => ct.indices
            | none => []
          if indices.any (fun idx => idx.number = num) then .error .DuplicateIndex
          else .ok (st.setTrack (fun ct => { ct with indices := ct.indices ++ [⟨num, msf⟩] }))

/-- The branches after `INDEX` (cueParser.cpp lines 203-272): the track
directives `PREGAP`, `POSTGAP`, `FLAGS`, `ISRC`, the metadata directives, `REM`,
and the unknown keywords, which are skipped. -/
def parseOtherDirective (st : ParseState) (keyword remaining : List Char) : Result ParseState :=
  if keyword = "PREGAP".toList then
    if !st.currentTrack then .error .UnexpectedDirective
    else
      match MSF.parse (nextToken remaining).1 with
      | .error e => .error e
      | .ok msf => .ok (st.setTrack (fun ct => { ct with pregap := some msf }))
  else if keyword = "POSTGAP".toList then
    if !st.currentTrack then .error .UnexpectedDirective
    else
      match MSF.parse (nextToken remaining).1 with
      | .error e => .error e
      | .ok msf => .ok (st.setTrack (fun ct => { ct with postgap := some msf }))
  else if keyword = "FLAGS".toList then
    if !st.currentTrack then .error .UnexpectedDirective
    else .ok (st.setTrack (fun ct => { ct with flags := parseFlags remaining }))
  else if keyword = "ISRC".toList then
    if !st.currentTrack then .error .UnexpectedDirective
    else .ok (st.setTrack (fun ct => { ct with isrc := some (String.mk (nextToken remaining).1) }))
  else if keyword = "CATALOG".toList then
    .ok { st with sheet := { st.sheet with catalog := some (String.mk (nextToken remaining).1) } }
  else if keyword = "CDTEXTFILE".toList then
    .ok { st with sheet :=
      { st.sheet with cdtextfile := some (String.mk (restAsString remaining).1) } }
  else if keyword = "TITLE".toList then
    let val := String.mk (restAsString remaining).1
    if st.currentTrack then .ok (st.setTrack (fun ct => { ct with title := some val }))
    else .ok { st with sheet := { st.sheet with title := some val } }
  else if keyword = "PERFORMER".toList then
    let val := String.mk (restAsString remaining).1
    if st.currentTrack then .ok (st.setTrack (fun ct => { ct with performer := some val }))
    else .ok { st with sheet := { st.sheet with performer := some val } }
  else if keyword = "SONGWRITER".toList then
    let val := String.mk (restAsString remaining).1
    if st.currentTrack then .ok (st.setTrack (fun ct => { ct with songwriter := some val }))
    else .ok { st with sheet := { st.sheet with songwriter := some val } }
  else if keyword = "REM".toList then
    .ok { st with sheet :=
      { st.sheet with remarks := st.sheet.remarks ++ [String.mk remaining] } }
  else .ok st

/-- The chain of keyword tests of the loop body (cueParser.cpp lines 140-272). -/
def parseDirective (st : ParseState) (keyword remaining : List Char) : Result ParseState :=
  if keyword = "FILE".toList then parseFileDirective st remaining
  else if keyword = "TRACK".toList then parseTrackDirective st remaining
  else if keyword = "INDEX".toList then parseIndexDirective st remaining
  else parseOtherDirective st keyword remaining

/-! ## Vocabulary of the statements -/

/-- The timeline length the tracks account for: the sum of
`pregapSectors + lengthSectors + postgapSectors`. -/
def timelineSum (ts : List Track) : Int :=
  (ts.map (fun t => t.pregapSectors + t.lengthSectors + t.postgapSectors)).sum

/-- The position in the resolved track list of track `ti` of file `fi`: the
number of tracks of the files before `fi`, plus `ti`. -/
def trackPosition (files : List CueFile) (fi ti : Nat) : Nat :=
  ((files.take fi).map (fun f => f.tracks.length)).sum + ti

/-- The tracks `ts` lie on the timeline as the track loop places them when it is
entered with cursor `c` and left with cursor `c1` (`int32_t` arithmetic). -/
def ChainFrom : Int → List Track → Int → Prop
  | c, [], c1 => c1 = c
  | c, t :: ts, c1 =>
    t.startLba = wrap32 (c + t.pregapSectors)
      ∧ 0 ≤ t.pregapSectors ∧ t.pregapSectors ≤ 1166880 ∧ 0 ≤ t.postgapSectors
      ∧ ChainFrom (wrap32 (t.startLba + t.lengthSectors + t.postgapSectors)) ts c1

/-- The placement of the tracks on the timeline when no addition wraps: every
start is the cursor plus the pregap, and lengths and gaps are non-negative. -/
def ExactFrom : Int → List Track → Int → Prop
  | c, [], c1 => c1 = c
  | c, t :: ts, c1 =>
    t.startLba = c + t.pregapSectors
      ∧ 0 ≤ t.pregapSectors ∧ 0 ≤ t.lengthSectors ∧ 0 ≤ t.postgapSectors
      ∧ ExactFrom (t.startLba + t.lengthSectors + t.postgapSectors) ts c1

/-- The timecode satisfies the checks of `MSF::parse` (msf.cpp lines 50-57). -/
def MSF.isValid (m : MSF) : Bool := decide (m.second.val < 60) && decide (m.frame.val < 75)

/-- What `CueParser::parseString` guarantees of a track it returns: no index
number occurs twice (cueParser.cpp lines 194-199) and every timecode went
through `MSF::parse`. -/
def CueTrack.wellFormed (ct : CueTrack) : Bool :=
  decide (ct.indices.map (fun i => i.number)).Nodup
    && ct.indices.all (fun i => i.position.isValid)
    && (match ct.pregap with | some p => p.isValid | none => true)
    && (match ct.postgap with | some p => p.isValid | none => true)

/-- What `CueParser::parseString` guarantees of a sheet it returns: at least one
file (cueParser.cpp lines 275-278) and well-formed tracks. -/
def CueSheet.wellFormed (sheet : CueSheet) : Bool :=
  !sheet.files.isEmpty && sheet.files.all (fun f => f.tracks.all CueTrack.wellFormed)

/-- The sum of the pregaps of the tracks. -/
def pregapSum (ts : List Track) : Int := (ts.map (fun t => t.pregapSectors)).sum

/-- The track without its `PREGAP` timecode. -/
def CueTrack.withoutPregap (ct : CueTrack) : CueTrack := { ct with pregap := none }

/-- The file with every `PREGAP` timecode removed. -/
def CueFile.withoutPregaps (f : CueFile) : CueFile :=
  { f with tracks := f.tracks.map CueTrack.withoutPregap }

/-- The sheet with every `PREGAP` timecode removed: two sheets differ only in
the presence or value of `PREGAP` timecodes when these are equal. -/
def CueSheet.withoutPregaps (sheet : CueSheet) : CueSheet :=
  { sheet with files := sheet.files.map CueFile.withoutPregaps }

/-- The stream is usable: once the lazy open has run it is open and its
`failbit` is clear.  A fresh stream of a file that can be opened is usable; a
stream left with `failbit` set is not. -/
def streamReady (file : BackingFile) (s : StreamState) : Bool :=
  (streamOpen file s).isOpen && !(streamOpen file s).failed

/-- The byte offset `readSector` computes for `lba` in track `t` (disc.cpp lines
240-241); the difference `lba - fileStartLba` is an `int32_t` difference. -/
def sectorOffset (t : Track) (lba : Int) : Int :=
  t.fileByteOffset + sub32 lba t.fileStartLba * (t.sectorSize : Int)

/-- The number of bytes `readSector` asks for: `min(sectorSize, 2352)`. -/
def readSizeOf (t : Track) : Nat := min t.sectorSize RAW_SECTOR_SIZE

/-- The declared tracks of the files of a document, in document order, each paired
with the zero-based position of the File entry that declares it; the first file
of the list has position `fi`. -/
def declaredTracksFrom : Nat → List CueFile → List (Nat × CueTrack)
  | _, [] => []
  | fi, f :: rest => f.tracks.map (fun ct => (fi, ct)) ++ declaredTracksFrom (fi + 1) rest

/-- The declared tracks of a document with the position of their File entry. -/
def declaredTracks (sheet : CueSheet) : List (Nat × CueTrack) :=
  declaredTracksFrom 0 sheet.files

/-- The length the track loop gives the only track `ct` of a file of `size`
bytes: `static_cast<int32_t>((fileSize - index01Offset * ss) / ss)` with the
subtraction and the truncating division in `int64_t`. -/
def lengthFromFileSize (size : Nat) (ct : CueTrack) : Int :=
  wrap32 (Int.tdiv (wrap64 (wrap64 size - index01Offset ct.indices * (sectorSizeForMode ct.mode : Int)))
    (sectorSizeForMode ct.mode : Int))

/-- The text is a non-empty run of decimal digits: no sign, no other character. -/
def isUnsignedDecimal (part : List Char) : Bool := !part.isEmpty && part.all isDigit

/-- The text `M:S:F` made of three fields. -/
def timecodeText (mPart sPart fPart : List Char) : List Char :=
  mPart ++ ':' :: (sPart ++ ':' :: fPart)

/-- The lines `CueParser::parseString` reads from the text. -/
def cueLines (content : String) : List (List Char) := getlines content.toList []

/-- The state `CueParser::parseString` starts its loop in. -/
def ParseState.initial : ParseState :=
  { sheet := CueSheet.empty, currentFile := false, currentTrack := false }

/-- The keyword `parseString` finds on a line: the first token of the trimmed
line, in upper case (empty for a blank line). -/
def lineKeyword (lineBuf : List Char) : List Char := toUpper (nextToken (trim lineBuf)).1

/-- The first argument token of a line (the token after the keyword). -/
def firstArgument (lineBuf : List Char) : List Char :=
  (nextToken (nextToken (trim lineBuf)).2).1

/-- The second argument token of a line. -/
def secondArgument (lineBuf : List Char) : List Char :=
  (nextToken (nextToken (nextToken (trim lineBuf)).2).2).1

/-- No index number occurs twice within a track of the sheet. -/
def CueSheet.indicesUnique (sheet : CueSheet) : Prop :=
  ∀ f ∈ sheet.files, ∀ ct ∈ f.tracks, (ct.indices.map (fun i => i.number)).Nodup

/-- The keywords `CueParser::parseString` recognises. -/
def recognisedKeywords : List (List Char) :=
  [ "FILE".toList, "TRACK".toList, "INDEX".toList, "PREGAP".toList, "POSTGAP".toList,
    "FLAGS".toList, "ISRC".toList, "CATALOG".toList, "CDTEXTFILE".toList, "TITLE".toList,
    "PERFORMER".toList, "SONGWRITER".toList, "REM".toList ]

/-- The line is blank or its first token, in upper case, is none of the
recognised keywords. -/
def isIgnoredLine (lineBuf : List Char) : Bool :=
  decide (lineKeyword lineBuf ∉ recognisedKeywords)

/-- The LBA of the Index 1 timecode of a declared track, 0 when it has none. -/
def CueTrack.index1Lba (ct : CueTrack) : Int :=
  match ct.indices.find? (fun i => i.number = 1) with
  | some i => i.position.toLba
  | none => 0

/-- The boundary of a declared track: the LBA of its Index 0 timecode if it has
one, else that of its Index 1. -/
def CueTrack.boundaryLba (ct : CueTrack) : Int :=
  match ct.indices.find? (fun i => i.number = 0) with
  | some i => i.position.toLba
  | none => ct.index1Lba

/-- The part of the timeline the claim derives from the file: `n` sectors, less
the Index 1 LBA of the first track, less the Index 0 to Index 1 region of every
later track. -/
def timelineFromFile (n : Int) : List CueTrack → Int
  | [] => n
  | first :: rest =>
    n - first.index1Lba - (rest.map (fun ct => ct.index1Lba - ct.boundaryLba)).sum

/-! ## Example documents -/

/-- A track with the given number, mode, indices and gaps and no metadata. -/
def exampleTrack (number : Byte) (mode : TrackMode) (indices : List CueIndex)
    (pregap postgap : Option MSF) : CueTrack :=
  { number := number, mode := mode, indices := indices, pregap := pregap,
    postgap := postgap, flags := 0, isrc := none, title := none, performer := none,
    songwriter := none }

/-- A sheet with the given files and no metadata. -/
def exampleSheet (files : List CueFile) : CueSheet :=
  { files := files, catalog := none, cdtextfile := none, title := none,
    performer := none, songwriter := none, remarks := [] }

/-- The document of the test fixture `multiTrack.cue` (testDisc.cpp lines 32-38):
one file, a data track, an audio track with Index 0 and Index 1, and an audio
track with a pregap of 00:02:00. -/
def multiTrackSheet : CueSheet :=
  exampleSheet [⟨"multiTrack.bin", .Binary,
    [ exampleTrack 1 .Mode2_2352 [⟨1, ⟨0, 0, 0⟩⟩] none none,
      exampleTrack 2 .Audio [⟨0, ⟨23, 24, 25⟩⟩, ⟨1, ⟨23, 26, 25⟩⟩] none none,
      exampleTrack 3 .Audio [⟨1, ⟨27, 44, 50⟩⟩] (some ⟨0, 2, 0⟩) none ]⟩]

/-- The sheet `multiTrackSheet` with the pregap of track 3 changed from 00:02:00
to 00:03:00. -/
def multiTrackLongPregapSheet : CueSheet :=
  exampleSheet [⟨"multiTrack.bin", .Binary,
    [ exampleTrack 1 .Mode2_2352 [⟨1, ⟨0, 0, 0⟩⟩] none none,
      exampleTrack 2 .Audio [⟨0, ⟨23, 24, 25⟩⟩, ⟨1, ⟨23, 26, 25⟩⟩] none none,
      exampleTrack 3 .Audio [⟨1, ⟨27, 44, 50⟩⟩] (some ⟨0, 3, 0⟩) none ]⟩]

/-- The file system of the test fixture: `multiTrack.bin` holds 28 minutes of
2352-byte sectors (`MSF(28, 0, 0).toLba() = 126000`). -/
def multiTrackFs : FileSystem :=
  fun name => if name = "multiTrack.bin" then .sized (126000 * 2352) else .absent

/-- The disc `Disc.fromSheet` builds from `multiTrackSheet`. -/
def multiTrackDisc : Disc :=
  { sheet := multiTrackSheet,
    tracks :=
      [ { number := 1, mode := .Mode2_2352, sectorSize := 2352, startLba := 0,
          lengthSectors := 105325, pregapSectors := 0, postgapSectors := 0,
          indices := [⟨1, ⟨0, 0, 0⟩⟩], title := none, performer := none, isrc := none,
          fileIndex := 0, fileByteOffset := 0, fileStartLba := 0 },
        { number := 2, mode := .Audio, sectorSize := 2352, startLba := 105325,
          lengthSectors := 19375, pregapSectors := 0, postgapSectors := 0,
          indices := [⟨0, ⟨23, 24, 25⟩⟩, ⟨1, ⟨23, 26, 25⟩⟩], title := none,
          performer := none, isrc := none,
          fileIndex := 0, fileByteOffset := 248077200, fileStartLba := 105325 },
        { number := 3, mode := .Audio, sectorSize := 2352, startLba := 124850,
          lengthSectors := 1150, pregapSectors := 150, postgapSectors := 0,
          indices := [⟨1, ⟨27, 44, 50⟩⟩], title := none, performer := none, isrc := none,
          fileIndex := 0, fileByteOffset := 293647200, fileStartLba := 124850 } ],
    fileHandles := [⟨"multiTrack.bin", 296352000⟩],
    totalSectors := 126000,
    title := none, performer := none, catalog := none }

/-- Two files of one track each; the second file is empty although its track
has Index 1 at 00:00:50.  As cue text:
`FILE "a.bin" BINARY / TRACK 01 MODE2/2352 / INDEX 01 00:00:00 /
FILE "b.bin" BINARY / TRACK 02 MODE2/2352 / INDEX 01 00:00:50`. -/
def shortFileSheet : CueSheet :=
  exampleSheet
    [ ⟨"a.bin", .Binary, [exampleTrack 1 .Mode2_2352 [⟨1, ⟨0, 0, 0⟩⟩] none none]⟩,
      ⟨"b.bin", .Binary, [exampleTrack 2 .Mode2_2352 [⟨1, ⟨0, 0, 50⟩⟩] none none]⟩ ]

/-- The file system for `shortFileSheet`: `a.bin` holds 100 sectors, `b.bin` is empty. -/
def shortFileFs : FileSystem :=
  fun name =>
    if name = "a.bin" then .sized (100 * 2352)
    else if name = "b.bin" then .sized 0
    else .absent

/-- The disc `Disc.fromSheet` builds from `shortFileSheet`: the second track has
length -50 and the cursor ends at 50. -/
def shortFileDisc : Disc :=
  { sheet := shortFileSheet,
    tracks :=
      [ { number := 1, mode := .Mode2_2352, sectorSize := 2352, startLba := 0,
          lengthSectors := 100, pregapSectors := 0, postgapSectors := 0,
          indices := [⟨1, ⟨0, 0, 0⟩⟩], title := none, performer := none, isrc := none,
          fileIndex := 0, fileByteOffset := 0, fileStartLba := 0 },
        { number := 2, mode := .Mode2_2352, sectorSize := 2352, startLba := 100,
          lengthSectors := -50, pregapSectors := 0, postgapSectors := 0,
          indices := [⟨1, ⟨0, 0, 50⟩⟩], title := none, performer := none, isrc := none,
          fileIndex := 1, fileByteOffset := 117600, fileStartLba := 100 } ],
    fileHandles := [⟨"a.bin", 235200⟩, ⟨"b.bin", 0⟩],
    totalSectors := 50,
    title := none, performer := none, catalog := none }

/-- Two files of one track each; the first file is empty although its track has
Index 1 at 00:02:00.  As cue text:
`FILE "a.bin" BINARY / TRACK 01 MODE2/2352 / INDEX 01 00:02:00 /
FILE "b.bin" BINARY / TRACK 02 MODE2/2352 / INDEX 01 00:00:00`. -/
def emptyFirstSheet : CueSheet :=
  exampleSheet
    [ ⟨"a.bin", .Binary, [exampleTrack 1 .Mode2_2352 [⟨1, ⟨0, 2, 0⟩⟩] none none]⟩,
      ⟨"b.bin", .Binary, [exampleTrack 2 .Mode2_2352 [⟨1, ⟨0, 0, 0⟩⟩] none none]⟩ ]

/-- The file system for `emptyFirstSheet`: `a.bin` is empty, `b.bin` holds 100 sectors. -/
def emptyFirstFs : FileSystem :=
  fun name =>
    if name = "a.bin" then .sized 0
    else if name = "b.bin" then .sized (100 * 2352)
    else .absent

/-- The disc `Disc.fromSheet` builds from `emptyFirstSheet`: the first track has
length -150, so the second track starts at -150. -/
def emptyFirstDisc : Disc :=
  { sheet := emptyFirstSheet,
    tracks :=
      [ { number := 1, mode := .Mode2_2352, sectorSize := 2352, startLba := 0,
          lengthSectors := -150, pregapSectors := 0, postgapSectors := 0,
          indices := [⟨1, ⟨0, 2, 0⟩⟩], title := none, performer := none, isrc := none,
          fileIndex := 0, fileByteOffset := 352800, fileStartLba := 0 },
        { number := 2, mode := .Mode2_2352, sectorSize := 2352, startLba := -150,
          lengthSectors := 100, pregapSectors := 0, postgapSectors := 0,
          indices := [⟨1, ⟨0, 0, 0⟩⟩], title := none, performer := none, isrc := none,
          fileIndex := 1, fileByteOffset := 0, fileStartLba := -150 } ],
    fileHandles := [⟨"a.bin", 0⟩, ⟨"b.bin", 235200⟩],
    totalSectors := -50,
    title := none, performer := none, catalog := none }

/-- Backing files that open, hold no bytes and accept every seek. -/
def emptyDisk : DiskContents :=
  fun _ => { openable := true, bytes := [], seekable := fun _ => true }


/-- One file with one `MODE1/2048` track, Index 1 at 00:00:00.  As cue text:
`FILE "data.bin" BINARY / TRACK 01 MODE1/2048 / INDEX 01 00:00:00`. -/
def smallDataSheet : CueSheet :=
  exampleSheet
    [⟨"data.bin", .Binary, [exampleTrack 1 .Mode1_2048 [⟨1, ⟨0, 0, 0⟩⟩] none none]⟩]

/-- The file system for `smallDataSheet`: `data.bin` holds 3 sectors of 2048 bytes. -/
def smallDataFs : FileSystem :=
  fun name => if name = "data.bin" then .sized 6144 else .absent

/-- The disc `Disc.fromSheet` builds from `smallDataSheet`: one track of 3 sectors. -/
def smallDataDisc : Disc :=
  { sheet := smallDataSheet,
    tracks :=
      [ { number := 1, mode := .Mode1_2048, sectorSize := 2048, startLba := 0,
          lengthSectors := 3, pregapSectors := 0, postgapSectors := 0,
          indices := [⟨1, ⟨0, 0, 0⟩⟩], title := none, performer := none, isrc := none,
          fileIndex := 0, fileByteOffset := 0, fileStartLba := 0 } ],
    fileHandles := [⟨"data.bin", 6144⟩],
    totalSectors := 3,
    title := none, performer := none, catalog := none }

/-- Backing files of `n` bytes, each of value 170 (`0xAA`), that open and accept
every seek to a non-negative offset. -/
def filledDisk (n : Nat) : DiskContents :=
  fun _ => { openable := true, bytes := List.replicate n (170 : Byte),
             seekable := fun o => decide (0 ≤ o) }

/-- The file system for `smallDataSheet` with a trailing partial sector:
`data.bin` holds 3 sectors of 2048 bytes and 100 bytes more. -/
def partialTailFs : FileSystem :=
  fun name => if name = "data.bin" then .sized 6244 else .absent

/-- The disc `Disc.fromSheet` builds from `smallDataSheet` over `partialTailFs`:
the track has 3 sectors, the 100 trailing bytes belong to no sector. -/
def partialTailDisc : Disc :=
  { smallDataDisc with fileHandles := [⟨"data.bin", 6244⟩] }

/-- A cue sheet whose second track starts beyond the end of a truncated image:
track 1 runs to Index 1 of track 2 at 00:00:03, track 2 has a postgap of 5
sectors. -/
def shortImageText : String :=
  "FILE \"image.bin\" BINARY\n  TRACK 01 MODE1/2048\n    INDEX 01 00:00:00\n  TRACK 02 MODE1/2048\n    INDEX 01 00:00:03\n    POSTGAP 00:00:05\n"

/-- The sheet `CueParser::parseString` returns for `shortImageText`. -/
def shortImageSheet : CueSheet :=
  exampleSheet
    [⟨"image.bin", .Binary,
      [ exampleTrack 1 .Mode1_2048 [⟨1, ⟨0, 0, 0⟩⟩] none none,
        exampleTrack 2 .Mode1_2048 [⟨1, ⟨0, 0, 3⟩⟩] none (some ⟨0, 0, 5⟩) ]⟩]

/-- The file system for `shortImageText`: `image.bin` holds one sector of 2048 bytes. -/
def shortImageFs : FileSystem :=
  fun name => if name = "image.bin" then .sized 2048 else .absent

/-- The disc `Disc::fromCue` builds from `shortImageText` over `shortImageFs`:
track 1 is `[0, 3)`, track 2 starts at 3 with length -2, and `totalSectors` is
`3 - 2 + 5 = 6`. -/
def shortImageDisc : Disc :=
  { sheet := shortImageSheet,
    tracks :=
      [ { number := 1, mode := .Mode1_2048, sectorSize := 2048, startLba := 0,
          lengthSectors := 3, pregapSectors := 0, postgapSectors := 0,
          indices := [⟨1, ⟨0, 0, 0⟩⟩], title := none, performer := none, isrc := none,
          fileIndex := 0, fileByteOffset := 0, fileStartLba := 0 },
        { number := 2, mode := .Mode1_2048, sectorSize := 2048, startLba := 3,
          lengthSectors := -2, pregapSectors := 0, postgapSectors := 5,
          indices := [⟨1, ⟨0, 0, 3⟩⟩], title := none, performer := none, isrc := none,
          fileIndex := 0, fileByteOffset := 6144, fileStartLba := 3 } ],
    fileHandles := [⟨"image.bin", 2048⟩],
    totalSectors := 6,
    title := none, performer := none, catalog := none }

/-- The document of the test fixture `singleTrack.cue` (testDisc.cpp lines 29-30):
one file with one `MODE2/2352` track, Index 1 at 00:00:00. -/
def singleTrackSheet : CueSheet :=
  exampleSheet
    [⟨"singleTrack.bin", .Binary, [exampleTrack 1 .Mode2_2352 [⟨1, ⟨0, 0, 0⟩⟩] none none]⟩]

/-- The file system of the fixture: `singleTrack.bin` holds 100 sectors of 2352 bytes. -/
def singleTrackFs : FileSystem :=
  fun name => if name = "singleTrack.bin" then .sized (100 * 2352) else .absent

/-- A file system in which `data.bin` holds `2^31` sectors of 2048 bytes (4 TiB). -/
def hugeFileFs : FileSystem :=
  fun name => if name = "data.bin" then .sized (2147483648 * 2048) else .absent

/-- A document of three files with one track each, as in the test
`DiscTest.LoadMultiFile` (testDisc.cpp lines 111-129). -/
def multiFileSheet : CueSheet :=
  exampleSheet
    [ ⟨"data.bin", .Binary, [exampleTrack 1 .Mode2_2352 [⟨1, ⟨0, 0, 0⟩⟩] none none]⟩,
      ⟨"audio02.bin", .Binary, [exampleTrack 2 .Audio [⟨1, ⟨0, 0, 0⟩⟩] none none]⟩,
      ⟨"audio03.bin", .Binary, [exampleTrack 3 .Audio [⟨1, ⟨0, 0, 0⟩⟩] none none]⟩ ]

/-- The files the test fixture creates for it (testDisc.cpp lines 41-43):
`data.bin` of 300 raw sectors, `audio02.bin` and `audio03.bin` of 200 each. -/
def multiFileFs : FileSystem :=
  fun name =>
    if name = "data.bin" then .sized (2352 * 300)
    else if name = "audio02.bin" then .sized (2352 * 200)
    else if name = "audio03.bin" then .sized (2352 * 200)
    else .absent

/-- The disc `Disc.fromSheet` builds from `multiFileSheet` over `multiFileFs`. -/
def multiFileDisc : Disc :=
  { sheet := multiFileSheet
    tracks :=
      [ { number := 1, mode := .Mode2_2352, sectorSize := 2352, startLba := 0,
          lengthSectors := 300, pregapSectors := 0, postgapSectors := 0,
          indices := [⟨1, ⟨0, 0, 0⟩⟩], title := none, performer := none, isrc := none,
          fileIndex := 0, fileByteOffset := 0, fileStartLba := 0 },
        { number := 2, mode := .Audio, sectorSize := 2352, startLba := 300,
          lengthSectors := 200, pregapSectors := 0, postgapSectors := 0,
          indices := [⟨1, ⟨0, 0, 0⟩⟩], title := none, performer := none, isrc := none,
          fileIndex := 1, fileByteOffset := 0, fileStartLba := 300 },
        { number := 3, mode := .Audio, sectorSize := 2352, startLba := 500,
          lengthSectors := 200, pregapSectors := 0, postgapSectors := 0,
          indices := [⟨1, ⟨0, 0, 0⟩⟩], title := none, performer := none, isrc := none,
          fileIndex := 2, fileByteOffset := 0, fileStartLba := 500 } ]
    fileHandles := [⟨"data.bin", 705600⟩, ⟨"audio02.bin", 470400⟩, ⟨"audio03.bin", 470400⟩]
    totalSectors := 700
    title := none, performer := none, catalog := none }

/-- A file system that holds `data.bin` (300 raw sectors) and neither
`audio02.bin` nor `audio03.bin`. -/
def missingAudioFs : FileSystem :=
  fun name => if name = "data.bin" then .sized (2352 * 300) else .absent

/-- The text of a cue sheet whose only track has an `INDEX 00` line and no
`INDEX 01` line. -/
def noIndex01Text : String :=
  "FILE \"image.bin\" BINARY\n  TRACK 01 MODE2/2352\n    INDEX 00 00:00:00\n"

/-- The document the parser builds from `noIndex01Text`. -/
def noIndex01Sheet : CueSheet :=
  exampleSheet [⟨"image.bin", .Binary, [exampleTrack 1 .Mode2_2352 [⟨0, ⟨0, 0, 0⟩⟩] none none]⟩]

/-- A file system in which `image.bin` holds 10 raw sectors. -/
def noIndex01Fs : FileSystem :=
  fun name => if name = "image.bin" then .sized (2352 * 10) else .absent

/-- The disc `Disc.fromSheet` builds from `noIndex01Sheet` over `noIndex01Fs`. -/
def noIndex01Disc : Disc :=
  { sheet := noIndex01Sheet
    tracks :=
      [ { number := 1, mode := .Mode2_2352, sectorSize := 2352, startLba := 0,
          lengthSectors := 10, pregapSectors := 0, postgapSectors := 0,
          indices := [⟨0, ⟨0, 0, 0⟩⟩], title := none, performer := none, isrc := none,
          fileIndex := 0, fileByteOffset := 0, fileStartLba := 0 } ]
    fileHandles := [⟨"image.bin", 23520⟩]
    totalSectors := 10
    title := none, performer := none, catalog := none }

/-- The text of the test `CueParserTest.ErrorTrackBeforeFile`
(testCueParser.cpp lines 177-184): no `FILE` line. -/
def trackBeforeFileText : String := "TRACK 01 AUDIO\n    INDEX 01 00:00:00\n"

/-- A text with remarks and a title and no `FILE` line. -/
def remarksOnlyText : String := "REM GENRE Rock\nTITLE \"Album\"\n\n"

/-- The text of the test `CueParserTest.ErrorDuplicateIndex`
(testCueParser.cpp lines 186-195). -/
def duplicateIndexText : String :=
  "FILE \"test.bin\" BINARY\n  TRACK 01 AUDIO\n    INDEX 01 00:00:00\n    INDEX 01 00:01:00\n"

/-- A text in which an `INDEX` line follows the second `FILE` line directly,
after a first file with a track. -/
def indexAfterSecondFileText : String :=
  "FILE \"a.bin\" BINARY\n  TRACK 01 AUDIO\n    INDEX 01 00:00:00\nFILE \"b.bin\" BINARY\n    INDEX 01 00:00:00\n"

/-- The text `shortImageText` with an unknown directive before the first
line, a blank line after the first `TRACK` line and an unknown directive at the
end. -/
def shortImageNoisyText : String :=
  "GENRE Rock\nFILE \"image.bin\" BINARY\n  TRACK 01 MODE1/2048\n\n    INDEX 01 00:00:00\n  TRACK 02 MODE1/2048\n    INDEX 01 00:00:03\n    POSTGAP 00:00:05\nDATE 1999"

/-- Track 1 of the discs built from `shortImageText`: a `MODE1/2048` track over
LBAs `[0, 3)`, read from offset 0 of `image.bin`. -/
def shortImageTrack1 : Track :=
  { number := 1, mode := .Mode1_2048, sectorSize := 2048, startLba := 0,
    lengthSectors := 3, pregapSectors := 0, postgapSectors := 0,
    indices := [⟨1, ⟨0, 0, 0⟩⟩], title := none, performer := none, isrc := none,
    fileIndex := 0, fileByteOffset := 0, fileStartLba := 0 }

/-- The file system for `shortImageText` with an image truncated inside its
second sector: `image.bin` holds 2048 + 100 bytes. -/
def shortImageTailFs : FileSystem :=
  fun name => if name = "image.bin" then .sized 2148 else .absent

/-- The disc `Disc::fromCue` builds from `shortImageText` over `shortImageTailFs`:
track 1 is `[0, 3)`, track 2 starts at 3 with length `(2148 - 6144) / 2048 = -1`
(truncating division), and `totalSectors` is `3 - 1 + 5 = 7`. -/
def shortImageTailDisc : Disc :=
  { sheet := shortImageSheet,
    tracks :=
      [ shortImageTrack1,
        { number := 2, mode := .Mode1_2048, sectorSize := 2048, startLba := 3,
          lengthSectors := -1, pregapSectors := 0, postgapSectors := 5,
          indices := [⟨1, ⟨0, 0, 3⟩⟩], title := none, performer := none, isrc := none,
          fileIndex := 0, fileByteOffset := 6144, fileStartLba := 3 } ],
    fileHandles := [⟨"image.bin", 2148⟩],
    totalSectors := 7,
    title := none, performer := none, catalog := none }

/-! ## Arithmetic of the machine integers -/

theorem wrap32_of_inInt32 {x : Int} (h : inInt32 x) : wrap32 x = x := by
  unfold inInt32 at h; unfold wrap32; omega

theorem inInt32_wrap32 (x : Int) : inInt32 (wrap32 x) := by
  unfold inInt32 wrap32; omega

theorem wrap32_wrap32_add (a b : Int) : wrap32 (wrap32 a + b) = wrap32 (a + b) := by
  unfold wrap32; omega

theorem wrap32_add_wrap32 (a b : Int) : wrap32 (a + wrap32 b) = wrap32 (a + b) := by
  unfold wrap32; omega

theorem wrap32_idem (a : Int) : wrap32 (wrap32 a) = wrap32 a := by
  unfold wrap32; omega

theorem MSF.toLba_nonneg (m : MSF) : 0 ≤ m.toLba := by
  unfold MSF.toLba MSF.FRAMES_PER_MINUTE MSF.FRAMES_PER_SECOND MSF.SECONDS_PER_MINUTE
  omega

theorem MSF.toLba_le (m : MSF) : m.toLba ≤ 1166880 := by
  have h1 := m.minute.isLt
  have h2 := m.second.isLt
  have h3 := m.frame.isLt
  unfold MSF.toLba MSF.FRAMES_PER_MINUTE MSF.FRAMES_PER_SECOND MSF.SECONDS_PER_MINUTE
  omega

theorem pregapOf_nonneg (ct : CueTrack) : 0 ≤ pregapOf ct := by
  unfold pregapOf; split
  · exact MSF.toLba_nonneg _
  · exact le_refl _

theorem pregapOf_le (ct : CueTrack) : pregapOf ct ≤ 1166880 := by
  unfold pregapOf; split
  · exact MSF.toLba_le _
  · decide

theorem postgapOf_nonneg (ct : CueTrack) : 0 ≤ postgapOf ct := by
  unfold postgapOf; split
  · exact MSF.toLba_nonneg _
  · exact le_refl _


/-! ## The cursor discipline of the track loop -/

theorem resolveTrack_pregapSectors (hs : List FileHandle) (fi : Nat) (ct : CueTrack)
    (nx : Option CueTrack) (c : Int) :
    (resolveTrack hs fi ct nx c).1.pregapSectors = pregapOf ct := rfl

theorem resolveTrack_postgapSectors (hs : List FileHandle) (fi : Nat) (ct : CueTrack)
    (nx : Option CueTrack) (c : Int) :
    (resolveTrack hs fi ct nx c).1.postgapSectors = postgapOf ct := rfl

theorem resolveTrack_lengthSectors (hs : List FileHandle) (fi : Nat) (ct : CueTrack)
    (nx : Option CueTrack) (c : Int) :
    (resolveTrack hs fi ct nx c).1.lengthSectors = trackSectors hs fi ct nx := rfl

theorem resolveTrack_startLba (hs : List FileHandle) (fi : Nat) (ct : CueTrack)
    (nx : Option CueTrack) (c : Int) (hc : inInt32 c) :
    (resolveTrack hs fi ct nx c).1.startLba = wrap32 (c + pregapOf ct) := by
  unfold resolveTrack pregapOf
  cases ct.pregap with
  | none => simp [wrap32_of_inInt32 hc]
  | some p => simp [add32]

theorem resolveTrack_cursor (hs : List FileHandle) (fi : Nat) (ct : CueTrack)
    (nx : Option CueTrack) (c : Int) :
    (resolveTrack hs fi ct nx c).2
      = wrap32 ((resolveTrack hs fi ct nx c).1.startLba
          + (resolveTrack hs fi ct nx c).1.lengthSectors
          + (resolveTrack hs fi ct nx c).1.postgapSectors) := by
  simp only [resolveTrack, add32, wrap32_add_wrap32, add_assoc]

theorem chainFrom_resolveFileTracks (hs : List FileHandle) (fi : Nat) :
    ∀ (cts : List CueTrack) (c : Int), inInt32 c →
      ChainFrom c (resolveFileTracks hs fi cts c).1 (resolveFileTracks hs fi cts c).2
  | [], c, _ => by simp [resolveFileTracks, ChainFrom]
  | ct :: rest, c, hc => by
    simp only [resolveFileTracks, ChainFrom]
    refine ⟨?_, ?_, ?_, ?_, ?_⟩
    · rw [resolveTrack_pregapSectors]; exact resolveTrack_startLba hs fi ct _ c hc
    · rw [resolveTrack_pregapSectors]; exact pregapOf_nonneg ct
    · rw [resolveTrack_pregapSectors]; exact pregapOf_le ct
    · rw [resolveTrack_postgapSectors]; exact postgapOf_nonneg ct
    · rw [← resolveTrack_cursor]
      exact chainFrom_resolveFileTracks hs fi rest _
        (by rw [resolveTrack_cursor]; exact inInt32_wrap32 _)

theorem ChainFrom.inInt32_end : ∀ {ts : List Track} {c c1 : Int},
    inInt32 c → ChainFrom c ts c1 → inInt32 c1
  | [], c, c1, hc, h => by simp only [ChainFrom] at h; rw [h]; exact hc
  | _ :: ts, _, _, _, h => by
    simp only [ChainFrom] at h
    exact ChainFrom.inInt32_end (inInt32_wrap32 _) h.2.2.2.2

theorem ChainFrom.append : ∀ {xs ys : List Track} {c c1 c2 : Int},
    ChainFrom c xs c1 → ChainFrom c1 ys c2 → ChainFrom c (xs ++ ys) c2
  | [], ys, c, c1, c2, h1, h2 => by
    simp only [ChainFrom] at h1; subst h1; simpa using h2
  | x :: xs, ys, c, c1, c2, h1, h2 => by
    simp only [ChainFrom, List.cons_append] at h1 ⊢
    exact ⟨h1.1, h1.2.1, h1.2.2.1, h1.2.2.2.1, ChainFrom.append h1.2.2.2.2 h2⟩

theorem chainFrom_resolveFiles (hs : List FileHandle) :
    ∀ (files : List CueFile) (fi : Nat) (c : Int), inInt32 c →
      ChainFrom c (resolveFiles hs fi files c).1 (resolveFiles hs fi files c).2
  | [], fi, c, _ => by simp [resolveFiles, ChainFrom]
  | f :: rest, fi, c, hc => by
    simp only [resolveFiles]
    have h1 := chainFrom_resolveFileTracks hs fi f.tracks c hc
    exact h1.append (chainFrom_resolveFiles hs rest (fi + 1) _ (h1.inInt32_end hc))

theorem fromSheet_tracks {fs : FileSystem} {sheet : CueSheet} {d : Disc}
    (h : Disc.fromSheet fs sheet = .ok d) :
    ∃ hs, probeFiles fs sheet.files = .ok hs ∧ d.fileHandles = hs ∧ d.sheet = sheet
      ∧ d.tracks = (resolveFiles hs 0 sheet.files 0).1
      ∧ d.totalSectors = (resolveFiles hs 0 sheet.files 0).2 := by
  unfold Disc.fromSheet at h
  split at h
  · cases h
  · next hs hp =>
    refine ⟨hs, hp, ?_⟩
    cases h
    exact ⟨rfl, rfl, rfl, rfl⟩

theorem chainFrom_fromSheet {fs : FileSystem} {sheet : CueSheet} {d : Disc}
    (h : Disc.fromSheet fs sheet = .ok d) : ChainFrom 0 d.tracks d.totalSectors := by
  obtain ⟨hs, _, _, _, ht, htot⟩ := fromSheet_tracks h
  rw [ht, htot]
  exact chainFrom_resolveFiles hs sheet.files 0 0 (by decide)


theorem ChainFrom.adjacent : ∀ {ts : List Track} {c c1 : Int} (k : Nat) (p n : Track),
    ChainFrom c ts c1 → ts[k]? = some p → ts[k + 1]? = some n →
    n.startLba = wrap32 (p.startLba + p.lengthSectors + p.postgapSectors + n.pregapSectors)
  | [], _, _, k, p, n, _, hp, _ => by simp at hp
  | [_], _, _, k, p, n, _, _, hn => by simp at hn
  | a :: b :: ts, c, c1, 0, p, n, h, hp, hn => by
    simp only [List.getElem?_cons_zero, List.getElem?_cons_succ, Option.some.injEq] at hp hn
    subst hp; subst hn
    simp only [ChainFrom] at h
    rw [h.2.2.2.2.1, wrap32_wrap32_add]
  | a :: b :: ts, c, c1, k + 1, p, n, h, hp, hn => by
    rw [List.getElem?_cons_succ] at hp hn
    simp only [ChainFrom] at h
    have h' : ChainFrom (wrap32 (a.startLba + a.lengthSectors + a.postgapSectors)) (b :: ts) c1 := by
      simp only [ChainFrom]; exact h.2.2.2.2
    exact ChainFrom.adjacent k p n h' hp hn

theorem ChainFrom.head_start {ts : List Track} {c1 : Int} {t : Track}
    (h : ChainFrom 0 ts c1) (ht : ts.head? = some t) : t.startLba = t.pregapSectors := by
  cases ts with
  | nil => simp at ht
  | cons a ts =>
    simp only [List.head?_cons, Option.some.injEq] at ht
    subst ht
    simp only [ChainFrom] at h
    rw [h.1, zero_add]
    exact wrap32_of_inInt32 ⟨by have := h.2.1; omega, by have := h.2.2.1; omega⟩

theorem ChainFrom.end_eq_sum : ∀ {ts : List Track} {c c1 : Int},
    ChainFrom c ts c1 → inInt32 c → c1 = wrap32 (c + timelineSum ts)
  | [], c, c1, h, hc => by
    simp only [ChainFrom] at h
    simp [timelineSum, h, wrap32_of_inInt32 hc]
  | t :: ts, c, c1, h, _ => by
    simp only [ChainFrom] at h
    have ih := ChainFrom.end_eq_sum h.2.2.2.2 (inInt32_wrap32 _)
    rw [ih, h.1]
    simp only [timelineSum, List.map_cons, List.sum_cons]
    unfold wrap32
    omega

theorem ChainFrom.end_eq_last : ∀ {ts : List Track} {c c1 : Int} {t : Track},
    ChainFrom c ts c1 → ts.getLast? = some t →
    c1 = wrap32 (t.startLba + t.lengthSectors + t.postgapSectors)
  | [], _, _, _, _, ht => by simp at ht
  | [a], c, c1, t, h, ht => by
    simp only [List.getLast?_singleton, Option.some.injEq] at ht
    subst ht
    simp only [ChainFrom] at h
    exact h.2.2.2.2
  | a :: b :: ts, c, c1, t, h, ht => by
    rw [List.getLast?_cons_cons] at ht
    simp only [ChainFrom] at h
    have h' : ChainFrom (wrap32 (a.startLba + a.lengthSectors + a.postgapSectors)) (b :: ts) c1 := by
      simp only [ChainFrom]; exact h.2.2.2.2
    exact ChainFrom.end_eq_last h' ht

theorem timelineSum_nonneg : ∀ {ts : List Track} {c c1 : Int},
    ChainFrom c ts c1 → (∀ t ∈ ts, 0 ≤ t.lengthSectors) → 0 ≤ timelineSum ts
  | [], _, _, _, _ => by simp [timelineSum]
  | t :: ts, c, c1, h, hl => by
    simp only [ChainFrom] at h
    have ih := timelineSum_nonneg h.2.2.2.2 (fun x hx => hl x (List.mem_cons_of_mem _ hx))
    have h0 := hl t (List.mem_cons_self _ _)
    simp only [timelineSum, List.map_cons, List.sum_cons] at ih ⊢
    have := h.2.1; have := h.2.2.2.1
    omega

theorem ChainFrom.exact : ∀ {ts : List Track} {c c1 : Int},
    ChainFrom c ts c1 → 0 ≤ c → (∀ t ∈ ts, 0 ≤ t.lengthSectors) →
    c + timelineSum ts < 2147483648 → ExactFrom c ts c1
  | [], c, c1, h, _, _, _ => by simpa [ChainFrom, ExactFrom] using h
  | t :: ts, c, c1, h, hc, hl, hfit => by
    simp only [ChainFrom] at h
    obtain ⟨hs, hpg, _, hpost, hrest⟩ := h
    have hl' : ∀ x ∈ ts, 0 ≤ x.lengthSectors := fun x hx => hl x (List.mem_cons_of_mem _ hx)
    have h0 := hl t (List.mem_cons_self _ _)
    have hsum := timelineSum_nonneg hrest hl'
    simp only [timelineSum, List.map_cons, List.sum_cons] at hfit hsum
    have hs' : t.startLba = c + t.pregapSectors := by
      rw [hs]; exact wrap32_of_inInt32 ⟨by omega, by omega⟩
    have hc' : wrap32 (t.startLba + t.lengthSectors + t.postgapSectors)
        = t.startLba + t.lengthSectors + t.postgapSectors :=
      wrap32_of_inInt32 ⟨by omega, by omega⟩
    rw [hc'] at hrest
    simp only [ExactFrom]
    refine ⟨hs', hpg, h0, hpost, ChainFrom.exact hrest (by omega) hl' ?_⟩
    simp only [timelineSum]
    omega

theorem ExactFrom.bounds : ∀ {ts : List Track} {c c1 : Int},
    ExactFrom c ts c1 → c ≤ c1 ∧ ∀ t ∈ ts, c ≤ t.startLba ∧ t.startLba + t.lengthSectors ≤ c1
  | [], c, c1, h => by simp only [ExactFrom] at h; simp [h]
  | a :: ts, c, c1, h => by
    simp only [ExactFrom] at h
    obtain ⟨hs, hpg, hl, hpost, hrest⟩ := h
    obtain ⟨ih1, ih2⟩ := ExactFrom.bounds hrest
    refine ⟨by omega, ?_⟩
    intro t ht
    rcases List.mem_cons.1 ht with rfl | ht
    · exact ⟨by omega, by omega⟩
    · have := ih2 t ht; exact ⟨by omega, this.2⟩

theorem ExactFrom.sorted : ∀ {ts : List Track} {c c1 : Int},
    ExactFrom c ts c1 →
    List.Pairwise (fun a b => a.startLba ≤ b.startLba) ts
      ∧ List.Pairwise (fun a b => a.startLba + a.lengthSectors ≤ b.startLba) ts
  | [], _, _, _ => by simp
  | a :: ts, c, c1, h => by
    simp only [ExactFrom] at h
    obtain ⟨hs, hpg, hl, hpost, hrest⟩ := h
    obtain ⟨ih1, ih2⟩ := ExactFrom.sorted hrest
    have hb := (ExactFrom.bounds hrest).2
    refine ⟨List.pairwise_cons.2 ⟨?_, ih1⟩, List.pairwise_cons.2 ⟨?_, ih2⟩⟩
    · intro b hb'; have := (hb b hb').1; omega
    · intro b hb'; have := (hb b hb').1; omega


/-! ## The index loops -/

theorem index01_foldl_of_no_one (xs : List CueIndex) :
    ∀ (acc : Int), (∀ i ∈ xs, i.number ≠ 1) →
      xs.foldl (fun acc idx => if idx.number = 1 then idx.position.toLba else acc) acc = acc := by
  induction xs with
  | nil => intro acc _; rfl
  | cons x rest ih =>
    intro acc h
    have hx : x.number ≠ 1 := h x (List.mem_cons_self _ _)
    simp only [List.foldl_cons, if_neg hx]
    exact ih acc (fun i hi => h i (List.mem_cons_of_mem _ hi))

theorem index01_foldl_of_mem (p : MSF) (xs : List CueIndex) :
    ∀ (acc : Int), (xs.map (fun i => i.number)).Nodup → (⟨1, p⟩ : CueIndex) ∈ xs →
      xs.foldl (fun acc idx => if idx.number = 1 then idx.position.toLba else acc) acc
        = p.toLba := by
  induction xs with
  | nil => intro acc _ h; simp at h
  | cons x rest ih =>
    intro acc hn hm
    simp only [List.map_cons, List.nodup_cons, List.mem_map, not_exists, not_and] at hn
    rcases List.mem_cons.1 hm with hx | hr
    · subst hx
      simp only [List.foldl_cons, if_true]
      exact index01_foldl_of_no_one rest _ (fun i hi h1 => hn.1 i hi h1)
    · simp only [List.foldl_cons]
      exact ih _ hn.2 hr

theorem index01Offset_of_mem {p : MSF} {xs : List CueIndex}
    (hn : (xs.map (fun i => i.number)).Nodup) (hm : (⟨1, p⟩ : CueIndex) ∈ xs) :
    index01Offset xs = p.toLba :=
  index01_foldl_of_mem p xs 0 hn hm

theorem nextStartLoop_of_zero (q : MSF) (xs : List CueIndex) :
    ∀ (acc : Int), (xs.map (fun i => i.number)).Nodup → (⟨0, q⟩ : CueIndex) ∈ xs →
      nextStartLoop xs acc = q.toLba := by
  induction xs with
  | nil => intro acc _ h; simp at h
  | cons x rest ih =>
    intro acc hn hm
    simp only [List.map_cons, List.nodup_cons, List.mem_map, not_exists, not_and] at hn
    rcases List.mem_cons.1 hm with hx | hr
    · subst hx; simp [nextStartLoop]
    · have hx : x.number ≠ 0 := fun h0 => hn.1 ⟨0, q⟩ hr h0.symm
      simp only [nextStartLoop, if_neg hx]
      split
      · exact ih _ hn.2 hr
      · exact ih _ hn.2 hr

theorem nextStartLoop_of_none (xs : List CueIndex) :
    ∀ (acc : Int), (∀ i ∈ xs, i.number ≠ 0) → (∀ i ∈ xs, i.number ≠ 1) →
      nextStartLoop xs acc = acc := by
  induction xs with
  | nil => intro acc _ _; rfl
  | cons x rest ih =>
    intro acc h0 h1
    simp only [nextStartLoop, if_neg (h0 x (List.mem_cons_self _ _)),
      if_neg (h1 x (List.mem_cons_self _ _))]
    exact ih acc (fun i hi => h0 i (List.mem_cons_of_mem _ hi))
      (fun i hi => h1 i (List.mem_cons_of_mem _ hi))

theorem nextStartLoop_of_one (q : MSF) (xs : List CueIndex) :
    ∀ (acc : Int), (∀ i ∈ xs, i.number ≠ 0) → (xs.map (fun i => i.number)).Nodup →
      (⟨1, q⟩ : CueIndex) ∈ xs → nextStartLoop xs acc = q.toLba := by
  induction xs with
  | nil => intro acc _ _ h; simp at h
  | cons x rest ih =>
    intro acc h0 hn hm
    have h0' : ∀ i ∈ rest, i.number ≠ 0 := fun i hi => h0 i (List.mem_cons_of_mem _ hi)
    simp only [List.map_cons, List.nodup_cons, List.mem_map, not_exists, not_and] at hn
    rcases List.mem_cons.1 hm with hx | hr
    · subst hx
      simp only [nextStartLoop]
      rw [if_neg (by decide), if_pos trivial]
      exact nextStartLoop_of_none rest _ h0' (fun i hi h1 => hn.1 i hi h1)
    · simp only [nextStartLoop, if_neg (h0 x (List.mem_cons_self _ _))]
      split
      · exact ih _ h0' hn.2 hr
      · exact ih _ h0' hn.2 hr

/-! ## Resolved tracks and the tracks of the document -/

theorem resolveFileTracks_length (hs : List FileHandle) (fi : Nat) :
    ∀ (cts : List CueTrack) (c : Int), (resolveFileTracks hs fi cts c).1.length = cts.length
  | [], _ => rfl
  | _ :: rest, _ => by
    simp only [resolveFileTracks, List.length_cons]
    rw [resolveFileTracks_length hs fi rest]

theorem resolveFileTracks_getElem? (hs : List FileHandle) (fi : Nat) :
    ∀ (cts : List CueTrack) (c : Int) (ti : Nat) (ct : CueTrack), cts[ti]? = some ct →
      ∃ c1, (resolveFileTracks hs fi cts c).1[ti]?
        = some (resolveTrack hs fi ct cts[ti + 1]? c1).1
  | [], _, _, _, h => by simp at h
  | x :: rest, c, 0, ct, h => by
    simp only [List.getElem?_cons_zero, Option.some.injEq] at h
    subst h
    exact ⟨c, by simp [resolveFileTracks, List.head?_eq_getElem?]⟩
  | x :: rest, c, ti + 1, ct, h => by
    rw [List.getElem?_cons_succ] at h
    obtain ⟨c1, hc1⟩ := resolveFileTracks_getElem? hs fi rest
      (resolveTrack hs fi x rest.head? c).2 ti ct h
    exact ⟨c1, by simpa [resolveFileTracks] using hc1⟩

theorem resolveFiles_getElem? (hs : List FileHandle) :
    ∀ (files : List CueFile) (fi0 : Nat) (c : Int) (j ti : Nat) (f : CueFile) (ct : CueTrack),
      files[j]? = some f → f.tracks[ti]? = some ct →
      ∃ c1, (resolveFiles hs fi0 files c).1[trackPosition files j ti]?
        = some (resolveTrack hs (fi0 + j) ct f.tracks[ti + 1]? c1).1
  | [], _, _, _, _, _, _, h, _ => by simp at h
  | x :: rest, fi0, c, 0, ti, f, ct, h, ht => by
    simp only [List.getElem?_cons_zero, Option.some.injEq] at h
    subst h
    obtain ⟨c1, hc1⟩ := resolveFileTracks_getElem? hs fi0 x.tracks c ti ct ht
    refine ⟨c1, ?_⟩
    have hlt : ti < (resolveFileTracks hs fi0 x.tracks c).1.length := by
      rw [resolveFileTracks_length]
      exact (List.getElem?_eq_some_iff.1 ht).1
    simp only [resolveFiles, trackPosition, List.take_zero, List.map_nil, List.sum_nil,
      zero_add, Nat.add_zero]
    rw [List.getElem?_append_left hlt]
    exact hc1
  | x :: rest, fi0, c, j + 1, ti, f, ct, h, ht => by
    rw [List.getElem?_cons_succ] at h
    obtain ⟨c1, hc1⟩ := resolveFiles_getElem? hs rest (fi0 + 1)
      (resolveFileTracks hs fi0 x.tracks c).2 j ti f ct h ht
    refine ⟨c1, ?_⟩
    have hpos : trackPosition (x :: rest) (j + 1) ti
        = (resolveFileTracks hs fi0 x.tracks c).1.length + trackPosition rest j ti := by
      simp only [trackPosition, List.take_succ_cons, List.map_cons, List.sum_cons,
        resolveFileTracks_length]
      omega
    simp only [resolveFiles]
    rw [hpos, List.getElem?_append_right (Nat.le_add_right _ _), Nat.add_sub_cancel_left]
    rw [hc1]
    congr 3
    omega

theorem resolveFileTracks_mem (hs : List FileHandle) (fi : Nat) :
    ∀ (cts : List CueTrack) (c : Int) (t : Track), t ∈ (resolveFileTracks hs fi cts c).1 →
      ∃ ct nx c1, ct ∈ cts ∧ t = (resolveTrack hs fi ct nx c1).1
  | [], _, _, h => by simp [resolveFileTracks] at h
  | x :: rest, c, t, h => by
    simp only [resolveFileTracks, List.mem_cons] at h
    rcases h with h | h
    · exact ⟨x, rest.head?, c, List.mem_cons_self _ _, h⟩
    · obtain ⟨ct, nx, c1, hm, ht⟩ := resolveFileTracks_mem hs fi rest _ t h
      exact ⟨ct, nx, c1, List.mem_cons_of_mem _ hm, ht⟩

theorem resolveFiles_mem (hs : List FileHandle) :
    ∀ (files : List CueFile) (fi0 : Nat) (c : Int) (t : Track),
      t ∈ (resolveFiles hs fi0 files c).1 →
      ∃ f fi ct nx c1, f ∈ files ∧ ct ∈ f.tracks ∧ t = (resolveTrack hs fi ct nx c1).1
  | [], _, _, _, h => by simp [resolveFiles] at h
  | x :: rest, fi0, c, t, h => by
    simp only [resolveFiles, List.mem_append] at h
    rcases h with h | h
    · obtain ⟨ct, nx, c1, hm, ht⟩ := resolveFileTracks_mem hs fi0 x.tracks c t h
      exact ⟨x, fi0, ct, nx, c1, List.mem_cons_self _ _, hm, ht⟩
    · obtain ⟨f, fi, ct, nx, c1, hf, hm, ht⟩ := resolveFiles_mem hs rest _ _ t h
      exact ⟨f, fi, ct, nx, c1, List.mem_cons_of_mem _ hf, hm, ht⟩

theorem probeFiles_getElem? (fs : FileSystem) :
    ∀ (files : List CueFile) (hs : List FileHandle), probeFiles fs files = .ok hs →
      ∀ (fi : Nat) (f : CueFile), files[fi]? = some f →
        ∃ n, fs f.filename = .sized n ∧ hs[fi]? = some ⟨f.filename, wrap64 n⟩
  | [], _, _, _, _, h => by simp at h
  | x :: rest, hs, hp, fi, f, hf => by
    simp only [probeFiles] at hp
    split at hp
    · cases hp
    · cases hp
    · next n hn =>
      split at hp
      · cases hp
      · next hs1 hrest =>
        cases hp
        cases fi with
        | zero =>
          simp only [List.getElem?_cons_zero, Option.some.injEq] at hf
          subst hf
          exact ⟨n, hn, by simp⟩
        | succ k =>
          rw [List.getElem?_cons_succ] at hf
          obtain ⟨m, hm1, hm2⟩ := probeFiles_getElem? fs rest hs1 hrest k f hf
          exact ⟨m, hm1, by simpa using hm2⟩

theorem resolveFileTracks_map {α : Type} (f : Track → α) (g : CueTrack → α)
    (hfg : ∀ hs fi ct nx c, f (resolveTrack hs fi ct nx c).1 = g ct)
    (hs : List FileHandle) (fi : Nat) :
    ∀ (cts : List CueTrack) (c : Int), (resolveFileTracks hs fi cts c).1.map f = cts.map g
  | [], _ => rfl
  | ct :: rest, c => by
    simp only [resolveFileTracks, List.map_cons, hfg]
    rw [resolveFileTracks_map f g hfg hs fi rest]

theorem resolveFiles_map {α : Type} (f : Track → α) (g : CueTrack → α)
    (hfg : ∀ hs fi ct nx c, f (resolveTrack hs fi ct nx c).1 = g ct)
    (hs : List FileHandle) :
    ∀ (files : List CueFile) (fi : Nat) (c : Int),
      (resolveFiles hs fi files c).1.map f = (files.flatMap (fun x => x.tracks)).map g
  | [], _, _ => rfl
  | x :: rest, fi, c => by
    simp only [resolveFiles, List.map_append, List.flatMap_cons]
    rw [resolveFileTracks_map f g hfg hs fi, resolveFiles_map f g hfg hs rest]

/-- C1: the track loop of `Disc::fromCue` places every track at the cursor plus
its declared pregap (0 if none) and leaves the cursor at
`startLba + lengthSectors + postgapSectors`, in `int32_t` arithmetic.  Hence, for
a disc built from a sheet, the resolved pregaps are the declared ones in document
order, the first track starts at its pregap, and every later track (also across
a file boundary) starts at
`prev.startLba + prev.lengthSectors + prev.postgapSectors + pregapSectors`:
always as an `int32_t` sum, and as the exact sum whenever that fits in `int32_t`. -/
theorem layout_cursor_chain (fs : FileSystem) (sheet : CueSheet) (d : Disc)
    (h : Disc.fromSheet fs sheet = .ok d) :
    (∀ (hs : List FileHandle) (fi : Nat) (ct : CueTrack) (nx : Option CueTrack) (c : Int),
        inInt32 c →
        (resolveTrack hs fi ct nx c).1.pregapSectors = pregapOf ct
        ∧ (resolveTrack hs fi ct nx c).1.startLba = add32 c (pregapOf ct)
        ∧ (resolveTrack hs fi ct nx c).2
            = add32 (resolveTrack hs fi ct nx c).1.startLba
                (add32 (resolveTrack hs fi ct nx c).1.lengthSectors
                  (resolveTrack hs fi ct nx c).1.postgapSectors))
    ∧ d.tracks.map (fun t => t.pregapSectors)
        = (sheet.files.flatMap (fun f => f.tracks)).map pregapOf
    ∧ (∀ t, d.tracks.head? = some t → t.startLba = t.pregapSectors)
    ∧ (∀ k p n, d.tracks[k]? = some p → d.tracks[k + 1]? = some n →
        n.startLba
          = wrap32 (p.startLba + p.lengthSectors + p.postgapSectors + n.pregapSectors)
        ∧ (inInt32 (p.startLba + p.lengthSectors + p.postgapSectors + n.pregapSectors) →
            n.startLba
              = p.startLba + p.lengthSectors + p.postgapSectors + n.pregapSectors)) := by
  have hchain := chainFrom_fromSheet h
  obtain ⟨hs, _, _, _, ht, _⟩ := fromSheet_tracks h
  refine ⟨?_, ?_, ?_, ?_⟩
  · intro hs fi ct nx c hc
    refine ⟨rfl, resolveTrack_startLba hs fi ct nx c hc, ?_⟩
    rfl
  · rw [ht]
    exact resolveFiles_map (fun t => t.pregapSectors) pregapOf (fun _ _ _ _ _ => rfl)
      hs sheet.files 0 0
  · intro t ht0
    exact hchain.head_start ht0
  · intro k p n hp hn
    have hadj := hchain.adjacent k p n hp hn
    exact ⟨hadj, fun hfit => by rw [hadj, wrap32_of_inInt32 hfit]⟩

/-- Witness of `layout_cursor_chain` on the fixture `multiTrack.cue`: the third
track starts at `105325 + 19375 + 0 + 150 = 124850`. -/
theorem layout_cursor_chain_witness :
    Disc.fromSheet multiTrackFs multiTrackSheet = .ok multiTrackDisc
    ∧ multiTrackDisc.tracks.map (fun t => t.startLba) = [0, 105325, 124850]
    ∧ (∀ k p n, multiTrackDisc.tracks[k]? = some p → multiTrackDisc.tracks[k + 1]? = some n →
        n.startLba
          = wrap32 (p.startLba + p.lengthSectors + p.postgapSectors + n.pregapSectors)
        ∧ (inInt32 (p.startLba + p.lengthSectors + p.postgapSectors + n.pregapSectors) →
            n.startLba
              = p.startLba + p.lengthSectors + p.postgapSectors + n.pregapSectors)) :=
  ⟨by decide, by decide,
    (layout_cursor_chain multiTrackFs multiTrackSheet multiTrackDisc (by decide)).2.2.2⟩

theorem sectorSizeForMode_cases (m : TrackMode) :
    sectorSizeForMode m = 2048 ∨ sectorSizeForMode m = 2336 ∨ sectorSizeForMode m = 2352
      ∨ sectorSizeForMode m = 2448 := by
  cases m <;> simp [sectorSizeForMode]

/-- The track of the disc at the position of track `ti` of file `fi` is the body
of the track loop applied to that track and its successor in the file. -/
theorem fromSheet_getElem? {fs : FileSystem} {sheet : CueSheet} {d : Disc}
    (h : Disc.fromSheet fs sheet = .ok d) {fi ti : Nat} {f : CueFile} {ct : CueTrack}
    (hf : sheet.files[fi]? = some f) (hct : f.tracks[ti]? = some ct) :
    ∃ n c1, fs f.filename = .sized n
      ∧ d.fileHandles[fi]? = some ⟨f.filename, wrap64 n⟩
      ∧ d.tracks[trackPosition sheet.files fi ti]?
        = some (resolveTrack d.fileHandles fi ct f.tracks[ti + 1]? c1).1 := by
  obtain ⟨hs, hp, hh, _, ht, _⟩ := fromSheet_tracks h
  obtain ⟨n, hn1, hn2⟩ := probeFiles_getElem? fs sheet.files hs hp fi f hf
  obtain ⟨c1, hc1⟩ := resolveFiles_getElem? hs sheet.files 0 0 fi ti f ct hf hct
  refine ⟨n, c1, hn1, by rw [hh]; exact hn2, ?_⟩
  rw [ht, hh, hc1, Nat.zero_add]

/-- C2: for a disc built from a sheet, a track that is followed by another track
in the same file has `lengthSectors = B - S`, where `S` is the LBA of its Index 1
timecode and `B` is the LBA of the next track's Index 0 timecode if it has an
Index 0, otherwise of its Index 1; Index 0 is taken wherever it stands in the
list of the next track's indices (index numbers unique within a track, as the
parser ensures). -/
theorem length_from_next_track (fs : FileSystem) (sheet : CueSheet) (d : Disc)
    (h : Disc.fromSheet fs sheet = .ok d)
    (fi ti : Nat) (f : CueFile) (ct nx : CueTrack) (p : MSF)
    (hf : sheet.files[fi]? = some f) (hct : f.tracks[ti]? = some ct)
    (hnx : f.tracks[ti + 1]? = some nx)
    (hu : (ct.indices.map (fun i => i.number)).Nodup)
    (hun : (nx.indices.map (fun i => i.number)).Nodup)
    (hp : (⟨1, p⟩ : CueIndex) ∈ ct.indices) :
    ∃ t, d.tracks[trackPosition sheet.files fi ti]? = some t
      ∧ t.number = ct.number ∧ t.indices = ct.indices
      ∧ (∀ q, (⟨0, q⟩ : CueIndex) ∈ nx.indices → t.lengthSectors = q.toLba - p.toLba)
      ∧ (∀ q, (∀ i ∈ nx.indices, i.number ≠ 0) → (⟨1, q⟩ : CueIndex) ∈ nx.indices →
          t.lengthSectors = q.toLba - p.toLba) := by
  obtain ⟨n, c1, _, _, ht⟩ := fromSheet_getElem? h hf hct
  rw [hnx] at ht
  refine ⟨_, ht, rfl, rfl, ?_, ?_⟩
  · intro q hq
    simp only [resolveTrack_lengthSectors, trackSectors]
    rw [nextStartLoop_of_zero q nx.indices 0 hun hq, index01Offset_of_mem hu hp]
  · intro q h0 hq
    simp only [resolveTrack_lengthSectors, trackSectors]
    rw [nextStartLoop_of_one q nx.indices 0 h0 hun hq, index01Offset_of_mem hu hp]

/-- Witness of `length_from_next_track` on the fixture `multiTrack.cue`: track 1
ends at Index 0 of track 2 (`23:24:25`, LBA 105325), not at its Index 1. -/
theorem length_from_next_track_witness :
    Disc.fromSheet multiTrackFs multiTrackSheet = .ok multiTrackDisc
    ∧ ∃ t, multiTrackDisc.tracks[0]? = some t ∧ t.lengthSectors = 105325 := by
  refine ⟨by decide, ?_⟩
  obtain ⟨t, ht, _, _, h0, _⟩ :=
    length_from_next_track multiTrackFs multiTrackSheet multiTrackDisc (by decide) 0 0
      ⟨"multiTrack.bin", .Binary, multiTrackSheet.files.flatMap (fun f => f.tracks)⟩
      (exampleTrack 1 .Mode2_2352 [⟨1, ⟨0, 0, 0⟩⟩] none none)
      (exampleTrack 2 .Audio [⟨0, ⟨23, 24, 25⟩⟩, ⟨1, ⟨23, 26, 25⟩⟩] none none)
      ⟨0, 0, 0⟩ (by decide) (by decide) (by decide) (by decide) (by decide) (by decide)
  exact ⟨t, ht, by rw [h0 ⟨23, 24, 25⟩ (by decide)]; decide⟩

/-- C3: for a disc built from a sheet, the last track of a file has
`lengthSectors = (fileSize - Index1Lba * sectorSize) / sectorSize`, the quotient
truncated toward zero, where `fileSize` is the size of the file that holds the
track and `sectorSize` is the sector size of its mode, whenever that quotient
fits in `int32_t` (index numbers unique within the track). -/
theorem length_of_last_track (fs : FileSystem) (sheet : CueSheet) (d : Disc)
    (h : Disc.fromSheet fs sheet = .ok d)
    (fi ti : Nat) (f : CueFile) (ct : CueTrack) (size : Nat) (p : MSF)
    (hf : sheet.files[fi]? = some f) (hct : f.tracks[ti]? = some ct)
    (hlast : ti + 1 = f.tracks.length)
    (hsize : fs f.filename = .sized size)
    (hu : (ct.indices.map (fun i => i.number)).Nodup)
    (hp : (⟨1, p⟩ : CueIndex) ∈ ct.indices)
    (hq : inInt32 (Int.tdiv ((size : Int) - p.toLba * (sectorSizeForMode ct.mode : Int))
      (sectorSizeForMode ct.mode : Int))) :
    ∃ t, d.tracks[trackPosition sheet.files fi ti]? = some t
      ∧ t.number = ct.number ∧ t.indices = ct.indices
      ∧ t.sectorSize = sectorSizeForMode ct.mode
      ∧ t.lengthSectors
        = Int.tdiv ((size : Int) - p.toLba * (sectorSizeForMode ct.mode : Int))
            (sectorSizeForMode ct.mode : Int) := by
  obtain ⟨n, c1, hn, hh, ht⟩ := fromSheet_getElem? h hf hct
  rw [hsize] at hn
  cases hn
  have hnone : f.tracks[ti + 1]? = none := List.getElem?_eq_none (by omega)
  rw [hnone] at ht
  refine ⟨_, ht, rfl, rfl, rfl, ?_⟩
  simp only [resolveTrack_lengthSectors, trackSectors, fileSizeAt, hh,
    index01Offset_of_mem hu hp]
  have hp0 := p.toLba_nonneg
  have hp1 := p.toLba_le
  have hfit : (size : Int) < 9223372036854775808 := by
    by_contra hbig
    have hpos : (0 : Int) ≤ (size : Int) - p.toLba * (sectorSizeForMode ct.mode : Int) := by
      rcases sectorSizeForMode_cases ct.mode with e | e | e | e <;> rw [e] <;> push_cast <;> omega
    rw [Int.tdiv_eq_ediv hpos (by positivity)] at hq
    unfold inInt32 at hq
    rcases sectorSizeForMode_cases ct.mode with e | e | e | e <;> rw [e] at hq <;>
      push_cast at hq <;> omega
  have h1 : wrap64 (size : Int) = size := by unfold wrap64; omega
  have h2 : wrap64 ((size : Int) - p.toLba * (sectorSizeForMode ct.mode : Int))
      = (size : Int) - p.toLba * (sectorSizeForMode ct.mode : Int) := by
    rcases sectorSizeForMode_cases ct.mode with e | e | e | e <;> rw [e] <;> push_cast <;>
      unfold wrap64 <;> omega
  rw [h1, h2, wrap32_of_inInt32 hq]

/-- Witness of `length_of_last_track` on the fixture `multiTrack.cue`: track 3
has `(296352000 - 124850 * 2352) / 2352 = 1150` sectors. -/
theorem length_of_last_track_witness :
    Disc.fromSheet multiTrackFs multiTrackSheet = .ok multiTrackDisc
    ∧ ∃ t, multiTrackDisc.tracks[2]? = some t ∧ t.lengthSectors = 1150 := by
  refine ⟨by decide, ?_⟩
  obtain ⟨t, ht, _, _, _, hl⟩ :=
    length_of_last_track multiTrackFs multiTrackSheet multiTrackDisc (by decide) 0 2
      ⟨"multiTrack.bin", .Binary, multiTrackSheet.files.flatMap (fun f => f.tracks)⟩
      (exampleTrack 3 .Audio [⟨1, ⟨27, 44, 50⟩⟩] (some ⟨0, 2, 0⟩) none)
      (126000 * 2352) ⟨27, 44, 50⟩
      (by decide) (by decide) (by decide) (by decide) (by decide) (by decide) (by decide)
  exact ⟨t, ht, by rw [hl]; decide⟩

/-! ## Independence of the pregaps -/

theorem timelineSum_split (ts : List Track) :
    timelineSum ts = pregapSum ts + (ts.map (fun t => t.lengthSectors)).sum
      + (ts.map (fun t => t.postgapSectors)).sum := by
  induction ts with
  | nil => simp [timelineSum, pregapSum]
  | cons t ts ih =>
    simp only [timelineSum, pregapSum, List.map_cons, List.sum_cons] at ih ⊢
    omega

theorem pregapSum_take_succ {ts : List Track} {k : Nat} {t : Track} (h : ts[k]? = some t) :
    pregapSum (ts.take (k + 1)) = pregapSum (ts.take k) + t.pregapSectors := by
  induction ts generalizing k with
  | nil => simp at h
  | cons a ts ih =>
    cases k with
    | zero =>
      simp only [List.getElem?_cons_zero, Option.some.injEq] at h
      subst h
      simp [pregapSum]
    | succ k =>
      rw [List.getElem?_cons_succ] at h
      have := ih h
      simp only [pregapSum, List.take_succ_cons, List.map_cons, List.sum_cons] at this ⊢
      omega

theorem ChainFrom.start_eq : ∀ {ts : List Track} {c c1 : Int} (k : Nat) (t : Track),
    ChainFrom c ts c1 → inInt32 c → ts[k]? = some t →
    t.startLba = wrap32 (c + timelineSum (ts.take k) + t.pregapSectors)
  | [], _, _, _, _, _, _, h => by simp at h
  | a :: ts, c, c1, 0, t, h, _, hk => by
    simp only [List.getElem?_cons_zero, Option.some.injEq] at hk
    subst hk
    simp only [ChainFrom] at h
    simp [timelineSum, h.1]
  | a :: ts, c, c1, k + 1, t, h, _, hk => by
    rw [List.getElem?_cons_succ] at hk
    simp only [ChainFrom] at h
    have ih := ChainFrom.start_eq k t h.2.2.2.2 (inInt32_wrap32 _) hk
    rw [ih, h.1]
    simp only [timelineSum, List.take_succ_cons, List.map_cons, List.sum_cons]
    unfold wrap32
    omega

theorem trackSectors_withoutPregap (hs : List FileHandle) (fi : Nat) (ct : CueTrack)
    (nx : Option CueTrack) :
    trackSectors hs fi ct.withoutPregap (nx.map CueTrack.withoutPregap)
      = trackSectors hs fi ct nx := by
  cases nx <;> rfl

theorem resolveFileTracks_withoutPregap (hs : List FileHandle) (fi : Nat) :
    ∀ (cts : List CueTrack) (c c1 : Int),
      (resolveFileTracks hs fi (cts.map CueTrack.withoutPregap) c1).1.map
          (fun t => (t.fileByteOffset, t.lengthSectors, t.postgapSectors))
        = (resolveFileTracks hs fi cts c).1.map
          (fun t => (t.fileByteOffset, t.lengthSectors, t.postgapSectors))
  | [], _, _ => rfl
  | ct :: rest, c, c1 => by
    simp only [List.map_cons, resolveFileTracks, List.cons.injEq]
    refine ⟨?_, resolveFileTracks_withoutPregap hs fi rest _ _⟩
    have hhead : (rest.map CueTrack.withoutPregap).head?
        = rest.head?.map CueTrack.withoutPregap := by cases rest <;> rfl
    simp only [resolveTrack_lengthSectors, hhead, trackSectors_withoutPregap]
    rfl

theorem resolveFiles_withoutPregaps (hs : List FileHandle) :
    ∀ (files : List CueFile) (fi : Nat) (c c1 : Int),
      (resolveFiles hs fi (files.map CueFile.withoutPregaps) c1).1.map
          (fun t => (t.fileByteOffset, t.lengthSectors, t.postgapSectors))
        = (resolveFiles hs fi files c).1.map
          (fun t => (t.fileByteOffset, t.lengthSectors, t.postgapSectors))
  | [], _, _, _ => rfl
  | f :: rest, fi, c, c1 => by
    simp only [List.map_cons, resolveFiles, List.map_append]
    rw [resolveFiles_withoutPregaps hs rest (fi + 1) (resolveFileTracks hs fi f.tracks c).2]
    congr 1
    exact resolveFileTracks_withoutPregap hs fi f.tracks c c1

theorem probeFiles_withoutPregaps (fs : FileSystem) :
    ∀ (files : List CueFile),
      probeFiles fs (files.map CueFile.withoutPregaps) = probeFiles fs files
  | [] => rfl
  | f :: rest => by
    simp only [List.map_cons, probeFiles, probeFiles_withoutPregaps fs rest]
    rfl

theorem fromSheet_ok_of_probe {fs : FileSystem} {sheet : CueSheet} {hs : List FileHandle}
    (hp : probeFiles fs sheet.files = .ok hs) :
    ∃ d, Disc.fromSheet fs sheet = .ok d ∧ d.tracks = (resolveFiles hs 0 sheet.files 0).1 := by
  unfold Disc.fromSheet
  rw [hp]
  exact ⟨_, rfl, rfl⟩

/-- C4: for a disc built from a sheet, every resolved track is the image of a
track of the document whose number, mode and indices it carries, and its
`fileByteOffset` is the LBA of its Index 1 timecode times
`sectorSizeForMode(mode)` (index numbers unique within the track), first in its
file or not.  It does not depend on any pregap: two sheets that are equal once
every `PREGAP` timecode is removed resolve, over the same files, to track lists
with the same `fileByteOffset` and `lengthSectors` at every position, and the
`startLba` at position `k` shifts by the difference of the pregaps summed over
positions `0..k` (as an `int32_t` sum, and exactly whenever the shifted value
fits in `int32_t`). -/
theorem fileByteOffset_ignores_pregap (fs : FileSystem) (s1 s2 : CueSheet) (d1 : Disc)
    (hsame : s1.withoutPregaps = s2.withoutPregaps)
    (h1 : Disc.fromSheet fs s1 = .ok d1) :
    (∀ t ∈ d1.tracks, ∃ f ∈ s1.files, ∃ ct ∈ f.tracks,
        t.number = ct.number ∧ t.mode = ct.mode ∧ t.indices = ct.indices
        ∧ ∀ p, (ct.indices.map (fun i => i.number)).Nodup → (⟨1, p⟩ : CueIndex) ∈ ct.indices →
            t.fileByteOffset = p.toLba * (sectorSizeForMode ct.mode : Int))
    ∧ ∃ d2, Disc.fromSheet fs s2 = .ok d2
      ∧ d2.tracks.map (fun t => t.fileByteOffset) = d1.tracks.map (fun t => t.fileByteOffset)
      ∧ d2.tracks.map (fun t => t.lengthSectors) = d1.tracks.map (fun t => t.lengthSectors)
      ∧ ∀ k t1 t2, d1.tracks[k]? = some t1 → d2.tracks[k]? = some t2 →
          t2.startLba
            = wrap32 (t1.startLba
                + (pregapSum (d2.tracks.take (k + 1)) - pregapSum (d1.tracks.take (k + 1))))
          ∧ (inInt32 (t1.startLba
                + (pregapSum (d2.tracks.take (k + 1)) - pregapSum (d1.tracks.take (k + 1)))) →
              t2.startLba
                = t1.startLba
                  + (pregapSum (d2.tracks.take (k + 1))
                      - pregapSum (d1.tracks.take (k + 1)))) := by
  obtain ⟨hs, hp, _, _, ht1, _⟩ := fromSheet_tracks h1
  refine ⟨?_, ?_⟩
  · intro t ht
    rw [ht1] at ht
    obtain ⟨f, fi, ct, nx, c1, hf, hct, rfl⟩ := resolveFiles_mem hs s1.files 0 0 t ht
    refine ⟨f, hf, ct, hct, rfl, rfl, rfl, ?_⟩
    intro p hu hp1
    show index01Offset ct.indices * (sectorSizeForMode ct.mode : Int) = _
    rw [index01Offset_of_mem hu hp1]
  · have hfiles : s1.files.map CueFile.withoutPregaps = s2.files.map CueFile.withoutPregaps :=
      congrArg CueSheet.files hsame
    have hp2 : probeFiles fs s2.files = .ok hs := by
      rw [← probeFiles_withoutPregaps, ← hfiles, probeFiles_withoutPregaps, hp]
    obtain ⟨d2, hd2, ht2⟩ := fromSheet_ok_of_probe hp2
    have hmap : d2.tracks.map (fun t => (t.fileByteOffset, t.lengthSectors, t.postgapSectors))
        = d1.tracks.map (fun t => (t.fileByteOffset, t.lengthSectors, t.postgapSectors)) := by
      rw [ht1, ht2, ← resolveFiles_withoutPregaps hs s2.files 0 0 0, ← hfiles,
        resolveFiles_withoutPregaps hs s1.files 0 0 0]
    have hoff : d2.tracks.map (fun t => t.fileByteOffset)
        = d1.tracks.map (fun t => t.fileByteOffset) := by
      have := congrArg (List.map (fun x : Int × Int × Int => x.1)) hmap
      simpa [List.map_map, Function.comp_def] using this
    have hlen : d2.tracks.map (fun t => t.lengthSectors)
        = d1.tracks.map (fun t => t.lengthSectors) := by
      have := congrArg (List.map (fun x : Int × Int × Int => x.2.1)) hmap
      simpa [List.map_map, Function.comp_def] using this
    have hpost : d2.tracks.map (fun t => t.postgapSectors)
        = d1.tracks.map (fun t => t.postgapSectors) := by
      have := congrArg (List.map (fun x : Int × Int × Int => x.2.2)) hmap
      simpa [List.map_map, Function.comp_def] using this
    refine ⟨d2, hd2, hoff, hlen, ?_⟩
    intro k t1 t2 hk1 hk2
    have e1 := (chainFrom_fromSheet h1).start_eq k t1 (by decide) hk1
    have e2 := (chainFrom_fromSheet hd2).start_eq k t2 (by decide) hk2
    have hl : ((d2.tracks.take k).map (fun t => t.lengthSectors)).sum
        = ((d1.tracks.take k).map (fun t => t.lengthSectors)).sum := by
      rw [List.map_take, List.map_take, hlen]
    have hq : ((d2.tracks.take k).map (fun t => t.postgapSectors)).sum
        = ((d1.tracks.take k).map (fun t => t.postgapSectors)).sum := by
      rw [List.map_take, List.map_take, hpost]
    have key : t2.startLba
        = wrap32 (t1.startLba
            + (pregapSum (d2.tracks.take (k + 1)) - pregapSum (d1.tracks.take (k + 1)))) := by
      rw [e1, e2, timelineSum_split, timelineSum_split, pregapSum_take_succ hk1,
        pregapSum_take_succ hk2, hl, hq]
      unfold wrap32
      omega
    exact ⟨key, fun hfit => by rw [key, wrap32_of_inInt32 hfit]⟩

/-- Witness of `fileByteOffset_ignores_pregap`: changing the pregap of track 3 of
the fixture `multiTrack.cue` from 150 to 225 sectors keeps every byte offset and
moves the start of track 3 from 124850 to 124925. -/
theorem fileByteOffset_ignores_pregap_witness :
    multiTrackSheet.withoutPregaps = multiTrackLongPregapSheet.withoutPregaps
    ∧ Disc.fromSheet multiTrackFs multiTrackSheet = .ok multiTrackDisc
    ∧ ∃ d2, Disc.fromSheet multiTrackFs multiTrackLongPregapSheet = .ok d2
      ∧ d2.tracks.map (fun t => t.fileByteOffset) = [0, 248077200, 293647200]
      ∧ d2.tracks.map (fun t => t.startLba) = [0, 105325, 124925] := by
  refine ⟨by decide, by decide, ?_⟩
  obtain ⟨d2, hd2, hoff, _, _⟩ :=
    (fileByteOffset_ignores_pregap multiTrackFs multiTrackSheet multiTrackLongPregapSheet
      multiTrackDisc (by decide) (by decide)).2
  refine ⟨d2, hd2, by rw [hoff]; decide, ?_⟩
  have hd : Disc.fromSheet multiTrackFs multiTrackLongPregapSheet
      = .ok { multiTrackDisc with
          sheet := multiTrackLongPregapSheet
          tracks := (resolveFiles [⟨"multiTrack.bin", 296352000⟩] 0
            multiTrackLongPregapSheet.files 0).1
          totalSectors := 126075 } := by decide
  rw [hd] at hd2
  cases hd2
  decide

theorem fromSheet_tracks_length {fs : FileSystem} {sheet : CueSheet} {d : Disc}
    (h : Disc.fromSheet fs sheet = .ok d) :
    d.tracks.length = (sheet.files.flatMap (fun f => f.tracks)).length := by
  obtain ⟨hs, _, _, _, ht, _⟩ := fromSheet_tracks h
  have := congrArg List.length
    (resolveFiles_map (fun _ => ()) (fun _ => ()) (fun _ _ _ _ _ => rfl) hs sheet.files 0 0)
  simpa [ht] using this

/-- C5: for a disc built from a sheet, `totalSectors` is the final cursor: the
sum over the resolved tracks of `pregapSectors + lengthSectors + postgapSectors`
(as an `int32_t` sum, and the exact sum whenever it fits in `int32_t`), 0 for a
document without tracks, and `startLba + lengthSectors + postgapSectors` of the
last track; `leadOutLba()` returns the same value as `totalSectors()`. -/
theorem totalSectors_eq_timeline (fs : FileSystem) (sheet : CueSheet) (d : Disc)
    (h : Disc.fromSheet fs sheet = .ok d) :
    d.totalSectors = wrap32 (timelineSum d.tracks)
    ∧ (inInt32 (timelineSum d.tracks) → d.totalSectors = timelineSum d.tracks)
    ∧ (sheet.files.flatMap (fun f => f.tracks) = [] → d.totalSectors = 0)
    ∧ (∀ t, d.tracks.getLast? = some t →
        d.totalSectors = wrap32 (t.startLba + t.lengthSectors + t.postgapSectors)
        ∧ (inInt32 (t.startLba + t.lengthSectors + t.postgapSectors) →
            d.totalSectors = t.startLba + t.lengthSectors + t.postgapSectors))
    ∧ d.leadOutLba = d.totalSectors := by
  have hchain := chainFrom_fromSheet h
  have hsum : d.totalSectors = wrap32 (timelineSum d.tracks) := by
    have := hchain.end_eq_sum (by decide)
    rwa [zero_add] at this
  refine ⟨hsum, fun hfit => by rw [hsum, wrap32_of_inInt32 hfit], ?_, ?_, rfl⟩
  · intro hnone
    have hlen := fromSheet_tracks_length h
    rw [hnone, List.length_nil] at hlen
    have hnil : d.tracks = [] := List.eq_nil_of_length_eq_zero hlen
    rw [hnil] at hchain
    simpa [ChainFrom] using hchain
  · intro t ht
    have hlast := hchain.end_eq_last ht
    exact ⟨hlast, fun hfit => by rw [hlast, wrap32_of_inInt32 hfit]⟩

/-- Witness of `totalSectors_eq_timeline` on the fixture `multiTrack.cue`:
`105325 + 19375 + (150 + 1150) = 126000`. -/
theorem totalSectors_eq_timeline_witness :
    Disc.fromSheet multiTrackFs multiTrackSheet = .ok multiTrackDisc
    ∧ timelineSum multiTrackDisc.tracks = 126000
    ∧ multiTrackDisc.totalSectors = wrap32 (timelineSum multiTrackDisc.tracks)
    ∧ multiTrackDisc.leadOutLba = multiTrackDisc.totalSectors :=
  ⟨by decide, by decide,
    (totalSectors_eq_timeline multiTrackFs multiTrackSheet multiTrackDisc (by decide)).1,
    (totalSectors_eq_timeline multiTrackFs multiTrackSheet multiTrackDisc (by decide)).2.2.2.2⟩

/-! ## Contiguity -/

theorem endLba_eq_of_exact {ts : List Track} {c c1 : Int} (hx : ExactFrom c ts c1)
    (hc : 0 ≤ c) (hfit : c1 < 2147483648) {t : Track} (ht : t ∈ ts) :
    t.endLba = t.startLba + t.lengthSectors := by
  have hb := (hx.bounds).2 t ht
  have hl : 0 ≤ t.lengthSectors := by
    clear hb
    induction ts generalizing c with
    | nil => simp at ht
    | cons a ts ih =>
      simp only [ExactFrom] at hx
      rcases List.mem_cons.1 ht with rfl | ht
      · exact hx.2.2.1
      · exact ih hx.2.2.2.2 (by have := hx.1; have := hx.2.1; have := hx.2.2.1
                                have := hx.2.2.2.1; omega) ht
  unfold Track.endLba add32
  exact wrap32_of_inInt32 ⟨by omega, by omega⟩

/-- A disc built from a sheet whose resolved lengths are non-negative and whose
timeline fits in `int32_t` is placed without any wrapping. -/
theorem exactFrom_fromSheet {fs : FileSystem} {sheet : CueSheet} {d : Disc}
    (h : Disc.fromSheet fs sheet = .ok d)
    (hlen : ∀ t ∈ d.tracks, 0 ≤ t.lengthSectors)
    (hfit : timelineSum d.tracks < 2147483648) :
    ExactFrom 0 d.tracks d.totalSectors ∧ d.totalSectors = timelineSum d.tracks := by
  have hchain := chainFrom_fromSheet h
  have hx := hchain.exact (le_refl 0) hlen (by omega)
  refine ⟨hx, ?_⟩
  have hsum := hchain.end_eq_sum (by decide)
  have h0 := timelineSum_nonneg hchain hlen
  rw [hsum, zero_add]
  exact wrap32_of_inInt32 ⟨by omega, hfit⟩

theorem contiguous_of_exact {ts : List Track} {c1 : Int} (hx : ExactFrom 0 ts c1)
    (hfit : c1 < 2147483648) :
    List.Pairwise (fun a b => a.startLba ≤ b.startLba) ts
      ∧ List.Pairwise (fun a b => a.endLba ≤ b.startLba) ts := by
  obtain ⟨h1, h2⟩ := hx.sorted
  refine ⟨h1, ?_⟩
  have hend : ∀ t ∈ ts, t.endLba = t.startLba + t.lengthSectors :=
    fun t ht => endLba_eq_of_exact hx (le_refl 0) hfit ht
  rw [List.pairwise_iff_getElem] at h2 ⊢
  intro i j hi hj hij
  rw [hend _ (List.getElem_mem _)]
  exact h2 i j hi hj hij

/-- C6, as the code has it: for a disc built from a sheet whose resolved lengths
are all non-negative and whose timeline (the sum of pregaps, lengths and
postgaps) fits in `int32_t`, the resolved tracks are sorted ascending by
`startLba`, and for every adjacent pair `next.startLba >= prev.endLba`, where
`endLba = startLba + lengthSectors`. -/
theorem contiguity_of_nonneg_lengths (fs : FileSystem) (sheet : CueSheet) (d : Disc)
    (h : Disc.fromSheet fs sheet = .ok d)
    (hlen : ∀ t ∈ d.tracks, 0 ≤ t.lengthSectors)
    (hfit : timelineSum d.tracks < 2147483648) :
    List.Pairwise (fun a b => a.startLba ≤ b.startLba) d.tracks
    ∧ List.Chain' (fun prev next => prev.endLba ≤ next.startLba) d.tracks
    ∧ ∀ t ∈ d.tracks, t.endLba = t.startLba + t.lengthSectors := by
  obtain ⟨hx, htot⟩ := exactFrom_fromSheet h hlen hfit
  have hfit1 : d.totalSectors < 2147483648 := by rw [htot]; exact hfit
  obtain ⟨h1, h2⟩ := contiguous_of_exact hx hfit1
  exact ⟨h1, List.Pairwise.chain' h2,
    fun t ht => endLba_eq_of_exact hx (le_refl 0) hfit1 ht⟩

/-- Witness of `contiguity_of_nonneg_lengths` on the fixture `multiTrack.cue`. -/
theorem contiguity_of_nonneg_lengths_witness :
    Disc.fromSheet multiTrackFs multiTrackSheet = .ok multiTrackDisc
    ∧ (∀ t ∈ multiTrackDisc.tracks, 0 ≤ t.lengthSectors)
    ∧ timelineSum multiTrackDisc.tracks < 2147483648
    ∧ List.Pairwise (fun a b => a.startLba ≤ b.startLba) multiTrackDisc.tracks
    ∧ List.Chain' (fun prev next => prev.endLba ≤ next.startLba) multiTrackDisc.tracks :=
  ⟨by decide, by decide, by decide,
    (contiguity_of_nonneg_lengths multiTrackFs multiTrackSheet multiTrackDisc
      (by decide) (by decide) (by decide)).1,
    (contiguity_of_nonneg_lengths multiTrackFs multiTrackSheet multiTrackDisc
      (by decide) (by decide) (by decide)).2.1⟩

/-- C6 fails as stated: the sheet `emptyFirstSheet`, which satisfies what the
parser guarantees, resolves over an empty first file to a first track of length
-150, so the second track starts at -150, below the start 0 of the first: the
tracks are not sorted ascending by `startLba`. -/
theorem contiguity_counterexample :
    emptyFirstSheet.wellFormed = true
    ∧ Disc.fromSheet emptyFirstFs emptyFirstSheet = .ok emptyFirstDisc
    ∧ emptyFirstDisc.tracks.map (fun t => (t.startLba, t.lengthSectors)) = [(0, -150), (-150, 100)]
    ∧ ¬ List.Pairwise (fun a b => a.startLba ≤ b.startLba) emptyFirstDisc.tracks := by
  refine ⟨by decide, by decide, by decide, by decide⟩

/-! ## Track lookup -/

/-- The loop of `findTrack` on a list sorted by `startLba`: it returns the index
before the boundary `m` that separates the tracks starting at or before `lba`
from those starting after it. -/
theorem findTrackLoop_spec (tracks : List Track) (lba : Int)
    (hsorted : ∀ (i j : Nat) (a b : Track), i ≤ j → tracks[i]? = some a →
      tracks[j]? = some b → a.startLba ≤ b.startLba) :
    ∀ (fuel : Nat) (lo hi : Int) (found : Option Nat),
      0 ≤ lo → hi < tracks.length → lo ≤ hi + 1 → hi + 1 - lo ≤ fuel →
      (∀ (j : Nat) (t : Track), tracks[j]? = some t → (j : Int) < lo → t.startLba ≤ lba) →
      (∀ (j : Nat) (t : Track), tracks[j]? = some t → hi < (j : Int) → lba < t.startLba) →
      found = (if lo = 0 then none else some (lo - 1).toNat) →
      ∃ m : Int, 0 ≤ m ∧ m ≤ tracks.length
        ∧ findTrackLoop tracks lba fuel lo hi found
            = (if m = 0 then none else some (m - 1).toNat)
        ∧ (∀ (j : Nat) (t : Track), tracks[j]? = some t → (j : Int) < m → t.startLba ≤ lba)
        ∧ (∀ (j : Nat) (t : Track), tracks[j]? = some t → m ≤ (j : Int) → lba < t.startLba) := by
  intro fuel
  induction fuel with
  | zero =>
    intro lo hi found h0 hhi hle hfuel hleft hright hfound
    refine ⟨lo, h0, by omega, ?_, hleft, ?_⟩
    · simp only [findTrackLoop]; exact hfound
    · intro j t hj hm; exact hright j t hj (by omega)
  | succ fuel ih =>
    intro lo hi found h0 hhi hle hfuel hleft hright hfound
    by_cases hlohi : lo ≤ hi
    · have hdiv : Int.tdiv (hi - lo) 2 = (hi - lo) / 2 :=
        Int.tdiv_eq_ediv (by omega) (by decide)
      have hmid0 : lo ≤ lo + (hi - lo) / 2 := by omega
      have hmid1 : lo + (hi - lo) / 2 ≤ hi := by omega
      have hlt : (lo + (hi - lo) / 2).toNat < tracks.length := by omega
      obtain ⟨t, ht⟩ : ∃ t, tracks[(lo + (hi - lo) / 2).toNat]? = some t :=
        ⟨tracks[(lo + (hi - lo) / 2).toNat], List.getElem?_eq_getElem hlt⟩
      simp only [findTrackLoop, if_pos hlohi, hdiv, ht]
      by_cases hstart : t.startLba ≤ lba
      · rw [if_pos hstart]
        apply ih _ _ _ (by omega) hhi (by omega) (by omega)
        · intro j u hj hjlt
          exact le_trans (hsorted j _ u t (by omega) hj ht) hstart
        · exact hright
        · rw [if_neg (by omega)]
          congr 2
          omega
      · rw [if_neg hstart]
        apply ih _ _ _ h0 (by omega) (by omega) (by omega) hleft
        · intro j u hj hjgt
          have := hsorted _ j t u (by omega) ht hj
          omega
        · exact hfound
    · refine ⟨lo, h0, by omega, ?_, hleft, ?_⟩
      · simp only [findTrackLoop, if_neg hlohi]; exact hfound
      · intro j t hj hm; exact hright j t hj (by omega)

theorem sorted_getElem? {tracks : List Track}
    (hsorted : List.Pairwise (fun a b => a.startLba ≤ b.startLba) tracks)
    (i j : Nat) (a b : Track) (hij : i ≤ j) (ha : tracks[i]? = some a)
    (hb : tracks[j]? = some b) : a.startLba ≤ b.startLba := by
  obtain ⟨hi, rfl⟩ := List.getElem?_eq_some_iff.1 ha
  obtain ⟨hj, rfl⟩ := List.getElem?_eq_some_iff.1 hb
  rcases Nat.lt_or_eq_of_le hij with h | h
  · exact List.pairwise_iff_getElem.1 hsorted i j hi hj h
  · subst h; exact le_refl _

theorem chain_getElem? {tracks : List Track}
    (hchain : List.Chain' (fun prev next => prev.endLba ≤ next.startLba) tracks)
    (i : Nat) (a b : Track) (ha : tracks[i]? = some a) (hb : tracks[i + 1]? = some b) :
    a.endLba ≤ b.startLba := by
  obtain ⟨hi, rfl⟩ := List.getElem?_eq_some_iff.1 ha
  obtain ⟨hj, rfl⟩ := List.getElem?_eq_some_iff.1 hb
  have := List.chain'_iff_get.1 hchain i (by omega)
  simpa using this

/-- On a sorted track list whose size fits in `int`, `findTrack` returns the
rightmost track that starts at or before `lba`, provided `lba` is below its end. -/
theorem findTrackIndex_eq_some_iff_rightmost (d : Disc) (lba : Int)
    (hcount : d.tracks.length < 2147483648)
    (hsorted : List.Pairwise (fun a b => a.startLba ≤ b.startLba) d.tracks) (i : Nat) :
    d.findTrackIndex lba = some i ↔
      ∃ t, d.tracks[i]? = some t ∧ t.startLba ≤ lba ∧ lba < t.endLba
        ∧ ∀ (j : Nat) (u : Track), d.tracks[j]? = some u → i < j → lba < u.startLba := by
  have hwrap : wrap32 (d.tracks.length : Int) = d.tracks.length :=
    wrap32_of_inInt32 ⟨by omega, by omega⟩
  obtain ⟨m, hm0, hm1, hres, hleft, hright⟩ :=
    findTrackLoop_spec d.tracks lba (sorted_getElem? hsorted) d.tracks.length 0
      ((d.tracks.length : Int) - 1) none (le_refl 0) (by omega) (by omega) (by omega)
      (fun j t _ hj => by omega) (fun j t hj hlt => by
        have := (List.getElem?_eq_some_iff.1 hj).1
        omega) (by simp)
  unfold Disc.findTrackIndex
  simp only [hwrap, hres]
  by_cases hm : m = 0
  · subst hm
    simp only [if_true]
    constructor
    · intro h; cases h
    · rintro ⟨t, ht, hs, _, _⟩
      have := hright i t ht (by omega)
      omega
  · rw [if_neg hm]
    have hlt : (m - 1).toNat < d.tracks.length := by omega
    obtain ⟨t, ht⟩ : ∃ t, d.tracks[(m - 1).toNat]? = some t :=
      ⟨d.tracks[(m - 1).toNat], List.getElem?_eq_getElem hlt⟩
    simp only [ht]
    have hts : t.startLba ≤ lba := hleft _ t ht (by omega)
    constructor
    · intro h
      split at h
      · next hend =>
        cases h
        exact ⟨t, ht, hts, hend, fun j u hj hij => hright j u hj (by omega)⟩
      · cases h
    · rintro ⟨u, hu, hus, huend, hrightmost⟩
      have hi : i = (m - 1).toNat := by
        rcases Nat.lt_trichotomy i (m - 1).toNat with h | h | h
        · have := hrightmost _ t ht h; omega
        · exact h
        · have := hright i u hu (by omega); omega
      subst hi
      rw [ht] at hu
      cases hu
      rw [if_pos huend]

/-- On a sorted, non-overlapping track list whose size fits in `int`,
`findTrack` returns the index of the track whose range contains `lba`. -/
theorem findTrackIndex_eq_some_iff (d : Disc) (lba : Int)
    (hcount : d.tracks.length < 2147483648)
    (hsorted : List.Pairwise (fun a b => a.startLba ≤ b.startLba) d.tracks)
    (hdisjoint : List.Chain' (fun prev next => prev.endLba ≤ next.startLba) d.tracks)
    (i : Nat) :
    d.findTrackIndex lba = some i ↔
      ∃ t, d.tracks[i]? = some t ∧ t.startLba ≤ lba ∧ lba < t.endLba := by
  rw [findTrackIndex_eq_some_iff_rightmost d lba hcount hsorted]
  constructor
  · rintro ⟨t, ht, hs, he, _⟩
    exact ⟨t, ht, hs, he⟩
  · rintro ⟨t, ht, hs, he⟩
    refine ⟨t, ht, hs, he, ?_⟩
    intro j u hu hij
    have hj := (List.getElem?_eq_some_iff.1 hu).1
    have hlt : i + 1 < d.tracks.length := by omega
    have h1 := chain_getElem? hdisjoint i t d.tracks[i + 1] ht (List.getElem?_eq_getElem hlt)
    have h2 := sorted_getElem? hsorted (i + 1) j d.tracks[i + 1] u (by omega)
      (List.getElem?_eq_getElem hlt) hu
    omega

theorem findTrack_eq_some_iff (d : Disc) (lba : Int)
    (hcount : d.tracks.length < 2147483648)
    (hsorted : List.Pairwise (fun a b => a.startLba ≤ b.startLba) d.tracks)
    (hdisjoint : List.Chain' (fun prev next => prev.endLba ≤ next.startLba) d.tracks)
    (t : Track) :
    d.findTrack lba = some t ↔ t ∈ d.tracks ∧ t.startLba ≤ lba ∧ lba < t.endLba := by
  unfold Disc.findTrack
  constructor
  · intro h
    split at h
    · cases h
    · next i hi =>
      obtain ⟨u, hu, hs, he⟩ := (findTrackIndex_eq_some_iff d lba hcount hsorted hdisjoint i).1 hi
      rw [hu] at h
      cases h
      exact ⟨List.getElem?_mem hu, hs, he⟩
  · rintro ⟨hmem, hs, he⟩
    obtain ⟨i, hi⟩ := List.getElem?_of_mem hmem
    have := (findTrackIndex_eq_some_iff d lba hcount hsorted hdisjoint i).2 ⟨t, hi, hs, he⟩
    rw [this]
    exact hi

theorem findTrack_eq_none_iff (d : Disc) (lba : Int)
    (hcount : d.tracks.length < 2147483648)
    (hsorted : List.Pairwise (fun a b => a.startLba ≤ b.startLba) d.tracks)
    (hdisjoint : List.Chain' (fun prev next => prev.endLba ≤ next.startLba) d.tracks) :
    d.findTrack lba = none ↔ ∀ t ∈ d.tracks, ¬ (t.startLba ≤ lba ∧ lba < t.endLba) := by
  constructor
  · intro h t ht hc
    have := (findTrack_eq_some_iff d lba hcount hsorted hdisjoint t).2 ⟨ht, hc⟩
    rw [h] at this
    cases this
  · intro h
    cases hf : d.findTrack lba with
    | none => rfl
    | some t =>
      obtain ⟨hm, hc⟩ := (findTrack_eq_some_iff d lba hcount hsorted hdisjoint t).1 hf
      exact absurd hc (h t hm)

/-- C7: for every track list that is sorted ascending by `startLba` and
non-overlapping (each `next.startLba >= prev.endLba`, lengths non-negative), and
whose size fits in the `int` that `findTrack` counts with, and for every `lba`,
`findTrack(lba)` returns exactly the track whose half-open range
`[startLba, endLba)` contains `lba` (as a position in the list and as a value),
and returns none exactly when no track's range contains it. -/
theorem findTrack_spec (d : Disc) (lba : Int)
    (hcount : d.tracks.length < 2147483648)
    (hsorted : List.Pairwise (fun a b => a.startLba ≤ b.startLba) d.tracks)
    (hdisjoint : List.Chain' (fun prev next => prev.endLba ≤ next.startLba) d.tracks)
    (_hlen : ∀ t ∈ d.tracks, 0 ≤ t.lengthSectors) :
    (∀ i, d.findTrackIndex lba = some i ↔
        ∃ t, d.tracks[i]? = some t ∧ t.startLba ≤ lba ∧ lba < t.endLba)
    ∧ (∀ t, d.findTrack lba = some t ↔ t ∈ d.tracks ∧ t.startLba ≤ lba ∧ lba < t.endLba)
    ∧ (d.findTrack lba = none ↔ ∀ t ∈ d.tracks, ¬ (t.startLba ≤ lba ∧ lba < t.endLba)) :=
  ⟨findTrackIndex_eq_some_iff d lba hcount hsorted hdisjoint,
    findTrack_eq_some_iff d lba hcount hsorted hdisjoint,
    findTrack_eq_none_iff d lba hcount hsorted hdisjoint⟩

/-- Witness of `findTrack_spec` on the disc of the fixture `multiTrack.cue`:
LBA 124700 lies in the pregap of track 3, in no track's range, and is not found. -/
theorem findTrack_spec_witness :
    multiTrackDisc.tracks.length < 2147483648
    ∧ List.Pairwise (fun a b => a.startLba ≤ b.startLba) multiTrackDisc.tracks
    ∧ List.Chain' (fun prev next => prev.endLba ≤ next.startLba) multiTrackDisc.tracks
    ∧ (∀ t ∈ multiTrackDisc.tracks, 0 ≤ t.lengthSectors)
    ∧ multiTrackDisc.findTrackIndex 105325 = some 1
    ∧ (multiTrackDisc.findTrack 124700 = none ↔
        ∀ t ∈ multiTrackDisc.tracks, ¬ (t.startLba ≤ 124700 ∧ 124700 < t.endLba)) :=
  ⟨by decide, by decide, List.Pairwise.chain' (by decide), by decide, by decide,
    (findTrack_spec multiTrackDisc 124700 (by decide) (by decide)
      (List.Pairwise.chain' (by decide)) (by decide)).2.2⟩

theorem findTrackIndex_lt_end {d : Disc} {lba : Int} {i : Nat}
    (h : d.findTrackIndex lba = some i) :
    ∃ t, d.tracks[i]? = some t ∧ lba < t.endLba := by
  unfold Disc.findTrackIndex at h
  simp only at h
  split at h
  · cases h
  · split at h
    · cases h
    · next j t ht =>
      split at h
      · next hend => cases h; exact ⟨t, ht, hend⟩
      · cases h

theorem findTrack_lt_end {d : Disc} {lba : Int} {t : Track}
    (h : d.findTrack lba = some t) : t ∈ d.tracks ∧ lba < t.endLba := by
  unfold Disc.findTrack at h
  split at h
  · cases h
  · next i hi =>
    obtain ⟨u, hu, hend⟩ := findTrackIndex_lt_end hi
    rw [hu] at h
    cases h
    exact ⟨List.getElem?_mem hu, hend⟩

/-- C8, as the code has it: for a disc built from a sheet whose resolved lengths
are all non-negative and whose timeline fits in `int32_t`,
`findTrack(totalSectors())` returns none, and no resolved track has
`startLba <= totalSectors < endLba`. -/
theorem leadOut_not_found (fs : FileSystem) (sheet : CueSheet) (d : Disc)
    (h : Disc.fromSheet fs sheet = .ok d)
    (hlen : ∀ t ∈ d.tracks, 0 ≤ t.lengthSectors)
    (hfit : timelineSum d.tracks < 2147483648) :
    d.findTrack d.totalSectors = none
    ∧ ∀ t ∈ d.tracks, ¬ (t.startLba ≤ d.totalSectors ∧ d.totalSectors < t.endLba) := by
  obtain ⟨hx, htot⟩ := exactFrom_fromSheet h hlen hfit
  have hfit1 : d.totalSectors < 2147483648 := by rw [htot]; exact hfit
  have hend : ∀ t ∈ d.tracks, t.endLba ≤ d.totalSectors := by
    intro t ht
    rw [endLba_eq_of_exact hx (le_refl 0) hfit1 ht]
    exact ((hx.bounds).2 t ht).2
  refine ⟨?_, fun t ht hc => by have := hend t ht; omega⟩
  cases hf : d.findTrack d.totalSectors with
  | none => rfl
  | some t =>
    obtain ⟨hm, hlt⟩ := findTrack_lt_end hf
    have := hend t hm
    omega

/-- Witness of `leadOut_not_found` on the fixture `multiTrack.cue`
(testDisc.cpp lines 222-224). -/
theorem leadOut_not_found_witness :
    Disc.fromSheet multiTrackFs multiTrackSheet = .ok multiTrackDisc
    ∧ (∀ t ∈ multiTrackDisc.tracks, 0 ≤ t.lengthSectors)
    ∧ timelineSum multiTrackDisc.tracks < 2147483648
    ∧ multiTrackDisc.findTrack multiTrackDisc.totalSectors = none :=
  ⟨by decide, by decide, by decide,
    (leadOut_not_found multiTrackFs multiTrackSheet multiTrackDisc
      (by decide) (by decide) (by decide)).1⟩

/-- C8 fails as stated: the sheet `shortFileSheet`, which satisfies what the
parser guarantees, resolves over an empty second file to tracks `[0, 100)` and a
second track of length -50 at 100, so `totalSectors` is 50 and
`findTrack(totalSectors())` returns the first track. -/
theorem leadOut_lookup_counterexample :
    shortFileSheet.wellFormed = true
    ∧ Disc.fromSheet shortFileFs shortFileSheet = .ok shortFileDisc
    ∧ shortFileDisc.totalSectors = 50
    ∧ shortFileDisc.findTrackIndex shortFileDisc.totalSectors = some 0
    ∧ shortFileDisc.findTrack shortFileDisc.totalSectors ≠ none
    ∧ ∃ t ∈ shortFileDisc.tracks,
        t.startLba ≤ shortFileDisc.totalSectors ∧ shortFileDisc.totalSectors < t.endLba := by
  refine ⟨by decide, by decide, by decide, by decide, by decide, ?_⟩
  exact ⟨_, List.mem_cons_self _ _, by decide, by decide⟩

/-! ## `readSector`: the range check and the track lookup -/

/-- C9: `readSector(lba)` fails with `LBAOutOfRange` if and only if `lba < 0` or
`lba >= totalSectors`, for every disc, every content of the backing files and
every state of the streams; every such `lba` is rejected with that code before
any track lookup or file access (the streams are left as they were). -/
theorem readSector_outOfRange_iff (d : Disc) (disk : DiskContents)
    (streams : List StreamState) (lba : Int) :
    ((d.readSector disk streams lba).1 = .error .LBAOutOfRange
        ↔ (lba < 0 ∨ d.totalSectors ≤ lba))
    ∧ ((lba < 0 ∨ d.totalSectors ≤ lba) →
        d.readSector disk streams lba = (.error .LBAOutOfRange, streams)) := by
  by_cases hc : lba < 0 ∨ lba ≥ d.totalSectors
  · have hr : d.readSector disk streams lba = (.error .LBAOutOfRange, streams) := by
      unfold Disc.readSector
      rw [if_pos hc]
    exact ⟨⟨fun _ => hc, fun _ => by rw [hr]⟩, fun _ => hr⟩
  · refine ⟨⟨fun h => ?_, fun h => absurd h hc⟩, fun h => absurd h hc⟩
    exfalso
    unfold Disc.readSector at h
    rw [if_neg hc] at h
    split at h
    · cases h
    · split at h
      · simp only at h
        split at h
        · cases h
        · split at h
          · cases h
          · split at h
            · split at h
              · cases h
              · cases h
            · cases h
      · cases h

theorem readSector_trackNotFound_iff (d : Disc) (disk : DiskContents)
    (streams : List StreamState) (lba : Int) (h0 : 0 ≤ lba) (h1 : lba < d.totalSectors) :
    (d.readSector disk streams lba).1 = .error .TrackNotFound ↔ d.findTrack lba = none := by
  have hc : ¬ (lba < 0 ∨ lba ≥ d.totalSectors) := by omega
  unfold Disc.readSector
  rw [if_neg hc]
  constructor
  · intro h
    split at h
    · assumption
    · exfalso
      split at h
      · simp only at h
        split at h
        · cases h
        · split at h
          · cases h
          · split at h
            · split at h
              · cases h
              · cases h
            · cases h
      · cases h
  · intro h
    rw [h]

theorem covered_of_exact_no_gaps : ∀ {ts : List Track} {c c1 : Int},
    ExactFrom c ts c1 → (∀ t ∈ ts, t.pregapSectors = 0 ∧ t.postgapSectors = 0) →
    ∀ lba, c ≤ lba → lba < c1 →
      ∃ t ∈ ts, t.startLba ≤ lba ∧ lba < t.startLba + t.lengthSectors
  | [], c, c1, hx, _, lba, h0, h1 => by
    simp only [ExactFrom] at hx; omega
  | a :: ts, c, c1, hx, hg, lba, h0, h1 => by
    simp only [ExactFrom] at hx
    obtain ⟨hs, _, _, _, hrest⟩ := hx
    obtain ⟨hpg, hpost⟩ := hg a (List.mem_cons_self _ _)
    by_cases hin : lba < a.startLba + a.lengthSectors
    · exact ⟨a, List.mem_cons_self _ _, by omega, hin⟩
    · obtain ⟨t, ht, hc⟩ := covered_of_exact_no_gaps hrest
        (fun t ht => hg t (List.mem_cons_of_mem _ ht)) lba (by omega) h1
      exact ⟨t, List.mem_cons_of_mem _ ht, hc⟩

/-- C10, as the code has it: for a disc built from a sheet whose resolved lengths
are all non-negative, whose timeline fits in `int32_t` and whose track count fits
in `int`, and every `lba` with `0 <= lba < totalSectors`, `readSector(lba)` fails
with `TrackNotFound` exactly when `lba` lies in no track's range
`[startLba, endLba)`, that is in a pregap or postgap; when no track has a pregap
or postgap every in-range LBA is owned by a track and `readSector` does not fail
with `TrackNotFound`. -/
theorem readSector_trackNotFound_iff_gap (fs : FileSystem) (sheet : CueSheet) (d : Disc)
    (h : Disc.fromSheet fs sheet = .ok d)
    (hcount : d.tracks.length < 2147483648)
    (hlen : ∀ t ∈ d.tracks, 0 ≤ t.lengthSectors)
    (hfit : timelineSum d.tracks < 2147483648)
    (disk : DiskContents) (streams : List StreamState) (lba : Int)
    (h0 : 0 ≤ lba) (h1 : lba < d.totalSectors) :
    ((d.readSector disk streams lba).1 = .error .TrackNotFound
        ↔ ∀ t ∈ d.tracks, ¬ (t.startLba ≤ lba ∧ lba < t.endLba))
    ∧ ((∀ t ∈ d.tracks, t.pregapSectors = 0 ∧ t.postgapSectors = 0) →
        (∃ t ∈ d.tracks, t.startLba ≤ lba ∧ lba < t.endLba)
        ∧ (d.readSector disk streams lba).1 ≠ .error .TrackNotFound) := by
  obtain ⟨hx, htot⟩ := exactFrom_fromSheet h hlen hfit
  have hfit1 : d.totalSectors < 2147483648 := by rw [htot]; exact hfit
  obtain ⟨hs, hd⟩ := contiguous_of_exact hx hfit1
  have hiff : (d.readSector disk streams lba).1 = .error .TrackNotFound
      ↔ ∀ t ∈ d.tracks, ¬ (t.startLba ≤ lba ∧ lba < t.endLba) := by
    rw [readSector_trackNotFound_iff d disk streams lba h0 h1]
    exact findTrack_eq_none_iff d lba hcount hs (List.Pairwise.chain' hd)
  refine ⟨hiff, ?_⟩
  intro hg
  obtain ⟨t, ht, hts, hte⟩ := covered_of_exact_no_gaps hx hg lba h0 h1
  have hcov : ∃ t ∈ d.tracks, t.startLba ≤ lba ∧ lba < t.endLba :=
    ⟨t, ht, hts, by rw [endLba_eq_of_exact hx (le_refl 0) hfit1 ht]; exact hte⟩
  refine ⟨hcov, fun hnf => ?_⟩
  obtain ⟨u, hu, hc⟩ := hcov
  exact (hiff.1 hnf) u hu hc

/-- Witness of `readSector_trackNotFound_iff_gap` on the fixture `multiTrack.cue`:
LBA 124700, in the pregap of track 3, is in range and in no track's range. -/
theorem readSector_trackNotFound_iff_gap_witness :
    Disc.fromSheet multiTrackFs multiTrackSheet = .ok multiTrackDisc
    ∧ multiTrackDisc.tracks.length < 2147483648
    ∧ (∀ t ∈ multiTrackDisc.tracks, 0 ≤ t.lengthSectors)
    ∧ timelineSum multiTrackDisc.tracks < 2147483648
    ∧ (0 : Int) ≤ 124700 ∧ 124700 < multiTrackDisc.totalSectors
    ∧ ((multiTrackDisc.readSector emptyDisk multiTrackDisc.freshStreams 124700).1
          = .error .TrackNotFound
        ↔ ∀ t ∈ multiTrackDisc.tracks, ¬ (t.startLba ≤ 124700 ∧ 124700 < t.endLba)) :=
  ⟨by decide, by decide, by decide, by decide, by decide, by decide,
    (readSector_trackNotFound_iff_gap multiTrackFs multiTrackSheet multiTrackDisc
      (by decide) (by decide) (by decide) (by decide) emptyDisk
      multiTrackDisc.freshStreams 124700 (by decide) (by decide)).1⟩

/-- C10 fails as stated: on the disc of the fixture `multiTrack.cue` the LBA
124700 is in range (`0 <= 124700 < 126000`) and lies in the pregap of track 3,
which no track owns; `readSector(124700)` fails with `TrackNotFound`, whatever
the backing files hold and whatever the state of the streams. -/
theorem trackNotFound_in_pregap_counterexample :
    multiTrackSheet.wellFormed = true
    ∧ Disc.fromSheet multiTrackFs multiTrackSheet = .ok multiTrackDisc
    ∧ (0 : Int) ≤ 124700 ∧ 124700 < multiTrackDisc.totalSectors
    ∧ multiTrackDisc.findTrack 124700 = none
    ∧ ∀ (disk : DiskContents) (streams : List StreamState),
        (multiTrackDisc.readSector disk streams 124700).1 = .error .TrackNotFound := by
  refine ⟨by decide, by decide, by decide, by decide, by decide, ?_⟩
  intro disk streams
  exact (readSector_trackNotFound_iff multiTrackDisc disk streams 124700
    (by decide) (by decide)).2 (by decide)

/-! ## `readSector`: the bytes read -/

theorem sectorBuffer_length {got : List Byte} (h : got.length ≤ 2352) :
    (sectorBuffer got).length = 2352 := by
  simp only [sectorBuffer, RAW_SECTOR_SIZE, List.length_append, List.length_replicate]
  omega

theorem sectorBuffer_take {got : List Byte} : (sectorBuffer got).take got.length = got := by
  simp [sectorBuffer]

theorem sectorBuffer_zero {got : List Byte} {i : Nat} (h1 : got.length ≤ i) (h2 : i < 2352) :
    (sectorBuffer got)[i]? = some 0 := by
  simp only [sectorBuffer, RAW_SECTOR_SIZE]
  rw [List.getElem?_append_right h1]
  rw [List.getElem?_replicate]
  rw [if_pos (by omega)]

theorem streamOpen_of_ready {file : BackingFile} {s : StreamState}
    (h : streamReady file s = true) :
    (streamOpen file s).isOpen = true ∧ (streamOpen file s).failed = false := by
  simpa [streamReady] using h

/-- The read of an in-range LBA owned by track `t` through a usable stream, after
an accepted seek: what `readSector` returns in terms of the bytes the file holds
from the computed offset. -/
theorem readSector_of_ready (d : Disc) (disk : DiskContents) (streams : List StreamState)
    (lba : Int) (t : Track) (fh : FileHandle) (s : StreamState)
    (h0 : 0 ≤ lba) (h1 : lba < d.totalSectors)
    (hown : d.findTrack lba = some t)
    (hfh : d.fileHandles[t.fileIndex]? = some fh)
    (hs : streams[t.fileIndex]? = some s)
    (hready : streamReady (disk fh.path) s = true)
    (hseek : (disk fh.path).seekable (sectorOffset t lba) = true) :
    d.readSector disk streams lba
      = if (((disk fh.path).bytes.drop (sectorOffset t lba).toNat).take (readSizeOf t)).length
            < readSizeOf t then
          if (((disk fh.path).bytes.drop (sectorOffset t lba).toNat).take (readSizeOf t)).length
              = 0 then
            (.error .FileReadError,
              streams.set t.fileIndex { streamOpen (disk fh.path) s with failed := true })
          else
            (.ok { data := sectorBuffer
                    (((disk fh.path).bytes.drop (sectorOffset t lba).toNat).take (readSizeOf t)),
                   mode := t.mode },
              streams.set t.fileIndex (streamOpen (disk fh.path) s))
        else
          (.ok { data := sectorBuffer
                  (((disk fh.path).bytes.drop (sectorOffset t lba).toNat).take (readSizeOf t)),
                 mode := t.mode },
            streams.set t.fileIndex (streamOpen (disk fh.path) s)) := by
  obtain ⟨hopen, hfail⟩ := streamOpen_of_ready hready
  have hc : ¬ (lba < 0 ∨ lba ≥ d.totalSectors) := by omega
  have hs1 : ∀ (x : StreamState), x.failed = false → ({ x with failed := false } : StreamState) = x := by
    intro x hx; cases x; simp_all
  unfold Disc.readSector
  rw [if_neg hc]
  simp only [hown, hfh, hs, hopen, Bool.not_true, Bool.false_eq_true, if_false]
  have hseek' : streamSeek (disk fh.path) (streamOpen (disk fh.path) s) (sectorOffset t lba)
      = streamOpen (disk fh.path) s := by
    unfold streamSeek
    rw [hfail]
    simp [hseek]
  unfold sectorOffset at hseek'
  unfold sectorOffset readSizeOf
  simp only [hseek', hfail, Bool.false_eq_true, if_false, streamRead]
  split
  · simp only [if_true]
    split
    · simp [hopen]
    · simp [hs1 _ hfail]
  · simp [hfail]

/-- The content of a read through a usable stream (the file opens and `failbit`
is clear): for an in-range `lba` owned by track `t` (the track `findTrack`
returns) whose backing file holds at least `n = min(t.sectorSize, 2352)` bytes at
offset `o = t.fileByteOffset + (lba - t.fileStartLba) * t.sectorSize`, after an
accepted seek, `readSector(lba)` succeeds with a 2352-byte buffer whose first `n`
bytes are the file bytes `[o, o+n)`, whose bytes `[n, 2352)` are all zero
whatever the file contains after `o+n`, and whose mode is `t.mode`.  Through a
stream with `failbit` set the read fails instead (`readSector_of_failed`). -/
theorem readSector_content (d : Disc) (disk : DiskContents) (streams : List StreamState)
    (lba : Int) (t : Track) (fh : FileHandle) (s : StreamState)
    (h0 : 0 ≤ lba) (h1 : lba < d.totalSectors)
    (hown : d.findTrack lba = some t)
    (hfh : d.fileHandles[t.fileIndex]? = some fh)
    (hs : streams[t.fileIndex]? = some s)
    (hready : streamReady (disk fh.path) s = true)
    (ho : 0 ≤ sectorOffset t lba)
    (hseek : (disk fh.path).seekable (sectorOffset t lba) = true)
    (hbytes : (sectorOffset t lba).toNat + readSizeOf t ≤ (disk fh.path).bytes.length) :
    (inInt32 (lba - t.fileStartLba) →
        sectorOffset t lba = t.fileByteOffset + (lba - t.fileStartLba) * (t.sectorSize : Int))
    ∧ readSizeOf t = min t.sectorSize 2352
    ∧ ∃ sector, (d.readSector disk streams lba).1 = .ok sector
      ∧ sector.mode = t.mode
      ∧ sector.data.length = 2352
      ∧ sector.data.take (readSizeOf t)
          = ((disk fh.path).bytes.drop (sectorOffset t lba).toNat).take (readSizeOf t)
      ∧ ∀ i, readSizeOf t ≤ i → i < 2352 → sector.data[i]? = some 0 := by
  refine ⟨fun hfit => by unfold sectorOffset sub32; rw [wrap32_of_inInt32 hfit], rfl, ?_⟩
  have _ := ho
  have hlen : (((disk fh.path).bytes.drop (sectorOffset t lba).toNat).take
      (readSizeOf t)).length = readSizeOf t := by
    rw [List.length_take, List.length_drop]
    omega
  have hn : readSizeOf t ≤ 2352 := by
    unfold readSizeOf RAW_SECTOR_SIZE
    omega
  rw [readSector_of_ready d disk streams lba t fh s h0 h1 hown hfh hs hready hseek]
  rw [if_neg (by omega)]
  refine ⟨_, rfl, rfl, sectorBuffer_length (by omega), ?_, ?_⟩
  · have := @sectorBuffer_take
      (((disk fh.path).bytes.drop (sectorOffset t lba).toNat).take (readSizeOf t))
    rw [hlen] at this
    exact this
  · intro i hi1 hi2
    exact sectorBuffer_zero (by omega) hi2

theorem filledDisk_bytes (n : Nat) (path : String) :
    (filledDisk n path).bytes = List.replicate n (170 : Byte) := rfl

theorem filledDisk_length (n : Nat) (path : String) :
    (filledDisk n path).bytes.length = n := by
  rw [filledDisk_bytes, List.length_replicate]

/-- Witness of `readSector_content`: sector 1 of a 3-sector `MODE1/2048` track is
read from bytes 2048..4095 of the file and padded with zeros to 2352 bytes. -/
theorem readSector_content_witness :
    ∃ sector, (smallDataDisc.readSector (filledDisk 6144) smallDataDisc.freshStreams 1).1
        = .ok sector
      ∧ sector.mode = .Mode1_2048
      ∧ sector.data.length = 2352
      ∧ ∀ i, 2048 ≤ i → i < 2352 → sector.data[i]? = some 0 := by
  obtain ⟨_, _, sector, h1, h2, h3, _, h5⟩ :=
    readSector_content smallDataDisc (filledDisk 6144) smallDataDisc.freshStreams 1
      { number := 1, mode := .Mode1_2048, sectorSize := 2048, startLba := 0,
        lengthSectors := 3, pregapSectors := 0, postgapSectors := 0,
        indices := [⟨1, ⟨0, 0, 0⟩⟩], title := none, performer := none, isrc := none,
        fileIndex := 0, fileByteOffset := 0, fileStartLba := 0 }
      ⟨"data.bin", 6144⟩ StreamState.fresh
      (by decide) (by decide) (by decide) (by decide) (by decide) (by decide) (by decide)
      (by decide) (by rw [filledDisk_length]; decide)
  exact ⟨sector, h1, h2, h3, h5⟩

/-- Short reads through a usable stream (the file opens and `failbit` is clear):
for an in-range `lba` owned by track `t`, after an accepted seek to the computed
offset `o`: when the backing file holds only `k` bytes from `o` with
`0 < k < min(sectorSize, 2352)`, `readSector` succeeds and returns those `k` file
bytes followed by zeros up to 2352; when the file holds 0 bytes at `o`,
`readSector` fails with `FileReadError`.  Through a stream with `failbit` set
both reads fail with `FileSeekError` instead (`readSector_of_failed`). -/
theorem readSector_short_read (d : Disc) (disk : DiskContents) (streams : List StreamState)
    (lba : Int) (t : Track) (fh : FileHandle) (s : StreamState)
    (h0 : 0 ≤ lba) (h1 : lba < d.totalSectors)
    (hown : d.findTrack lba = some t)
    (hfh : d.fileHandles[t.fileIndex]? = some fh)
    (hs : streams[t.fileIndex]? = some s)
    (hready : streamReady (disk fh.path) s = true)
    (hss : 0 < t.sectorSize)
    (hseek : (disk fh.path).seekable (sectorOffset t lba) = true) :
    (∀ k, 0 < k → k < readSizeOf t →
        (disk fh.path).bytes.length = (sectorOffset t lba).toNat + k →
        ∃ sector, (d.readSector disk streams lba).1 = .ok sector
          ∧ sector.mode = t.mode
          ∧ sector.data
              = (disk fh.path).bytes.drop (sectorOffset t lba).toNat
                  ++ List.replicate (2352 - k) (0 : Byte)
          ∧ ((disk fh.path).bytes.drop (sectorOffset t lba).toNat).length = k
          ∧ sector.data.length = 2352)
    ∧ ((disk fh.path).bytes.length ≤ (sectorOffset t lba).toNat →
        (d.readSector disk streams lba).1 = .error .FileReadError) := by
  have hn : readSizeOf t ≤ 2352 := by
    unfold readSizeOf RAW_SECTOR_SIZE
    omega
  have hpos : 0 < readSizeOf t := by
    unfold readSizeOf RAW_SECTOR_SIZE
    omega
  rw [readSector_of_ready d disk streams lba t fh s h0 h1 hown hfh hs hready hseek]
  constructor
  · intro k hk0 hk1 hlen
    have hdrop : ((disk fh.path).bytes.drop (sectorOffset t lba).toNat).length = k := by
      rw [List.length_drop]; omega
    have htake : ((disk fh.path).bytes.drop (sectorOffset t lba).toNat).take (readSizeOf t)
        = (disk fh.path).bytes.drop (sectorOffset t lba).toNat :=
      List.take_of_length_le (by omega)
    rw [htake, if_pos (by omega), if_neg (by omega)]
    refine ⟨_, rfl, rfl, ?_, hdrop, ?_⟩
    · simp only [sectorBuffer, hdrop, RAW_SECTOR_SIZE]
    · exact sectorBuffer_length (by omega)
  · intro hlen
    have hzero : (((disk fh.path).bytes.drop (sectorOffset t lba).toNat).take
        (readSizeOf t)).length = 0 := by
      rw [List.length_take, List.length_drop]
      omega
    rw [hzero, if_pos hpos, if_pos rfl]

/-- Witness of `readSector_short_read`: with only 3000 bytes in the file, sector 1
of the `MODE1/2048` track holds the 952 bytes from offset 2048 followed by zeros,
and sector 2, at offset 4096, fails with `FileReadError`. -/
theorem readSector_short_read_witness :
    (∃ sector, (smallDataDisc.readSector (filledDisk 3000) smallDataDisc.freshStreams 1).1
        = .ok sector
      ∧ sector.data = List.replicate 952 (170 : Byte) ++ List.replicate 1400 (0 : Byte))
    ∧ (smallDataDisc.readSector (filledDisk 3000) smallDataDisc.freshStreams 2).1
        = .error .FileReadError := by
  constructor
  · obtain ⟨sector, h1, _, h3, _, _⟩ :=
      (readSector_short_read smallDataDisc (filledDisk 3000) smallDataDisc.freshStreams 1
        { number := 1, mode := .Mode1_2048, sectorSize := 2048, startLba := 0,
          lengthSectors := 3, pregapSectors := 0, postgapSectors := 0,
          indices := [⟨1, ⟨0, 0, 0⟩⟩], title := none, performer := none, isrc := none,
          fileIndex := 0, fileByteOffset := 0, fileStartLba := 0 }
        ⟨"data.bin", 6144⟩ StreamState.fresh
        (by decide) (by decide) (by decide) (by decide) (by decide) (by decide) (by decide)
        (by decide)).1 952 (by decide) (by decide)
        (by rw [filledDisk_length]; decide)
    refine ⟨sector, h1, ?_⟩
    rw [h3, filledDisk_bytes, List.drop_replicate]
    have ho : (sectorOffset
        { number := 1, mode := .Mode1_2048, sectorSize := 2048, startLba := 0,
          lengthSectors := 3, pregapSectors := 0, postgapSectors := 0,
          indices := [⟨1, ⟨0, 0, 0⟩⟩], title := none, performer := none, isrc := none,
          fileIndex := 0, fileByteOffset := 0, fileStartLba := 0 } 1).toNat = 2048 := by decide
    rw [ho]
  · exact (readSector_short_read smallDataDisc (filledDisk 3000) smallDataDisc.freshStreams 2
        { number := 1, mode := .Mode1_2048, sectorSize := 2048, startLba := 0,
          lengthSectors := 3, pregapSectors := 0, postgapSectors := 0,
          indices := [⟨1, ⟨0, 0, 0⟩⟩], title := none, performer := none, isrc := none,
          fileIndex := 0, fileByteOffset := 0, fileStartLba := 0 }
        ⟨"data.bin", 6144⟩ StreamState.fresh
        (by decide) (by decide) (by decide) (by decide) (by decide) (by decide) (by decide)
        (by decide)).2 (by rw [filledDisk_length]; decide)

/-! ## The trailing partial sector of a file -/

theorem readSector_of_outOfRange (d : Disc) (disk : DiskContents)
    (streams : List StreamState) (lba : Int) (h : lba < 0 ∨ d.totalSectors ≤ lba) :
    d.readSector disk streams lba = (.error .LBAOutOfRange, streams) := by
  unfold Disc.readSector
  rw [if_pos h]

/-- The length of the last track of a file, when the file reaches the track's
Index 1 offset: the number of whole sectors of the file after that offset. -/
theorem lastTrack_lengthSectors {fs : FileSystem} {sheet : CueSheet} {d : Disc}
    (h : Disc.fromSheet fs sheet = .ok d)
    {fi ti : Nat} {f : CueFile} {ct : CueTrack} {size : Nat} {p : MSF}
    (hf : sheet.files[fi]? = some f) (hct : f.tracks[ti]? = some ct)
    (hlast : ti + 1 = f.tracks.length)
    (hsize : fs f.filename = .sized size)
    (hu : (ct.indices.map (fun i => i.number)).Nodup)
    (hp : (⟨1, p⟩ : CueIndex) ∈ ct.indices)
    (hge : p.toLba * (sectorSizeForMode ct.mode : Int) ≤ (size : Int))
    (hq : inInt32 ((size : Int) / (sectorSizeForMode ct.mode : Int) - p.toLba)) :
    ∃ t, d.tracks[trackPosition sheet.files fi ti]? = some t
      ∧ t.sectorSize = sectorSizeForMode ct.mode
      ∧ t.lengthSectors = (size : Int) / (sectorSizeForMode ct.mode : Int) - p.toLba := by
  obtain ⟨n, c1, hn, hh, ht⟩ := fromSheet_getElem? h hf hct
  rw [hsize] at hn
  cases hn
  have hnone : f.tracks[ti + 1]? = none := List.getElem?_eq_none (by omega)
  rw [hnone] at ht
  refine ⟨_, ht, rfl, ?_⟩
  simp only [resolveTrack_lengthSectors, trackSectors, fileSizeAt, hh,
    index01Offset_of_mem hu hp]
  have hp0 := p.toLba_nonneg
  have hp1 := p.toLba_le
  unfold inInt32 at hq
  have hquot : ((size : Int) - p.toLba * (sectorSizeForMode ct.mode : Int))
      / (sectorSizeForMode ct.mode : Int)
      = (size : Int) / (sectorSizeForMode ct.mode : Int) - p.toLba := by
    rcases sectorSizeForMode_cases ct.mode with e | e | e | e <;> rw [e] <;> push_cast <;> omega
  have h1 : wrap64 (size : Int) = size := by
    rcases sectorSizeForMode_cases ct.mode with e | e | e | e <;> rw [e] at hq <;>
      push_cast at hq <;> unfold wrap64 <;> omega
  have h2 : wrap64 ((size : Int) - p.toLba * (sectorSizeForMode ct.mode : Int))
      = (size : Int) - p.toLba * (sectorSizeForMode ct.mode : Int) := by
    rcases sectorSizeForMode_cases ct.mode with e | e | e | e <;> rw [e] at hq hge ⊢ <;>
      push_cast at hq hge ⊢ <;> unfold wrap64 <;> omega
  have hdiv : Int.tdiv ((size : Int) - p.toLba * (sectorSizeForMode ct.mode : Int))
      (sectorSizeForMode ct.mode : Int)
      = ((size : Int) - p.toLba * (sectorSizeForMode ct.mode : Int))
          / (sectorSizeForMode ct.mode : Int) :=
    Int.tdiv_eq_ediv (by omega) (Int.ofNat_nonneg _)
  rw [h1, h2, hdiv, hquot]
  exact wrap32_of_inInt32 ⟨hq.1, hq.2⟩

theorem ChainFrom.inInt32_start : ∀ {ts : List Track} {c c1 : Int} {t : Track},
    ChainFrom c ts c1 → t ∈ ts → inInt32 t.startLba
  | [], _, _, _, _, ht => by simp at ht
  | a :: ts, c, c1, t, h, ht => by
    simp only [ChainFrom] at h
    rcases List.mem_cons.1 ht with rfl | ht
    · rw [h.1]; exact inInt32_wrap32 _
    · exact ChainFrom.inInt32_start h.2.2.2.2 ht

theorem ChainFrom.end_eq_getElem? {ts : List Track} {c c1 : Int} {t : Track} {k : Nat}
    (h : ChainFrom c ts c1) (hk : ts[k]? = some t) (hlast : k + 1 = ts.length) :
    c1 = wrap32 (t.startLba + t.lengthSectors + t.postgapSectors) := by
  apply h.end_eq_last
  rw [List.getLast?_eq_getElem?]
  have : ts.length - 1 = k := by omega
  rw [this]
  exact hk

/-- C13, as the code has it.  Let a disc be built from a sheet and let `ct` be
the last track declared in one of its files, with pairwise distinct index
numbers and an Index 1 at timecode `p`, over a file of `size` bytes that reaches
the byte offset of that Index 1 (`p.toLba * sectorSize ≤ size`) and whose number
of whole sectors after it, `size / sectorSize - p.toLba`, fits in `int32_t`.
Then the resolved track `t` has `lengthSectors = size / sectorSize - p.toLba`,
whole sectors only, so the trailing partial sector of the file (sector index
`floor(size / sectorSize)` of the file, LBA
`t.startLba + (size / sectorSize - p.toLba)`) is outside the track's range
`[startLba, endLba)`.  When moreover `t` is the last track of the disc, has no
postgap, and `t.startLba + t.lengthSectors` fits in `int32_t`, that LBA is
`totalSectors` and `readSector` fails there with `LBAOutOfRange`, whatever the
file holds and whatever the state of the streams. -/
theorem trailing_partial_sector_out_of_range (fs : FileSystem) (sheet : CueSheet) (d : Disc)
    (h : Disc.fromSheet fs sheet = .ok d)
    (fi ti : Nat) (f : CueFile) (ct : CueTrack) (size : Nat) (p : MSF)
    (hf : sheet.files[fi]? = some f) (hct : f.tracks[ti]? = some ct)
    (hlast : ti + 1 = f.tracks.length)
    (hsize : fs f.filename = .sized size)
    (hu : (ct.indices.map (fun i => i.number)).Nodup)
    (hp : (⟨1, p⟩ : CueIndex) ∈ ct.indices)
    (hge : p.toLba * (sectorSizeForMode ct.mode : Int) ≤ (size : Int))
    (hq : inInt32 ((size : Int) / (sectorSizeForMode ct.mode : Int) - p.toLba)) :
    ∃ t, d.tracks[trackPosition sheet.files fi ti]? = some t
      ∧ t.sectorSize = sectorSizeForMode ct.mode
      ∧ t.lengthSectors = (size : Int) / (sectorSizeForMode ct.mode : Int) - p.toLba
      ∧ ¬ (t.startLba ≤ t.startLba + ((size : Int) / (sectorSizeForMode ct.mode : Int) - p.toLba)
            ∧ t.startLba + ((size : Int) / (sectorSizeForMode ct.mode : Int) - p.toLba)
                < t.endLba)
      ∧ (trackPosition sheet.files fi ti + 1 = d.tracks.length → t.postgapSectors = 0 →
          inInt32 (t.startLba + t.lengthSectors) →
          d.totalSectors
              = t.startLba + ((size : Int) / (sectorSizeForMode ct.mode : Int) - p.toLba)
          ∧ ∀ (disk : DiskContents) (streams : List StreamState),
              d.readSector disk streams
                  (t.startLba + ((size : Int) / (sectorSizeForMode ct.mode : Int) - p.toLba))
                = (.error .LBAOutOfRange, streams)) := by
  obtain ⟨t, ht, hss, hl⟩ := lastTrack_lengthSectors h hf hct hlast hsize hu hp hge hq
  refine ⟨t, ht, hss, hl, ?_, ?_⟩
  · rw [← hl]
    have hnn : 0 ≤ t.lengthSectors := by
      rw [hl]
      have hp0 := p.toLba_nonneg
      rcases sectorSizeForMode_cases ct.mode with e | e | e | e <;> rw [e] at hge ⊢ <;>
        push_cast at hge ⊢ <;> omega
    have hstart := (chainFrom_fromSheet h).inInt32_start (List.getElem?_mem ht)
    unfold inInt32 at hstart
    unfold Track.endLba add32 wrap32
    omega
  · intro hpos hpost hfit
    have htot := (chainFrom_fromSheet h).end_eq_getElem? ht hpos
    rw [hpost, add_zero, wrap32_of_inInt32 hfit, hl] at htot
    refine ⟨htot, fun disk streams => ?_⟩
    exact readSector_of_outOfRange d disk streams _ (Or.inr (by rw [htot]))

/-- Witness of `trailing_partial_sector_out_of_range`: a file of 6244 bytes under
one `MODE1/2048` track gives 3 sectors, and LBA 3 is `totalSectors`. -/
theorem trailing_partial_sector_out_of_range_witness :
    Disc.fromSheet partialTailFs smallDataSheet = .ok partialTailDisc
    ∧ ∃ t, partialTailDisc.tracks[0]? = some t ∧ t.lengthSectors = 3 := by
  refine ⟨by decide, ?_⟩
  obtain ⟨t, ht, _, hl, _⟩ :=
    trailing_partial_sector_out_of_range partialTailFs smallDataSheet partialTailDisc
      (by decide) 0 0
      ⟨"data.bin", .Binary, [exampleTrack 1 .Mode1_2048 [⟨1, ⟨0, 0, 0⟩⟩] none none]⟩
      (exampleTrack 1 .Mode1_2048 [⟨1, ⟨0, 0, 0⟩⟩] none none) 6244 ⟨0, 0, 0⟩
      (by decide) (by decide) (by decide) (by decide) (by decide) (by decide) (by decide)
      (by decide)
  exact ⟨t, ht, by rw [hl]; decide⟩

/-- C13 fails as stated: over a file of 6244 bytes (3 sectors of 2048 bytes and
100 bytes more) the sheet `smallDataSheet` resolves to one track of 3 sectors and
`totalSectors = 3`; the trailing partial sector has index `6244 / 2048 = 3`, and
`readSector(3)` fails with `LBAOutOfRange` although the file holds those 100
bytes. -/
theorem trailing_partial_sector_counterexample :
    smallDataSheet.wellFormed = true
    ∧ Disc.fromSheet partialTailFs smallDataSheet = .ok partialTailDisc
    ∧ (6244 % 2048 ≠ 0 ∧ 6244 / 2048 = 3)
    ∧ partialTailDisc.totalSectors = 3
    ∧ ((filledDisk 6244) "data.bin").bytes.length = 6244
    ∧ (partialTailDisc.readSector (filledDisk 6244) partialTailDisc.freshStreams 3).1
        = .error .LBAOutOfRange := by
  refine ⟨by decide, by decide, by decide, by decide, filledDisk_length _ _, ?_⟩
  rw [readSector_of_outOfRange _ _ _ _ (Or.inr (by decide))]

/-! ## `readSector`: the state of the stream after a failed read -/

/-- A read through a stream that is open and has `failbit` set: `seekg` does
nothing and `readSector` returns `FileSeekError`. -/
theorem readSector_of_failed (d : Disc) (disk : DiskContents) (streams : List StreamState)
    (lba : Int) (t : Track) (fh : FileHandle) (s : StreamState)
    (h0 : 0 ≤ lba) (h1 : lba < d.totalSectors)
    (hown : d.findTrack lba = some t)
    (hfh : d.fileHandles[t.fileIndex]? = some fh)
    (hs : streams[t.fileIndex]? = some s)
    (hopen : (streamOpen (disk fh.path) s).isOpen = true)
    (hfail : (streamOpen (disk fh.path) s).failed = true) :
    d.readSector disk streams lba
      = (.error .FileSeekError, streams.set t.fileIndex (streamOpen (disk fh.path) s)) := by
  have hc : ¬ (lba < 0 ∨ lba ≥ d.totalSectors) := by omega
  unfold Disc.readSector
  rw [if_neg hc]
  simp only [hown, hfh, hs, hopen, Bool.not_true, Bool.false_eq_true, if_false]
  have hseek : ∀ o, streamSeek (disk fh.path) (streamOpen (disk fh.path) s) o
      = streamOpen (disk fh.path) s := by
    intro o
    unfold streamSeek
    rw [if_pos hfail]
  simp only [hseek, hfail, if_true]

/-- C14 fails on the code: `readSector` clears `failbit` only after a partial
read (disc.cpp line 265), so a read that finds no byte at its offset leaves the
stream failed and every later read of that file returns `FileSeekError`.  On
the disc built from `shortImageText` over a one-sector image, `readSector(0)`
succeeds on the fresh disc; `readSector(2)` fails with `FileReadError` (offset
4096 is past the end of the file) and leaves `failbit` set; a following
`readSector(0)` then fails with `FileSeekError`. -/
theorem failed_read_poisons_stream :
    parseString shortImageText = .ok shortImageSheet
    ∧ Disc.fromCueText shortImageFs shortImageText = .ok shortImageDisc
    ∧ (∃ sector, (shortImageDisc.readSector (filledDisk 2048) shortImageDisc.freshStreams 0).1
        = .ok sector)
    ∧ shortImageDisc.readSector (filledDisk 2048) shortImageDisc.freshStreams 2
        = (.error .FileReadError, [{ opened := true, isOpen := true, failed := true }])
    ∧ (shortImageDisc.readSector (filledDisk 2048)
          (shortImageDisc.readSector (filledDisk 2048) shortImageDisc.freshStreams 2).2 0).1
        = .error .FileSeekError := by
  have hparse : parseString shortImageText = .ok shortImageSheet := by decide
  have hdisc : Disc.fromCueText shortImageFs shortImageText = .ok shortImageDisc := by
    unfold Disc.fromCueText
    rw [hparse]
    decide
  have hread2 : shortImageDisc.readSector (filledDisk 2048) shortImageDisc.freshStreams 2
      = (.error .FileReadError, [{ opened := true, isOpen := true, failed := true }]) := by
    rw [readSector_of_ready shortImageDisc (filledDisk 2048) shortImageDisc.freshStreams 2
      { number := 1, mode := .Mode1_2048, sectorSize := 2048, startLba := 0,
        lengthSectors := 3, pregapSectors := 0, postgapSectors := 0,
        indices := [⟨1, ⟨0, 0, 0⟩⟩], title := none, performer := none, isrc := none,
        fileIndex := 0, fileByteOffset := 0, fileStartLba := 0 }
      ⟨"image.bin", 2048⟩ StreamState.fresh
      (by decide) (by decide) (by decide) (by decide) (by decide) (by decide) (by decide)]
    have hlen : ((List.drop (sectorOffset
        { number := 1, mode := .Mode1_2048, sectorSize := 2048, startLba := 0,
          lengthSectors := 3, pregapSectors := 0, postgapSectors := 0,
          indices := [⟨1, ⟨0, 0, 0⟩⟩], title := none, performer := none, isrc := none,
          fileIndex := 0, fileByteOffset := 0, fileStartLba := 0 } 2).toNat
        (filledDisk 2048 "image.bin").bytes).take (readSizeOf
        { number := 1, mode := .Mode1_2048, sectorSize := 2048, startLba := 0,
          lengthSectors := 3, pregapSectors := 0, postgapSectors := 0,
          indices := [⟨1, ⟨0, 0, 0⟩⟩], title := none, performer := none, isrc := none,
          fileIndex := 0, fileByteOffset := 0, fileStartLba := 0 })).length = 0 := by
      rw [List.length_take, List.length_drop, filledDisk_length]
      decide
    rw [hlen, if_pos (by decide), if_pos rfl]
    rfl
  refine ⟨hparse, hdisc, ?_, hread2, ?_⟩
  · rw [readSector_of_ready shortImageDisc (filledDisk 2048) shortImageDisc.freshStreams 0
      { number := 1, mode := .Mode1_2048, sectorSize := 2048, startLba := 0,
        lengthSectors := 3, pregapSectors := 0, postgapSectors := 0,
        indices := [⟨1, ⟨0, 0, 0⟩⟩], title := none, performer := none, isrc := none,
        fileIndex := 0, fileByteOffset := 0, fileStartLba := 0 }
      ⟨"image.bin", 2048⟩ StreamState.fresh
      (by decide) (by decide) (by decide) (by decide) (by decide) (by decide) (by decide)]
    have hlen : ((List.drop (sectorOffset
        { number := 1, mode := .Mode1_2048, sectorSize := 2048, startLba := 0,
          lengthSectors := 3, pregapSectors := 0, postgapSectors := 0,
          indices := [⟨1, ⟨0, 0, 0⟩⟩], title := none, performer := none, isrc := none,
          fileIndex := 0, fileByteOffset := 0, fileStartLba := 0 } 0).toNat
        (filledDisk 2048 "image.bin").bytes).take (readSizeOf
        { number := 1, mode := .Mode1_2048, sectorSize := 2048, startLba := 0,
          lengthSectors := 3, pregapSectors := 0, postgapSectors := 0,
          indices := [⟨1, ⟨0, 0, 0⟩⟩], title := none, performer := none, isrc := none,
          fileIndex := 0, fileByteOffset := 0, fileStartLba := 0 })).length = 2048 := by
      rw [List.length_take, List.length_drop, filledDisk_length]
      decide
    rw [hlen, if_neg (by decide)]
    exact ⟨_, rfl⟩
  · rw [hread2]
    rw [readSector_of_failed shortImageDisc (filledDisk 2048) _ 0
      { number := 1, mode := .Mode1_2048, sectorSize := 2048, startLba := 0,
        lengthSectors := 3, pregapSectors := 0, postgapSectors := 0,
        indices := [⟨1, ⟨0, 0, 0⟩⟩], title := none, performer := none, isrc := none,
        fileIndex := 0, fileByteOffset := 0, fileStartLba := 0 }
      ⟨"image.bin", 2048⟩ { opened := true, isOpen := true, failed := true }
      (by decide) (by decide) (by decide) (by decide) (by decide) (by decide) (by decide)]

/-! ## `readSectors` -/

theorem readSector_ne_invalidArgument (d : Disc) (disk : DiskContents)
    (streams : List StreamState) (lba : Int) :
    (d.readSector disk streams lba).1 ≠ .error .InvalidArgument := by
  intro h
  unfold Disc.readSector at h
  split at h
  · cases h
  · split at h
    · cases h
    · split at h
      · simp only at h
        split at h
        · cases h
        · split at h
          · cases h
          · split at h
            · split at h
              · cases h
              · cases h
            · cases h
      · cases h

theorem readSectorsLoop_ne_invalidArgument (d : Disc) (disk : DiskContents) (lba : Int) :
    ∀ (n : Nat) (i : Int) (streams : List StreamState),
      (d.readSectorsLoop disk lba n i streams).1 ≠ .error .InvalidArgument
  | 0, _, _ => by simp [Disc.readSectorsLoop]
  | n + 1, i, streams => by
    intro h
    unfold Disc.readSectorsLoop at h
    split at h
    · next e st1 hr =>
      simp only at h
      cases h
      have := readSector_ne_invalidArgument d disk streams (add32 lba i)
      rw [hr] at this
      exact this rfl
    · next sector st1 hr =>
      split at h
      · next e st2 hr2 =>
        simp only at h
        cases h
        have := readSectorsLoop_ne_invalidArgument d disk lba n (i + 1) st1
        rw [hr2] at this
        exact this rfl
      · cases h

/-- C15: `readSectors(lba, count)` fails with `InvalidArgument` if and only if
`count <= 0`; the count check comes first, so `count <= 0` gives
`InvalidArgument` for every `lba` without any read (the streams are left as they
were), and for `count > 0` the result is never `InvalidArgument`. -/
theorem readSectors_invalidArgument_iff (d : Disc) (disk : DiskContents)
    (streams : List StreamState) (lba count : Int) :
    ((d.readSectors disk streams lba count).1 = .error .InvalidArgument ↔ count ≤ 0)
    ∧ (count ≤ 0 → d.readSectors disk streams lba count = (.error .InvalidArgument, streams))
    ∧ (0 < count → (d.readSectors disk streams lba count).1 ≠ .error .InvalidArgument) := by
  have hpos : 0 < count → (d.readSectors disk streams lba count).1 ≠ .error .InvalidArgument := by
    intro hc
    unfold Disc.readSectors
    rw [if_neg (by omega)]
    exact readSectorsLoop_ne_invalidArgument d disk lba _ _ _
  have hneg : count ≤ 0 →
      d.readSectors disk streams lba count = (.error .InvalidArgument, streams) := by
    intro hc
    unfold Disc.readSectors
    rw [if_pos hc]
  refine ⟨⟨fun h => ?_, fun hc => by rw [hneg hc]⟩, hneg, hpos⟩
  by_contra hc
  exact hpos (by omega) h

/-- The computation of `readSector` for an in-range LBA whose track, file handle
and stream exist, in terms of the stream `s1` the lazy open leaves and the bytes
`got` the file holds from the computed offset. -/
theorem readSector_eq_of_track (d : Disc) (disk : DiskContents) (streams : List StreamState)
    (lba : Int) (t : Track) (fh : FileHandle) (s : StreamState)
    (hc : ¬ (lba < 0 ∨ lba ≥ d.totalSectors))
    (hown : d.findTrack lba = some t)
    (hfh : d.fileHandles[t.fileIndex]? = some fh)
    (hs : streams[t.fileIndex]? = some s) :
    d.readSector disk streams lba
      = if (streamOpen (disk fh.path) s).isOpen = false then
          (.error .FileReadError, streams.set t.fileIndex (streamOpen (disk fh.path) s))
        else if (streamOpen (disk fh.path) s).failed = true
            ∨ (disk fh.path).seekable (sectorOffset t lba) = false then
          (.error .FileSeekError,
            streams.set t.fileIndex { streamOpen (disk fh.path) s with failed := true })
        else if (((disk fh.path).bytes.drop (sectorOffset t lba).toNat).take
            (readSizeOf t)).length < readSizeOf t then
          if (((disk fh.path).bytes.drop (sectorOffset t lba).toNat).take
              (readSizeOf t)).length = 0 then
            (.error .FileReadError,
              streams.set t.fileIndex { streamOpen (disk fh.path) s with failed := true })
          else
            (.ok { data := sectorBuffer
                    (((disk fh.path).bytes.drop (sectorOffset t lba).toNat).take (readSizeOf t)),
                   mode := t.mode },
              streams.set t.fileIndex (streamOpen (disk fh.path) s))
        else
          (.ok { data := sectorBuffer
                  (((disk fh.path).bytes.drop (sectorOffset t lba).toNat).take (readSizeOf t)),
                 mode := t.mode },
            streams.set t.fileIndex (streamOpen (disk fh.path) s)) := by
  have heta : ∀ (x : StreamState), x.failed = true →
      ({ x with failed := true } : StreamState) = x := by
    intro x hx; cases x; simp_all
  by_cases hopen : (streamOpen (disk fh.path) s).isOpen = false
  · rw [if_pos hopen]
    unfold Disc.readSector
    rw [if_neg hc]
    simp only [hown, hfh, hs, hopen, Bool.not_false, if_true]
  · rw [if_neg hopen]
    have hopen1 : (streamOpen (disk fh.path) s).isOpen = true := by
      simpa using hopen
    by_cases hfail : (streamOpen (disk fh.path) s).failed = true
    · rw [if_pos (Or.inl hfail), heta _ hfail]
      exact readSector_of_failed d disk streams lba t fh s (by omega) (by omega) hown hfh hs
        hopen1 hfail
    · have hfail1 : (streamOpen (disk fh.path) s).failed = false := by simpa using hfail
      by_cases hseek : (disk fh.path).seekable (sectorOffset t lba) = false
      · rw [if_pos (Or.inr hseek)]
        unfold Disc.readSector
        rw [if_neg hc]
        simp only [hown, hfh, hs, hopen1, Bool.not_true, Bool.false_eq_true, if_false]
        have hs2 : streamSeek (disk fh.path) (streamOpen (disk fh.path) s)
            (t.fileByteOffset + sub32 lba t.fileStartLba * (t.sectorSize : Int))
            = { streamOpen (disk fh.path) s with failed := true } := by
          unfold streamSeek
          unfold sectorOffset at hseek
          rw [hfail1, hseek]
          simp
        simp only [hs2, if_true]
        rw [hopen1]
      · have hseek1 : (disk fh.path).seekable (sectorOffset t lba) = true := by simpa using hseek
        rw [if_neg (by simp [hfail1, hseek1])]
        exact readSector_of_ready d disk streams lba t fh s (by omega) (by omega) hown hfh hs
          (by simp [streamReady, hopen1, hfail1]) hseek1

/-- What a successful `readSector` leaves behind: the stream of the file it read
is the stream as the lazy open leaves it. -/
theorem readSector_ok_streams {d : Disc} {disk : DiskContents} {streams streams1 : List StreamState}
    {lba : Int} {sector : SectorData}
    (h : d.readSector disk streams lba = (.ok sector, streams1)) :
    ∃ t fh s, d.findTrack lba = some t ∧ d.fileHandles[t.fileIndex]? = some fh
      ∧ streams[t.fileIndex]? = some s
      ∧ streams1 = streams.set t.fileIndex (streamOpen (disk fh.path) s) := by
  by_cases hc : lba < 0 ∨ lba ≥ d.totalSectors
  · rw [readSector_of_outOfRange d disk streams lba hc] at h
    cases h
  · cases hown : d.findTrack lba with
    | none =>
      unfold Disc.readSector at h
      rw [if_neg hc] at h
      simp only [hown] at h
      cases h
    | some t =>
      cases hfh : d.fileHandles[t.fileIndex]? with
      | none =>
        unfold Disc.readSector at h
        rw [if_neg hc] at h
        simp only [hown, hfh] at h
        cases h
      | some fh =>
        cases hs : streams[t.fileIndex]? with
        | none =>
          unfold Disc.readSector at h
          rw [if_neg hc] at h
          simp only [hown, hfh, hs] at h
          cases h
        | some s =>
          refine ⟨t, fh, s, rfl, hfh, hs, ?_⟩
          rw [readSector_eq_of_track d disk streams lba t fh s hc hown hfh hs] at h
          split at h
          · cases h
          · split at h
            · cases h
            · split at h
              · split at h
                · cases h
                · simp only [Prod.mk.injEq] at h
                  exact h.2.symm
              · simp only [Prod.mk.injEq] at h
                exact h.2.symm

theorem streamOpen_idem (file : BackingFile) (s : StreamState) :
    streamOpen file (streamOpen file s) = streamOpen file s := by
  unfold streamOpen
  split <;> simp_all

/-- The result of `readSector` depends on the streams only through the stream of
the file it reads, as the lazy open leaves it. -/
theorem readSector_result_congr (d : Disc) (disk : DiskContents)
    (streams streams1 : List StreamState) (lba : Int)
    (h : ∀ t fh, d.findTrack lba = some t → d.fileHandles[t.fileIndex]? = some fh →
      (streams1[t.fileIndex]?).map (streamOpen (disk fh.path))
        = (streams[t.fileIndex]?).map (streamOpen (disk fh.path))) :
    (d.readSector disk streams1 lba).1 = (d.readSector disk streams lba).1 := by
  by_cases hc : lba < 0 ∨ lba ≥ d.totalSectors
  · rw [readSector_of_outOfRange d disk streams lba hc,
      readSector_of_outOfRange d disk streams1 lba hc]
  · cases ht : d.findTrack lba with
    | none => simp only [Disc.readSector, if_neg hc, ht]
    | some t =>
      cases hfh : d.fileHandles[t.fileIndex]? with
      | none =>
        cases hs1 : streams1[t.fileIndex]? <;> cases hs : streams[t.fileIndex]? <;>
          simp only [Disc.readSector, if_neg hc, ht, hfh, hs1, hs]
      | some fh =>
        have hmap := h t fh ht hfh
        cases hs1 : streams1[t.fileIndex]? with
        | none =>
          cases hs : streams[t.fileIndex]? with
          | none => simp only [Disc.readSector, if_neg hc, ht, hfh, hs1, hs]
          | some s => rw [hs1, hs] at hmap; simp at hmap
        | some s1 =>
          cases hs : streams[t.fileIndex]? with
          | none => rw [hs1, hs] at hmap; simp at hmap
          | some s =>
            rw [hs1, hs] at hmap
            simp only [Option.map_some', Option.some.injEq] at hmap
            rw [readSector_eq_of_track d disk streams1 lba t fh s1 hc ht hfh hs1,
              readSector_eq_of_track d disk streams lba t fh s hc ht hfh hs, hmap]
            split
            · rfl
            · split
              · rfl
              · split
                · split
                  · rfl
                  · rfl
                · rfl

/-- A successful `readSector` does not change the result of any later
`readSector`. -/
theorem readSector_after_ok {d : Disc} {disk : DiskContents} {streams streams1 : List StreamState}
    {lba : Int} {sector : SectorData}
    (h : d.readSector disk streams lba = (.ok sector, streams1)) (lba1 : Int) :
    (d.readSector disk streams1 lba1).1 = (d.readSector disk streams lba1).1 := by
  obtain ⟨t, fh, s, _, hfh, hs, hst⟩ := readSector_ok_streams h
  apply readSector_result_congr
  intro t1 fh1 _ hfh1
  rw [hst]
  by_cases hfi : t.fileIndex = t1.fileIndex
  · rw [← hfi] at hfh1 ⊢
    rw [hfh] at hfh1
    cases hfh1
    have hlt : t.fileIndex < streams.length := (List.getElem?_eq_some_iff.1 hs).1
    rw [List.getElem?_set_self hlt, hs]
    simp [streamOpen_idem]
  · rw [List.getElem?_set_ne hfi]

/-- The loop of `readSectors` when every one of its reads, made on its own from
the streams the loop starts with, succeeds: the loop returns the sectors of
those reads, in order. -/
theorem readSectorsLoop_ok (d : Disc) (disk : DiskContents) (lba : Int) :
    ∀ (n : Nat) (i0 : Int) (streams : List StreamState),
      (∀ k : Nat, k < n →
        ∃ sector, (d.readSector disk streams (add32 lba (i0 + k))).1 = .ok sector) →
      ∃ sectors, (d.readSectorsLoop disk lba n i0 streams).1 = .ok sectors
        ∧ sectors.length = n
        ∧ ∀ k : Nat, k < n → ∃ sector, sectors[k]? = some sector
            ∧ (d.readSector disk streams (add32 lba (i0 + k))).1 = .ok sector
  | 0, _, _, _ => ⟨[], rfl, rfl, fun k hk => absurd hk (Nat.not_lt_zero k)⟩
  | n + 1, i0, streams, hall => by
    obtain ⟨sector0, h0⟩ := hall 0 (Nat.succ_pos n)
    simp only [Nat.cast_zero, add_zero] at h0
    have hpair : d.readSector disk streams (add32 lba i0)
        = (.ok sector0, (d.readSector disk streams (add32 lba i0)).2) :=
      Prod.ext h0 rfl
    have hrest : ∀ k : Nat, k < n → ∃ sector,
        (d.readSector disk (d.readSector disk streams (add32 lba i0)).2
          (add32 lba (i0 + 1 + k))).1 = .ok sector := by
      intro k hk
      obtain ⟨sector, hsec⟩ := hall (k + 1) (by omega)
      refine ⟨sector, ?_⟩
      rw [readSector_after_ok hpair]
      have e : i0 + 1 + (k : Int) = i0 + ((k + 1 : Nat) : Int) := by push_cast; ring
      rw [e]
      exact hsec
    obtain ⟨sectors, hs1, hs2, hs3⟩ := readSectorsLoop_ok d disk lba n (i0 + 1) _ hrest
    have hloop : d.readSectorsLoop disk lba (n + 1) i0 streams
        = (.ok (sector0 :: sectors),
            (d.readSectorsLoop disk lba n (i0 + 1)
              (d.readSector disk streams (add32 lba i0)).2).2) := by
      rw [Disc.readSectorsLoop, hpair]
      simp only
      have hp2 : d.readSectorsLoop disk lba n (i0 + 1)
            (d.readSector disk streams (add32 lba i0)).2
          = (.ok sectors, (d.readSectorsLoop disk lba n (i0 + 1)
              (d.readSector disk streams (add32 lba i0)).2).2) := Prod.ext hs1 rfl
      rw [hp2]
    refine ⟨sector0 :: sectors, by rw [hloop], by simp [hs2], ?_⟩
    intro k hk
    cases k with
    | zero => exact ⟨sector0, by simp, by simpa using h0⟩
    | succ k =>
      obtain ⟨sector, hk1, hk2⟩ := hs3 k (by omega)
      refine ⟨sector, by simpa using hk1, ?_⟩
      rw [readSector_after_ok hpair] at hk2
      have e : i0 + 1 + (k : Int) = i0 + ((k + 1 : Nat) : Int) := by push_cast; ring
      rw [e] at hk2
      exact hk2

/-- The loop of `readSectors` when read `j`, made on its own from the streams the
loop starts with, fails and every read before it succeeds: the loop returns the
error of read `j`. -/
theorem readSectorsLoop_error (d : Disc) (disk : DiskContents) (lba : Int) :
    ∀ (n : Nat) (i0 : Int) (streams : List StreamState) (j : Nat) (e : ErrorCode),
      j < n → (d.readSector disk streams (add32 lba (i0 + j))).1 = .error e →
      (∀ k : Nat, k < j →
        ∃ sector, (d.readSector disk streams (add32 lba (i0 + k))).1 = .ok sector) →
      (d.readSectorsLoop disk lba n i0 streams).1 = .error e
  | 0, _, _, j, _, hj, _, _ => absurd hj (Nat.not_lt_zero j)
  | n + 1, i0, streams, 0, e, _, herr, _ => by
    simp only [Nat.cast_zero, add_zero] at herr
    have hpair : d.readSector disk streams (add32 lba i0)
        = (.error e, (d.readSector disk streams (add32 lba i0)).2) := Prod.ext herr rfl
    rw [Disc.readSectorsLoop, hpair]
  | n + 1, i0, streams, j + 1, e, hj, herr, hbefore => by
    obtain ⟨sector0, h0⟩ := hbefore 0 (Nat.succ_pos j)
    simp only [Nat.cast_zero, add_zero] at h0
    have hpair : d.readSector disk streams (add32 lba i0)
        = (.ok sector0, (d.readSector disk streams (add32 lba i0)).2) :=
      Prod.ext h0 rfl
    have ecast : ∀ k : Nat, i0 + 1 + (k : Int) = i0 + ((k + 1 : Nat) : Int) := by
      intro k; push_cast; ring
    have ih := readSectorsLoop_error d disk lba n (i0 + 1)
      (d.readSector disk streams (add32 lba i0)).2 j e (by omega)
      (by rw [readSector_after_ok hpair, ecast]; exact herr)
      (by
        intro k hk
        obtain ⟨sector, hsec⟩ := hbefore (k + 1) (by omega)
        exact ⟨sector, by rw [readSector_after_ok hpair, ecast]; exact hsec⟩)
    have hp2 : d.readSectorsLoop disk lba n (i0 + 1)
          (d.readSector disk streams (add32 lba i0)).2
        = (.error e, (d.readSectorsLoop disk lba n (i0 + 1)
            (d.readSector disk streams (add32 lba i0)).2).2) := Prod.ext ih rfl
    rw [Disc.readSectorsLoop, hpair]
    simp only
    rw [hp2]

/-- C16: `readSectors(lba, count)` for `count > 0`: if `readSector(lba + i)`
succeeds for every `0 <= i < count`, the result is a list of exactly `count`
sectors whose `i`-th element is the sector `readSector(lba + i)` returns;
otherwise the whole call fails with the error of the smallest `i` for which
`readSector(lba + i)` fails, and no list is returned.  Each `readSector(lba + i)`
is the read made on its own from the streams the call starts with, and
`lba + i` is the `int32_t` sum. -/
theorem readSectors_spec (d : Disc) (disk : DiskContents) (streams : List StreamState)
    (lba count : Int) (hcount : 0 < count) :
    ((∀ i : Nat, (i : Int) < count →
        ∃ sector, (d.readSector disk streams (add32 lba i)).1 = .ok sector) →
      ∃ sectors, (d.readSectors disk streams lba count).1 = .ok sectors
        ∧ (sectors.length : Int) = count
        ∧ ∀ i : Nat, (i : Int) < count → ∃ sector, sectors[i]? = some sector
            ∧ (d.readSector disk streams (add32 lba i)).1 = .ok sector)
    ∧ (∀ (j : Nat) (e : ErrorCode), (j : Int) < count →
        (d.readSector disk streams (add32 lba j)).1 = .error e →
        (∀ i : Nat, i < j →
          ∃ sector, (d.readSector disk streams (add32 lba i)).1 = .ok sector) →
        (d.readSectors disk streams lba count).1 = .error e) := by
  have hunf : d.readSectors disk streams lba count
      = d.readSectorsLoop disk lba count.toNat 0 streams := by
    unfold Disc.readSectors
    rw [if_neg (by omega)]
  constructor
  · intro hall
    obtain ⟨sectors, h1, h2, h3⟩ := readSectorsLoop_ok d disk lba count.toNat 0 streams
      (by
        intro k hk
        obtain ⟨sector, hsec⟩ := hall k (by omega)
        exact ⟨sector, by rw [zero_add]; exact hsec⟩)
    refine ⟨sectors, by rw [hunf]; exact h1, by rw [h2]; omega, ?_⟩
    intro i hi
    obtain ⟨sector, hk1, hk2⟩ := h3 i (by omega)
    exact ⟨sector, hk1, by rw [zero_add] at hk2; exact hk2⟩
  · intro j e hj herr hbefore
    rw [hunf]
    exact readSectorsLoop_error d disk lba count.toNat 0 streams j e (by omega)
      (by rw [zero_add]; exact herr)
      (by
        intro k hk
        obtain ⟨sector, hsec⟩ := hbefore k hk
        exact ⟨sector, by rw [zero_add]; exact hsec⟩)

/-- Witness of `readSectors_spec`: on a 3-sector disc whose file holds one
sector, `readSectors(0, 3)` fails with the `FileReadError` of its second read. -/
theorem readSectors_spec_witness :
    (0 : Int) < 3
    ∧ (smallDataDisc.readSectors (filledDisk 2048) smallDataDisc.freshStreams 0 3).1
        = .error .FileReadError := by
  refine ⟨by decide, ?_⟩
  have hread : ∀ (lba : Int) (h0 : 0 ≤ lba) (h1 : lba < 3),
      smallDataDisc.readSector (filledDisk 2048) smallDataDisc.freshStreams lba
        = _ :=
    fun lba h0 h1 =>
      readSector_of_ready smallDataDisc (filledDisk 2048) smallDataDisc.freshStreams lba
        { number := 1, mode := .Mode1_2048, sectorSize := 2048, startLba := 0,
          lengthSectors := 3, pregapSectors := 0, postgapSectors := 0,
          indices := [⟨1, ⟨0, 0, 0⟩⟩], title := none, performer := none, isrc := none,
          fileIndex := 0, fileByteOffset := 0, fileStartLba := 0 }
        ⟨"data.bin", 6144⟩ StreamState.fresh h0 h1
        (by
          have := (findTrack_eq_some_iff smallDataDisc lba (by decide) (by decide)
            (List.Pairwise.chain' (by decide)) _).2
            ⟨List.mem_cons_self _ _, h0, by
              show lba < add32 0 3
              exact h1⟩
          exact this)
        (by decide) (by decide) (by decide)
        (by simp only [filledDisk, sectorOffset, sub32]; simp; unfold wrap32; omega)
  refine (readSectors_spec smallDataDisc (filledDisk 2048) smallDataDisc.freshStreams 0 3
    (by decide)).2 1 .FileReadError (by decide) ?_ ?_
  · have e1 : add32 0 ((1 : Nat) : Int) = 1 := by decide
    rw [e1, hread 1 (by decide) (by decide)]
    have hlen : ((List.drop (sectorOffset
        { number := 1, mode := .Mode1_2048, sectorSize := 2048, startLba := 0,
          lengthSectors := 3, pregapSectors := 0, postgapSectors := 0,
          indices := [⟨1, ⟨0, 0, 0⟩⟩], title := none, performer := none, isrc := none,
          fileIndex := 0, fileByteOffset := 0, fileStartLba := 0 } 1).toNat
        (filledDisk 2048 "data.bin").bytes).take (readSizeOf
        { number := 1, mode := .Mode1_2048, sectorSize := 2048, startLba := 0,
          lengthSectors := 3, pregapSectors := 0, postgapSectors := 0,
          indices := [⟨1, ⟨0, 0, 0⟩⟩], title := none, performer := none, isrc := none,
          fileIndex := 0, fileByteOffset := 0, fileStartLba := 0 })).length = 0 := by
      rw [List.length_take, List.length_drop, filledDisk_length]
      decide
    rw [hlen, if_pos (by decide), if_pos rfl]
  · intro i hi
    have hi0 : i = 0 := by omega
    subst hi0
    have e0 : add32 0 ((0 : Nat) : Int) = 0 := by decide
    rw [e0, hread 0 (by decide) (by decide)]
    have hlen : ((List.drop (sectorOffset
        { number := 1, mode := .Mode1_2048, sectorSize := 2048, startLba := 0,
          lengthSectors := 3, pregapSectors := 0, postgapSectors := 0,
          indices := [⟨1, ⟨0, 0, 0⟩⟩], title := none, performer := none, isrc := none,
          fileIndex := 0, fileByteOffset := 0, fileStartLba := 0 } 0).toNat
        (filledDisk 2048 "data.bin").bytes).take (readSizeOf
        { number := 1, mode := .Mode1_2048, sectorSize := 2048, startLba := 0,
          lengthSectors := 3, pregapSectors := 0, postgapSectors := 0,
          indices := [⟨1, ⟨0, 0, 0⟩⟩], title := none, performer := none, isrc := none,
          fileIndex := 0, fileByteOffset := 0, fileStartLba := 0 })).length = 2048 := by
      rw [List.length_take, List.length_drop, filledDisk_length]
      decide
    rw [hlen, if_neg (by decide)]
    exact ⟨_, rfl⟩

/-! ## The single-track scenario -/

/-- The disc built from a sheet with one file holding one track with Index 1 at
00:00:00 and no gaps, over a file of exactly `n` sectors, `n < 2^31`. -/
theorem fromSheet_single_track (fs : FileSystem) (sheet : CueSheet)
    (name : String) (type : FileType) (ct : CueTrack) (n : Nat)
    (hfiles : sheet.files = [⟨name, type, [ct]⟩])
    (hidx : ct.indices = [⟨1, ⟨0, 0, 0⟩⟩])
    (hpre : ct.pregap = none) (hpost : ct.postgap = none)
    (hfs : fs name = .sized (n * sectorSizeForMode ct.mode))
    (hn : n < 2147483648) :
    ∃ d t, Disc.fromSheet fs sheet = .ok d ∧ d.totalSectors = n ∧ d.tracks = [t]
      ∧ d.fileHandles = [⟨name, (n * sectorSizeForMode ct.mode : Nat)⟩]
      ∧ t.number = ct.number ∧ t.mode = ct.mode
      ∧ t.sectorSize = sectorSizeForMode ct.mode
      ∧ t.startLba = 0 ∧ t.lengthSectors = n ∧ t.fileByteOffset = 0
      ∧ t.fileIndex = 0 ∧ t.fileStartLba = 0 := by
  have hw64 : wrap64 ((n * sectorSizeForMode ct.mode : Nat) : Int)
      = ((n * sectorSizeForMode ct.mode : Nat) : Int) := by
    rcases sectorSizeForMode_cases ct.mode with e | e | e | e <;> rw [e] <;> push_cast <;>
      unfold wrap64 <;> omega
  have hlen : trackSectors [⟨name, wrap64 ((n * sectorSizeForMode ct.mode : Nat) : Int)⟩] 0 ct none
      = n := by
    simp only [trackSectors, fileSizeAt, hidx, index01Offset, List.foldl, List.getElem?_cons_zero,
      hw64]
    have h0 : MSF.toLba ⟨0, 0, 0⟩ = 0 := by decide
    simp only [if_true, h0, zero_mul, sub_zero, hw64]
    have hq : Int.tdiv ((n * sectorSizeForMode ct.mode : Nat) : Int)
        (sectorSizeForMode ct.mode : Int) = n := by
      rw [Int.tdiv_eq_ediv (Int.ofNat_nonneg _) (Int.ofNat_nonneg _)]
      rcases sectorSizeForMode_cases ct.mode with e | e | e | e <;> rw [e] <;> push_cast <;> omega
    rw [hq]
    exact wrap32_of_inInt32 ⟨by omega, by omega⟩
  have hprobe : probeFiles fs sheet.files
      = .ok [⟨name, wrap64 ((n * sectorSizeForMode ct.mode : Nat) : Int)⟩] := by
    rw [hfiles]
    simp only [probeFiles, hfs]
  have htrack : resolveFiles [⟨name, wrap64 ((n * sectorSizeForMode ct.mode : Nat) : Int)⟩] 0
      sheet.files 0
      = ([(resolveTrack [⟨name, wrap64 ((n * sectorSizeForMode ct.mode : Nat) : Int)⟩] 0 ct
            none 0).1], (n : Int)) := by
    rw [hfiles]
    simp only [resolveFiles, resolveFileTracks, List.head?_nil, List.append_nil]
    refine Prod.ext rfl ?_
    simp only [resolveTrack, hpre, hpost, postgapOf, hlen, add32, add_zero, zero_add]
    rw [wrap32_of_inInt32 (⟨by omega, by omega⟩ : inInt32 (n : Int))]
    exact wrap32_of_inInt32 ⟨by omega, by omega⟩
  have hd : Disc.fromSheet fs sheet
      = .ok { sheet := sheet
              tracks := [(resolveTrack [⟨name, (n * sectorSizeForMode ct.mode : Nat)⟩] 0 ct
                none 0).1]
              fileHandles := [⟨name, (n * sectorSizeForMode ct.mode : Nat)⟩]
              totalSectors := n
              title := sheet.title, performer := sheet.performer,
              catalog := sheet.catalog } := by
    rw [hw64] at hprobe htrack
    unfold Disc.fromSheet
    rw [hprobe]
    simp only [htrack]
  rw [hw64] at hlen
  refine ⟨_, (resolveTrack [⟨name, (n * sectorSizeForMode ct.mode : Nat)⟩] 0 ct none 0).1,
    hd, rfl, rfl, rfl, rfl, rfl, rfl, ?_, hlen, ?_, rfl, ?_⟩
  · simp only [resolveTrack, hpre]
  · simp only [resolveTrack, hidx, index01Offset, List.foldl]
    have h0 : MSF.toLba ⟨0, 0, 0⟩ = 0 := by decide
    simp [h0]
  · simp only [resolveTrack, hpre]

/-- C17, as the code has it: for every `n` with `0 <= n < 2^31` and every mode
with sector size `ss`, a document with one file holding one track with Index 1 at
00:00:00 and no pregap or postgap, whose backing file is exactly `n * ss` bytes,
resolves to `totalSectors = n` and one track with `startLba = 0`,
`lengthSectors = n`, `fileByteOffset = 0`; through a usable stream on a file of
those `n * ss` bytes that accepts seeks within the file, `readSector` succeeds
exactly for the LBAs `0..n-1`, and `readSector(n)` fails with `LBAOutOfRange`. -/
theorem single_track_scenario (fs : FileSystem) (sheet : CueSheet)
    (name : String) (type : FileType) (ct : CueTrack) (n : Nat)
    (hfiles : sheet.files = [⟨name, type, [ct]⟩])
    (hidx : ct.indices = [⟨1, ⟨0, 0, 0⟩⟩])
    (hpre : ct.pregap = none) (hpost : ct.postgap = none)
    (hfs : fs name = .sized (n * sectorSizeForMode ct.mode))
    (hn : n < 2147483648) :
    ∃ d t, Disc.fromSheet fs sheet = .ok d ∧ d.totalSectors = n ∧ d.tracks = [t]
      ∧ t.startLba = 0 ∧ t.lengthSectors = n ∧ t.fileByteOffset = 0
      ∧ t.sectorSize = sectorSizeForMode ct.mode
      ∧ ∀ (disk : DiskContents) (streams : List StreamState) (s : StreamState),
          streams[0]? = some s → streamReady (disk name) s = true →
          (disk name).bytes.length = n * sectorSizeForMode ct.mode →
          (∀ o : Int, 0 ≤ o → o < (n * sectorSizeForMode ct.mode : Nat) →
            (disk name).seekable o = true) →
          (∀ lba : Int, (∃ sector, (d.readSector disk streams lba).1 = .ok sector)
              ↔ (0 ≤ lba ∧ lba < n))
          ∧ (d.readSector disk streams n).1 = .error .LBAOutOfRange := by
  obtain ⟨d, t, hd, htot, htr, hfh, _, _, hss, hstart, hlen, hoff, hfi, hfsl⟩ :=
    fromSheet_single_track fs sheet name type ct n hfiles hidx hpre hpost hfs hn
  refine ⟨d, t, hd, htot, htr, hstart, hlen, hoff, hss, ?_⟩
  intro disk streams s hs hready hbytes hseek
  have hout : (d.readSector disk streams n).1 = .error .LBAOutOfRange := by
    rw [readSector_of_outOfRange d disk streams n (Or.inr (by rw [htot]))]
  refine ⟨fun lba => ⟨fun hok => ?_, fun hin => ?_⟩, hout⟩
  · by_contra hnot
    obtain ⟨sector, hsec⟩ := hok
    rw [readSector_of_outOfRange d disk streams lba (by rw [htot]; omega)] at hsec
    cases hsec
  · obtain ⟨h0, h1⟩ := hin
    have hend : t.endLba = n := by
      unfold Track.endLba add32
      rw [hstart, hlen, zero_add]
      exact wrap32_of_inInt32 ⟨by omega, by omega⟩
    have hown : d.findTrack lba = some t := by
      apply (findTrack_eq_some_iff d lba (by rw [htr]; simp) (by rw [htr]; simp)
        (by rw [htr]; simp) t).2
      exact ⟨by rw [htr]; simp, by rw [hstart]; exact h0, by rw [hend]; exact h1⟩
    have hoffset : sectorOffset t lba = lba * (sectorSizeForMode ct.mode : Int) := by
      unfold sectorOffset sub32
      rw [hoff, hfsl, hss, sub_zero, zero_add, wrap32_of_inInt32 ⟨by omega, by omega⟩]
    have hrs : readSizeOf t ≤ sectorSizeForMode ct.mode := by
      unfold readSizeOf
      rw [hss]
      exact Nat.min_le_left _ _
    have hfh0 : d.fileHandles[t.fileIndex]? = some ⟨name, (n * sectorSizeForMode ct.mode : Nat)⟩ := by
      rw [hfi, hfh]; rfl
    have hs0 : streams[t.fileIndex]? = some s := by rw [hfi]; exact hs
    have hbound : 0 ≤ lba * (sectorSizeForMode ct.mode : Int)
        ∧ lba * (sectorSizeForMode ct.mode : Int) + (sectorSizeForMode ct.mode : Int)
            ≤ ((n * sectorSizeForMode ct.mode : Nat) : Int) := by
      rcases sectorSizeForMode_cases ct.mode with e | e | e | e <;> rw [e] <;> push_cast <;>
        omega
    have hpos : 0 < sectorSizeForMode ct.mode := by
      rcases sectorSizeForMode_cases ct.mode with e | e | e | e <;> rw [e] <;> decide
    rw [readSector_of_ready d disk streams lba t _ s h0 (by rw [htot]; exact h1) hown hfh0 hs0
      hready (by rw [hoffset]; exact hseek _ hbound.1 (by omega))]
    have htake : (((disk name).bytes.drop (sectorOffset t lba).toNat).take (readSizeOf t)).length
        = readSizeOf t := by
      rw [List.length_take, List.length_drop, hbytes, hoffset]
      have := hbound.2
      have := hbound.1
      omega
    simp only [htake, lt_irrefl, if_false]
    exact ⟨_, rfl⟩

/-- Witness of `single_track_scenario` on the fixture `singleTrack.cue`
(testDisc.cpp lines 63-82): a `MODE2/2352` track over 100 sectors. -/
theorem single_track_scenario_witness :
    singleTrackSheet.files
        = [⟨"singleTrack.bin", .Binary,
            [exampleTrack 1 .Mode2_2352 [⟨1, ⟨0, 0, 0⟩⟩] none none]⟩]
    ∧ singleTrackFs "singleTrack.bin" = .sized (100 * sectorSizeForMode .Mode2_2352)
    ∧ ∃ d t, Disc.fromSheet singleTrackFs singleTrackSheet = .ok d
        ∧ d.totalSectors = 100 ∧ d.tracks = [t] ∧ t.startLba = 0 ∧ t.lengthSectors = 100 := by
  refine ⟨rfl, by decide, ?_⟩
  obtain ⟨d, t, hd, htot, htr, hstart, hlen, _⟩ :=
    single_track_scenario singleTrackFs singleTrackSheet "singleTrack.bin" .Binary
      (exampleTrack 1 .Mode2_2352 [⟨1, ⟨0, 0, 0⟩⟩] none none) 100
      rfl rfl rfl rfl (by decide) (by decide)
  exact ⟨d, t, hd, by simpa using htot, htr, hstart, by simpa using hlen⟩

/-- C17 fails as stated for `n >= 2^31`: over a file of `2^31` sectors of 2048
bytes the single `MODE1/2048` track of `smallDataSheet` gets
`lengthSectors = static_cast<int32_t>(2^31) = -2^31`, and `totalSectors` is
`-2147483648`, not `n`. -/
theorem single_track_scenario_counterexample :
    smallDataSheet.wellFormed = true
    ∧ hugeFileFs "data.bin" = .sized (2147483648 * sectorSizeForMode .Mode1_2048)
    ∧ ∃ d, Disc.fromSheet hugeFileFs smallDataSheet = .ok d
        ∧ d.totalSectors = -2147483648
        ∧ d.tracks.map (fun t => t.lengthSectors) = [-2147483648]
        ∧ d.totalSectors ≠ 2147483648 := by
  refine ⟨by decide, by decide, ?_⟩
  have hd : Disc.fromSheet hugeFileFs smallDataSheet
      = .ok { smallDataDisc with
          tracks := (resolveFiles [⟨"data.bin", 4398046511104⟩] 0 smallDataSheet.files 0).1
          fileHandles := [⟨"data.bin", 4398046511104⟩]
          totalSectors := -2147483648 } := by decide
  exact ⟨_, hd, rfl, by decide, by decide⟩

/-! ## Multi-file layout -/

theorem resolveFileTracks_map_fileIndex {α : Type} (f : Track → α) (g : Nat × CueTrack → α)
    (hfg : ∀ hs fi ct nx c, f (resolveTrack hs fi ct nx c).1 = g (fi, ct))
    (hs : List FileHandle) (fi : Nat) :
    ∀ (cts : List CueTrack) (c : Int),
      (resolveFileTracks hs fi cts c).1.map f = (cts.map (fun ct => (fi, ct))).map g
  | [], _ => rfl
  | ct :: rest, c => by
    simp only [resolveFileTracks, List.map_cons, hfg]
    rw [resolveFileTracks_map_fileIndex f g hfg hs fi rest]

theorem resolveFiles_map_declared {α : Type} (f : Track → α) (g : Nat × CueTrack → α)
    (hfg : ∀ hs fi ct nx c, f (resolveTrack hs fi ct nx c).1 = g (fi, ct))
    (hs : List FileHandle) :
    ∀ (files : List CueFile) (fi : Nat) (c : Int),
      (resolveFiles hs fi files c).1.map f = (declaredTracksFrom fi files).map g
  | [], _, _ => rfl
  | x :: rest, fi, c => by
    simp only [resolveFiles, declaredTracksFrom, List.map_append]
    rw [resolveFileTracks_map_fileIndex f g hfg hs fi, resolveFiles_map_declared f g hfg hs rest]

theorem declaredTracksFrom_length :
    ∀ (files : List CueFile) (fi : Nat),
      (declaredTracksFrom fi files).length = (files.map (fun f => f.tracks.length)).sum
  | [], _ => rfl
  | x :: rest, fi => by
    simp only [declaredTracksFrom, List.length_append, List.length_map, List.map_cons,
      List.sum_cons]
    rw [declaredTracksFrom_length rest]

/-- C18: for a disc built from a sheet, `trackCount` is the total number of
declared tracks; the resolved track list is, in document order, the list of the
declared tracks (number, mode, indices, title, performer, ISRC are the declared
ones), each with `fileIndex` equal to the zero-based position of the File entry
that declares it; track `ti` of file `fi` is the resolved track at the position
"tracks of the earlier files, plus `ti`".  For three files with one track each
the resolved tracks have file indices 0, 1, 2 and the length of each is computed
from the size of its own file. -/
theorem multi_file_layout (fs : FileSystem) (sheet : CueSheet) (d : Disc)
    (h : Disc.fromSheet fs sheet = .ok d) :
    d.trackCount = (sheet.files.map (fun f => f.tracks.length)).sum
    ∧ d.tracks.map
        (fun t => (t.fileIndex, t.number, t.mode, t.indices, t.title, t.performer, t.isrc))
      = (declaredTracks sheet).map
        (fun p => (p.1, p.2.number, p.2.mode, p.2.indices, p.2.title, p.2.performer, p.2.isrc))
    ∧ (∀ (fi ti : Nat) (f : CueFile) (ct : CueTrack),
        sheet.files[fi]? = some f → f.tracks[ti]? = some ct →
        ∃ t, d.tracks[trackPosition sheet.files fi ti]? = some t
          ∧ t.fileIndex = fi ∧ t.number = ct.number ∧ t.mode = ct.mode
          ∧ t.indices = ct.indices)
    ∧ (∀ (na nb nc : String) (ta tb tc : FileType) (a b c : CueTrack),
        sheet.files = [⟨na, ta, [a]⟩, ⟨nb, tb, [b]⟩, ⟨nc, tc, [c]⟩] →
        ∃ (sa sb sc : Nat) (t0 t1 t2 : Track),
          fs na = .sized sa ∧ fs nb = .sized sb ∧ fs nc = .sized sc
          ∧ d.tracks = [t0, t1, t2]
          ∧ t0.fileIndex = 0 ∧ t1.fileIndex = 1 ∧ t2.fileIndex = 2
          ∧ t0.number = a.number ∧ t1.number = b.number ∧ t2.number = c.number
          ∧ t0.lengthSectors = lengthFromFileSize sa a
          ∧ t1.lengthSectors = lengthFromFileSize sb b
          ∧ t2.lengthSectors = lengthFromFileSize sc c) := by
  obtain ⟨hs, hp, hfh, _, htr, _⟩ := fromSheet_tracks h
  have hmap : d.tracks.map
        (fun t => (t.fileIndex, t.number, t.mode, t.indices, t.title, t.performer, t.isrc))
      = (declaredTracks sheet).map
        (fun p => (p.1, p.2.number, p.2.mode, p.2.indices, p.2.title, p.2.performer,
          p.2.isrc)) := by
    rw [htr]
    exact resolveFiles_map_declared _ _ (fun _ _ _ _ _ => rfl) hs sheet.files 0 0
  refine ⟨?_, hmap, ?_, ?_⟩
  · have hl := congrArg List.length hmap
    simp only [List.length_map] at hl
    unfold Disc.trackCount
    rw [hl]
    exact declaredTracksFrom_length sheet.files 0
  · intro fi ti f ct hf hct
    obtain ⟨n, c1, _, _, ht⟩ := fromSheet_getElem? h hf hct
    exact ⟨_, ht, rfl, rfl, rfl, rfl⟩
  · intro na nb nc ta tb tc a b c hfiles
    rw [hfiles] at hp htr
    simp only [probeFiles] at hp
    cases ha : fs na with
    | absent => rw [ha] at hp; cases hp
    | unsized => rw [ha] at hp; cases hp
    | sized sa =>
      cases hb : fs nb with
      | absent => rw [ha, hb] at hp; cases hp
      | unsized => rw [ha, hb] at hp; cases hp
      | sized sb =>
        cases hc : fs nc with
        | absent => rw [ha, hb, hc] at hp; cases hp
        | unsized => rw [ha, hb, hc] at hp; cases hp
        | sized sc =>
          rw [ha, hb, hc] at hp
          simp only [Result.ok.injEq] at hp
          subst hp
          simp only [resolveFiles, resolveFileTracks, List.head?_nil, List.append_nil,
            List.cons_append, List.nil_append] at htr
          exact ⟨sa, sb, sc, _, _, _, rfl, rfl, rfl, htr, rfl, rfl, rfl, rfl, rfl, rfl,
            rfl, rfl, rfl⟩

/-- Witness of `multi_file_layout` on a three-file document over the files of
the test fixture: 300, 200 and 200 raw sectors. -/
theorem multi_file_layout_witness :
    Disc.fromSheet multiFileFs multiFileSheet = .ok multiFileDisc
    ∧ multiFileDisc.trackCount = 3
    ∧ multiFileDisc.tracks.map (fun t => (t.number, t.fileIndex, t.lengthSectors))
        = [(1, 0, 300), (2, 1, 200), (3, 2, 200)]
    ∧ multiFileDisc.trackCount = (multiFileSheet.files.map (fun f => f.tracks.length)).sum :=
  ⟨by rfl, by decide, by decide,
    (multi_file_layout multiFileFs multiFileSheet multiFileDisc (by rfl)).1⟩

/-! ## Failures of the disc construction -/

theorem probeFiles_first_failure (fs : FileSystem) :
    ∀ (files : List CueFile) (i : Nat) (g : CueFile), files[i]? = some g →
      (∀ (j : Nat) (h : CueFile), j < i → files[j]? = some h → ∃ n, fs h.filename = .sized n) →
      (fs g.filename = .absent → probeFiles fs files = .error .FileNotFound)
      ∧ (fs g.filename = .unsized → probeFiles fs files = .error .FileReadError)
  | [], _, _, hg, _ => by simp at hg
  | x :: rest, 0, g, hg, _ => by
    simp only [List.getElem?_cons_zero, Option.some.injEq] at hg
    subst hg
    constructor <;> intro hx <;> simp only [probeFiles, hx]
  | x :: rest, i + 1, g, hg, hbefore => by
    obtain ⟨n, hn⟩ := hbefore 0 x (Nat.succ_pos i) (by simp)
    have ih := probeFiles_first_failure fs rest i g (by simpa using hg)
      (fun j h hj hh => hbefore (j + 1) h (by omega) (by simpa using hh))
    constructor <;> intro hx
    · simp only [probeFiles, hn, ih.1 hx]
    · simp only [probeFiles, hn, ih.2 hx]

theorem probeFiles_error_cases (fs : FileSystem) :
    ∀ (files : List CueFile) (e : ErrorCode), probeFiles fs files = .error e →
      e = .FileNotFound ∨ e = .FileReadError
  | [], _, h => by simp [probeFiles] at h
  | x :: rest, e, h => by
    simp only [probeFiles] at h
    split at h
    · cases h; exact Or.inl rfl
    · cases h; exact Or.inr rfl
    · split at h
      · next e1 he1 =>
        cases h
        exact probeFiles_error_cases fs rest _ he1
      · cases h

theorem probeFiles_ok_sized (fs : FileSystem) :
    ∀ (files : List CueFile) (hs : List FileHandle), probeFiles fs files = .ok hs →
      ∀ f ∈ files, ∃ n, fs f.filename = .sized n
  | [], _, _, f, hf => by simp at hf
  | x :: rest, hs, hp, f, hf => by
    simp only [probeFiles] at hp
    split at hp
    · cases hp
    · cases hp
    · next n hn =>
      split at hp
      · cases hp
      · next hs1 hrest =>
        rcases List.mem_cons.1 hf with rfl | hmem
        · exact ⟨n, hn⟩
        · exact probeFiles_ok_sized fs rest hs1 hrest f hmem

theorem probeFiles_of_sized (fs : FileSystem) :
    ∀ (files : List CueFile), (∀ f ∈ files, ∃ n, fs f.filename = .sized n) →
      ∃ hs, probeFiles fs files = .ok hs
  | [], _ => ⟨[], rfl⟩
  | x :: rest, h => by
    obtain ⟨n, hn⟩ := h x (List.mem_cons_self _ _)
    obtain ⟨hs, hhs⟩ := probeFiles_of_sized fs rest
      (fun f hf => h f (List.mem_cons_of_mem _ hf))
    exact ⟨⟨x.filename, wrap64 n⟩ :: hs, by simp only [probeFiles, hn, hhs]⟩

theorem fromSheet_error_probe {fs : FileSystem} {sheet : CueSheet} {e : ErrorCode} :
    Disc.fromSheet fs sheet = .error e ↔ probeFiles fs sheet.files = .error e := by
  unfold Disc.fromSheet
  split
  · next e1 he1 => rw [he1]; simp
  · next hs hhs => rw [hhs]; simp

/-- C19, as the code has it: when a File entry of the document names a backing
file that does not exist, `Disc::fromCue` produces no Disc and returns
`FileNotFound` or `FileReadError`, never `MissingFile`.  The code is that of the
first entry in document order whose file is missing or has no readable size:
`FileNotFound` if that file is missing, `FileReadError` if it exists without a
readable size; in particular `FileNotFound` when every file that exists has a
readable size. -/
theorem fromSheet_missing_file (fs : FileSystem) (sheet : CueSheet) (f : CueFile)
    (hf : f ∈ sheet.files) (habs : fs f.filename = .absent) :
    (∀ d, Disc.fromSheet fs sheet ≠ .ok d)
    ∧ Disc.fromSheet fs sheet ≠ .error .MissingFile
    ∧ (Disc.fromSheet fs sheet = .error .FileNotFound
        ∨ Disc.fromSheet fs sheet = .error .FileReadError)
    ∧ ((∀ g ∈ sheet.files, fs g.filename ≠ .unsized) →
        Disc.fromSheet fs sheet = .error .FileNotFound)
    ∧ (∀ (i : Nat) (g : CueFile), sheet.files[i]? = some g →
        (∀ (j : Nat) (h : CueFile), j < i → sheet.files[j]? = some h →
          ∃ n, fs h.filename = .sized n) →
        (fs g.filename = .absent → Disc.fromSheet fs sheet = .error .FileNotFound)
        ∧ (fs g.filename = .unsized → Disc.fromSheet fs sheet = .error .FileReadError)) := by
  have hnot : ∀ d, Disc.fromSheet fs sheet ≠ .ok d := by
    intro d hd
    obtain ⟨hs, hp, _⟩ := fromSheet_tracks hd
    obtain ⟨n, hn⟩ := probeFiles_ok_sized fs sheet.files hs hp f hf
    rw [habs] at hn
    cases hn
  have hcases : Disc.fromSheet fs sheet = .error .FileNotFound
      ∨ Disc.fromSheet fs sheet = .error .FileReadError := by
    cases hr : Disc.fromSheet fs sheet with
    | ok d => exact absurd hr (hnot d)
    | error e =>
      rcases probeFiles_error_cases fs sheet.files e (fromSheet_error_probe.1 hr) with rfl | rfl
      · exact Or.inl rfl
      · exact Or.inr rfl
  have hfirst : ∀ (i : Nat) (g : CueFile), sheet.files[i]? = some g →
        (∀ (j : Nat) (h : CueFile), j < i → sheet.files[j]? = some h →
          ∃ n, fs h.filename = .sized n) →
        (fs g.filename = .absent → Disc.fromSheet fs sheet = .error .FileNotFound)
        ∧ (fs g.filename = .unsized → Disc.fromSheet fs sheet = .error .FileReadError) := by
    intro i g hg hbefore
    have hp := probeFiles_first_failure fs sheet.files i g hg hbefore
    exact ⟨fun hx => fromSheet_error_probe.2 (hp.1 hx),
      fun hx => fromSheet_error_probe.2 (hp.2 hx)⟩
  refine ⟨hnot, ?_, hcases, ?_, hfirst⟩
  · rcases hcases with h | h <;> rw [h] <;> decide
  · intro hall
    rcases hcases with h | h
    · exact h
    · exfalso
      obtain ⟨g, hg, hu⟩ : ∃ g ∈ sheet.files, fs g.filename = .unsized := by
        have hp := fromSheet_error_probe.1 h
        clear hfirst hnot hf h hall
        generalize sheet.files = files at hp
        induction files with
        | nil => simp [probeFiles] at hp
        | cons x rest ih =>
          simp only [probeFiles] at hp
          split at hp
          · cases hp
          · next hx => exact ⟨x, List.mem_cons_self _ _, hx⟩
          · split at hp
            · next e1 he1 =>
              cases hp
              obtain ⟨g, hg, hu⟩ := ih he1
              exact ⟨g, List.mem_cons_of_mem _ hg, hu⟩
            · cases hp
      exact hall g hg hu

/-- Witness of `fromSheet_missing_file`: the three-file document over a file
system that lacks `audio02.bin` and `audio03.bin`. -/
theorem fromSheet_missing_file_witness :
    (⟨"audio02.bin", .Binary, [exampleTrack 2 .Audio [⟨1, ⟨0, 0, 0⟩⟩] none none]⟩ : CueFile)
        ∈ multiFileSheet.files
    ∧ missingAudioFs "audio02.bin" = .absent
    ∧ Disc.fromSheet missingAudioFs multiFileSheet ≠ .error .MissingFile
    ∧ (Disc.fromSheet missingAudioFs multiFileSheet = .error .FileNotFound
        ∨ Disc.fromSheet missingAudioFs multiFileSheet = .error .FileReadError) :=
  ⟨by decide, by decide,
    (fromSheet_missing_file missingAudioFs multiFileSheet
      ⟨"audio02.bin", .Binary, [exampleTrack 2 .Audio [⟨1, ⟨0, 0, 0⟩⟩] none none]⟩
      (by decide) (by decide)).2.1,
    (fromSheet_missing_file missingAudioFs multiFileSheet
      ⟨"audio02.bin", .Binary, [exampleTrack 2 .Audio [⟨1, ⟨0, 0, 0⟩⟩] none none]⟩
      (by decide) (by decide)).2.2.1⟩

/-- C19 fails as stated: the three-file document names `audio02.bin`, which the
file system does not hold, and the construction fails with `FileNotFound`, which
is not the code `MissingFile`. -/
theorem missing_file_code_counterexample :
    missingAudioFs "audio02.bin" = .absent
    ∧ (multiFileSheet.files.map (fun f => f.filename)) = ["data.bin", "audio02.bin", "audio03.bin"]
    ∧ Disc.fromSheet missingAudioFs multiFileSheet = .error .FileNotFound
    ∧ Disc.fromSheet missingAudioFs multiFileSheet ≠ .error .MissingFile := by
  decide

/-! ## Tracks without Index 1 -/

theorem index01_foldl_of_none (xs : List CueIndex) (acc : Int)
    (h : ∀ idx ∈ xs, idx.number ≠ 1) :
    xs.foldl (fun acc idx => if idx.number = 1 then idx.position.toLba else acc) acc = acc := by
  induction xs generalizing acc with
  | nil => rfl
  | cons x rest ih =>
    simp only [List.foldl_cons, if_neg (h x (List.mem_cons_self _ _))]
    exact ih acc (fun idx hidx => h idx (List.mem_cons_of_mem _ hidx))

theorem index01Offset_of_none (xs : List CueIndex) (h : ∀ idx ∈ xs, idx.number ≠ 1) :
    index01Offset xs = 0 :=
  index01_foldl_of_none xs 0 h

/-- C20, as the code has it: a track with no Index 1 mark does not make the disc
construction fail.  Whenever every backing file of the document exists with a
readable size, `Disc::fromCue` produces a Disc from the parsed document, whatever
the index sets of its tracks are; every declared track is resolved, and a track
with no Index 1 mark is resolved with `index01Offset = 0`, hence
`fileByteOffset = 0`, keeping its declared indices.  The only errors of the
resolver are `FileNotFound` and `FileReadError`. -/
theorem missing_index01_accepted (fs : FileSystem) (sheet : CueSheet)
    (hsized : ∀ f ∈ sheet.files, ∃ n, fs f.filename = .sized n) :
    (∃ d, Disc.fromSheet fs sheet = .ok d
      ∧ d.tracks.length = (sheet.files.flatMap (fun f => f.tracks)).length
      ∧ ∀ (fi ti : Nat) (f : CueFile) (ct : CueTrack),
          sheet.files[fi]? = some f → f.tracks[ti]? = some ct →
          (∀ idx ∈ ct.indices, idx.number ≠ 1) →
          ∃ t, d.tracks[trackPosition sheet.files fi ti]? = some t
            ∧ t.number = ct.number ∧ t.indices = ct.indices ∧ t.fileByteOffset = 0)
    ∧ (∀ e, Disc.fromSheet fs sheet = .error e → e = .FileNotFound ∨ e = .FileReadError) := by
  obtain ⟨hs, hp⟩ := probeFiles_of_sized fs sheet.files hsized
  obtain ⟨d, hd, _⟩ := fromSheet_ok_of_probe hp
  refine ⟨⟨d, hd, fromSheet_tracks_length hd, ?_⟩, ?_⟩
  · intro fi ti f ct hf hct hnone
    obtain ⟨n, c1, _, _, ht⟩ := fromSheet_getElem? hd hf hct
    refine ⟨_, ht, rfl, rfl, ?_⟩
    simp only [resolveTrack, index01Offset_of_none ct.indices hnone, zero_mul]
  · intro e he
    exact probeFiles_error_cases fs sheet.files e (fromSheet_error_probe.1 he)

/-- Witness of `missing_index01_accepted`: the document with one track that has
only Index 0, over a file of 10 raw sectors. -/
theorem missing_index01_accepted_witness :
    (∀ f ∈ noIndex01Sheet.files, ∃ n, noIndex01Fs f.filename = .sized n)
    ∧ ∃ d, Disc.fromSheet noIndex01Fs noIndex01Sheet = .ok d
        ∧ d.tracks.length = (noIndex01Sheet.files.flatMap (fun f => f.tracks)).length := by
  have hsized : ∀ f ∈ noIndex01Sheet.files, ∃ n, noIndex01Fs f.filename = .sized n := by
    intro f hf
    simp only [noIndex01Sheet, exampleSheet, List.mem_singleton] at hf
    subst hf
    exact ⟨2352 * 10, rfl⟩
  obtain ⟨⟨d, hd, hlen, _⟩, _⟩ := missing_index01_accepted noIndex01Fs noIndex01Sheet hsized
  exact ⟨hsized, d, hd, hlen⟩

/-- C20 fails as stated: the cue text `noIndex01Text` declares one track whose
only index line is `INDEX 00`; the parser accepts it (the parsed track has no
Index 1 mark), and over a file system that holds `image.bin` the construction
returns a Disc, whose track has `fileByteOffset = 0` and `lengthSectors = 10`. -/
theorem missing_index01_counterexample :
    parseString noIndex01Text = .ok noIndex01Sheet
    ∧ (noIndex01Sheet.files.flatMap (fun f => f.tracks)).map
        (fun ct => ct.indices.map (fun i => i.number)) = [[0]]
    ∧ Disc.fromCueText noIndex01Fs noIndex01Text = .ok noIndex01Disc
    ∧ noIndex01Disc.tracks.map (fun t => (t.fileByteOffset, t.lengthSectors)) = [(0, 10)] := by
  have hparse : parseString noIndex01Text = .ok noIndex01Sheet := by decide
  refine ⟨hparse, by decide, ?_, by decide⟩
  unfold Disc.fromCueText
  rw [hparse]
  rfl

/-! ## Timecodes and block addresses -/

theorem MSF.toLba_eq (m : MSF) :
    m.toLba = (m.minute.val : Int) * 4500 + (m.second.val : Int) * 75 + (m.frame.val : Int) := by
  unfold MSF.toLba MSF.FRAMES_PER_MINUTE MSF.FRAMES_PER_SECOND MSF.SECONDS_PER_MINUTE
  norm_num

theorem toUint8_of_lt (x : Int) (h0 : 0 ≤ x) (h1 : x < 256) : ((toUint8 x).val : Int) = x := by
  unfold toUint8
  simp only []
  omega

theorem MSF.fromLba_fields (lba : Int) (h0 : 0 ≤ lba) (h1 : lba < 1152000) :
    (((MSF.fromLba lba).minute.val : Int) = lba / 4500)
    ∧ (((MSF.fromLba lba).second.val : Int) = lba % 4500 / 75)
    ∧ (((MSF.fromLba lba).frame.val : Int) = lba % 4500 % 75) := by
  have hd : Int.tdiv lba 4500 = lba / 4500 := Int.tdiv_eq_ediv h0 (by decide)
  have hm : Int.tmod lba 4500 = lba % 4500 := Int.tmod_eq_emod h0 (by decide)
  have hr0 : 0 ≤ lba % 4500 := by omega
  have hd2 : Int.tdiv (lba % 4500) 75 = lba % 4500 / 75 := Int.tdiv_eq_ediv hr0 (by decide)
  have hm2 : Int.tmod (lba % 4500) 75 = lba % 4500 % 75 := Int.tmod_eq_emod hr0 (by decide)
  have hc : MSF.FRAMES_PER_MINUTE = 4500 := rfl
  have hc2 : MSF.FRAMES_PER_SECOND = 75 := rfl
  simp only [MSF.fromLba, hc, hc2, hd, hm, hd2, hm2]
  exact ⟨toUint8_of_lt _ (by omega) (by omega), toUint8_of_lt _ (by omega) (by omega),
    toUint8_of_lt _ (by omega) (by omega)⟩

theorem MSF.toLba_fromLba (lba : Int) (h0 : 0 ≤ lba) (h1 : lba < 1152000) :
    (MSF.fromLba lba).toLba = lba := by
  obtain ⟨hm, hs, hf⟩ := MSF.fromLba_fields lba h0 h1
  rw [MSF.toLba_eq, hm, hs, hf]
  omega

theorem MSF.ext_val {a b : MSF} (hm : (a.minute.val : Int) = b.minute.val)
    (hs : (a.second.val : Int) = b.second.val) (hf : (a.frame.val : Int) = b.frame.val) :
    a = b := by
  cases a; cases b
  simp only [MSF.mk.injEq]
  exact ⟨Fin.ext (by exact_mod_cast hm), Fin.ext (by exact_mod_cast hs),
    Fin.ext (by exact_mod_cast hf)⟩

theorem MSF.fromLba_toLba (m : MSF) (hs : m.second.val < 60) (hf : m.frame.val < 75) :
    MSF.fromLba m.toLba = m := by
  have hmin := m.minute.isLt
  have hb : 0 ≤ m.toLba ∧ m.toLba < 1152000 := by rw [MSF.toLba_eq]; omega
  obtain ⟨h1, h2, h3⟩ := MSF.fromLba_fields m.toLba hb.1 hb.2
  have hL := MSF.toLba_eq m
  exact MSF.ext_val (by omega) (by omega) (by omega)

/-- C21: for every `lba` with `0 <= lba < 1152000`, `MSF::fromLba(lba).toLba()`
is `lba`, and therefore `fromLba(toLba(fromLba(lba)))` is `fromLba(lba)`. -/
theorem fromLba_toLba_roundtrip (lba : Int) (h0 : 0 ≤ lba) (h1 : lba < 1152000) :
    (MSF.fromLba lba).toLba = lba
    ∧ MSF.fromLba (MSF.fromLba lba).toLba = MSF.fromLba lba := by
  have h := MSF.toLba_fromLba lba h0 h1
  exact ⟨h, by rw [h]⟩

/-- Witness of `fromLba_toLba_roundtrip` at the last address of the range,
255:59:74. -/
theorem fromLba_toLba_roundtrip_witness :
    MSF.fromLba 1151999 = ⟨255, 59, 74⟩
    ∧ (MSF.fromLba 1151999).toLba = 1151999
    ∧ MSF.fromLba (MSF.fromLba 1151999).toLba = MSF.fromLba 1151999 :=
  ⟨by decide, fromLba_toLba_roundtrip 1151999 (by decide) (by decide)⟩

/-- C22: for every timecode `m` with `second < 60` and `frame < 75` (any minute),
`MSF::fromLba(m.toLba())` is `m` field by field; with C21 the two functions are
inverses between the timecodes with valid fields and the addresses
`0 <= lba < 1152000`. -/
theorem toLba_fromLba_roundtrip (m : MSF) (hs : m.second.val < 60) (hf : m.frame.val < 75) :
    MSF.fromLba m.toLba = m
    ∧ (MSF.fromLba m.toLba).minute = m.minute
    ∧ (MSF.fromLba m.toLba).second = m.second
    ∧ (MSF.fromLba m.toLba).frame = m.frame
    ∧ 0 ≤ m.toLba ∧ m.toLba < 1152000 := by
  have h := MSF.fromLba_toLba m hs hf
  have hmin := m.minute.isLt
  refine ⟨h, by rw [h], by rw [h], by rw [h], ?_, ?_⟩ <;> rw [MSF.toLba_eq] <;> omega

/-- Witness of `toLba_fromLba_roundtrip` at 01:02:03 (testMsf.cpp lines 111-121). -/
theorem toLba_fromLba_roundtrip_witness :
    (⟨1, 2, 3⟩ : MSF).toLba = 4653 ∧ MSF.fromLba (⟨1, 2, 3⟩ : MSF).toLba = ⟨1, 2, 3⟩ :=
  ⟨by decide, (toLba_fromLba_roundtrip ⟨1, 2, 3⟩ (by decide) (by decide)).1⟩

/-- C23: for every timecode (any three bytes), `toLba()` is
`minute * 4500 + second * 75 + frame`; no product or sum of the `int32_t`
expression leaves the range of the type, and
`0 <= toLba() <= 255*4500 + 255*75 + 255`.  `MSF(1,2,3).toLba()` is 4653 and
`MSF(72,0,0).toLba()` is 324000. -/
theorem toLba_exact (m : MSF) :
    m.toLba32 = (m.minute.val : Int) * 4500 + (m.second.val : Int) * 75 + (m.frame.val : Int)
    ∧ m.toLba = m.toLba32
    ∧ inInt32 ((m.minute.val : Int) * MSF.FRAMES_PER_MINUTE)
    ∧ inInt32 ((m.second.val : Int) * MSF.FRAMES_PER_SECOND)
    ∧ inInt32 ((m.minute.val : Int) * MSF.FRAMES_PER_MINUTE
        + (m.second.val : Int) * MSF.FRAMES_PER_SECOND)
    ∧ 0 ≤ m.toLba32 ∧ m.toLba32 ≤ 255 * 4500 + 255 * 75 + 255
    ∧ (⟨1, 2, 3⟩ : MSF).toLba32 = 4653 ∧ (⟨72, 0, 0⟩ : MSF).toLba32 = 324000 := by
  have hmin := m.minute.isLt
  have hsec := m.second.isLt
  have hfr := m.frame.isLt
  have h32 : m.toLba32
      = (m.minute.val : Int) * 4500 + (m.second.val : Int) * 75 + (m.frame.val : Int) := by
    unfold MSF.toLba32 add32 MSF.FRAMES_PER_MINUTE MSF.FRAMES_PER_SECOND MSF.SECONDS_PER_MINUTE
    norm_num
    rw [wrap32_of_inInt32 (⟨by omega, by omega⟩ : inInt32 ((m.minute.val : Int) * 4500)),
      wrap32_of_inInt32 (⟨by omega, by omega⟩ : inInt32 ((m.second.val : Int) * 75)),
      wrap32_of_inInt32 (⟨by omega, by omega⟩ :
        inInt32 ((m.minute.val : Int) * 4500 + (m.second.val : Int) * 75)),
      wrap32_of_inInt32 ⟨by omega, by omega⟩]
  refine ⟨h32, by rw [h32, MSF.toLba_eq], ?_, ?_, ?_, by rw [h32]; omega, by rw [h32]; omega,
    by decide, by decide⟩
  all_goals
    simp only [show MSF.FRAMES_PER_SECOND = 75 from rfl,
      show MSF.FRAMES_PER_MINUTE = 4500 from rfl]
    exact ⟨by omega, by omega⟩

theorem MSF.eq_iff (a b : MSF) : a.eq b = true ↔ a = b := by
  cases a; cases b
  simp [MSF.eq, and_assoc]

/-- C24: for all timecodes `a`, `b` with valid fields (`second < 60`,
`frame < 75`), `a < b` holds iff `a.toLba() < b.toLba()`, and likewise `<=`, `>`,
`>=`; the field-wise `==` agrees with that order, `a == b` iff
`a.toLba() == b.toLba()` (and `!=` is its negation), so exactly one of `a < b`,
`a == b`, `a > b` holds. -/
theorem msf_comparison (a b : MSF)
    (has : a.second.val < 60) (haf : a.frame.val < 75)
    (hbs : b.second.val < 60) (hbf : b.frame.val < 75) :
    (a.lt b = true ↔ a.toLba < b.toLba)
    ∧ (a.le b = true ↔ a.toLba ≤ b.toLba)
    ∧ (a.gt b = true ↔ a.toLba > b.toLba)
    ∧ (a.ge b = true ↔ a.toLba ≥ b.toLba)
    ∧ (a.eq b = true ↔ a.toLba = b.toLba)
    ∧ (a.ne b = true ↔ a.toLba ≠ b.toLba)
    ∧ (a.eq b = true ↔ a = b)
    ∧ ((a.lt b = true ∧ a.eq b = false ∧ a.gt b = false)
        ∨ (a.lt b = false ∧ a.eq b = true ∧ a.gt b = false)
        ∨ (a.lt b = false ∧ a.eq b = false ∧ a.gt b = true)) := by
  have heq : a.eq b = true ↔ a.toLba = b.toLba := by
    rw [MSF.eq_iff]
    constructor
    · intro h; rw [h]
    · intro h
      rw [← MSF.fromLba_toLba a has haf, ← MSF.fromLba_toLba b hbs hbf, h]
  have hlt : a.lt b = true ↔ a.toLba < b.toLba := by simp [MSF.lt]
  have hgt : a.gt b = true ↔ a.toLba > b.toLba := by simp [MSF.gt]
  refine ⟨hlt, by simp [MSF.le], hgt, by simp [MSF.ge], heq, ?_, MSF.eq_iff a b, ?_⟩
  · unfold MSF.ne
    rw [Ne, ← heq]
    simp
  · rcases lt_trichotomy a.toLba b.toLba with h | h | h
    · refine Or.inl ⟨hlt.2 h, ?_, ?_⟩
      · rw [Bool.eq_false_iff, Ne, heq]; omega
      · rw [Bool.eq_false_iff, Ne, hgt]; omega
    · refine Or.inr (Or.inl ⟨?_, heq.2 h, ?_⟩)
      · rw [Bool.eq_false_iff, Ne, hlt]; omega
      · rw [Bool.eq_false_iff, Ne, hgt]; omega
    · refine Or.inr (Or.inr ⟨?_, ?_, hgt.2 h⟩)
      · rw [Bool.eq_false_iff, Ne, hlt]; omega
      · rw [Bool.eq_false_iff, Ne, heq]; omega

/-- Witness of `msf_comparison` at 01:00:00 and 00:59:74 (testMsf.cpp line 108). -/
theorem msf_comparison_witness :
    (⟨1, 0, 0⟩ : MSF).gt ⟨0, 59, 74⟩ = true
    ∧ ((⟨1, 0, 0⟩ : MSF).gt ⟨0, 59, 74⟩ = true
        ↔ (⟨1, 0, 0⟩ : MSF).toLba > (⟨0, 59, 74⟩ : MSF).toLba) :=
  ⟨by decide,
    (msf_comparison ⟨1, 0, 0⟩ ⟨0, 59, 74⟩ (by decide) (by decide) (by decide)
      (by decide)).2.2.1⟩

/-- C27: for every `lba` with `0 <= lba < 1152000 - 150`,
`MSF::toPhysicalMsf(lba)` is `MSF::fromLba(lba + 150)` and its `toLba()` is
`lba + 150`: the timecode of the position shifted by the 150-frame lead-in.
`toPhysicalMsf(0)` is 00:02:00 and `toPhysicalMsf(150)` is 00:04:00. -/
theorem toPhysicalMsf_spec (lba : Int) (h0 : 0 ≤ lba) (h1 : lba < 1152000 - 150) :
    MSF.toPhysicalMsf lba = MSF.fromLba (lba + 150)
    ∧ (MSF.toPhysicalMsf lba).toLba = lba + 150
    ∧ MSF.toPhysicalMsf 0 = ⟨0, 2, 0⟩
    ∧ MSF.toPhysicalMsf 150 = ⟨0, 4, 0⟩ := by
  have h : MSF.toPhysicalMsf lba = MSF.fromLba (lba + 150) := by
    unfold MSF.toPhysicalMsf add32
    rw [show MSF.PREGAP_FRAMES = 150 from rfl, wrap32_of_inInt32 ⟨by omega, by omega⟩]
  refine ⟨h, ?_, by decide, by decide⟩
  rw [h]
  exact MSF.toLba_fromLba _ (by omega) (by omega)

/-- Witness of `toPhysicalMsf_spec` at the last address of its range. -/
theorem toPhysicalMsf_spec_witness :
    MSF.toPhysicalMsf 1151849 = MSF.fromLba (1151849 + 150)
    ∧ (MSF.toPhysicalMsf 1151849).toLba = 1151849 + 150 :=
  ⟨(toPhysicalMsf_spec 1151849 (by decide) (by decide)).1,
    (toPhysicalMsf_spec 1151849 (by decide) (by decide)).2.1⟩

/-! ## Timecodes from text -/

theorem takeWhile_length_eq_iff (p : Char → Bool) (l : List Char) :
    (l.takeWhile p).length = l.length ↔ l.all p = true := by
  induction l with
  | nil => simp
  | cons x xs ih =>
    by_cases hx : p x = true
    · simp [List.takeWhile_cons, hx, ih]
    · simp [List.takeWhile_cons, hx]

theorem takeWhile_eq_of_all (p : Char → Bool) (l : List Char) (h : l.all p = true) :
    l.takeWhile p = l := by
  induction l with
  | nil => rfl
  | cons x xs ih =>
    simp only [List.all_cons, Bool.and_eq_true] at h
    simp [List.takeWhile_cons, h.1, ih h.2]

theorem MSF.parsePart_eq (part : List Char) :
    MSF.parsePart part
      = if isUnsignedDecimal part = true ∧ decimalValue part ≤ 255
        then .ok (Fin.ofNat (decimalValue part)) else .error .InvalidMSF := by
  unfold MSF.parsePart fromCharsUint8 isUnsignedDecimal
  by_cases hall : part.all isDigit = true
  · rw [takeWhile_eq_of_all isDigit part hall]
    cases part with
    | nil => simp
    | cons c rest =>
      by_cases hv : decimalValue (c :: rest) > 255
      · have hv2 : ¬ decimalValue (c :: rest) ≤ 255 := by omega
        simp [hv, hall, hv2]
      · have hv2 : decimalValue (c :: rest) ≤ 255 := by omega
        simp only [List.isEmpty_cons, Bool.false_eq_true, if_false, hv]
        simp [hall, hv2]
  · have hlen : (part.takeWhile isDigit).length ≠ part.length := by
      rw [Ne, takeWhile_length_eq_iff]; exact hall
    have hall2 : part.all isDigit = false := by simpa using hall
    simp only [hall2, Bool.and_false, Bool.false_eq_true, false_and, if_false]
    split_ifs <;> simp_all

theorem MSF.parsePart_ok_val (part : List Char) (v : Byte) (h : MSF.parsePart part = .ok v) :
    isUnsignedDecimal part = true ∧ decimalValue part ≤ 255 ∧ v.val = decimalValue part := by
  rw [MSF.parsePart_eq] at h
  split_ifs at h with hc
  cases h
  refine ⟨hc.1, hc.2, ?_⟩
  simp only [Fin.ofNat, Fin.val_mk]
  omega

theorem MSF.parsePart_error (part : List Char) (e : ErrorCode)
    (h : MSF.parsePart part = .error e) : e = .InvalidMSF := by
  rw [MSF.parsePart_eq] at h
  split_ifs at h
  cases h
  rfl

theorem span_colon_append (pre rest : List Char) (h : ':' ∉ pre) :
    (pre ++ ':' :: rest).span (fun x => decide (x ≠ ':')) = (pre, ':' :: rest) := by
  have hp : ∀ a ∈ pre, (fun x => decide (x ≠ ':')) a = true := by
    intro a ha
    simp only [decide_eq_true_eq]
    rintro rfl
    exact h ha
  rw [List.span_eq_take_drop, List.takeWhile_append_of_pos hp, List.dropWhile_append_of_pos hp]
  simp

theorem span_colon_none (l : List Char) (h : ':' ∉ l) :
    l.span (fun x => decide (x ≠ ':')) = (l, []) := by
  have hp : ∀ a ∈ l, (fun x => decide (x ≠ ':')) a = true := by
    intro a ha
    simp only [decide_eq_true_eq]
    rintro rfl
    exact h ha
  rw [List.span_eq_take_drop, List.takeWhile_eq_self_iff.2 hp, List.dropWhile_eq_nil_iff.2 hp]

theorem first_colon (l : List Char) (h : ':' ∈ l) :
    ∃ pre rest, l = pre ++ ':' :: rest ∧ ':' ∉ pre := by
  induction l with
  | nil => simp at h
  | cons x xs ih =>
    by_cases hx : x = ':'
    · exact ⟨[], xs, by simp [hx], by simp⟩
    · have hxs : ':' ∈ xs := by
        rcases List.mem_cons.1 h with h1 | h1
        · exact absurd h1.symm hx
        · exact h1
      obtain ⟨pre, rest, hl, hpre⟩ := ih hxs
      refine ⟨x :: pre, rest, by simp [hl], ?_⟩
      simp only [List.mem_cons, not_or]
      exact ⟨fun h1 => hx h1.symm, hpre⟩

theorem first_colon_unique (p1 r1 p2 r2 : List Char) (h1 : ':' ∉ p1) (h2 : ':' ∉ p2)
    (h : p1 ++ ':' :: r1 = p2 ++ ':' :: r2) : p1 = p2 ∧ r1 = r2 := by
  have e1 := span_colon_append p1 r1 h1
  have e2 := span_colon_append p2 r2 h2
  rw [h, e2] at e1
  simp only [Prod.mk.injEq, List.cons.injEq, true_and] at e1
  exact ⟨e1.1.symm, e1.2.symm⟩

theorem MSF.parse_timecodeText (mP sP fP : List Char) (hm : ':' ∉ mP) (hs : ':' ∉ sP)
    (hlen : 5 ≤ (timecodeText mP sP fP).length) :
    MSF.parse (timecodeText mP sP fP)
      = match MSF.parsePart mP with
        | .error e => .error e
        | .ok m =>
          match MSF.parsePart sP with
          | .error e => .error e
          | .ok s =>
            match MSF.parsePart fP with
            | .error e => .error e
            | .ok f =>
              if s.val ≥ 60 then .error .InvalidMSF
              else if f.val ≥ 75 then .error .InvalidMSF
              else .ok ⟨m, s, f⟩ := by
  unfold MSF.parse
  rw [if_neg (not_lt.2 hlen)]
  unfold timecodeText
  simp only [ne_eq, span_colon_append mP _ hm, span_colon_append sP _ hs]

/-- The three cases of `MSF::parse`: a text shorter than 5 characters, a text
with fewer than two colons, or a text `M:S:F` whose first two fields hold no
colon. -/
theorem MSF.parse_cases (str : List Char) :
    (str.length < 5 ∧ MSF.parse str = .error .InvalidMSF)
    ∨ (str.count ':' < 2 ∧ MSF.parse str = .error .InvalidMSF)
    ∨ (5 ≤ str.length ∧ ∃ mP sP fP, str = timecodeText mP sP fP ∧ ':' ∉ mP ∧ ':' ∉ sP) := by
  by_cases hlen : str.length < 5
  · exact Or.inl ⟨hlen, by unfold MSF.parse; rw [if_pos hlen]⟩
  · by_cases h1 : ':' ∈ str
    · obtain ⟨mP, r1, hstr, hmP⟩ := first_colon str h1
      by_cases h2 : ':' ∈ r1
      · obtain ⟨sP, fP, hr1, hsP⟩ := first_colon r1 h2
        exact Or.inr (Or.inr ⟨by omega, mP, sP, fP, by rw [hstr, hr1]; rfl, hmP, hsP⟩)
      · refine Or.inr (Or.inl ⟨?_, ?_⟩)
        · rw [hstr, List.count_append, List.count_cons_self, List.count_eq_zero.2 hmP,
            List.count_eq_zero.2 h2]
          decide
        · unfold MSF.parse
          rw [if_neg hlen, hstr]
          simp only [ne_eq, span_colon_append mP _ hmP, span_colon_none r1 h2]
    · refine Or.inr (Or.inl ⟨?_, ?_⟩)
      · rw [List.count_eq_zero.2 h1]; decide
      · unfold MSF.parse
        rw [if_neg hlen]
        simp only [ne_eq, span_colon_none str h1]

theorem MSF.parse_error (str : List Char) (e : ErrorCode) (h : MSF.parse str = .error e) :
    e = .InvalidMSF := by
  rcases MSF.parse_cases str with ⟨_, he⟩ | ⟨_, he⟩ | ⟨hlen, mP, sP, fP, hstr, hm, hs⟩
  · rw [he] at h; cases h; rfl
  · rw [he] at h; cases h; rfl
  · rw [hstr] at h hlen
    rw [MSF.parse_timecodeText mP sP fP hm hs hlen] at h
    cases h1 : MSF.parsePart mP with
    | error e1 =>
      rw [h1] at h; cases h
      exact MSF.parsePart_error mP _ h1
    | ok m =>
      cases h2 : MSF.parsePart sP with
      | error e1 =>
        rw [h1, h2] at h; cases h
        exact MSF.parsePart_error sP _ h2
      | ok s =>
        cases h3 : MSF.parsePart fP with
        | error e1 =>
          rw [h1, h2, h3] at h; cases h
          exact MSF.parsePart_error fP _ h3
        | ok f =>
          rw [h1, h2, h3] at h
          simp only at h
          split_ifs at h <;> cases h <;> rfl

/-- A successful `MSF::parse`: the text is `M:S:F` with three non-empty digit
fields of value at most 255, seconds below 60 and frames below 75, and the
result holds these values. -/
theorem MSF.parse_ok (str : List Char) (m : MSF) (h : MSF.parse str = .ok m) :
    ∃ mP sP fP, str = timecodeText mP sP fP ∧ ':' ∉ mP ∧ ':' ∉ sP
      ∧ isUnsignedDecimal mP = true ∧ isUnsignedDecimal sP = true
      ∧ isUnsignedDecimal fP = true
      ∧ m.minute.val = decimalValue mP ∧ m.second.val = decimalValue sP
      ∧ m.frame.val = decimalValue fP
      ∧ decimalValue mP ≤ 255 ∧ decimalValue sP < 60 ∧ decimalValue fP < 75 := by
  rcases MSF.parse_cases str with ⟨_, he⟩ | ⟨_, he⟩ | ⟨hlen, mP, sP, fP, hstr, hm, hs⟩
  · rw [he] at h; cases h
  · rw [he] at h; cases h
  · refine ⟨mP, sP, fP, hstr, hm, hs, ?_⟩
    rw [hstr] at h hlen
    rw [MSF.parse_timecodeText mP sP fP hm hs hlen] at h
    cases h1 : MSF.parsePart mP with
    | error e1 => rw [h1] at h; cases h
    | ok mv =>
      cases h2 : MSF.parsePart sP with
      | error e1 => rw [h1, h2] at h; cases h
      | ok sv =>
        cases h3 : MSF.parsePart fP with
        | error e1 => rw [h1, h2, h3] at h; cases h
        | ok fv =>
          rw [h1, h2, h3] at h
          simp only at h
          obtain ⟨a1, a2, a3⟩ := MSF.parsePart_ok_val mP mv h1
          obtain ⟨b1, b2, b3⟩ := MSF.parsePart_ok_val sP sv h2
          obtain ⟨c1, c2, c3⟩ := MSF.parsePart_ok_val fP fv h3
          split_ifs at h with hs60 hf75
          cases h
          exact ⟨a1, b1, c1, a3, b3, c3, a2, by omega, by omega⟩

theorem isUnsignedDecimal_iff (part : List Char) :
    isUnsignedDecimal part = true ↔ part ≠ [] ∧ ∀ c ∈ part, isDigit c = true := by
  unfold isUnsignedDecimal
  cases part <;> simp

theorem colon_not_mem_of_decimal (part : List Char) (h : isUnsignedDecimal part = true) :
    ':' ∉ part := by
  intro hc
  have := ((isUnsignedDecimal_iff part).1 h).2 _ hc
  revert this
  decide

theorem count_colon_timecodeText (mP sP fP : List Char) :
    (timecodeText mP sP fP).count ':' = mP.count ':' + sP.count ':' + fP.count ':' + 2 := by
  unfold timecodeText
  rw [List.count_append, List.count_cons_self, List.count_append, List.count_cons_self]
  omega

theorem MSF.parse_good (mP sP fP : List Char)
    (hm : isUnsignedDecimal mP = true) (hs : isUnsignedDecimal sP = true)
    (hf : isUnsignedDecimal fP = true)
    (hmv : decimalValue mP ≤ 255) (hsv : decimalValue sP < 60) (hfv : decimalValue fP < 75) :
    MSF.parse (timecodeText mP sP fP)
      = .ok ⟨Fin.ofNat (decimalValue mP), Fin.ofNat (decimalValue sP),
          Fin.ofNat (decimalValue fP)⟩ := by
  have hlen : 5 ≤ (timecodeText mP sP fP).length := by
    have h1 := List.length_pos.2 ((isUnsignedDecimal_iff mP).1 hm).1
    have h2 := List.length_pos.2 ((isUnsignedDecimal_iff sP).1 hs).1
    have h3 := List.length_pos.2 ((isUnsignedDecimal_iff fP).1 hf).1
    simp only [timecodeText, List.length_append, List.length_cons]
    omega
  rw [MSF.parse_timecodeText mP sP fP (colon_not_mem_of_decimal mP hm)
    (colon_not_mem_of_decimal sP hs) hlen]
  rw [MSF.parsePart_eq, MSF.parsePart_eq, MSF.parsePart_eq, if_pos ⟨hm, hmv⟩,
    if_pos ⟨hs, by omega⟩, if_pos ⟨hf, by omega⟩]
  have e2 : ((Fin.ofNat (decimalValue sP) : Byte)).val = decimalValue sP := by
    simp only [Fin.ofNat, Fin.val_mk]; omega
  have e3 : ((Fin.ofNat (decimalValue fP) : Byte)).val = decimalValue fP := by
    simp only [Fin.ofNat, Fin.val_mk]; omega
  simp only [e2, e3, ge_iff_le]
  rw [if_neg (by omega), if_neg (by omega)]

/-- C25: `MSF::parse` rejects bad text.  For every string: if it is shorter than
5 characters, or holds fewer than two colons, or is `M:S:F` with a field that is
not a non-empty run of decimal digits (empty, signed, non-numeric, or with
trailing garbage), or with a field above 255, or with the second field at least
60, or with the frame field at least 75, then `parse` fails; and every failure
of `parse` carries `ErrorCode::InvalidMSF`. -/
theorem parse_rejects_bad_text (str : List Char) :
    (str.length < 5 → MSF.parse str = .error .InvalidMSF)
    ∧ (str.count ':' < 2 → MSF.parse str = .error .InvalidMSF)
    ∧ (∀ mP sP fP : List Char, str = timecodeText mP sP fP →
        (isUnsignedDecimal mP = false ∨ isUnsignedDecimal sP = false
          ∨ isUnsignedDecimal fP = false
          ∨ 255 < decimalValue mP ∨ 255 < decimalValue sP ∨ 255 < decimalValue fP
          ∨ 60 ≤ decimalValue sP ∨ 75 ≤ decimalValue fP) →
        MSF.parse str = .error .InvalidMSF)
    ∧ (∀ part : List Char,
        (part = [] ∨ '+' ∈ part ∨ '-' ∈ part ∨ ∃ c ∈ part, isDigit c = false) →
        isUnsignedDecimal part = false)
    ∧ (∀ e, MSF.parse str = .error e → e = .InvalidMSF) := by
  have herr : ∀ e, MSF.parse str = .error e → e = .InvalidMSF := MSF.parse_error str
  have hfail : (∀ m, MSF.parse str ≠ .ok m) → MSF.parse str = .error .InvalidMSF := by
    intro hno
    cases hr : MSF.parse str with
    | ok m => exact absurd hr (hno m)
    | error e => rw [herr e hr]
  refine ⟨?_, ?_, ?_, ?_, herr⟩
  · intro hlen
    unfold MSF.parse
    rw [if_pos hlen]
  · intro hcount
    apply hfail
    intro m hm
    obtain ⟨mP, sP, fP, hstr, _⟩ := MSF.parse_ok str m hm
    rw [hstr, count_colon_timecodeText] at hcount
    omega
  · intro mP sP fP hstr hbad
    apply hfail
    intro m hm
    obtain ⟨mQ, sQ, fQ, hstrQ, hmQ, hsQ, dm, ds, df, vm, vs, vf, bm, bs, bf⟩ :=
      MSF.parse_ok str m hm
    have hc1 := count_colon_timecodeText mP sP fP
    have hc2 := count_colon_timecodeText mQ sQ fQ
    rw [← hstr] at hc1
    rw [← hstrQ, List.count_eq_zero.2 hmQ, List.count_eq_zero.2 hsQ,
      List.count_eq_zero.2 (colon_not_mem_of_decimal fQ df)] at hc2
    have hmP : ':' ∉ mP := List.count_eq_zero.1 (by omega)
    have hsP : ':' ∉ sP := List.count_eq_zero.1 (by omega)
    have heq : mP ++ ':' :: (sP ++ ':' :: fP) = mQ ++ ':' :: (sQ ++ ':' :: fQ) := by
      have := hstr.symm.trans hstrQ
      exact this
    obtain ⟨e1, e2⟩ := first_colon_unique mP _ mQ _ hmP hmQ heq
    obtain ⟨e3, e4⟩ := first_colon_unique sP _ sQ _ hsP hsQ e2
    subst e1 e3 e4
    rcases hbad with h | h | h | h | h | h | h | h
    · rw [dm] at h; cases h
    · rw [ds] at h; cases h
    · rw [df] at h; cases h
    all_goals omega
  · intro part hpart
    rw [← Bool.not_eq_true, isUnsignedDecimal_iff]
    rintro ⟨hne, hall⟩
    rcases hpart with h | h | h | ⟨c, hc, hd⟩
    · exact hne h
    · exact absurd (hall _ h) (by decide)
    · exact absurd (hall _ h) (by decide)
    · rw [hall c hc] at hd; cases hd

/-- The rejections of the test `MSFTest.ParseInvalid` (testMsf.cpp lines 74-85)
and of a signed field, from `parse_rejects_bad_text`. -/
theorem parse_rejects_bad_text_witness :
    MSF.parse "000000".toList = .error .InvalidMSF
    ∧ MSF.parse "0:0".toList = .error .InvalidMSF
    ∧ MSF.parse "00:60:00".toList = .error .InvalidMSF
    ∧ MSF.parse "00:00:75".toList = .error .InvalidMSF
    ∧ MSF.parse "aa:bb:cc".toList = .error .InvalidMSF
    ∧ MSF.parse "+1:02:03".toList = .error .InvalidMSF
    ∧ MSF.parse "256:00:00".toList = .error .InvalidMSF :=
  ⟨(parse_rejects_bad_text "000000".toList).2.1 (by decide),
    (parse_rejects_bad_text "0:0".toList).1 (by decide),
    (parse_rejects_bad_text "00:60:00".toList).2.2.1 "00".toList "60".toList "00".toList
      (by decide) (by decide),
    (parse_rejects_bad_text "00:00:75".toList).2.2.1 "00".toList "00".toList "75".toList
      (by decide) (by decide),
    (parse_rejects_bad_text "aa:bb:cc".toList).2.2.1 "aa".toList "bb".toList "cc".toList
      (by decide) (by decide),
    (parse_rejects_bad_text "+1:02:03".toList).2.2.1 "+1".toList "02".toList "03".toList
      (by decide) (by decide),
    (parse_rejects_bad_text "256:00:00".toList).2.2.1 "256".toList "00".toList "00".toList
      (by decide) (by decide)⟩

/-- C26: `MSF::parse` accepts good text.  For every string `M:S:F` whose three
fields are non-empty runs of decimal digits with values `m <= 255`, `s < 60`,
`f < 75` (its length is then at least 5), `parse` succeeds and returns
`MSF(m, s, f)`; every successfully parsed value has `second < 60` and
`frame < 75`; `"72:59:74"` parses to `MSF(72,59,74)`. -/
theorem parse_accepts_good_text (mP sP fP : List Char)
    (hm : isUnsignedDecimal mP = true) (hs : isUnsignedDecimal sP = true)
    (hf : isUnsignedDecimal fP = true)
    (hmv : decimalValue mP ≤ 255) (hsv : decimalValue sP < 60) (hfv : decimalValue fP < 75) :
    5 ≤ (timecodeText mP sP fP).length
    ∧ (∃ m, MSF.parse (timecodeText mP sP fP) = .ok m
        ∧ m.minute.val = decimalValue mP ∧ m.second.val = decimalValue sP
        ∧ m.frame.val = decimalValue fP)
    ∧ (∀ (str : List Char) (m : MSF), MSF.parse str = .ok m →
        m.second.val < 60 ∧ m.frame.val < 75)
    ∧ MSF.parse "72:59:74".toList = .ok ⟨72, 59, 74⟩ := by
  refine ⟨?_, ⟨_, MSF.parse_good mP sP fP hm hs hf hmv hsv hfv, ?_, ?_, ?_⟩, ?_, by decide⟩
  · have h1 := List.length_pos.2 ((isUnsignedDecimal_iff mP).1 hm).1
    have h2 := List.length_pos.2 ((isUnsignedDecimal_iff sP).1 hs).1
    have h3 := List.length_pos.2 ((isUnsignedDecimal_iff fP).1 hf).1
    simp only [timecodeText, List.length_append, List.length_cons]
    omega
  · simp only [Fin.ofNat, Fin.val_mk]; omega
  · simp only [Fin.ofNat, Fin.val_mk]; omega
  · simp only [Fin.ofNat, Fin.val_mk]; omega
  · intro str m hparse
    obtain ⟨_, _, _, _, _, _, _, _, _, _, vs, vf, _, bs, bf⟩ := MSF.parse_ok str m hparse
    omega

/-- Witness of `parse_accepts_good_text` on the fields of `"01:02:03"`
(testMsf.cpp lines 65-67). -/
theorem parse_accepts_good_text_witness :
    timecodeText "01".toList "02".toList "03".toList = "01:02:03".toList
    ∧ MSF.parse "01:02:03".toList = .ok ⟨1, 2, 3⟩
    ∧ ∃ m, MSF.parse (timecodeText "01".toList "02".toList "03".toList) = .ok m
        ∧ m.minute.val = decimalValue "01".toList ∧ m.second.val = decimalValue "02".toList
        ∧ m.frame.val = decimalValue "03".toList :=
  ⟨by decide, by decide,
    (parse_accepts_good_text "01".toList "02".toList "03".toList (by decide) (by decide)
      (by decide) (by decide) (by decide) (by decide)).2.1⟩

/-! ## Sector sizes -/

/-- C28: `sectorSizeForMode` maps Audio to 2352, CDG to 2448, Mode1_2048 to
2048, Mode1_2352 to 2352, Mode2_2336 to 2336, Mode2_2352 to 2352, CDI_2336 to
2336 and CDI_2352 to 2352; and every track of a disc built from a sheet has
`sectorSize = sectorSizeForMode(mode)`. -/
theorem sectorSize_of_mode (fs : FileSystem) (sheet : CueSheet) (d : Disc)
    (h : Disc.fromSheet fs sheet = .ok d) :
    sectorSizeForMode .Audio = 2352 ∧ sectorSizeForMode .CDG = 2448
    ∧ sectorSizeForMode .Mode1_2048 = 2048 ∧ sectorSizeForMode .Mode1_2352 = 2352
    ∧ sectorSizeForMode .Mode2_2336 = 2336 ∧ sectorSizeForMode .Mode2_2352 = 2352
    ∧ sectorSizeForMode .CDI_2336 = 2336 ∧ sectorSizeForMode .CDI_2352 = 2352
    ∧ ∀ t ∈ d.tracks, t.sectorSize = sectorSizeForMode t.mode := by
  refine ⟨rfl, rfl, rfl, rfl, rfl, rfl, rfl, rfl, ?_⟩
  intro t ht
  obtain ⟨hs, _, _, _, htr, _⟩ := fromSheet_tracks h
  rw [htr] at ht
  obtain ⟨f, fi, ct, nx, c1, _, _, heq⟩ := resolveFiles_mem hs sheet.files 0 0 t ht
  rw [heq]
  rfl

/-- Witness of `sectorSize_of_mode` on the three-track fixture `multiTrack.cue`. -/
theorem sectorSize_of_mode_witness :
    Disc.fromSheet multiTrackFs multiTrackSheet = .ok multiTrackDisc
    ∧ multiTrackDisc.tracks.map (fun t => (t.mode, t.sectorSize))
        = [(.Mode2_2352, 2352), (.Audio, 2352), (.Audio, 2352)]
    ∧ ∀ t ∈ multiTrackDisc.tracks, t.sectorSize = sectorSizeForMode t.mode :=
  ⟨by rfl, by decide,
    (sectorSize_of_mode multiTrackFs multiTrackSheet multiTrackDisc (by rfl)).2.2.2.2.2.2.2.2⟩

/-! ## The loop body of the parser -/

theorem parseLine_eq (st : ParseState) (l : List Char) :
    parseLine st l
      = if (trim l).isEmpty then .ok st
        else parseDirective st (lineKeyword l) (nextToken (trim l)).2 := rfl

theorem parseFileDirective_ok (st st1 : ParseState) (rem : List Char)
    (h : parseFileDirective st rem = .ok st1) :
    ∃ cf : CueFile, cf.tracks = []
      ∧ st1 = { sheet := st.sheet.pushFile cf, currentFile := true, currentTrack := false } := by
  unfold parseFileDirective at h
  simp only at h
  split_ifs at h
  split at h
  · cases h
  · cases h
    exact ⟨_, rfl, rfl⟩

theorem parseTrackDirective_ok (st st1 : ParseState) (rem : List Char)
    (h : parseTrackDirective st rem = .ok st1) :
    st.currentFile = true
    ∧ ∃ (num : Byte) (mode : TrackMode),
        st1 = { sheet := st.sheet.pushTrack { CueTrack.empty with number := num, mode := mode },
                currentFile := true, currentTrack := true } := by
  unfold parseTrackDirective at h
  simp only at h
  split_ifs at h with hcf
  have hcf1 : st.currentFile = true := by simpa using hcf
  split at h
  · cases h
  · split at h
    · cases h
    · cases h
      exact ⟨hcf1, _, _, by rw [hcf1]⟩

theorem parseIndexDirective_ok (st st1 : ParseState) (rem : List Char)
    (h : parseIndexDirective st rem = .ok st1) :
    st.currentTrack = true
    ∧ ∃ (num : Byte) (msf : MSF),
        parseUint8 (nextToken rem).1 = .ok num
        ∧ MSF.parse (nextToken (nextToken rem).2).1 = .ok msf
        ∧ (∀ ct, st.track = some ct → num ∉ ct.indices.map (fun i => i.number))
        ∧ st1 = st.setTrack (fun ct => { ct with indices := ct.indices ++ [⟨num, msf⟩] }) := by
  unfold parseIndexDirective at h
  simp only at h
  split_ifs at h with hct
  have hct1 : st.currentTrack = true := by simpa using hct
  split at h
  · cases h
  · next num hnum =>
    split at h
    · cases h
    · next msf hmsf =>
      split_ifs at h with hany
      cases h
      refine ⟨hct1, num, msf, hnum, hmsf, ?_, rfl⟩
      intro ct hst hmem
      apply hany
      rw [hst]
      simp only [List.any_eq_true, decide_eq_true_eq]
      obtain ⟨idx, hidx, hn⟩ := List.mem_map.1 hmem
      exact ⟨idx, hidx, hn⟩

theorem parseOtherDirective_ok (st st1 : ParseState) (kw rem : List Char)
    (h : parseOtherDirective st kw rem = .ok st1) :
    st1.currentFile = st.currentFile ∧ st1.currentTrack = st.currentTrack
    ∧ (st1.sheet.files = st.sheet.files
        ∨ (st.currentTrack = true
            ∧ ∃ f : CueTrack → CueTrack, (∀ ct, (f ct).indices = ct.indices)
                ∧ st1.sheet.files = (st.setTrack f).sheet.files)) := by
  have track1 : ∀ (f : CueTrack → CueTrack), (∀ ct, (f ct).indices = ct.indices) →
      (if (!st.currentTrack) = true then Result.error ErrorCode.UnexpectedDirective
        else Result.ok (st.setTrack f)) = Result.ok st1 →
      st1.currentFile = st.currentFile ∧ st1.currentTrack = st.currentTrack
      ∧ (st1.sheet.files = st.sheet.files
          ∨ (st.currentTrack = true
              ∧ ∃ f : CueTrack → CueTrack, (∀ ct, (f ct).indices = ct.indices)
                  ∧ st1.sheet.files = (st.setTrack f).sheet.files)) := by
    intro f hf h1
    by_cases hct : st.currentTrack = true
    · rw [if_neg (by simp [hct])] at h1
      cases h1
      exact ⟨rfl, rfl, Or.inr ⟨hct, f, hf, rfl⟩⟩
    · rw [if_pos (by simpa using hct)] at h1
      cases h1
  have track2 : ∀ (f : CueTrack → CueTrack) (g : ParseState), (∀ ct, (f ct).indices = ct.indices) →
      g.sheet.files = st.sheet.files → g.currentFile = st.currentFile →
      g.currentTrack = st.currentTrack →
      (if st.currentTrack = true then Result.ok (st.setTrack f) else Result.ok g)
        = Result.ok st1 →
      st1.currentFile = st.currentFile ∧ st1.currentTrack = st.currentTrack
      ∧ (st1.sheet.files = st.sheet.files
          ∨ (st.currentTrack = true
              ∧ ∃ f : CueTrack → CueTrack, (∀ ct, (f ct).indices = ct.indices)
                  ∧ st1.sheet.files = (st.setTrack f).sheet.files)) := by
    intro f g hf hg1 hg2 hg3 h1
    by_cases hct : st.currentTrack = true
    · rw [if_pos hct] at h1
      cases h1
      exact ⟨rfl, rfl, Or.inr ⟨hct, f, hf, rfl⟩⟩
    · rw [if_neg hct] at h1
      cases h1
      exact ⟨hg2, hg3, Or.inl hg1⟩
  unfold parseOtherDirective at h
  by_cases k1 : kw = "PREGAP".toList
  · rw [if_pos k1] at h
    cases hm : MSF.parse (nextToken rem).1 with
    | error e => rw [hm] at h; split_ifs at h
    | ok msf => rw [hm] at h; exact track1 _ (by intro ct; rfl) h
  rw [if_neg k1] at h
  by_cases k2 : kw = "POSTGAP".toList
  · rw [if_pos k2] at h
    cases hm : MSF.parse (nextToken rem).1 with
    | error e => rw [hm] at h; split_ifs at h
    | ok msf => rw [hm] at h; exact track1 _ (by intro ct; rfl) h
  rw [if_neg k2] at h
  by_cases k3 : kw = "FLAGS".toList
  · rw [if_pos k3] at h
    exact track1 _ (by intro ct; rfl) h
  rw [if_neg k3] at h
  by_cases k4 : kw = "ISRC".toList
  · rw [if_pos k4] at h
    exact track1 _ (by intro ct; rfl) h
  rw [if_neg k4] at h
  by_cases k5 : kw = "CATALOG".toList
  · rw [if_pos k5] at h
    cases h
    exact ⟨rfl, rfl, Or.inl rfl⟩
  rw [if_neg k5] at h
  by_cases k6 : kw = "CDTEXTFILE".toList
  · rw [if_pos k6] at h
    cases h
    exact ⟨rfl, rfl, Or.inl rfl⟩
  rw [if_neg k6] at h
  by_cases k7 : kw = "TITLE".toList
  · rw [if_pos k7] at h
    exact track2 _ _ (by intro ct; rfl) (by rfl) (by rfl) (by rfl) h
  rw [if_neg k7] at h
  by_cases k8 : kw = "PERFORMER".toList
  · rw [if_pos k8] at h
    exact track2 _ _ (by intro ct; rfl) (by rfl) (by rfl) (by rfl) h
  rw [if_neg k8] at h
  by_cases k9 : kw = "SONGWRITER".toList
  · rw [if_pos k9] at h
    exact track2 _ _ (by intro ct; rfl) (by rfl) (by rfl) (by rfl) h
  rw [if_neg k9] at h
  by_cases k10 : kw = "REM".toList
  · rw [if_pos k10] at h
    cases h
    exact ⟨rfl, rfl, Or.inl rfl⟩
  rw [if_neg k10] at h
  cases h
  exact ⟨rfl, rfl, Or.inl rfl⟩

/-- What a line that `parseLine` accepts does to the state: nothing (blank
line), a new file, a new track, a new index in the open track, or one of the
other directives, which leave the open file and track in place. -/
theorem parseLine_ok_cases (st st1 : ParseState) (l : List Char)
    (h : parseLine st l = .ok st1) :
    st1 = st
    ∨ (lineKeyword l = "FILE".toList ∧ ∃ cf : CueFile, cf.tracks = []
        ∧ st1 = { sheet := st.sheet.pushFile cf, currentFile := true, currentTrack := false })
    ∨ (lineKeyword l ≠ "FILE".toList ∧ st.currentFile = true
        ∧ ∃ (num : Byte) (mode : TrackMode),
          st1 = { sheet := st.sheet.pushTrack { CueTrack.empty with number := num, mode := mode },
                  currentFile := true, currentTrack := true })
    ∨ (lineKeyword l ≠ "FILE".toList ∧ st.currentTrack = true
        ∧ ∃ (num : Byte) (msf : MSF),
          (∀ ct, st.track = some ct → num ∉ ct.indices.map (fun i => i.number))
          ∧ st1 = st.setTrack (fun ct => { ct with indices := ct.indices ++ [⟨num, msf⟩] }))
    ∨ (lineKeyword l ≠ "FILE".toList
        ∧ st1.currentFile = st.currentFile ∧ st1.currentTrack = st.currentTrack
        ∧ (st1.sheet.files = st.sheet.files
            ∨ (st.currentTrack = true
                ∧ ∃ f : CueTrack → CueTrack, (∀ ct, (f ct).indices = ct.indices)
                    ∧ st1.sheet.files = (st.setTrack f).sheet.files))) := by
  rw [parseLine_eq] at h
  by_cases hb : (trim l).isEmpty = true
  · rw [if_pos hb] at h
    cases h
    exact Or.inl rfl
  rw [if_neg hb] at h
  unfold parseDirective at h
  by_cases k1 : lineKeyword l = "FILE".toList
  · rw [if_pos k1] at h
    exact Or.inr (Or.inl ⟨k1, parseFileDirective_ok st st1 _ h⟩)
  rw [if_neg k1] at h
  by_cases k2 : lineKeyword l = "TRACK".toList
  · rw [if_pos k2] at h
    obtain ⟨a, b⟩ := parseTrackDirective_ok st st1 _ h
    exact Or.inr (Or.inr (Or.inl ⟨k1, a, b⟩))
  rw [if_neg k2] at h
  by_cases k3 : lineKeyword l = "INDEX".toList
  · rw [if_pos k3] at h
    obtain ⟨a, num, msf, _, _, b, c⟩ := parseIndexDirective_ok st st1 _ h
    exact Or.inr (Or.inr (Or.inr (Or.inl ⟨k1, a, num, msf, b, c⟩)))
  rw [if_neg k3] at h
  exact Or.inr (Or.inr (Or.inr (Or.inr ⟨k1, parseOtherDirective_ok st st1 _ _ h⟩)))

theorem modifyLast_concat {α : Type} (f : α → α) (ys : List α) (a : α) :
    modifyLast f (ys ++ [a]) = ys ++ [f a] := by
  induction ys with
  | nil => rfl
  | cons y rest ih =>
    cases rest with
    | nil => rfl
    | cons z rest2 =>
      simp only [List.cons_append] at ih ⊢
      show y :: modifyLast f (z :: (rest2 ++ [a])) = y :: z :: (rest2 ++ [f a])
      rw [ih]

theorem list_nil_or_concat {α : Type} (l : List α) : l = [] ∨ ∃ ys a, l = ys ++ [a] := by
  cases h : l.getLast? with
  | none => exact Or.inl (List.getLast?_eq_none_iff.1 h)
  | some a =>
    obtain ⟨ys, hys⟩ := List.getLast?_eq_some_iff.1 h
    exact Or.inr ⟨ys, a, hys⟩

theorem setTrack_files_nil (st : ParseState) (f : CueTrack → CueTrack)
    (h : st.sheet.files = []) : (st.setTrack f).sheet.files = [] := by
  simp only [ParseState.setTrack, h, modifyLast]

theorem parseLine_without_file (st st1 : ParseState) (l : List Char)
    (hkw : lineKeyword l ≠ "FILE".toList)
    (hf : st.sheet.files = []) (hcf : st.currentFile = false) (hct : st.currentTrack = false)
    (h : parseLine st l = .ok st1) :
    st1.sheet.files = [] ∧ st1.currentFile = false ∧ st1.currentTrack = false := by
  rcases parseLine_ok_cases st st1 l h with h1 | ⟨k, _⟩ | ⟨_, c, _⟩ | ⟨_, c, _⟩
    | ⟨_, a, b, c⟩
  · rw [h1]; exact ⟨hf, hcf, hct⟩
  · exact absurd k hkw
  · rw [hcf] at c; cases c
  · rw [hct] at c; cases c
  · refine ⟨?_, by rw [a, hcf], by rw [b, hct]⟩
    rcases c with c | ⟨c, _⟩
    · rw [c, hf]
    · rw [hct] at c; cases c

/-! ## Invariants of the parser -/

theorem parseLines_without_file :
    ∀ (ls : List (List Char)) (st st1 : ParseState),
      (∀ l ∈ ls, lineKeyword l ≠ "FILE".toList) →
      st.sheet.files = [] → st.currentFile = false → st.currentTrack = false →
      parseLines st ls = .ok st1 → st1.sheet.files = []
  | [], st, st1, _, hf, _, _, h => by
    simp only [parseLines, Result.ok.injEq] at h
    rw [← h]; exact hf
  | l :: rest, st, st1, hkw, hf, hcf, hct, h => by
    simp only [parseLines] at h
    cases h1 : parseLine st l with
    | error e => rw [h1] at h; cases h
    | ok st2 =>
      rw [h1] at h
      obtain ⟨a, b, c⟩ := parseLine_without_file st st2 l
        (hkw l (List.mem_cons_self _ _)) hf hcf hct h1
      exact parseLines_without_file rest st2 st1
        (fun x hx => hkw x (List.mem_cons_of_mem _ hx)) a b c h

theorem parseString_eq (content : String) :
    parseString content
      = match parseLines ParseState.initial (cueLines content) with
        | .error e => .error e
        | .ok st => if st.sheet.files.isEmpty then .error .InvalidCueFormat else .ok st.sheet :=
  rfl

/-- C29: every sheet a successful `CueParser::parseString` returns has a
non-empty `files` list; for a text with no `FILE` directive, `parseString`
never succeeds, and when no line raises an error it fails with
`InvalidCueFormat`; the empty string fails with `InvalidCueFormat`. -/
theorem parseString_files_nonempty (content : String) :
    (∀ sheet, parseString content = .ok sheet → sheet.files ≠ [])
    ∧ ((∀ l ∈ cueLines content, lineKeyword l ≠ "FILE".toList) →
        (∀ sheet, parseString content ≠ .ok sheet)
        ∧ ((∃ st, parseLines ParseState.initial (cueLines content) = .ok st) →
            parseString content = .error .InvalidCueFormat))
    ∧ parseString "" = .error .InvalidCueFormat := by
  have hnofile : (∀ l ∈ cueLines content, lineKeyword l ≠ "FILE".toList) →
      (∃ st, parseLines ParseState.initial (cueLines content) = .ok st) →
      parseString content = .error .InvalidCueFormat := by
    rintro hkw ⟨st, hst⟩
    have hfiles := parseLines_without_file (cueLines content) ParseState.initial st hkw
      rfl rfl rfl hst
    rw [parseString_eq, hst]
    simp [hfiles]
  refine ⟨?_, fun hkw => ⟨?_, hnofile hkw⟩, by decide⟩
  · intro sheet h hempty
    rw [parseString_eq] at h
    cases hst : parseLines ParseState.initial (cueLines content) with
    | error e => rw [hst] at h; cases h
    | ok st =>
      rw [hst] at h
      simp only at h
      split_ifs at h with hc
      cases h
      rw [hempty] at hc
      exact hc rfl
  · intro sheet h
    cases hst : parseLines ParseState.initial (cueLines content) with
    | error e => rw [parseString_eq, hst] at h; cases h
    | ok st =>
      rw [hnofile hkw ⟨st, hst⟩] at h
      cases h

/-- Witness of `parseString_files_nonempty`: a text of remarks and a title
without `FILE` line fails with `InvalidCueFormat`; the text of the test
`ErrorTrackBeforeFile`, also without `FILE` line, raises `UnexpectedDirective`
at its first line. -/
theorem parseString_files_nonempty_witness :
    (∀ l ∈ cueLines remarksOnlyText, lineKeyword l ≠ "FILE".toList)
    ∧ parseString remarksOnlyText = .error .InvalidCueFormat
    ∧ (∀ l ∈ cueLines trackBeforeFileText, lineKeyword l ≠ "FILE".toList)
    ∧ parseString trackBeforeFileText = .error .UnexpectedDirective :=
  ⟨by decide,
    ((parseString_files_nonempty remarksOnlyText).2.1 (by decide)).2 ⟨_, by rfl⟩,
    by decide, by decide⟩

theorem indicesUnique_of_files {a b : CueSheet} (h : a.files = b.files)
    (hb : b.indicesUnique) : a.indicesUnique := by
  unfold CueSheet.indicesUnique at *
  rw [h]; exact hb

theorem track_mem (st : ParseState) (z : CueTrack) (h : st.track = some z) :
    ∃ y ys zs, st.sheet.files = ys ++ [y] ∧ y.tracks = zs ++ [z] := by
  unfold ParseState.track at h
  cases hl : st.sheet.files.getLast? with
  | none => rw [hl] at h; cases h
  | some y =>
    rw [hl] at h
    obtain ⟨ys, hys⟩ := List.getLast?_eq_some_iff.1 hl
    obtain ⟨zs, hzs⟩ := List.getLast?_eq_some_iff.1 h
    exact ⟨y, ys, zs, hys, hzs⟩

theorem indicesUnique_setTrack (st : ParseState) (f : CueTrack → CueTrack)
    (hinv : st.sheet.indicesUnique)
    (hf : ∀ z, st.track = some z → ((f z).indices.map (fun i => i.number)).Nodup) :
    (st.setTrack f).sheet.indicesUnique := by
  intro cf hcf ct hct
  simp only [ParseState.setTrack] at hcf
  rcases list_nil_or_concat st.sheet.files with hnil | ⟨ys, y, hys⟩
  · rw [hnil] at hcf
    simp [modifyLast] at hcf
  · rw [hys, modifyLast_concat] at hcf
    rcases List.mem_append.1 hcf with hmem | hmem
    · exact hinv cf (by rw [hys]; exact List.mem_append_left _ hmem) ct hct
    · simp only [List.mem_singleton] at hmem
      subst hmem
      have hy : y ∈ st.sheet.files := by rw [hys]; simp
      simp only [CueFile.setLastTrack] at hct
      rcases list_nil_or_concat y.tracks with hnil | ⟨zs, z, hzs⟩
      · rw [hnil] at hct
        simp [modifyLast] at hct
      · rw [hzs, modifyLast_concat] at hct
        rcases List.mem_append.1 hct with hmem | hmem
        · exact hinv y hy ct (by rw [hzs]; exact List.mem_append_left _ hmem)
        · simp only [List.mem_singleton] at hmem
          subst hmem
          apply hf
          unfold ParseState.track
          rw [hys, List.getLast?_concat]
          simp only
          rw [hzs, List.getLast?_concat]

theorem indicesUnique_pushFile (sheet : CueSheet) (cf : CueFile) (hcf : cf.tracks = [])
    (hinv : sheet.indicesUnique) : (sheet.pushFile cf).indicesUnique := by
  intro f hfm ct hct
  simp only [CueSheet.pushFile, List.mem_append, List.mem_singleton] at hfm
  rcases hfm with hfm | rfl
  · exact hinv f hfm ct hct
  · rw [hcf] at hct; cases hct

theorem indicesUnique_pushTrack (sheet : CueSheet) (ct : CueTrack) (hct : ct.indices = [])
    (hinv : sheet.indicesUnique) : (sheet.pushTrack ct).indicesUnique := by
  intro f hfm t ht
  simp only [CueSheet.pushTrack] at hfm
  rcases list_nil_or_concat sheet.files with hnil | ⟨ys, y, hys⟩
  · rw [hnil] at hfm
    simp [modifyLast] at hfm
  · rw [hys, modifyLast_concat] at hfm
    rcases List.mem_append.1 hfm with hmem | hmem
    · exact hinv f (by rw [hys]; exact List.mem_append_left _ hmem) t ht
    · simp only [List.mem_singleton] at hmem
      subst hmem
      simp only [CueFile.pushTrack, List.mem_append, List.mem_singleton] at ht
      rcases ht with ht | rfl
      · exact hinv y (by rw [hys]; simp) t ht
      · rw [hct]; exact List.nodup_nil

theorem parseLine_indicesUnique (st st1 : ParseState) (l : List Char)
    (hinv : st.sheet.indicesUnique) (h : parseLine st l = .ok st1) :
    st1.sheet.indicesUnique := by
  rcases parseLine_ok_cases st st1 l h with h1 | ⟨_, cf, hcf, h1⟩ | ⟨_, _, num, mode, h1⟩
    | ⟨_, _, num, msf, hnew, h1⟩ | ⟨_, _, _, c⟩
  · rw [h1]; exact hinv
  · rw [h1]; exact indicesUnique_pushFile _ cf hcf hinv
  · rw [h1]; exact indicesUnique_pushTrack _ _ rfl hinv
  · rw [h1]
    apply indicesUnique_setTrack st _ hinv
    intro z hz
    obtain ⟨y, ys, zs, hys, hzs⟩ := track_mem st z hz
    have hzn := hinv y (by rw [hys]; simp) z (by rw [hzs]; simp)
    simp only [List.map_append, List.map_cons, List.map_nil]
    rw [List.nodup_append]
    refine ⟨hzn, List.nodup_singleton _, ?_⟩
    intro a ha hb
    simp only [List.mem_singleton] at hb
    subst hb
    exact hnew z hz ha
  · rcases c with c | ⟨_, f, hf, c⟩
    · exact indicesUnique_of_files c hinv
    · apply indicesUnique_of_files c
      apply indicesUnique_setTrack st f hinv
      intro z hz
      obtain ⟨y, ys, zs, hys, hzs⟩ := track_mem st z hz
      rw [hf]
      exact hinv y (by rw [hys]; simp) z (by rw [hzs]; simp)

theorem parseLines_indicesUnique :
    ∀ (ls : List (List Char)) (st st1 : ParseState),
      st.sheet.indicesUnique → parseLines st ls = .ok st1 → st1.sheet.indicesUnique
  | [], st, st1, hinv, h => by
    simp only [parseLines, Result.ok.injEq] at h
    rw [← h]; exact hinv
  | l :: rest, st, st1, hinv, h => by
    simp only [parseLines] at h
    cases h1 : parseLine st l with
    | error e => rw [h1] at h; cases h
    | ok st2 =>
      rw [h1] at h
      exact parseLines_indicesUnique rest st2 st1 (parseLine_indicesUnique st st2 l hinv h1) h

theorem parseLines_append_error :
    ∀ (pre : List (List Char)) (st st1 : ParseState) (l : List Char) (post : List (List Char))
      (e : ErrorCode), parseLines st pre = .ok st1 → parseLine st1 l = .error e →
      parseLines st (pre ++ l :: post) = .error e
  | [], st, st1, l, post, e, h, he => by
    simp only [parseLines, Result.ok.injEq] at h
    subst h
    simp only [List.nil_append, parseLines, he]
  | x :: rest, st, st1, l, post, e, h, he => by
    simp only [parseLines] at h
    cases h1 : parseLine st x with
    | error e1 => rw [h1] at h; cases h
    | ok st2 =>
      rw [h1] at h
      simp only [List.cons_append, parseLines, h1]
      exact parseLines_append_error rest st2 st1 l post e h he

theorem parseString_of_lines_error (content : String) (e : ErrorCode)
    (h : parseLines ParseState.initial (cueLines content) = .error e) :
    parseString content = .error e := by
  rw [parseString_eq, h]

theorem parseUint8_error (sv : List Char) (e : ErrorCode) (h : parseUint8 sv = .error e) :
    e = .InvalidCueFormat := by
  unfold parseUint8 at h
  split at h
  split_ifs at h
  cases h
  rfl

theorem parseTrackMode_error (sv : List Char) (e : ErrorCode)
    (h : parseTrackMode sv = .error e) : e = .InvalidTrackMode := by
  unfold parseTrackMode at h
  simp only at h
  split_ifs at h
  cases h
  rfl

theorem parseFileType_error (sv : List Char) (e : ErrorCode)
    (h : parseFileType sv = .error e) : e = .InvalidFileType := by
  unfold parseFileType at h
  simp only at h
  split_ifs at h
  cases h
  rfl

theorem parseFileDirective_error (st : ParseState) (rem : List Char) (e : ErrorCode)
    (h : parseFileDirective st rem = .error e) :
    e = .InvalidCueFormat ∨ e = .InvalidFileType := by
  unfold parseFileDirective at h
  simp only at h
  split_ifs at h
  · cases h; exact Or.inl rfl
  · split at h
    · next e1 he1 =>
      cases h
      exact Or.inr (parseFileType_error _ _ he1)
    · cases h

theorem parseTrackDirective_error (st : ParseState) (rem : List Char) (e : ErrorCode)
    (h : parseTrackDirective st rem = .error e) :
    e = .UnexpectedDirective ∨ e = .InvalidCueFormat ∨ e = .InvalidTrackMode := by
  unfold parseTrackDirective at h
  simp only at h
  split_ifs at h
  · cases h; exact Or.inl rfl
  · cases h; exact Or.inr (Or.inl rfl)
  · split at h
    · next e1 he1 =>
      cases h
      exact Or.inr (Or.inl (parseUint8_error _ _ he1))
    · split at h
      · next e1 he1 =>
        cases h
        exact Or.inr (Or.inr (parseTrackMode_error _ _ he1))
      · cases h

theorem parseOtherDirective_error (st : ParseState) (kw rem : List Char) (e : ErrorCode)
    (h : parseOtherDirective st kw rem = .error e) :
    e = .UnexpectedDirective ∨ e = .InvalidMSF := by
  have gap : ∀ (f : MSF → CueTrack → CueTrack),
      (if (!st.currentTrack) = true then Result.error ErrorCode.UnexpectedDirective
        else
          match MSF.parse (nextToken rem).1 with
          | .error e => .error e
          | .ok msf => Result.ok (st.setTrack (f msf))) = Result.error e →
      e = .UnexpectedDirective ∨ e = .InvalidMSF := by
    intro f h1
    split_ifs at h1
    · cases h1; exact Or.inl rfl
    · split at h1
      · next e1 he1 =>
        cases h1
        exact Or.inr (MSF.parse_error _ _ he1)
      · cases h1
  have track1 : ∀ (g : ParseState),
      (if (!st.currentTrack) = true then Result.error ErrorCode.UnexpectedDirective
        else Result.ok g) = Result.error e →
      e = .UnexpectedDirective ∨ e = .InvalidMSF := by
    intro g h1
    split_ifs at h1
    cases h1; exact Or.inl rfl
  have track2 : ∀ (g1 g2 : ParseState),
      (if st.currentTrack = true then Result.ok g1 else Result.ok g2) = Result.error e →
      e = .UnexpectedDirective ∨ e = .InvalidMSF := by
    intro g1 g2 h1
    split_ifs at h1
  unfold parseOtherDirective at h
  by_cases k1 : kw = "PREGAP".toList
  · rw [if_pos k1] at h
    exact gap (fun msf ct => { ct with pregap := some msf }) h
  rw [if_neg k1] at h
  by_cases k2 : kw = "POSTGAP".toList
  · rw [if_pos k2] at h
    exact gap (fun msf ct => { ct with postgap := some msf }) h
  rw [if_neg k2] at h
  by_cases k3 : kw = "FLAGS".toList
  · rw [if_pos k3] at h
    exact track1 _ h
  rw [if_neg k3] at h
  by_cases k4 : kw = "ISRC".toList
  · rw [if_pos k4] at h
    exact track1 _ h
  rw [if_neg k4] at h
  by_cases k5 : kw = "CATALOG".toList
  · rw [if_pos k5] at h
    cases h
  rw [if_neg k5] at h
  by_cases k6 : kw = "CDTEXTFILE".toList
  · rw [if_pos k6] at h
    cases h
  rw [if_neg k6] at h
  by_cases k7 : kw = "TITLE".toList
  · rw [if_pos k7] at h
    exact track2 _ _ h
  rw [if_neg k7] at h
  by_cases k8 : kw = "PERFORMER".toList
  · rw [if_pos k8] at h
    exact track2 _ _ h
  rw [if_neg k8] at h
  by_cases k9 : kw = "SONGWRITER".toList
  · rw [if_pos k9] at h
    exact track2 _ _ h
  rw [if_neg k9] at h
  by_cases k10 : kw = "REM".toList
  · rw [if_pos k10] at h
    cases h
  rw [if_neg k10] at h
  cases h

theorem parseIndexDirective_duplicate_iff (st : ParseState) (rem : List Char) :
    parseIndexDirective st rem = .error .DuplicateIndex
      ↔ st.currentTrack = true
        ∧ ∃ (num : Byte) (msf : MSF) (ct : CueTrack),
            parseUint8 (nextToken rem).1 = .ok num
            ∧ MSF.parse (nextToken (nextToken rem).2).1 = .ok msf
            ∧ st.track = some ct ∧ num ∈ ct.indices.map (fun i => i.number) := by
  unfold parseIndexDirective
  simp only
  constructor
  · intro h
    split_ifs at h with hct hempty
    · cases h
    · cases h
    · have hct1 : st.currentTrack = true := by simpa using hct
      split at h
      · next e1 he1 => cases h; cases parseUint8_error _ _ he1
      · next num hnum =>
        split at h
        · next e1 he1 => cases h; cases MSF.parse_error _ _ he1
        · next msf hmsf =>
          split_ifs at h with hany
          cases hst : st.track with
          | none => rw [hst] at hany; simp at hany
          | some ct =>
            rw [hst] at hany
            simp only [List.any_eq_true, decide_eq_true_eq] at hany
            obtain ⟨idx, hidx, hn⟩ := hany
            exact ⟨hct1, num, msf, ct, hnum, hmsf, rfl, List.mem_map.2 ⟨idx, hidx, hn⟩⟩
  · rintro ⟨hct, num, msf, ct, hnum, hmsf, hst, hmem⟩
    have ha : (nextToken rem).1 ≠ [] := by
      intro h0
      have hnil : parseUint8 [] = .error .InvalidCueFormat := by decide
      rw [h0, hnil] at hnum
      cases hnum
    have hb : (nextToken (nextToken rem).2).1 ≠ [] := by
      intro h0
      have hnil : MSF.parse [] = .error .InvalidMSF := by decide
      rw [h0, hnil] at hmsf
      cases hmsf
    rw [if_neg (by simp [hct]), if_neg (by simp [ha, hb]), hnum, hmsf, hst]
    simp only
    rw [if_pos]
    simp only [List.any_eq_true, decide_eq_true_eq]
    obtain ⟨idx, hidx, hn⟩ := List.mem_map.1 hmem
    exact ⟨idx, hidx, hn⟩

theorem lineKeyword_of_blank (l : List Char) (h : (trim l).isEmpty = true) :
    lineKeyword l = [] := by
  have h0 : trim l = [] := by simpa using h
  unfold lineKeyword
  rw [h0]
  decide

/-- The lines on which `parseLine` reports `DuplicateIndex`: the `INDEX` lines
whose number and timecode parse, read while a track is open whose indices
already hold that number. -/
theorem parseLine_duplicate_iff (st : ParseState) (l : List Char) :
    parseLine st l = .error .DuplicateIndex
      ↔ lineKeyword l = "INDEX".toList ∧ st.currentTrack = true
        ∧ ∃ (num : Byte) (msf : MSF) (ct : CueTrack),
            parseUint8 (firstArgument l) = .ok num
            ∧ MSF.parse (secondArgument l) = .ok msf
            ∧ st.track = some ct ∧ num ∈ ct.indices.map (fun i => i.number) := by
  rw [parseLine_eq]
  by_cases hb : (trim l).isEmpty = true
  · rw [if_pos hb, lineKeyword_of_blank l hb]
    constructor
    · intro h; cases h
    · rintro ⟨h, _⟩; exact absurd h (by decide)
  rw [if_neg hb]
  unfold parseDirective
  by_cases k1 : lineKeyword l = "FILE".toList
  · rw [if_pos k1]
    constructor
    · intro h
      rcases parseFileDirective_error _ _ _ h with h1 | h1 <;> cases h1
    · rintro ⟨h, _⟩
      rw [k1] at h; exact absurd h (by decide)
  rw [if_neg k1]
  by_cases k2 : lineKeyword l = "TRACK".toList
  · rw [if_pos k2]
    constructor
    · intro h
      rcases parseTrackDirective_error _ _ _ h with h1 | h1 | h1 <;> cases h1
    · rintro ⟨h, _⟩
      rw [k2] at h; exact absurd h (by decide)
  rw [if_neg k2]
  by_cases k3 : lineKeyword l = "INDEX".toList
  · rw [if_pos k3, parseIndexDirective_duplicate_iff]
    simp only [k3, true_and]
    rfl
  rw [if_neg k3]
  constructor
  · intro h
    rcases parseOtherDirective_error _ _ _ _ h with h1 | h1 <;> cases h1
  · rintro ⟨h, _⟩
    exact absurd h k3

/-- C30: in every sheet a successful `parseString` returns, the index numbers
within each track are pairwise distinct.  `parseLine` reports `DuplicateIndex`
exactly on an `INDEX` line whose number and timecode parse, read while a track
is open whose indices already hold that number; the indices of other tracks do
not count.  Such a line makes `parseString` fail with `DuplicateIndex` when the
lines before it raise no error.  The text of the test `ErrorDuplicateIndex`
fails with `DuplicateIndex`, and a text with `INDEX 01` in two different tracks
is accepted. -/
theorem parseString_unique_indices (content : String) :
    (∀ sheet, parseString content = .ok sheet →
        ∀ f ∈ sheet.files, ∀ ct ∈ f.tracks, (ct.indices.map (fun i => i.number)).Nodup)
    ∧ (∀ (st : ParseState) (l : List Char),
        parseLine st l = .error .DuplicateIndex
          ↔ lineKeyword l = "INDEX".toList ∧ st.currentTrack = true
            ∧ ∃ (num : Byte) (msf : MSF) (ct : CueTrack),
                parseUint8 (firstArgument l) = .ok num
                ∧ MSF.parse (secondArgument l) = .ok msf
                ∧ st.track = some ct ∧ num ∈ ct.indices.map (fun i => i.number))
    ∧ (∀ (pre post : List (List Char)) (l : List Char) (st : ParseState),
        cueLines content = pre ++ l :: post →
        parseLines ParseState.initial pre = .ok st →
        lineKeyword l = "INDEX".toList → st.currentTrack = true →
        (∃ (num : Byte) (msf : MSF) (ct : CueTrack),
            parseUint8 (firstArgument l) = .ok num
            ∧ MSF.parse (secondArgument l) = .ok msf
            ∧ st.track = some ct ∧ num ∈ ct.indices.map (fun i => i.number)) →
        parseString content = .error .DuplicateIndex)
    ∧ parseString duplicateIndexText = .error .DuplicateIndex
    ∧ parseString shortImageText = .ok shortImageSheet
    ∧ (shortImageSheet.files.flatMap (fun f => f.tracks)).map
        (fun ct => ct.indices.map (fun i => i.number)) = [[1], [1]] := by
  refine ⟨?_, parseLine_duplicate_iff, ?_, by decide, by decide, by decide⟩
  · intro sheet h
    rw [parseString_eq] at h
    cases hst : parseLines ParseState.initial (cueLines content) with
    | error e => rw [hst] at h; cases h
    | ok st =>
      rw [hst] at h
      simp only at h
      split_ifs at h
      cases h
      exact parseLines_indicesUnique _ _ st (fun f hf => by cases hf) hst
  · intro pre post l st hlines hpre hkw hct hdup
    apply parseString_of_lines_error
    rw [hlines]
    exact parseLines_append_error pre _ st l post _ hpre
      ((parseLine_duplicate_iff st l).2 ⟨hkw, hct, hdup⟩)

/-- Witness of `parseString_unique_indices`: the two tracks of `shortImageText`
both declare `INDEX 01` and the sheet is returned with distinct index numbers
within each track. -/
theorem parseString_unique_indices_witness :
    parseString shortImageText = .ok shortImageSheet
    ∧ ∀ f ∈ shortImageSheet.files, ∀ ct ∈ f.tracks,
        (ct.indices.map (fun i => i.number)).Nodup :=
  ⟨by decide, (parseString_unique_indices shortImageText).1 shortImageSheet (by decide)⟩

/-! ## Timecodes outside the round-trip range -/

theorem toUint8_val (x : Int) : ((toUint8 x).val : Int) = x % 256 := by
  unfold toUint8
  simp only []
  omega

theorem MSF.fromLba_fields_nonneg (lba : Int) (h0 : 0 ≤ lba) :
    (((MSF.fromLba lba).minute.val : Int) = lba / 4500 % 256)
    ∧ (((MSF.fromLba lba).second.val : Int) = lba % 4500 / 75)
    ∧ (((MSF.fromLba lba).frame.val : Int) = lba % 4500 % 75) := by
  have hd : Int.tdiv lba 4500 = lba / 4500 := Int.tdiv_eq_ediv h0 (by decide)
  have hm : Int.tmod lba 4500 = lba % 4500 := Int.tmod_eq_emod h0 (by decide)
  have hr0 : 0 ≤ lba % 4500 := by omega
  have hd2 : Int.tdiv (lba % 4500) 75 = lba % 4500 / 75 := Int.tdiv_eq_ediv hr0 (by decide)
  have hm2 : Int.tmod (lba % 4500) 75 = lba % 4500 % 75 := Int.tmod_eq_emod hr0 (by decide)
  have hc : MSF.FRAMES_PER_MINUTE = 4500 := rfl
  have hc2 : MSF.FRAMES_PER_SECOND = 75 := rfl
  simp only [MSF.fromLba, hc, hc2, hd, hm, hd2, hm2]
  exact ⟨toUint8_val _, toUint8_of_lt _ (by omega) (by omega),
    toUint8_of_lt _ (by omega) (by omega)⟩

/-- C37: for every `lba >= 0`, `MSF::fromLba(lba)` has `second < 60` and
`frame < 75`; its minute is `floor(lba / 4500)` reduced modulo 256, its second
is `floor((lba mod 4500) / 75)` and its frame is `lba mod 75`. -/
theorem fromLba_valid (lba : Int) (h0 : 0 ≤ lba) :
    (MSF.fromLba lba).second.val < 60 ∧ (MSF.fromLba lba).frame.val < 75
    ∧ ((MSF.fromLba lba).minute.val : Int) = lba / 4500 % 256
    ∧ ((MSF.fromLba lba).second.val : Int) = lba % 4500 / 75
    ∧ ((MSF.fromLba lba).frame.val : Int) = lba % 75
    ∧ (MSF.fromLba lba).isValid = true := by
  obtain ⟨hm, hs, hf⟩ := MSF.fromLba_fields_nonneg lba h0
  have h1 : (MSF.fromLba lba).second.val < 60 := by omega
  have h2 : (MSF.fromLba lba).frame.val < 75 := by omega
  refine ⟨h1, h2, hm, hs, by omega, ?_⟩
  simp [MSF.isValid, h1, h2]

/-- Witness of `fromLba_valid` at the largest `int32_t` value. -/
theorem fromLba_valid_witness :
    MSF.fromLba 2147483647 = ⟨34, 35, 22⟩
    ∧ (MSF.fromLba 2147483647).second.val < 60 ∧ (MSF.fromLba 2147483647).frame.val < 75 :=
  ⟨by decide, (fromLba_valid 2147483647 (by decide)).1,
    (fromLba_valid 2147483647 (by decide)).2.1⟩

/-- C38: the round trip through `MSF::fromLba` and `toLba` fails outside the
range of the 8-bit minute: for every `lba` (in particular every `int32_t`) with
`lba < 0` or `lba >= 1152000`, `MSF::fromLba(lba).toLba()` differs from `lba`;
so it equals `lba` exactly when `0 <= lba <= 1151999`.  `fromLba(1152000)` is
00:00:00, whose `toLba()` is 0. -/
theorem fromLba_toLba_exact_range (lba : Int) :
    ((MSF.fromLba lba).toLba = lba ↔ 0 ≤ lba ∧ lba ≤ 1151999)
    ∧ ((lba < 0 ∨ 1152000 ≤ lba) → (MSF.fromLba lba).toLba ≠ lba)
    ∧ (MSF.fromLba 1152000).toLba = 0 := by
  have hiff : (MSF.fromLba lba).toLba = lba ↔ 0 ≤ lba ∧ lba ≤ 1151999 := by
    constructor
    · intro h
      have hnn := MSF.toLba_nonneg (MSF.fromLba lba)
      have h0 : 0 ≤ lba := by omega
      refine ⟨h0, ?_⟩
      obtain ⟨hm, hs, hf⟩ := MSF.fromLba_fields_nonneg lba h0
      rw [MSF.toLba_eq, hm, hs, hf] at h
      omega
    · rintro ⟨h0, h1⟩
      exact MSF.toLba_fromLba lba h0 (by omega)
  refine ⟨hiff, ?_, by decide⟩
  intro hout heq
  have := hiff.1 heq
  omega

/-! ## Timecodes to text -/

set_option maxRecDepth 1000000 in
theorem formatU02_byte :
    ∀ n : Fin 256, isUnsignedDecimal (formatU02 n.val) = true
      ∧ decimalValue (formatU02 n.val) = n.val
      ∧ 2 ≤ (formatU02 n.val).length ∧ (formatU02 n.val).length ≤ 3
      ∧ ((formatU02 n.val).length = 3 ↔ 100 ≤ n.val) := by
  decide

theorem MSF.toString_eq (m : MSF) :
    m.toString = timecodeText (formatU02 m.minute.val) (formatU02 m.second.val)
      (formatU02 m.frame.val) := by
  unfold MSF.toString timecodeText
  apply List.take_of_length_le
  have h1 := (formatU02_byte m.minute).2.2.2.1
  have h2 := (formatU02_byte m.second).2.2.2.1
  have h3 := (formatU02_byte m.frame).2.2.2.1
  simp only [List.length_append, List.length_cons]
  omega

/-- C39: for every timecode `m` with `second < 60` and `frame < 75` (any minute),
`m.toString()` is the three fields in decimal (digits only, value equal to the
field), each padded with zeros to at least two digits (two digits below 100,
three from 100 on), joined by `:`, and `MSF::parse(m.toString())` succeeds and
returns `m`. -/
theorem toString_parse_roundtrip (m : MSF) (hs : m.second.val < 60) (hf : m.frame.val < 75) :
    (∃ mP sP fP : List Char, m.toString = timecodeText mP sP fP
      ∧ isUnsignedDecimal mP = true ∧ isUnsignedDecimal sP = true
      ∧ isUnsignedDecimal fP = true
      ∧ decimalValue mP = m.minute.val ∧ decimalValue sP = m.second.val
      ∧ decimalValue fP = m.frame.val
      ∧ 2 ≤ mP.length ∧ (mP.length = 3 ↔ 100 ≤ m.minute.val) ∧ mP.length ≤ 3
      ∧ sP.length = 2 ∧ fP.length = 2)
    ∧ MSF.parse m.toString = .ok m := by
  obtain ⟨a1, a2, a3, a4, a5⟩ := formatU02_byte m.minute
  obtain ⟨b1, b2, b3, b4, b5⟩ := formatU02_byte m.second
  obtain ⟨c1, c2, c3, c4, c5⟩ := formatU02_byte m.frame
  refine ⟨⟨_, _, _, MSF.toString_eq m, a1, b1, c1, a2, b2, c2, a3, a5, a4, ?_, ?_⟩, ?_⟩
  · omega
  · omega
  · rw [MSF.toString_eq, MSF.parse_good _ _ _ a1 b1 c1 (by rw [a2]; omega) (by rw [b2]; exact hs)
      (by rw [c2]; exact hf), a2, b2, c2]
    cases m
    simp [Fin.ofNat]
    refine ⟨?_, ?_, ?_⟩ <;> apply Fin.ext <;> simp

/-- Witness of `toString_parse_roundtrip` at 72:59:74 (testMsf.cpp line 90). -/
theorem toString_parse_roundtrip_witness :
    (⟨72, 59, 74⟩ : MSF).toString = "72:59:74".toList
    ∧ (⟨1, 2, 3⟩ : MSF).toString = "01:02:03".toList
    ∧ (⟨255, 0, 0⟩ : MSF).toString = "255:00:00".toList
    ∧ MSF.parse (⟨72, 59, 74⟩ : MSF).toString = .ok ⟨72, 59, 74⟩ :=
  ⟨by decide, by decide, by decide,
    (toString_parse_roundtrip ⟨72, 59, 74⟩ (by decide) (by decide)).2⟩

/-! ## The cost of the track search -/

theorem searchBound_mono {a b : Nat} (h : a ≤ b) : searchBound a ≤ searchBound b := by
  unfold searchBound
  by_cases ha : a = 0
  · simp [ha]
  · have hb : b ≠ 0 := by omega
    rw [if_neg ha, if_neg hb]
    exact Nat.succ_le_succ (Nat.log_mono_right h)

theorem searchBound_half (s : Nat) (hs : 1 ≤ s) : searchBound (s / 2) + 1 ≤ searchBound s := by
  unfold searchBound
  rw [if_neg (by omega : s ≠ 0)]
  by_cases h2 : s / 2 = 0
  · simp [h2]
  · rw [if_neg h2, Nat.log_div_base]
    have : 1 ≤ Nat.log 2 s := by
      have hs2 : 2 ≤ s := by omega
      exact Nat.log_pos (by decide) hs2
    omega

theorem searchBound_le_self (s : Nat) : searchBound s ≤ s := by
  unfold searchBound
  by_cases h : s = 0
  · simp [h]
  · rw [if_neg h]
    have := Nat.log_lt_self 2 h
    omega

theorem findTrackLoopCounted_fst (tracks : List Track) (lba : Int) :
    ∀ (fuel : Nat) (lo hi : Int) (found : Option Nat),
      (findTrackLoopCounted tracks lba fuel lo hi found).1
        = findTrackLoop tracks lba fuel lo hi found := by
  intro fuel
  induction fuel with
  | zero => intro lo hi found; rfl
  | succ fuel ih =>
    intro lo hi found
    simp only [findTrackLoopCounted, findTrackLoop]
    split_ifs with h1
    · split
      · rfl
      · split_ifs
        · exact ih _ _ _
        · exact ih _ _ _
    · rfl

/-- The counted loop on an interval of `s = hi + 1 - lo` indices inside the
vector: with an allowance of at least `searchBound s` iterations it is left
through its condition after at most `searchBound s` runs of the body, and more
allowance changes nothing. -/
theorem findTrackLoopCounted_bound (tracks : List Track) (lba : Int) :
    ∀ (s : Nat) (fuel : Nat) (lo hi : Int) (found : Option Nat),
      0 ≤ lo → hi < tracks.length → hi + 1 - lo ≤ s → searchBound s ≤ fuel →
      (findTrackLoopCounted tracks lba fuel lo hi found).2.2 = true
      ∧ (findTrackLoopCounted tracks lba fuel lo hi found).2.1 ≤ searchBound s
      ∧ findTrackLoopCounted tracks lba fuel lo hi found
          = findTrackLoopCounted tracks lba (searchBound s) lo hi found := by
  intro s
  induction s using Nat.strong_induction_on with
  | _ s ih =>
    intro fuel lo hi found h0 hhi hsize hfuel
    by_cases hlohi : lo ≤ hi
    · have hs1 : 1 ≤ s := by omega
      have hdiv : Int.tdiv (hi - lo) 2 = (hi - lo) / 2 :=
        Int.tdiv_eq_ediv (by omega) (by decide)
      have hlt : (lo + (hi - lo) / 2).toNat < tracks.length := by omega
      obtain ⟨t, ht⟩ : ∃ t, tracks[(lo + (hi - lo) / 2).toNat]? = some t :=
        ⟨tracks[(lo + (hi - lo) / 2).toNat], List.getElem?_eq_getElem hlt⟩
      have hhalf := searchBound_half s hs1
      obtain ⟨fuel1, hfuel1⟩ : ∃ k, fuel = k + 1 := ⟨fuel - 1, by omega⟩
      obtain ⟨b1, hb1⟩ : ∃ k, searchBound s = k + 1 := ⟨searchBound s - 1, by omega⟩
      have hsub : s / 2 < s := by omega
      rw [hfuel1, hb1]
      simp only [findTrackLoopCounted, if_pos hlohi, hdiv, ht]
      by_cases hle : t.startLba ≤ lba
      · simp only [if_pos hle]
        obtain ⟨e1, e2, e3⟩ := ih (s / 2) hsub fuel1 (lo + (hi - lo) / 2 + 1) hi
          (some (lo + (hi - lo) / 2).toNat) (by omega) hhi (by omega) (by omega)
        obtain ⟨f1, f2, f3⟩ := ih (s / 2) hsub b1 (lo + (hi - lo) / 2 + 1) hi
          (some (lo + (hi - lo) / 2).toNat) (by omega) hhi (by omega) (by omega)
        refine ⟨e1, by omega, ?_⟩
        rw [e3, f3]
      · simp only [if_neg hle]
        obtain ⟨e1, e2, e3⟩ := ih (s / 2) hsub fuel1 lo (lo + (hi - lo) / 2 - 1)
          found h0 (by omega) (by omega) (by omega)
        obtain ⟨f1, f2, f3⟩ := ih (s / 2) hsub b1 lo (lo + (hi - lo) / 2 - 1)
          found h0 (by omega) (by omega) (by omega)
        refine ⟨e1, by omega, ?_⟩
        rw [e3, f3]
    · have hz : ∀ k, findTrackLoopCounted tracks lba k lo hi found = (found, 0, true) := by
        intro k
        cases k with
        | zero => simp [findTrackLoopCounted, hlohi]
        | succ k => simp [findTrackLoopCounted, hlohi]
      rw [hz fuel, hz (searchBound s)]
      exact ⟨rfl, Nat.zero_le _, rfl⟩

theorem wrap32_natCast_le (n : Nat) : wrap32 (n : Int) ≤ n := by
  unfold wrap32
  omega

/-- C33: the binary search of `findTrack` terminates for every track list and
every `lba`: started as `findTrack` starts it (`lo = 0`,
`hi = static_cast<int>(size) - 1`), the loop is left through its condition
`lo <= hi` after at most `floor(log2(n)) + 1` runs of the body for `n >= 1`
tracks, and after none for an empty list.  The counted loop returns the `found`
of the loop of `findTrack`, and an allowance of `n` iterations, or any
allowance of at least `floor(log2(n)) + 1`, gives the same result. -/
theorem findTrack_logarithmic (d : Disc) (lba : Int) :
    (findTrackLoopCounted d.tracks lba d.tracks.length 0
        (wrap32 (d.tracks.length : Int) - 1) none).2.2 = true
    ∧ (findTrackLoopCounted d.tracks lba d.tracks.length 0
        (wrap32 (d.tracks.length : Int) - 1) none).2.1 ≤ searchBound d.tracks.length
    ∧ (1 ≤ d.tracks.length →
        (findTrackLoopCounted d.tracks lba d.tracks.length 0
          (wrap32 (d.tracks.length : Int) - 1) none).2.1 ≤ Nat.log 2 d.tracks.length + 1)
    ∧ (d.tracks.length = 0 →
        (findTrackLoopCounted d.tracks lba d.tracks.length 0
          (wrap32 (d.tracks.length : Int) - 1) none).2.1 = 0)
    ∧ (findTrackLoopCounted d.tracks lba d.tracks.length 0
        (wrap32 (d.tracks.length : Int) - 1) none).1
        = findTrackLoop d.tracks lba d.tracks.length 0
            (wrap32 (d.tracks.length : Int) - 1) none
    ∧ (∀ fuel, searchBound d.tracks.length ≤ fuel →
        findTrackLoopCounted d.tracks lba fuel 0 (wrap32 (d.tracks.length : Int) - 1) none
          = findTrackLoopCounted d.tracks lba d.tracks.length 0
              (wrap32 (d.tracks.length : Int) - 1) none) := by
  have hw := wrap32_natCast_le d.tracks.length
  have key := fun fuel (hf : searchBound d.tracks.length ≤ fuel) =>
    findTrackLoopCounted_bound d.tracks lba d.tracks.length fuel 0
      (wrap32 (d.tracks.length : Int) - 1) none (le_refl 0) (by omega) (by omega) hf
  obtain ⟨e1, e2, e3⟩ := key d.tracks.length (searchBound_le_self _)
  refine ⟨e1, e2, ?_, ?_, findTrackLoopCounted_fst _ _ _ _ _ _, ?_⟩
  · intro h1
    have : searchBound d.tracks.length = Nat.log 2 d.tracks.length + 1 := by
      unfold searchBound
      rw [if_neg (by omega)]
    omega
  · intro h0
    have : searchBound d.tracks.length = 0 := by
      unfold searchBound
      rw [if_pos h0]
    omega
  · intro fuel hf
    rw [(key fuel hf).2.2, e3]

/-- Witness of `findTrack_logarithmic` on the three tracks of `multiTrack.cue`:
the search for LBA 110000 runs the body twice, `floor(log2(3)) + 1 = 2`. -/
theorem findTrack_logarithmic_witness :
    findTrackLoopCounted multiTrackDisc.tracks 110000 multiTrackDisc.tracks.length 0
        (wrap32 (multiTrackDisc.tracks.length : Int) - 1) none = (some 1, 2, true)
    ∧ searchBound 3 = 2
    ∧ (findTrackLoopCounted multiTrackDisc.tracks 110000 multiTrackDisc.tracks.length 0
        (wrap32 (multiTrackDisc.tracks.length : Int) - 1) none).2.1
        ≤ Nat.log 2 multiTrackDisc.tracks.length + 1 :=
  ⟨by decide, by simp [searchBound, Nat.log],
    (findTrack_logarithmic multiTrackDisc 110000).2.2.1 (by decide)⟩

/-! ## Directives out of context -/

/-- The keywords of the directives that need an open track. -/
theorem parseOtherDirective_unexpected_iff (st : ParseState) (kw rem : List Char) :
    parseOtherDirective st kw rem = .error .UnexpectedDirective
      ↔ st.currentTrack = false
        ∧ (kw = "PREGAP".toList ∨ kw = "POSTGAP".toList ∨ kw = "FLAGS".toList
            ∨ kw = "ISRC".toList) := by
  have gap : ∀ (f : MSF → CueTrack → CueTrack),
      ((if (!st.currentTrack) = true then Result.error ErrorCode.UnexpectedDirective
        else
          match MSF.parse (nextToken rem).1 with
          | .error e => .error e
          | .ok msf => Result.ok (st.setTrack (f msf)))
        = Result.error ErrorCode.UnexpectedDirective) ↔ st.currentTrack = false := by
    intro f
    by_cases hct : st.currentTrack = true
    · rw [if_neg (by simp [hct])]
      constructor
      · intro h1
        split at h1
        · next e1 he1 =>
          cases h1
          cases MSF.parse_error _ _ he1
        · cases h1
      · intro h1; rw [hct] at h1; cases h1
    · have hf : st.currentTrack = false := by simpa using hct
      rw [if_pos (by simp [hf])]
      exact ⟨fun _ => hf, fun _ => rfl⟩
  have track1 : ∀ (g : ParseState),
      ((if (!st.currentTrack) = true then Result.error ErrorCode.UnexpectedDirective
        else Result.ok g) = Result.error ErrorCode.UnexpectedDirective)
        ↔ st.currentTrack = false := by
    intro g
    by_cases hct : st.currentTrack = true
    · rw [if_neg (by simp [hct])]
      constructor
      · intro h1; cases h1
      · intro h1; rw [hct] at h1; cases h1
    · have hf : st.currentTrack = false := by simpa using hct
      rw [if_pos (by simp [hf])]
      exact ⟨fun _ => hf, fun _ => rfl⟩
  have track2 : ∀ (g1 g2 : ParseState),
      ¬ ((if st.currentTrack = true then Result.ok g1 else Result.ok g2)
        = Result.error ErrorCode.UnexpectedDirective) := by
    intro g1 g2 h1
    split_ifs at h1
  unfold parseOtherDirective
  by_cases k1 : kw = "PREGAP".toList
  · rw [if_pos k1, gap (fun msf ct => { ct with pregap := some msf })]
    exact ⟨fun h => ⟨h, Or.inl k1⟩, fun h => h.1⟩
  rw [if_neg k1]
  by_cases k2 : kw = "POSTGAP".toList
  · rw [if_pos k2, gap (fun msf ct => { ct with postgap := some msf })]
    exact ⟨fun h => ⟨h, Or.inr (Or.inl k2)⟩, fun h => h.1⟩
  rw [if_neg k2]
  by_cases k3 : kw = "FLAGS".toList
  · rw [if_pos k3, track1]
    exact ⟨fun h => ⟨h, Or.inr (Or.inr (Or.inl k3))⟩, fun h => h.1⟩
  rw [if_neg k3]
  by_cases k4 : kw = "ISRC".toList
  · rw [if_pos k4, track1]
    exact ⟨fun h => ⟨h, Or.inr (Or.inr (Or.inr k4))⟩, fun h => h.1⟩
  rw [if_neg k4]
  have hno : ¬ (kw = "PREGAP".toList ∨ kw = "POSTGAP".toList ∨ kw = "FLAGS".toList
      ∨ kw = "ISRC".toList) := by
    rintro (h | h | h | h) <;> contradiction
  by_cases k5 : kw = "CATALOG".toList
  · rw [if_pos k5]
    exact ⟨fun h => (by cases h), fun h => absurd h.2 hno⟩
  rw [if_neg k5]
  by_cases k6 : kw = "CDTEXTFILE".toList
  · rw [if_pos k6]
    exact ⟨fun h => (by cases h), fun h => absurd h.2 hno⟩
  rw [if_neg k6]
  by_cases k7 : kw = "TITLE".toList
  · rw [if_pos k7]
    exact ⟨fun h => absurd h (track2 _ _), fun h => absurd h.2 hno⟩
  rw [if_neg k7]
  by_cases k8 : kw = "PERFORMER".toList
  · rw [if_pos k8]
    exact ⟨fun h => absurd h (track2 _ _), fun h => absurd h.2 hno⟩
  rw [if_neg k8]
  by_cases k9 : kw = "SONGWRITER".toList
  · rw [if_pos k9]
    exact ⟨fun h => absurd h (track2 _ _), fun h => absurd h.2 hno⟩
  rw [if_neg k9]
  by_cases k10 : kw = "REM".toList
  · rw [if_pos k10]
    exact ⟨fun h => (by cases h), fun h => absurd h.2 hno⟩
  rw [if_neg k10]
  exact ⟨fun h => (by cases h), fun h => absurd h.2 hno⟩

theorem parseTrackDirective_unexpected_iff (st : ParseState) (rem : List Char) :
    parseTrackDirective st rem = .error .UnexpectedDirective ↔ st.currentFile = false := by
  unfold parseTrackDirective
  simp only
  by_cases hcf : st.currentFile = true
  · rw [if_neg (by simp [hcf])]
    constructor
    · intro h
      split_ifs at h
      · cases h
      · split at h
        · next e1 he1 => cases h; cases parseUint8_error _ _ he1
        · split at h
          · next e1 he1 => cases h; cases parseTrackMode_error _ _ he1
          · cases h
    · intro h; rw [hcf] at h; cases h
  · have hf : st.currentFile = false := by simpa using hcf
    rw [if_pos (by simp [hf])]
    exact ⟨fun _ => hf, fun _ => rfl⟩

theorem parseIndexDirective_unexpected_iff (st : ParseState) (rem : List Char) :
    parseIndexDirective st rem = .error .UnexpectedDirective ↔ st.currentTrack = false := by
  unfold parseIndexDirective
  simp only
  by_cases hct : st.currentTrack = true
  · rw [if_neg (by simp [hct])]
    constructor
    · intro h
      split_ifs at h
      · cases h
      · split at h
        · next e1 he1 => cases h; cases parseUint8_error _ _ he1
        · split at h
          · next e1 he1 => cases h; cases MSF.parse_error _ _ he1
          · split_ifs at h
            cases h
    · intro h; rw [hct] at h; cases h
  · have hf : st.currentTrack = false := by simpa using hct
    rw [if_pos (by simp [hf])]
    exact ⟨fun _ => hf, fun _ => rfl⟩

/-- The lines on which `parseLine` reports `UnexpectedDirective`: a `TRACK`
line read while no file is open, and an `INDEX`, `PREGAP`, `POSTGAP`, `FLAGS`
or `ISRC` line read while no track is open. -/
theorem parseLine_unexpected_iff (st : ParseState) (l : List Char) :
    parseLine st l = .error .UnexpectedDirective
      ↔ (lineKeyword l = "TRACK".toList ∧ st.currentFile = false)
        ∨ ((lineKeyword l = "INDEX".toList ∨ lineKeyword l = "PREGAP".toList
            ∨ lineKeyword l = "POSTGAP".toList ∨ lineKeyword l = "FLAGS".toList
            ∨ lineKeyword l = "ISRC".toList) ∧ st.currentTrack = false) := by
  rw [parseLine_eq]
  by_cases hb : (trim l).isEmpty = true
  · rw [if_pos hb, lineKeyword_of_blank l hb]
    constructor
    · intro h; cases h
    · rintro (⟨h, _⟩ | ⟨h | h | h | h | h, _⟩) <;> exact absurd h (by decide)
  rw [if_neg hb]
  unfold parseDirective
  by_cases k1 : lineKeyword l = "FILE".toList
  · rw [if_pos k1]
    constructor
    · intro h
      rcases parseFileDirective_error _ _ _ h with h1 | h1 <;> cases h1
    · rw [k1]
      rintro (⟨h, _⟩ | ⟨h | h | h | h | h, _⟩) <;> exact absurd h (by decide)
  rw [if_neg k1]
  by_cases k2 : lineKeyword l = "TRACK".toList
  · rw [if_pos k2, parseTrackDirective_unexpected_iff]
    constructor
    · intro h; exact Or.inl ⟨k2, h⟩
    · rintro (⟨_, h⟩ | ⟨h, _⟩)
      · exact h
      · rw [k2] at h
        rcases h with h | h | h | h | h <;> exact absurd h (by decide)
  rw [if_neg k2]
  by_cases k3 : lineKeyword l = "INDEX".toList
  · rw [if_pos k3, parseIndexDirective_unexpected_iff]
    constructor
    · intro h; exact Or.inr ⟨Or.inl k3, h⟩
    · rintro (⟨h, _⟩ | ⟨_, h⟩)
      · exact absurd h k2
      · exact h
  rw [if_neg k3, parseOtherDirective_unexpected_iff]
  constructor
  · rintro ⟨h, hk⟩
    exact Or.inr ⟨Or.inr hk, h⟩
  · rintro (⟨h, _⟩ | ⟨h, hct⟩)
    · exact absurd h k2
    · rcases h with h | h
      · exact absurd h k3
      · exact ⟨hct, h⟩

/-- The flags after a line that `parseLine` accepts: `FILE` opens a file and
closes the track, `TRACK` opens a track, any other line leaves both as they
are. -/
theorem parseLine_flags (st st1 : ParseState) (l : List Char)
    (h : parseLine st l = .ok st1) :
    st1.currentFile = (if lineKeyword l = "FILE".toList then true else st.currentFile)
    ∧ st1.currentTrack
        = (if lineKeyword l = "FILE".toList then false
           else if lineKeyword l = "TRACK".toList then true else st.currentTrack) := by
  rw [parseLine_eq] at h
  by_cases hb : (trim l).isEmpty = true
  · rw [if_pos hb] at h
    cases h
    rw [lineKeyword_of_blank l hb]
    exact ⟨by rw [if_neg (by decide)], by rw [if_neg (by decide), if_neg (by decide)]⟩
  rw [if_neg hb] at h
  unfold parseDirective at h
  by_cases k1 : lineKeyword l = "FILE".toList
  · rw [if_pos k1] at h
    obtain ⟨cf, _, hst⟩ := parseFileDirective_ok st st1 _ h
    rw [hst, if_pos k1, if_pos k1]
    exact ⟨rfl, rfl⟩
  rw [if_neg k1] at h
  rw [if_neg k1, if_neg k1]
  by_cases k2 : lineKeyword l = "TRACK".toList
  · rw [if_pos k2] at h
    obtain ⟨hcf, num, mode, hst⟩ := parseTrackDirective_ok st st1 _ h
    rw [hst, if_pos k2, hcf]
    exact ⟨rfl, rfl⟩
  rw [if_neg k2] at h
  rw [if_neg k2]
  by_cases k3 : lineKeyword l = "INDEX".toList
  · rw [if_pos k3] at h
    obtain ⟨_, num, msf, _, _, _, hst⟩ := parseIndexDirective_ok st st1 _ h
    rw [hst]
    exact ⟨rfl, rfl⟩
  rw [if_neg k3] at h
  obtain ⟨a, b, _⟩ := parseOtherDirective_ok st st1 _ _ h
  exact ⟨a, b⟩

theorem parseOtherDirective_error_keyword (st : ParseState) (kw rem : List Char)
    (e : ErrorCode) (h : parseOtherDirective st kw rem = .error e) :
    kw = "PREGAP".toList ∨ kw = "POSTGAP".toList ∨ kw = "FLAGS".toList
      ∨ kw = "ISRC".toList := by
  by_cases k1 : kw = "PREGAP".toList
  · exact Or.inl k1
  by_cases k2 : kw = "POSTGAP".toList
  · exact Or.inr (Or.inl k2)
  by_cases k3 : kw = "FLAGS".toList
  · exact Or.inr (Or.inr (Or.inl k3))
  by_cases k4 : kw = "ISRC".toList
  · exact Or.inr (Or.inr (Or.inr k4))
  exfalso
  unfold parseOtherDirective at h
  rw [if_neg k1, if_neg k2, if_neg k3, if_neg k4] at h
  by_cases k5 : kw = "CATALOG".toList
  · rw [if_pos k5] at h; cases h
  rw [if_neg k5] at h
  by_cases k6 : kw = "CDTEXTFILE".toList
  · rw [if_pos k6] at h; cases h
  rw [if_neg k6] at h
  by_cases k7 : kw = "TITLE".toList
  · rw [if_pos k7] at h; simp only at h; split_ifs at h
  rw [if_neg k7] at h
  by_cases k8 : kw = "PERFORMER".toList
  · rw [if_pos k8] at h; simp only at h; split_ifs at h
  rw [if_neg k8] at h
  by_cases k9 : kw = "SONGWRITER".toList
  · rw [if_pos k9] at h; simp only at h; split_ifs at h
  rw [if_neg k9] at h
  by_cases k10 : kw = "REM".toList
  · rw [if_pos k10] at h; cases h
  rw [if_neg k10] at h
  cases h

/-- Before any file is open every error of a line that is not a `FILE` line
is `UnexpectedDirective`. -/
theorem parseLine_error_before_file (st : ParseState) (l : List Char) (e : ErrorCode)
    (hkw : lineKeyword l ≠ "FILE".toList)
    (hcf : st.currentFile = false) (hct : st.currentTrack = false)
    (h : parseLine st l = .error e) : e = .UnexpectedDirective := by
  have hu : parseLine st l = .error .UnexpectedDirective := by
    rw [parseLine_unexpected_iff]
    rw [parseLine_eq] at h
    by_cases hb : (trim l).isEmpty = true
    · rw [if_pos hb] at h; cases h
    rw [if_neg hb] at h
    unfold parseDirective at h
    rw [if_neg hkw] at h
    by_cases k2 : lineKeyword l = "TRACK".toList
    · exact Or.inl ⟨k2, hcf⟩
    rw [if_neg k2] at h
    by_cases k3 : lineKeyword l = "INDEX".toList
    · exact Or.inr ⟨Or.inl k3, hct⟩
    rw [if_neg k3] at h
    exact Or.inr ⟨Or.inr (parseOtherDirective_error_keyword _ _ _ _ h), hct⟩
  rw [hu] at h
  cases h
  rfl

theorem parseLines_append (st : ParseState) :
    ∀ (a b : List (List Char)),
      parseLines st (a ++ b)
        = match parseLines st a with
          | .error e => .error e
          | .ok st1 => parseLines st1 b := by
  intro a
  induction a generalizing st with
  | nil => intro b; rfl
  | cons x rest ih =>
    intro b
    simp only [List.cons_append, parseLines]
    cases parseLine st x with
    | error e => rfl
    | ok st2 => exact ih st2 b

theorem parseLines_track_closed :
    ∀ (ls : List (List Char)) (st st1 : ParseState),
      (∀ x ∈ ls, lineKeyword x ≠ "TRACK".toList) → st.currentTrack = false →
      parseLines st ls = .ok st1 → st1.currentTrack = false
  | [], st, st1, _, hct, h => by
    simp only [parseLines, Result.ok.injEq] at h
    rw [← h]; exact hct
  | x :: rest, st, st1, hkw, hct, h => by
    simp only [parseLines] at h
    cases h1 : parseLine st x with
    | error e => rw [h1] at h; cases h
    | ok st2 =>
      rw [h1] at h
      have hfl := (parseLine_flags st st2 x h1).2
      have h2 : st2.currentTrack = false := by
        rw [hfl]
        split_ifs
        · rfl
        · exact absurd ‹lineKeyword x = "TRACK".toList› (hkw x (List.mem_cons_self _ _))
        · exact hct
      exact parseLines_track_closed rest st2 st1
        (fun y hy => hkw y (List.mem_cons_of_mem _ hy)) h2 h

theorem parseLines_before_file :
    ∀ (ls : List (List Char)) (st : ParseState),
      (∀ x ∈ ls, lineKeyword x ≠ "FILE".toList) →
      st.currentFile = false → st.currentTrack = false →
      (∃ st1, parseLines st ls = .ok st1 ∧ st1.currentFile = false
          ∧ st1.currentTrack = false)
      ∨ parseLines st ls = .error .UnexpectedDirective
  | [], st, _, hcf, hct => Or.inl ⟨st, rfl, hcf, hct⟩
  | x :: rest, st, hkw, hcf, hct => by
    have hx := hkw x (List.mem_cons_self _ _)
    simp only [parseLines]
    cases h1 : parseLine st x with
    | error e =>
      rw [parseLine_error_before_file st x e hx hcf hct h1]
      exact Or.inr rfl
    | ok st2 =>
      obtain ⟨a, b⟩ := parseLine_flags st st2 x h1
      rw [if_neg hx] at a b
      have hnt : lineKeyword x ≠ "TRACK".toList := by
        intro hk
        have := (parseLine_unexpected_iff st x).2 (Or.inl ⟨hk, hcf⟩)
        rw [h1] at this
        cases this
      rw [if_neg hnt] at b
      exact parseLines_before_file rest st2
        (fun y hy => hkw y (List.mem_cons_of_mem _ hy)) (by rw [a, hcf]) (by rw [b, hct])

/-- C31: `parseLine` reports `UnexpectedDirective` exactly on a `TRACK` line
read while no file is open and on an `INDEX`, `PREGAP`, `POSTGAP`, `FLAGS` or
`ISRC` line read while no track is open.  A `TRACK` line with no `FILE` line
before it makes `parseString` fail with `UnexpectedDirective`.  An `INDEX`,
`PREGAP`, `POSTGAP`, `FLAGS` or `ISRC` line that the parser reaches (the lines
before it raise no error) with no `TRACK` line before it, or with no `TRACK`
line since the last `FILE` line, makes `parseString` fail with
`UnexpectedDirective`, also when an earlier file had tracks. -/
theorem parseString_context_rule (content : String) :
    (∀ (st : ParseState) (l : List Char),
        parseLine st l = .error .UnexpectedDirective
          ↔ (lineKeyword l = "TRACK".toList ∧ st.currentFile = false)
            ∨ ((lineKeyword l = "INDEX".toList ∨ lineKeyword l = "PREGAP".toList
                ∨ lineKeyword l = "POSTGAP".toList ∨ lineKeyword l = "FLAGS".toList
                ∨ lineKeyword l = "ISRC".toList) ∧ st.currentTrack = false))
    ∧ (∀ (pre post : List (List Char)) (l : List Char),
        cueLines content = pre ++ l :: post →
        (∀ x ∈ pre, lineKeyword x ≠ "FILE".toList) →
        lineKeyword l = "TRACK".toList →
        parseString content = .error .UnexpectedDirective)
    ∧ (∀ (pre post : List (List Char)) (l : List Char),
        cueLines content = pre ++ l :: post →
        (∃ st, parseLines ParseState.initial pre = .ok st) →
        ((∀ x ∈ pre, lineKeyword x ≠ "TRACK".toList)
          ∨ ∃ (p mid : List (List Char)) (f : List Char), pre = p ++ f :: mid
              ∧ lineKeyword f = "FILE".toList
              ∧ ∀ x ∈ mid, lineKeyword x ≠ "TRACK".toList) →
        (lineKeyword l = "INDEX".toList ∨ lineKeyword l = "PREGAP".toList
          ∨ lineKeyword l = "POSTGAP".toList ∨ lineKeyword l = "FLAGS".toList
          ∨ lineKeyword l = "ISRC".toList) →
        parseString content = .error .UnexpectedDirective)
    ∧ parseString trackBeforeFileText = .error .UnexpectedDirective
    ∧ parseString indexAfterSecondFileText = .error .UnexpectedDirective := by
  refine ⟨parseLine_unexpected_iff, ?_, ?_, by decide, by decide⟩
  · intro pre post l hlines hpre hkw
    apply parseString_of_lines_error
    rw [hlines]
    rcases parseLines_before_file pre ParseState.initial hpre rfl rfl with
      ⟨st1, hst1, hcf, _⟩ | herr
    · exact parseLines_append_error pre _ st1 l post _ hst1
        ((parseLine_unexpected_iff st1 l).2 (Or.inl ⟨hkw, hcf⟩))
    · rw [parseLines_append, herr]
  · rintro pre post l hlines ⟨st, hst⟩ hopen hkw
    apply parseString_of_lines_error
    rw [hlines]
    have hclosed : st.currentTrack = false := by
      rcases hopen with hno | ⟨p, mid, f, hpre, hf, hmid⟩
      · exact parseLines_track_closed pre ParseState.initial st hno rfl hst
      · rw [hpre, parseLines_append] at hst
        cases hp : parseLines ParseState.initial p with
        | error e => rw [hp] at hst; cases hst
        | ok st0 =>
          rw [hp] at hst
          simp only [parseLines] at hst
          cases hfl : parseLine st0 f with
          | error e => rw [hfl] at hst; cases hst
          | ok st2 =>
            rw [hfl] at hst
            have h2 := (parseLine_flags st0 st2 f hfl).2
            rw [if_pos hf] at h2
            exact parseLines_track_closed mid st2 st hmid h2 hst
    exact parseLines_append_error pre _ st l post _ hst
      ((parseLine_unexpected_iff st l).2 (Or.inr ⟨hkw, hclosed⟩))

/-- Witness of `parseString_context_rule`: the text of the test
`ErrorTrackBeforeFile` starts with a `TRACK` line; in
`indexAfterSecondFileText` the `INDEX` line follows the second `FILE` line
while the first file has a track. -/
theorem parseString_context_rule_witness :
    cueLines trackBeforeFileText = [] ++ "TRACK 01 AUDIO".toList :: ["    INDEX 01 00:00:00".toList]
    ∧ parseString trackBeforeFileText = .error .UnexpectedDirective
    ∧ cueLines indexAfterSecondFileText
        = (["FILE \"a.bin\" BINARY".toList, "  TRACK 01 AUDIO".toList,
            "    INDEX 01 00:00:00".toList] ++ "FILE \"b.bin\" BINARY".toList :: [])
          ++ "    INDEX 01 00:00:00".toList :: []
    ∧ parseString indexAfterSecondFileText = .error .UnexpectedDirective :=
  ⟨by decide,
    (parseString_context_rule trackBeforeFileText).2.1 [] ["    INDEX 01 00:00:00".toList]
      "TRACK 01 AUDIO".toList (by decide) (fun x hx => by cases hx) (by decide),
    by decide,
    (parseString_context_rule indexAfterSecondFileText).2.2.1
      (["FILE \"a.bin\" BINARY".toList, "  TRACK 01 AUDIO".toList,
          "    INDEX 01 00:00:00".toList] ++ "FILE \"b.bin\" BINARY".toList :: [])
      [] "    INDEX 01 00:00:00".toList (by decide) ⟨_, by rfl⟩
      (Or.inr ⟨_, [], "FILE \"b.bin\" BINARY".toList, rfl, by decide,
        fun x hx => by cases hx⟩)
      (Or.inl (by decide))⟩

/-! ## Lines the parser skips -/

theorem parseLine_ignored (st : ParseState) (l : List Char) (h : isIgnoredLine l = true) :
    parseLine st l = .ok st := by
  rw [parseLine_eq]
  by_cases hb : (trim l).isEmpty = true
  · rw [if_pos hb]
  rw [if_neg hb]
  have hk : ∀ k ∈ recognisedKeywords, lineKeyword l ≠ k := by
    intro k hk heq
    unfold isIgnoredLine at h
    simp only [decide_eq_true_eq] at h
    exact h (heq ▸ hk)
  unfold parseDirective parseOtherDirective
  rw [if_neg (hk _ (by decide)), if_neg (hk _ (by decide)), if_neg (hk _ (by decide)),
    if_neg (hk _ (by decide)), if_neg (hk _ (by decide)), if_neg (hk _ (by decide)),
    if_neg (hk _ (by decide)), if_neg (hk _ (by decide)), if_neg (hk _ (by decide)),
    if_neg (hk _ (by decide)), if_neg (hk _ (by decide)), if_neg (hk _ (by decide)),
    if_neg (hk _ (by decide))]

theorem isIgnoredLine_of_blank (l : List Char) (h : (trim l).isEmpty = true) :
    isIgnoredLine l = true := by
  unfold isIgnoredLine
  rw [lineKeyword_of_blank l h]
  decide

theorem parseLines_ignored_all :
    ∀ (ls : List (List Char)) (st : ParseState),
      (∀ x ∈ ls, isIgnoredLine x = true) → parseLines st ls = .ok st
  | [], _, _ => rfl
  | x :: rest, st, h => by
    simp only [parseLines, parseLine_ignored st x (h x (List.mem_cons_self _ _))]
    exact parseLines_ignored_all rest st (fun y hy => h y (List.mem_cons_of_mem _ hy))

theorem parseLines_insert (st : ParseState) (pre post : List (List Char)) (l : List Char)
    (h : isIgnoredLine l = true) :
    parseLines st (pre ++ l :: post) = parseLines st (pre ++ post) := by
  rw [parseLines_append, parseLines_append]
  cases parseLines st pre with
  | error e => rfl
  | ok st1 =>
    simp only [parseLines, parseLine_ignored st1 l h]

theorem parseLines_append_ignored (st : ParseState) (ls extra : List (List Char))
    (h : ∀ x ∈ extra, isIgnoredLine x = true) :
    parseLines st (ls ++ extra) = parseLines st ls := by
  rw [parseLines_append]
  cases parseLines st ls with
  | error e => rfl
  | ok st1 => exact parseLines_ignored_all extra st1 h

theorem parseString_congr (c1 c2 : String)
    (h : parseLines ParseState.initial (cueLines c1)
      = parseLines ParseState.initial (cueLines c2)) :
    parseString c1 = parseString c2 := by
  rw [parseString_eq, parseString_eq, h]

theorem getlines_cons_newline (rest cur : List Char) :
    getlines ('\n' :: rest) cur = cur.reverse :: getlines rest [] := by
  rw [getlines, if_pos rfl]

theorem getlines_cons_other (c : Char) (rest cur : List Char) (hc : c ≠ '\n') :
    getlines (c :: rest) cur = getlines rest (c :: cur) := by
  rw [getlines, if_neg hc]

theorem getlines_line (l : List Char) (hl : '\n' ∉ l) :
    ∀ (b cur : List Char), getlines (l ++ '\n' :: b) cur = (cur.reverse ++ l) :: getlines b [] := by
  induction l with
  | nil => intro b cur; rw [List.nil_append, getlines_cons_newline, List.append_nil]
  | cons c rest ih =>
    intro b cur
    have hc : c ≠ '\n' := fun h => hl (by rw [h]; exact List.mem_cons_self _ _)
    have hrest : '\n' ∉ rest := fun h => hl (List.mem_cons_of_mem _ h)
    rw [List.cons_append, getlines_cons_other _ _ _ hc, ih hrest]
    simp

theorem getlines_last (l : List Char) (hl : '\n' ∉ l) :
    ∀ cur : List Char,
      getlines l cur = if (cur.reverse ++ l).isEmpty then [] else [cur.reverse ++ l] := by
  induction l with
  | nil =>
    intro cur
    cases cur <;> simp [getlines]
  | cons c rest ih =>
    intro cur
    have hc : c ≠ '\n' := fun h => hl (by rw [h]; exact List.mem_cons_self _ _)
    have hrest : '\n' ∉ rest := fun h => hl (List.mem_cons_of_mem _ h)
    rw [getlines_cons_other _ _ _ hc, ih hrest]
    simp

theorem getlines_append_terminated :
    ∀ (a b cur : List Char), a.getLast? = some '\n' →
      getlines (a ++ b) cur = getlines a cur ++ getlines b []
  | [], _, _, h => by simp at h
  | [c], b, cur, h => by
    simp only [List.getLast?_singleton, Option.some.injEq] at h
    subst h
    rw [List.singleton_append, getlines_cons_newline, getlines_cons_newline]
    simp [getlines]
  | c :: d :: rest, b, cur, h => by
    have h2 : (d :: rest).getLast? = some '\n' := by
      rw [List.getLast?_cons_cons] at h; exact h
    by_cases hc : c = '\n'
    · subst hc
      rw [List.cons_append, getlines_cons_newline, getlines_cons_newline,
        getlines_append_terminated (d :: rest) b [] h2]
      rfl
    · rw [List.cons_append, getlines_cons_other _ _ _ hc, getlines_cons_other _ _ _ hc,
        getlines_append_terminated (d :: rest) b (c :: cur) h2]

theorem getlines_append_after (l : List Char) (hl : '\n' ∉ l) :
    ∀ (a cur : List Char),
      ∃ extra, getlines (a ++ '\n' :: l) cur = getlines a cur ++ extra
        ∧ ∀ x ∈ extra, x = [] ∨ x = l := by
  intro a
  induction a with
  | nil =>
    intro cur
    rw [List.nil_append, getlines_cons_newline, getlines_last l hl []]
    cases cur with
    | nil =>
      refine ⟨[] :: (if ([].reverse ++ l).isEmpty then [] else [[].reverse ++ l]),
        by simp [getlines], ?_⟩
      intro x hx
      rcases List.mem_cons.1 hx with h | h
      · exact Or.inl h
      · split_ifs at h
        · cases h
        · simp only [List.reverse_nil, List.nil_append, List.mem_singleton] at h
          exact Or.inr h
    | cons c cs =>
      refine ⟨if ([].reverse ++ l).isEmpty then [] else [[].reverse ++ l],
        by simp [getlines], ?_⟩
      intro x hx
      split_ifs at hx
      · cases hx
      · simp only [List.reverse_nil, List.nil_append, List.mem_singleton] at hx
        exact Or.inr hx
  | cons c rest ih =>
    intro cur
    by_cases hc : c = '\n'
    · subst hc
      obtain ⟨extra, he, hx⟩ := ih []
      refine ⟨extra, ?_, hx⟩
      rw [List.cons_append, getlines_cons_newline, getlines_cons_newline, he]
      rfl
    · obtain ⟨extra, he, hx⟩ := ih (c :: cur)
      refine ⟨extra, ?_, hx⟩
      rw [List.cons_append, getlines_cons_other _ _ _ hc, getlines_cons_other _ _ _ hc, he]

/-- C32: a line whose first token, in upper case, is none of the recognised
keywords (FILE, TRACK, INDEX, PREGAP, POSTGAP, FLAGS, ISRC, CATALOG, CDTEXTFILE,
TITLE, PERFORMER, SONGWRITER, REM), a blank line included, leaves the state of
the parser as it is, so inserting it at any line position leaves the result of
`parseString` unchanged, sheet or error code: stated on the lines of the two
texts, on a text with the line and its line feed inserted at the start or after
a line feed, and on a text with a line feed and the line added at the end. -/
theorem unknown_directive_ignored (l : List Char) (h : isIgnoredLine l = true) :
    lineKeyword l ∉ recognisedKeywords
    ∧ (∀ st, parseLine st l = .ok st)
    ∧ (∀ (content content1 : String) (pre post : List (List Char)),
        cueLines content = pre ++ post → cueLines content1 = pre ++ l :: post →
        parseString content1 = parseString content)
    ∧ ('\n' ∉ l → ∀ (a b : List Char), (a = [] ∨ a.getLast? = some '\n') →
        parseString (String.mk (a ++ l ++ '\n' :: b)) = parseString (String.mk (a ++ b)))
    ∧ ('\n' ∉ l → ∀ a : List Char,
        parseString (String.mk (a ++ '\n' :: l)) = parseString (String.mk a))
    ∧ (∀ x : List Char, (trim x).isEmpty = true → isIgnoredLine x = true) := by
  have hlines : ∀ (content content1 : String) (pre post : List (List Char)),
      cueLines content = pre ++ post → cueLines content1 = pre ++ l :: post →
      parseString content1 = parseString content := by
    intro content content1 pre post h1 h2
    apply parseString_congr
    rw [h1, h2]
    exact parseLines_insert _ pre post l h
  refine ⟨by simpa [isIgnoredLine] using h, fun st => parseLine_ignored st l h, hlines, ?_, ?_,
    isIgnoredLine_of_blank⟩
  · intro hl a b ha
    apply hlines _ _ (getlines a []) (getlines b [])
    · show getlines (a ++ b) [] = _
      rcases ha with rfl | ha
      · simp [getlines]
      · exact getlines_append_terminated a b [] ha
    · show getlines (a ++ l ++ '\n' :: b) [] = _
      rw [List.append_assoc]
      rcases ha with rfl | ha
      · rw [List.nil_append, getlines_line l hl]
        simp [getlines]
      · rw [getlines_append_terminated a _ [] ha, getlines_line l hl]
        simp
  · intro hl a
    apply parseString_congr
    obtain ⟨extra, he, hx⟩ := getlines_append_after l hl a []
    show parseLines ParseState.initial (getlines (a ++ '\n' :: l) [])
      = parseLines ParseState.initial (getlines a [])
    rw [he]
    apply parseLines_append_ignored
    intro x hxm
    rcases hx x hxm with rfl | rfl
    · exact isIgnoredLine_of_blank [] (by decide)
    · exact h

/-- Witness of `unknown_directive_ignored`: the line `GENRE Rock` is skipped,
and `shortImageText` with two unknown directives and a blank line inserted
parses to the same sheet. -/
theorem unknown_directive_ignored_witness :
    isIgnoredLine "GENRE Rock".toList = true
    ∧ parseString (String.mk ([] ++ "GENRE Rock".toList ++ '\n' :: shortImageText.toList))
        = parseString (String.mk ([] ++ shortImageText.toList))
    ∧ parseString shortImageNoisyText = .ok shortImageSheet
    ∧ parseString shortImageText = .ok shortImageSheet :=
  ⟨by decide,
    (unknown_directive_ignored "GENRE Rock".toList (by decide)).2.2.2.1 (by decide) []
      shortImageText.toList (Or.inl rfl),
    by decide, by decide⟩

/-! ## Lengths and the timeline -/

theorem index01Offset_eq_index1Lba (ct : CueTrack)
    (hu : (ct.indices.map (fun i => i.number)).Nodup) :
    index01Offset ct.indices = ct.index1Lba := by
  unfold CueTrack.index1Lba
  cases hfind : ct.indices.find? (fun i => decide (i.number = 1)) with
  | none =>
    apply index01Offset_of_none
    intro idx hidx hn
    have := List.find?_eq_none.1 hfind idx hidx
    simp [hn] at this
  | some i =>
    have hmem := List.mem_of_find?_eq_some hfind
    have hnum : i.number = 1 := by simpa using List.find?_some hfind
    have hi : (⟨1, i.position⟩ : CueIndex) = i := by
      cases i
      simp only [CueIndex.mk.injEq, and_true] at hnum ⊢
      exact hnum.symm
    exact index01Offset_of_mem hu (by rw [hi]; exact hmem)

theorem nextStartLoop_eq_boundaryLba (ct : CueTrack)
    (hu : (ct.indices.map (fun i => i.number)).Nodup) :
    nextStartLoop ct.indices 0 = ct.boundaryLba := by
  unfold CueTrack.boundaryLba
  cases hfind : ct.indices.find? (fun i => decide (i.number = 0)) with
  | some i =>
    have hmem := List.mem_of_find?_eq_some hfind
    have hnum : i.number = 0 := by simpa using List.find?_some hfind
    have hi : (⟨0, i.position⟩ : CueIndex) = i := by
      cases i
      simp only [CueIndex.mk.injEq, and_true] at hnum ⊢
      exact hnum.symm
    exact nextStartLoop_of_zero i.position ct.indices 0 hu (by rw [hi]; exact hmem)
  | none =>
    have h0 : ∀ idx ∈ ct.indices, idx.number ≠ 0 := by
      intro idx hidx hn
      have := List.find?_eq_none.1 hfind idx hidx
      simp [hn] at this
    simp only
    unfold CueTrack.index1Lba
    cases hfind1 : ct.indices.find? (fun i => decide (i.number = 1)) with
    | none =>
      apply nextStartLoop_of_none _ _ h0
      intro idx hidx hn
      have := List.find?_eq_none.1 hfind1 idx hidx
      simp [hn] at this
    | some i =>
      have hmem := List.mem_of_find?_eq_some hfind1
      have hnum : i.number = 1 := by simpa using List.find?_some hfind1
      have hi : (⟨1, i.position⟩ : CueIndex) = i := by
        cases i
        simp only [CueIndex.mk.injEq, and_true] at hnum ⊢
        exact hnum.symm
      exact nextStartLoop_of_one i.position ct.indices 0 h0 hu (by rw [hi]; exact hmem)

theorem resolveFileTracks_forall (P : Track → Prop) (hs : List FileHandle) (fi : Nat) :
    ∀ (cts : List CueTrack) (c : Int),
      (∀ (ti : Nat) (ct : CueTrack), cts[ti]? = some ct →
        ∀ c1, P (resolveTrack hs fi ct cts[ti + 1]? c1).1) →
      ∀ t ∈ (resolveFileTracks hs fi cts c).1, P t
  | [], _, _, t, ht => by simp [resolveFileTracks] at ht
  | ct :: rest, c, hP, t, ht => by
    simp only [resolveFileTracks, List.mem_cons] at ht
    rcases ht with rfl | ht
    · have := hP 0 ct (by simp) c
      simpa [List.head?_eq_getElem?] using this
    · exact resolveFileTracks_forall P hs fi rest _
        (fun ti x hx c1 => by simpa using hP (ti + 1) x (by simpa using hx) c1) t ht

theorem resolveFiles_forall (P : Track → Prop) (hs : List FileHandle) :
    ∀ (files : List CueFile) (fi0 : Nat) (c : Int),
      (∀ (j ti : Nat) (f : CueFile) (ct : CueTrack), files[j]? = some f →
        f.tracks[ti]? = some ct → ∀ c1, P (resolveTrack hs (fi0 + j) ct f.tracks[ti + 1]? c1).1) →
      ∀ t ∈ (resolveFiles hs fi0 files c).1, P t
  | [], _, _, _, t, ht => by simp [resolveFiles] at ht
  | x :: rest, fi0, c, hP, t, ht => by
    simp only [resolveFiles, List.mem_append] at ht
    rcases ht with ht | ht
    · exact resolveFileTracks_forall P hs fi0 x.tracks c
        (fun ti ct hct c1 => hP 0 ti x ct (by simp) hct c1) t ht
    · exact resolveFiles_forall P hs rest (fi0 + 1) _
        (fun j ti f ct hf hct c1 => by
          have := hP (j + 1) ti f ct (by simpa using hf) hct c1
          rw [show fi0 + (j + 1) = fi0 + 1 + j by omega] at this
          exact this) t ht

theorem tdiv_nonneg_of_fits (x : Int) (ss : Nat) (hx : 0 ≤ x) (hss : 0 < ss)
    (hfit : x < 2147483648 * (ss : Int)) :
    0 ≤ wrap32 (Int.tdiv x (ss : Int)) ∧ wrap32 (Int.tdiv x (ss : Int)) = x / (ss : Int) := by
  have hdiv : Int.tdiv x (ss : Int) = x / (ss : Int) :=
    Int.tdiv_eq_ediv hx (Int.ofNat_nonneg _)
  have hpos : (0 : Int) < (ss : Int) := by exact_mod_cast hss
  have h0 : 0 ≤ x / (ss : Int) := Int.ediv_nonneg hx (le_of_lt hpos)
  have h1 : x / (ss : Int) < 2147483648 := Int.ediv_lt_of_lt_mul hpos hfit
  rw [hdiv, wrap32_of_inInt32 ⟨by omega, h1⟩]
  exact ⟨h0, rfl⟩

/-- C34, as the code has it: if index numbers are unique within each track,
within every file each following track's boundary (its Index 0 if present, else
its Index 1) is not earlier than the preceding track's Index 1, every file is
at least as large as the byte offset (Index 1 LBA times sector size) of its
last track and holds fewer than `2^31` sectors of that size, and the timeline
of the resolved tracks fits in `int32_t`, then every resolved track has
`lengthSectors >= 0` and `startLba >= 0`, its `endLba` is
`startLba + lengthSectors`, and `totalSectors >= endLba`. -/
theorem nonneg_lengths (fs : FileSystem) (sheet : CueSheet) (d : Disc)
    (h : Disc.fromSheet fs sheet = .ok d)
    (hu : sheet.indicesUnique)
    (horder : ∀ f ∈ sheet.files, ∀ (ti : Nat) (ct nx : CueTrack),
      f.tracks[ti]? = some ct → f.tracks[ti + 1]? = some nx → ct.index1Lba ≤ nx.boundaryLba)
    (hsize : ∀ f ∈ sheet.files, ∀ (ti : Nat) (ct : CueTrack) (size : Nat),
      f.tracks[ti]? = some ct → ti + 1 = f.tracks.length → fs f.filename = .sized size →
      ct.index1Lba * (sectorSizeForMode ct.mode : Int) ≤ (size : Int)
        ∧ (size : Int) < 2147483648 * (sectorSizeForMode ct.mode : Int))
    (hfit : timelineSum d.tracks < 2147483648) :
    ∀ t ∈ d.tracks, 0 ≤ t.lengthSectors ∧ 0 ≤ t.startLba
      ∧ t.endLba = t.startLba + t.lengthSectors ∧ t.endLba ≤ d.totalSectors := by
  obtain ⟨hs, hp, hh, _, htr, _⟩ := fromSheet_tracks h
  have hlen : ∀ t ∈ d.tracks, 0 ≤ t.lengthSectors := by
    rw [htr]
    apply resolveFiles_forall (fun t => 0 ≤ t.lengthSectors) hs sheet.files 0 0
    intro j ti f ct hf hct c1
    have hfm : f ∈ sheet.files := List.getElem?_mem hf
    have hctm : ct ∈ f.tracks := List.getElem?_mem hct
    show 0 ≤ trackSectors hs (0 + j) ct f.tracks[ti + 1]?
    cases hnx : f.tracks[ti + 1]? with
    | some nx =>
      have hnxm : nx ∈ f.tracks := List.getElem?_mem hnx
      simp only [trackSectors]
      rw [nextStartLoop_eq_boundaryLba nx (hu f hfm nx hnxm),
        index01Offset_eq_index1Lba ct (hu f hfm ct hctm)]
      have := horder f hfm ti ct nx hct hnx
      omega
    | none =>
      have hlast : ti + 1 = f.tracks.length := by
        have h1 := List.getElem?_eq_none_iff.1 hnx
        have h2 := (List.getElem?_eq_some_iff.1 hct).1
        omega
      obtain ⟨n, hn, hhs⟩ := probeFiles_getElem? fs sheet.files hs hp j f hf
      obtain ⟨hge, hlt⟩ := hsize f hfm ti ct n hct hlast hn
      have hss : 0 < sectorSizeForMode ct.mode := by
        rcases sectorSizeForMode_cases ct.mode with e | e | e | e <;> rw [e] <;> decide
      have hssle : (sectorSizeForMode ct.mode : Int) ≤ 2448 := by
        rcases sectorSizeForMode_cases ct.mode with e | e | e | e <;> rw [e] <;> decide
      have hi0 : 0 ≤ ct.index1Lba * (sectorSizeForMode ct.mode : Int) := by
        rw [← index01Offset_eq_index1Lba ct (hu f hfm ct hctm)]
        have : 0 ≤ index01Offset ct.indices := by
          rw [index01Offset_eq_index1Lba ct (hu f hfm ct hctm)]
          unfold CueTrack.index1Lba
          split
          · exact MSF.toLba_nonneg _
          · exact le_refl 0
        positivity
      have hw : wrap64 (n : Int) = n := by unfold wrap64; omega
      simp only [trackSectors, fileSizeAt, Nat.zero_add, hhs, hw,
        index01Offset_eq_index1Lba ct (hu f hfm ct hctm)]
      have hw2 : wrap64 ((n : Int) - ct.index1Lba * (sectorSizeForMode ct.mode : Int))
          = (n : Int) - ct.index1Lba * (sectorSizeForMode ct.mode : Int) := by
        unfold wrap64; omega
      rw [hw2]
      exact (tdiv_nonneg_of_fits _ _ (by omega) hss (by omega)).1
  obtain ⟨hx, htot⟩ := exactFrom_fromSheet h hlen hfit
  have hfit1 : d.totalSectors < 2147483648 := by rw [htot]; exact hfit
  intro t ht
  have hb := (ExactFrom.bounds hx).2 t ht
  have he := endLba_eq_of_exact hx (le_refl 0) hfit1 ht
  exact ⟨hlen t ht, hb.1, he, by rw [he]; exact hb.2⟩

/-- Witness of `nonneg_lengths` on the fixture `multiTrack.cue`. -/
theorem nonneg_lengths_witness :
    Disc.fromSheet multiTrackFs multiTrackSheet = .ok multiTrackDisc
    ∧ multiTrackDisc.tracks.map (fun t => (t.startLba, t.lengthSectors, t.endLba))
        = [(0, 105325, 105325), (105325, 19375, 124700), (124850, 1150, 126000)]
    ∧ ∀ t ∈ multiTrackDisc.tracks, 0 ≤ t.lengthSectors ∧ 0 ≤ t.startLba
        ∧ t.endLba = t.startLba + t.lengthSectors
        ∧ t.endLba ≤ multiTrackDisc.totalSectors := by
  refine ⟨by rfl, by decide, ?_⟩
  apply nonneg_lengths multiTrackFs multiTrackSheet multiTrackDisc (by rfl)
  · intro f hf ct hct
    simp only [multiTrackSheet, exampleSheet, List.mem_singleton] at hf
    subst hf
    revert ct
    decide
  · intro f hf ti ct nx hct hnx
    simp only [multiTrackSheet, exampleSheet, List.mem_singleton] at hf
    subst hf
    match ti with
    | 0 => simp only [List.getElem?_cons_zero, List.getElem?_cons_succ, Option.some.injEq] at hct hnx
           subst hct hnx; decide
    | 1 => simp only [List.getElem?_cons_zero, List.getElem?_cons_succ, Option.some.injEq] at hct hnx
           subst hct hnx; decide
    | k + 2 => simp at hnx
  · intro f hf ti ct size hct hlast hsz
    simp only [multiTrackSheet, exampleSheet, List.mem_singleton] at hf
    subst hf
    have hti : ti = 2 := by simpa using hlast
    subst hti
    simp only [List.getElem?_cons_zero, List.getElem?_cons_succ, Option.some.injEq] at hct
    subst hct
    have : size = 126000 * 2352 := by
      simp [multiTrackFs] at hsz
      exact hsz.symm
    subst this
    decide
  · decide

/-- C34 fails as stated: the single `MODE1/2048` track of `smallDataSheet` has
Index 1 at 00:00:00 and no following track, and its file of `2^31` sectors is
larger than the track's byte offset 0; the resolved `lengthSectors` is
`static_cast<int32_t>(2^31) = -2147483648`, which is negative. -/
theorem nonneg_lengths_counterexample :
    smallDataSheet.files.map (fun f => f.tracks.length) = [1]
    ∧ (smallDataSheet.files.flatMap (fun f => f.tracks)).map
        (fun ct => ct.index1Lba * (sectorSizeForMode ct.mode : Int)) = [0]
    ∧ hugeFileFs "data.bin" = .sized (2147483648 * 2048)
    ∧ ∃ d, Disc.fromSheet hugeFileFs smallDataSheet = .ok d
        ∧ d.tracks.map (fun t => t.lengthSectors) = [-2147483648]
        ∧ ¬ (∀ t ∈ d.tracks, 0 ≤ t.lengthSectors) := by
  refine ⟨by decide, by decide, by decide, ?_⟩
  have hd : Disc.fromSheet hugeFileFs smallDataSheet
      = .ok { smallDataDisc with
          tracks := (resolveFiles [⟨"data.bin", 4398046511104⟩] 0 smallDataSheet.files 0).1
          fileHandles := [⟨"data.bin", 4398046511104⟩]
          totalSectors := -2147483648 } := by decide
  exact ⟨_, hd, by decide, by decide⟩

/-- The lengths of the tracks of one file add up to the length of the last
track plus its Index 1 LBA, less the Index 1 LBA of the first track, less the
Index 0 to Index 1 regions of the later tracks. -/
theorem resolveFileTracks_lengths (hs : List FileHandle) (fi : Nat) :
    ∀ (first : CueTrack) (rest : List CueTrack) (c : Int) (last : CueTrack),
      (first :: rest).getLast? = some last →
      (((resolveFileTracks hs fi (first :: rest) c).1).map (fun t => t.lengthSectors)).sum
        = trackSectors hs fi last none + index01Offset last.indices
          - index01Offset first.indices
          - (rest.map (fun ct => index01Offset ct.indices - nextStartLoop ct.indices 0)).sum
  | first, [], c, last, hlast => by
    simp only [List.getLast?_singleton, Option.some.injEq] at hlast
    subst hlast
    simp [resolveFileTracks, resolveTrack_lengthSectors]
  | first, second :: rest, c, last, hlast => by
    rw [List.getLast?_cons_cons] at hlast
    have ih := resolveFileTracks_lengths hs fi second rest
      (resolveTrack hs fi first (some second) c).2 last hlast
    rw [resolveFileTracks]
    simp only [List.head?_cons, List.map_cons, List.sum_cons, resolveTrack_lengthSectors]
    rw [ih]
    simp only [trackSectors]
    ring

theorem lengths_map_congr (rest : List CueTrack)
    (hu : ∀ ct ∈ rest, (ct.indices.map (fun i => i.number)).Nodup) :
    rest.map (fun ct => index01Offset ct.indices - nextStartLoop ct.indices 0)
      = rest.map (fun ct => ct.index1Lba - ct.boundaryLba) := by
  apply List.map_congr_left
  intro ct hct
  rw [index01Offset_eq_index1Lba ct (hu ct hct), nextStartLoop_eq_boundaryLba ct (hu ct hct)]

/-- C35, as the code has it: for a document with a single file of exactly
`N * ss` bytes (below `2^63`) whose tracks all have sector size `ss`, with
unique index numbers within each track, `totalSectors` is the value
`N - S1 - sum over tracks k >= 2 of (Index1Lba(k) - BoundaryLba(k))
+ sum over all tracks of (pregapSectors + postgapSectors)` reduced to
`int32_t`, and it is that value whenever the value fits in `int32_t`. -/
theorem timeline_from_file_size (fs : FileSystem) (sheet : CueSheet) (d : Disc)
    (h : Disc.fromSheet fs sheet = .ok d)
    (name : String) (type : FileType) (first : CueTrack) (rest : List CueTrack)
    (n ss : Nat)
    (hfiles : sheet.files = [⟨name, type, first :: rest⟩])
    (hfs : fs name = .sized (n * ss))
    (hss : ∀ ct ∈ first :: rest, sectorSizeForMode ct.mode = ss)
    (hu : ∀ ct ∈ first :: rest, (ct.indices.map (fun i => i.number)).Nodup)
    (hn : n * ss < 9223372036854775808) :
    d.totalSectors
      = wrap32 (timelineFromFile n (first :: rest)
          + (d.tracks.map (fun t => t.pregapSectors + t.postgapSectors)).sum)
    ∧ (inInt32 (timelineFromFile n (first :: rest)
          + (d.tracks.map (fun t => t.pregapSectors + t.postgapSectors)).sum) →
        d.totalSectors
          = timelineFromFile n (first :: rest)
            + (d.tracks.map (fun t => t.pregapSectors + t.postgapSectors)).sum) := by
  obtain ⟨hs, hp, hh, _, htr, _⟩ := fromSheet_tracks h
  have htot := ChainFrom.end_eq_sum (chainFrom_fromSheet h) (⟨by decide, by decide⟩ : inInt32 0)
  rw [zero_add] at htot
  obtain ⟨last, hlast⟩ : ∃ last, (first :: rest).getLast? = some last := by
    cases hl : (first :: rest).getLast? with
    | none => simp at hl
    | some x => exact ⟨x, rfl⟩
  have hlastm : last ∈ first :: rest := List.mem_of_mem_getLast? hlast
  have hhs : hs = [⟨name, wrap64 ((n * ss : Nat) : Int)⟩] := by
    rw [hfiles] at hp
    simp only [probeFiles, hfs] at hp
    cases hp
    rfl
  have hw : wrap64 ((n * ss : Nat) : Int) = ((n * ss : Nat) : Int) := by
    unfold wrap64; omega
  have hsspos : 0 < ss := by
    rw [← hss first (List.mem_cons_self _ _)]
    rcases sectorSizeForMode_cases first.mode with e | e | e | e <;> rw [e] <;> decide
  have hssle : ss ≤ 2448 := by
    rw [← hss first (List.mem_cons_self _ _)]
    rcases sectorSizeForMode_cases first.mode with e | e | e | e <;> rw [e] <;> decide
  have hI0 : 0 ≤ index01Offset last.indices := by
    rw [index01Offset_eq_index1Lba last (hu last hlastm)]
    unfold CueTrack.index1Lba
    split
    · exact MSF.toLba_nonneg _
    · exact le_refl 0
  have hI1 : index01Offset last.indices ≤ 1166880 := by
    rw [index01Offset_eq_index1Lba last (hu last hlastm)]
    unfold CueTrack.index1Lba
    split
    · exact MSF.toLba_le _
    · decide
  have hlastlen : trackSectors hs 0 last none
      = wrap32 ((n : Int) - index01Offset last.indices) := by
    simp only [trackSectors, fileSizeAt, hhs, List.getElem?_cons_zero, hw,
      hss last hlastm]
    have hprod : ((n * ss : Nat) : Int) - index01Offset last.indices * (ss : Int)
        = ((n : Int) - index01Offset last.indices) * (ss : Int) := by
      push_cast; ring
    have hb : index01Offset last.indices * (ss : Int) ≤ 1166880 * 2448 := by
      have : (ss : Int) ≤ 2448 := by exact_mod_cast hssle
      have h0 : (0 : Int) ≤ (ss : Int) := Int.ofNat_nonneg _
      nlinarith
    have hb0 : 0 ≤ index01Offset last.indices * (ss : Int) :=
      mul_nonneg hI0 (Int.ofNat_nonneg _)
    have hw2 : wrap64 (((n * ss : Nat) : Int) - index01Offset last.indices * (ss : Int))
        = ((n * ss : Nat) : Int) - index01Offset last.indices * (ss : Int) := by
      unfold wrap64; omega
    rw [hw2, hprod, Int.mul_tdiv_cancel _ (by exact_mod_cast (Nat.pos_iff_ne_zero.1 hsspos))]
  have hsum : (d.tracks.map (fun t => t.lengthSectors)).sum
      = wrap32 ((n : Int) - index01Offset last.indices) + index01Offset last.indices
        - first.index1Lba - (rest.map (fun ct => ct.index1Lba - ct.boundaryLba)).sum := by
    rw [htr, hfiles]
    simp only [resolveFiles, List.append_nil]
    rw [resolveFileTracks_lengths hs 0 first rest 0 last hlast, hlastlen,
      lengths_map_congr rest (fun ct hct => hu ct (List.mem_cons_of_mem _ hct)),
      index01Offset_eq_index1Lba first (hu first (List.mem_cons_self _ _))]
  have hgaps : (d.tracks.map (fun t => t.pregapSectors + t.postgapSectors)).sum
      = pregapSum d.tracks + (d.tracks.map (fun t => t.postgapSectors)).sum := by
    unfold pregapSum
    rw [← List.sum_map_add]
  have hmain : d.totalSectors
      = wrap32 (timelineFromFile n (first :: rest)
          + (d.tracks.map (fun t => t.pregapSectors + t.postgapSectors)).sum) := by
    rw [htot, timelineSum_split, hsum, hgaps]
    simp only [timelineFromFile]
    unfold wrap32
    omega
  exact ⟨hmain, fun hfit => by rw [hmain, wrap32_of_inInt32 hfit]⟩

/-- Witness of `timeline_from_file_size` on the fixture `multiTrack.cue`: one
file of 126000 raw sectors; the Index 0 to Index 1 region of track 2 (150
sectors) is dropped and the pregap of track 3 (150 sectors) is added,
`126000 - 150 + 150 = 126000`. -/
theorem timeline_from_file_size_witness :
    Disc.fromSheet multiTrackFs multiTrackSheet = .ok multiTrackDisc
    ∧ timelineFromFile 126000
        [ exampleTrack 1 .Mode2_2352 [⟨1, ⟨0, 0, 0⟩⟩] none none,
          exampleTrack 2 .Audio [⟨0, ⟨23, 24, 25⟩⟩, ⟨1, ⟨23, 26, 25⟩⟩] none none,
          exampleTrack 3 .Audio [⟨1, ⟨27, 44, 50⟩⟩] (some ⟨0, 2, 0⟩) none ] = 126000 - 150
    ∧ (multiTrackDisc.tracks.map (fun t => t.pregapSectors + t.postgapSectors)).sum = 150
    ∧ multiTrackDisc.totalSectors
        = wrap32 (timelineFromFile 126000
            [ exampleTrack 1 .Mode2_2352 [⟨1, ⟨0, 0, 0⟩⟩] none none,
              exampleTrack 2 .Audio [⟨0, ⟨23, 24, 25⟩⟩, ⟨1, ⟨23, 26, 25⟩⟩] none none,
              exampleTrack 3 .Audio [⟨1, ⟨27, 44, 50⟩⟩] (some ⟨0, 2, 0⟩) none ]
          + (multiTrackDisc.tracks.map (fun t => t.pregapSectors + t.postgapSectors)).sum)
    ∧ multiTrackDisc.totalSectors = 126000 :=
  ⟨by rfl, by decide, by decide,
    (timeline_from_file_size multiTrackFs multiTrackSheet multiTrackDisc (by rfl)
      "multiTrack.bin" .Binary _ _ 126000 2352 rfl (by decide) (by decide) (by decide)
      (by decide)).1,
    by decide⟩

/-- C35 fails as stated: for the single `MODE1/2048` track of `smallDataSheet`
over a file of exactly `N = 2^31` sectors, with Index 1 at 00:00:00 and no
gaps, the claimed value is `N = 2147483648` and `totalSectors` is
`-2147483648`. -/
theorem timeline_from_file_size_counterexample :
    hugeFileFs "data.bin" = .sized (2147483648 * 2048)
    ∧ (smallDataSheet.files.flatMap (fun f => f.tracks)).map
        (fun ct => sectorSizeForMode ct.mode) = [2048]
    ∧ timelineFromFile 2147483648 (smallDataSheet.files.flatMap (fun f => f.tracks))
        = 2147483648
    ∧ ∃ d, Disc.fromSheet hugeFileFs smallDataSheet = .ok d
        ∧ (d.tracks.map (fun t => t.pregapSectors + t.postgapSectors)).sum = 0
        ∧ d.totalSectors = -2147483648
        ∧ d.totalSectors
            ≠ timelineFromFile 2147483648 (smallDataSheet.files.flatMap (fun f => f.tracks))
              + (d.tracks.map (fun t => t.pregapSectors + t.postgapSectors)).sum := by
  refine ⟨by decide, by decide, by decide, ?_⟩
  have hd : Disc.fromSheet hugeFileFs smallDataSheet
      = .ok { smallDataDisc with
          tracks := (resolveFiles [⟨"data.bin", 4398046511104⟩] 0 smallDataSheet.files 0).1
          fileHandles := [⟨"data.bin", 4398046511104⟩]
          totalSectors := -2147483648 } := by decide
  exact ⟨_, hd, by decide, rfl, by decide⟩

/-! ## Reads of the last track of a file -/

theorem index01_foldl_bounds (xs : List CueIndex) :
    ∀ acc : Int, 0 ≤ acc → acc ≤ 1166880 →
      0 ≤ xs.foldl (fun acc idx => if idx.number = 1 then idx.position.toLba else acc) acc
      ∧ xs.foldl (fun acc idx => if idx.number = 1 then idx.position.toLba else acc) acc
          ≤ 1166880 := by
  induction xs with
  | nil => intro acc h0 h1; exact ⟨h0, h1⟩
  | cons x rest ih =>
    intro acc h0 h1
    simp only [List.foldl_cons]
    split_ifs
    · exact ih _ (MSF.toLba_nonneg _) (MSF.toLba_le _)
    · exact ih _ h0 h1

theorem index01Offset_bounds (xs : List CueIndex) :
    0 ≤ index01Offset xs ∧ index01Offset xs ≤ 1166880 :=
  index01_foldl_bounds xs 0 (le_refl 0) (by decide)

/-- C36: for a resolved track that is the last track of its file, with
`fileSize >= fileByteOffset`, and every `lba` with
`startLba <= lba < startLba + lengthSectors` (the `endLba` of the track when that
sum fits in `int32_t`), the byte range `readSector` reads starts at
`fileByteOffset + (lba - fileStartLba) * sectorSize`, which is `>= 0`, and its
`sectorSize` bytes end at or before `fileSize`; so a read through a usable
stream of a file of that size gets all the bytes it asks for and succeeds:
neither the short-read nor the zero-byte branch is taken. -/
theorem last_track_reads_in_file (fs : FileSystem) (sheet : CueSheet) (d : Disc)
    (h : Disc.fromSheet fs sheet = .ok d)
    (fi ti : Nat) (f : CueFile) (ct : CueTrack) (t : Track) (fh : FileHandle)
    (hf : sheet.files[fi]? = some f) (hct : f.tracks[ti]? = some ct)
    (hlast : ti + 1 = f.tracks.length)
    (ht : d.tracks[trackPosition sheet.files fi ti]? = some t)
    (hfh : d.fileHandles[fi]? = some fh)
    (hge : t.fileByteOffset ≤ fh.fileSize)
    (lba : Int) (h0 : t.startLba ≤ lba) (h1 : lba < t.startLba + t.lengthSectors) :
    t.fileIndex = fi
    ∧ sectorOffset t lba = t.fileByteOffset + (lba - t.fileStartLba) * (t.sectorSize : Int)
    ∧ 0 ≤ sectorOffset t lba
    ∧ sectorOffset t lba + (t.sectorSize : Int) ≤ fh.fileSize
    ∧ (inInt32 (t.startLba + t.lengthSectors) → t.endLba = t.startLba + t.lengthSectors)
    ∧ (∀ bytes : List Byte, (bytes.length : Int) = fh.fileSize →
        ((bytes.drop (sectorOffset t lba).toNat).take (readSizeOf t)).length = readSizeOf t)
    ∧ (∀ (disk : DiskContents) (streams : List StreamState) (s : StreamState),
        0 ≤ lba → lba < d.totalSectors → d.findTrack lba = some t →
        streams[fi]? = some s → streamReady (disk fh.path) s = true →
        (disk fh.path).seekable (sectorOffset t lba) = true →
        ((disk fh.path).bytes.length : Int) = fh.fileSize →
        ∃ sector, (d.readSector disk streams lba).1 = .ok sector
          ∧ sector.data.take (readSizeOf t)
              = ((disk fh.path).bytes.drop (sectorOffset t lba).toNat).take (readSizeOf t)) := by
  obtain ⟨n, c1, hn, hfh1, ht1⟩ := fromSheet_getElem? h hf hct
  have hnone : f.tracks[ti + 1]? = none := List.getElem?_eq_none (by omega)
  rw [hnone, ht] at ht1
  rw [hfh] at hfh1
  simp only [Option.some.injEq] at ht1 hfh1
  have hfi : t.fileIndex = fi := by rw [ht1]; rfl
  have hss : t.sectorSize = sectorSizeForMode ct.mode := by rw [ht1]; rfl
  have hoff : t.fileByteOffset = index01Offset ct.indices * (sectorSizeForMode ct.mode : Int) := by
    rw [ht1]; rfl
  have hfs : t.fileStartLba = t.startLba := by rw [ht1]; rfl
  have hsize : fileSizeAt d.fileHandles fi = fh.fileSize := by
    simp only [fileSizeAt, hfh]
  have hlen : t.lengthSectors
      = wrap32 (Int.tdiv (wrap64 (fh.fileSize - t.fileByteOffset))
          (sectorSizeForMode ct.mode : Int)) := by
    rw [hoff, ← hsize, ht1]
    rfl
  obtain ⟨hi0, hi1⟩ := index01Offset_bounds ct.indices
  have hfsz : fh.fileSize < 9223372036854775808 := by
    rw [hfh1]
    show wrap64 (n : Int) < 9223372036854775808
    unfold wrap64; omega
  have hoff0 : 0 ≤ t.fileByteOffset := by
    rw [hoff]; exact mul_nonneg hi0 (Int.ofNat_nonneg _)
  have hw : wrap64 (fh.fileSize - t.fileByteOffset) = fh.fileSize - t.fileByteOffset := by
    unfold wrap64; omega
  have hdiv : Int.tdiv (fh.fileSize - t.fileByteOffset) (sectorSizeForMode ct.mode : Int)
      = (fh.fileSize - t.fileByteOffset) / (sectorSizeForMode ct.mode : Int) :=
    Int.tdiv_eq_ediv (by omega) (Int.ofNat_nonneg _)
  rw [hw, hdiv] at hlen
  have hsub : sub32 lba t.fileStartLba = lba - t.startLba := by
    unfold sub32
    rw [hfs]
    have hl := inInt32_wrap32 ((fh.fileSize - t.fileByteOffset) / (sectorSizeForMode ct.mode : Int))
    rw [← hlen] at hl
    exact wrap32_of_inInt32 ⟨by omega, by have := hl.2; omega⟩
  have hso : sectorOffset t lba
      = t.fileByteOffset + (lba - t.startLba) * (sectorSizeForMode ct.mode : Int) := by
    unfold sectorOffset
    rw [hsub, hss]
  have hin : 0 ≤ sectorOffset t lba
      ∧ sectorOffset t lba + (sectorSizeForMode ct.mode : Int) ≤ fh.fileSize := by
    rw [hso]
    have hwle : t.lengthSectors
        ≤ (fh.fileSize - t.fileByteOffset) / (sectorSizeForMode ct.mode : Int) := by
      rw [hlen]
      have hq : 0 ≤ (fh.fileSize - t.fileByteOffset) / (sectorSizeForMode ct.mode : Int) :=
        Int.ediv_nonneg (by omega) (Int.ofNat_nonneg _)
      unfold wrap32
      omega
    rcases sectorSizeForMode_cases ct.mode with e | e | e | e <;> rw [e] at hwle ⊢ <;>
      push_cast at hwle ⊢ <;> omega
  have hfull : ∀ bytes : List Byte, (bytes.length : Int) = fh.fileSize →
      ((bytes.drop (sectorOffset t lba).toNat).take (readSizeOf t)).length = readSizeOf t := by
    intro bytes hb
    have hrs : readSizeOf t ≤ sectorSizeForMode ct.mode := by
      unfold readSizeOf
      rw [hss]
      exact Nat.min_le_left _ _
    rw [List.length_take, List.length_drop]
    have := hin.1
    have := hin.2
    omega
  refine ⟨hfi, ?_, hin.1, by rw [hss]; exact hin.2, ?_, hfull, ?_⟩
  · rw [hso, hfs, hss]
  · intro hfit
    unfold Track.endLba add32
    exact wrap32_of_inInt32 hfit
  · intro disk streams s hl0 hl1 hown hs hready hseek hbytes
    rw [readSector_of_ready d disk streams lba t fh s hl0 hl1 hown (by rw [hfi]; exact hfh)
      (by rw [hfi]; exact hs) hready hseek]
    have hf2 := hfull (disk fh.path).bytes hbytes
    simp only [hf2, lt_irrefl, if_false]
    refine ⟨_, rfl, ?_⟩
    have hst := @sectorBuffer_take
      (((disk fh.path).bytes.drop (sectorOffset t lba).toNat).take (readSizeOf t))
    rw [hf2] at hst
    exact hst

/-- Witness of `last_track_reads_in_file` on the fixture `multiTrack.cue`:
track 3 is the last track of its file and LBA 125999 is its last sector; the
2352 bytes read end at the end of the file. -/
theorem last_track_reads_in_file_witness :
    Disc.fromSheet multiTrackFs multiTrackSheet = .ok multiTrackDisc
    ∧ (∃ t fh, multiTrackDisc.tracks[trackPosition multiTrackSheet.files 0 2]? = some t
        ∧ multiTrackDisc.fileHandles[0]? = some fh
        ∧ t.fileByteOffset ≤ fh.fileSize ∧ t.startLba ≤ 125999
        ∧ 125999 < t.startLba + t.lengthSectors
        ∧ sectorOffset t 125999 = 296349648
        ∧ 0 ≤ sectorOffset t 125999
        ∧ sectorOffset t 125999 + (t.sectorSize : Int) ≤ fh.fileSize) := by
  have hw := last_track_reads_in_file multiTrackFs multiTrackSheet multiTrackDisc (by rfl)
    0 2 ⟨"multiTrack.bin", .Binary,
        [ exampleTrack 1 .Mode2_2352 [⟨1, ⟨0, 0, 0⟩⟩] none none,
          exampleTrack 2 .Audio [⟨0, ⟨23, 24, 25⟩⟩, ⟨1, ⟨23, 26, 25⟩⟩] none none,
          exampleTrack 3 .Audio [⟨1, ⟨27, 44, 50⟩⟩] (some ⟨0, 2, 0⟩) none ]⟩
    (exampleTrack 3 .Audio [⟨1, ⟨27, 44, 50⟩⟩] (some ⟨0, 2, 0⟩) none)
    { number := 3, mode := .Audio, sectorSize := 2352, startLba := 124850,
      lengthSectors := 1150, pregapSectors := 150, postgapSectors := 0,
      indices := [⟨1, ⟨27, 44, 50⟩⟩], title := none, performer := none, isrc := none,
      fileIndex := 0, fileByteOffset := 293647200, fileStartLba := 124850 }
    ⟨"multiTrack.bin", 296352000⟩
    (by decide) (by decide) (by decide) (by decide) (by decide) (by decide)
    125999 (by decide) (by decide)
  exact ⟨by rfl, _, _, by decide, by decide, by decide, by decide, by decide, by decide,
    hw.2.2.1, hw.2.2.2.1⟩

/-! ## `readSector`: reads that follow a failed read -/

theorem shortImageDisc_track1 :
    shortImageDisc.findTrack 0 = some shortImageTrack1
    ∧ shortImageDisc.fileHandles[shortImageTrack1.fileIndex]? = some ⟨"image.bin", 2048⟩ := by
  decide

theorem shortImageTail_fromCueText :
    Disc.fromCueText shortImageTailFs shortImageText = .ok shortImageTailDisc := by
  have hparse : parseString shortImageText = .ok shortImageSheet := by decide
  unfold Disc.fromCueText
  rw [hparse]
  decide

/-- The bytes a read of `n` bytes at offset `o` gets from a file of `size` bytes:
`min n (size - o)` of them. -/
theorem filledDisk_read_length (size : Nat) (path : String) (o n : Nat) :
    (((filledDisk size path).bytes.drop o).take n).length = min n (size - o) := by
  rw [List.length_take, List.length_drop, filledDisk_length]

/-- C11 fails on the code, by the defect of C14: a zero-byte read leaves
`failbit` set (disc.cpp lines 259-262 return without the `clear()` of line 265).
On the disc built from `shortImageText` over a one-sector image, LBA 0 is in
range, owned by track 1, and the file holds the `n = min(2048, 2352) = 2048`
bytes of the sector at offset `o = 0`; on the fresh disc `readSector(0)`
succeeds with the content the claim describes, but after `readSector(2)` has
failed with `FileReadError` the same `readSector(0)` returns `FileSeekError`. -/
theorem readSector_content_lost_after_failed_read :
    Disc.fromCueText shortImageFs shortImageText = .ok shortImageDisc
    ∧ ((0 : Int) ≤ 0 ∧ (0 : Int) < shortImageDisc.totalSectors)
    ∧ shortImageDisc.findTrack 0 = some shortImageTrack1
    ∧ sectorOffset shortImageTrack1 0
        = shortImageTrack1.fileByteOffset
          + (0 - shortImageTrack1.fileStartLba) * (shortImageTrack1.sectorSize : Int)
    ∧ sectorOffset shortImageTrack1 0 = 0
    ∧ readSizeOf shortImageTrack1 = min shortImageTrack1.sectorSize 2352
    ∧ readSizeOf shortImageTrack1 = 2048
    ∧ 0 + 2048 ≤ (filledDisk 2048 "image.bin").bytes.length
    ∧ (∃ sector,
        shortImageDisc.readSector (filledDisk 2048) shortImageDisc.freshStreams 0
          = (.ok sector, [{ opened := true, isOpen := true, failed := false }])
        ∧ sector.mode = shortImageTrack1.mode
        ∧ sector.data.length = 2352
        ∧ sector.data.take 2048 = (filledDisk 2048 "image.bin").bytes.take 2048
        ∧ ∀ i, 2048 ≤ i → i < 2352 → sector.data[i]? = some 0)
    ∧ shortImageDisc.readSector (filledDisk 2048) shortImageDisc.freshStreams 2
        = (.error .FileReadError, [{ opened := true, isOpen := true, failed := true }])
    ∧ shortImageDisc.readSector (filledDisk 2048)
          [{ opened := true, isOpen := true, failed := true }] 0
        = (.error .FileSeekError, [{ opened := true, isOpen := true, failed := true }])
    ∧ (shortImageDisc.readSector (filledDisk 2048)
          (shortImageDisc.readSector (filledDisk 2048) shortImageDisc.freshStreams 2).2 0).1
        = .error .FileSeekError := by
  have hparse : parseString shortImageText = .ok shortImageSheet := by decide
  have hdisc : Disc.fromCueText shortImageFs shortImageText = .ok shortImageDisc := by
    unfold Disc.fromCueText
    rw [hparse]
    decide
  have hread2 : shortImageDisc.readSector (filledDisk 2048) shortImageDisc.freshStreams 2
      = (.error .FileReadError, [{ opened := true, isOpen := true, failed := true }]) := by
    rw [readSector_of_ready shortImageDisc (filledDisk 2048) shortImageDisc.freshStreams 2
      shortImageTrack1 ⟨"image.bin", 2048⟩ StreamState.fresh
      (by decide) (by decide) (by decide) (by decide) (by decide) (by decide) (by decide)]
    have ho : (sectorOffset shortImageTrack1 2).toNat = 4096 := by decide
    have hn : readSizeOf shortImageTrack1 = 2048 := by decide
    rw [ho, hn, filledDisk_read_length, if_pos (by decide), if_pos (by decide)]
    rfl
  have hread0 : shortImageDisc.readSector (filledDisk 2048)
        [{ opened := true, isOpen := true, failed := true }] 0
      = (.error .FileSeekError, [{ opened := true, isOpen := true, failed := true }]) := by
    rw [readSector_of_failed shortImageDisc (filledDisk 2048) _ 0
      shortImageTrack1 ⟨"image.bin", 2048⟩ { opened := true, isOpen := true, failed := true }
      (by decide) (by decide) (by decide) (by decide) (by decide) (by decide) (by decide)]
    rfl
  refine ⟨hdisc, by decide, by decide, by decide, by decide, by decide, by decide,
    by rw [filledDisk_length], ?_, hread2, hread0, ?_⟩
  · rw [readSector_of_ready shortImageDisc (filledDisk 2048) shortImageDisc.freshStreams 0
      shortImageTrack1 ⟨"image.bin", 2048⟩ StreamState.fresh
      (by decide) (by decide) (by decide) (by decide) (by decide) (by decide) (by decide)]
    have ho : (sectorOffset shortImageTrack1 0).toNat = 0 := by decide
    have hn : readSizeOf shortImageTrack1 = 2048 := by decide
    have hlen : (((filledDisk 2048 "image.bin").bytes.drop 0).take 2048).length = 2048 := by
      rw [filledDisk_read_length]
      decide
    rw [ho, hn, if_neg (by rw [hlen]; decide)]
    refine ⟨_, rfl, rfl, ?_, ?_, ?_⟩
    · exact sectorBuffer_length (by rw [hlen]; decide)
    · have h := @sectorBuffer_take (((filledDisk 2048 "image.bin").bytes.drop 0).take 2048)
      rw [hlen] at h
      show List.take 2048 (sectorBuffer _) = _
      rw [h, List.drop_zero]
    · intro i h1 h2
      exact sectorBuffer_zero (by rw [hlen]; exact h1) h2
  · rw [hread2, hread0]

/-- C12 fails on the code, by the defect of C14: a zero-byte read leaves
`failbit` set (disc.cpp lines 259-262 return without the `clear()` of line 265).
On the disc built from `shortImageText` over an image of 2148 bytes, LBAs 1 and
2 are in range and owned by track 1; the file holds 100 bytes from the offset
2048 of LBA 1 and none at the offset 4096 of LBA 2.  On the fresh disc
`readSector(1)` succeeds with the 100 file bytes followed by zeros and
`readSector(2)` fails with `FileReadError`; after that failed read,
`readSector(1)` returns `FileSeekError` instead of the zero-filled sector and
`readSector(2)` returns `FileSeekError` instead of `FileReadError`. -/
theorem readSector_short_read_lost_after_failed_read :
    Disc.fromCueText shortImageTailFs shortImageText = .ok shortImageTailDisc
    ∧ ((1 : Int) < shortImageTailDisc.totalSectors ∧ (2 : Int) < shortImageTailDisc.totalSectors)
    ∧ shortImageTailDisc.findTrack 1 = some shortImageTrack1
    ∧ shortImageTailDisc.findTrack 2 = some shortImageTrack1
    ∧ sectorOffset shortImageTrack1 1 = 2048
    ∧ sectorOffset shortImageTrack1 2 = 4096
    ∧ readSizeOf shortImageTrack1 = 2048
    ∧ ((filledDisk 2148 "image.bin").bytes.drop 2048).length = 100
    ∧ ((filledDisk 2148 "image.bin").bytes.drop 4096).length = 0
    ∧ (∃ sector,
        shortImageTailDisc.readSector (filledDisk 2148) shortImageTailDisc.freshStreams 1
          = (.ok sector, [{ opened := true, isOpen := true, failed := false }])
        ∧ sector.mode = shortImageTrack1.mode
        ∧ sector.data
            = (filledDisk 2148 "image.bin").bytes.drop 2048 ++ List.replicate 2252 (0 : Byte)
        ∧ sector.data.length = 2352)
    ∧ shortImageTailDisc.readSector (filledDisk 2148) shortImageTailDisc.freshStreams 2
        = (.error .FileReadError, [{ opened := true, isOpen := true, failed := true }])
    ∧ shortImageTailDisc.readSector (filledDisk 2148)
          [{ opened := true, isOpen := true, failed := true }] 1
        = (.error .FileSeekError, [{ opened := true, isOpen := true, failed := true }])
    ∧ shortImageTailDisc.readSector (filledDisk 2148)
          [{ opened := true, isOpen := true, failed := true }] 2
        = (.error .FileSeekError, [{ opened := true, isOpen := true, failed := true }])
    ∧ (shortImageTailDisc.readSector (filledDisk 2148)
          (shortImageTailDisc.readSector (filledDisk 2148)
            shortImageTailDisc.freshStreams 2).2 1).1
        = .error .FileSeekError
    ∧ (shortImageTailDisc.readSector (filledDisk 2148)
          (shortImageTailDisc.readSector (filledDisk 2148)
            shortImageTailDisc.freshStreams 2).2 2).1
        = .error .FileSeekError := by
  have hn : readSizeOf shortImageTrack1 = 2048 := by decide
  have hd1 : ((filledDisk 2148 "image.bin").bytes.drop 2048).length = 100 := by
    rw [List.length_drop, filledDisk_length]
  have hd2 : ((filledDisk 2148 "image.bin").bytes.drop 4096).length = 0 := by
    rw [List.length_drop, filledDisk_length]
  have hread2 : shortImageTailDisc.readSector (filledDisk 2148) shortImageTailDisc.freshStreams 2
      = (.error .FileReadError, [{ opened := true, isOpen := true, failed := true }]) := by
    rw [readSector_of_ready shortImageTailDisc (filledDisk 2148)
      shortImageTailDisc.freshStreams 2
      shortImageTrack1 ⟨"image.bin", 2148⟩ StreamState.fresh
      (by decide) (by decide) (by decide) (by decide) (by decide) (by decide) (by decide)]
    have ho : (sectorOffset shortImageTrack1 2).toNat = 4096 := by decide
    rw [ho, hn, filledDisk_read_length, if_pos (by decide), if_pos (by decide)]
    rfl
  have hafter1 : shortImageTailDisc.readSector (filledDisk 2148)
        [{ opened := true, isOpen := true, failed := true }] 1
      = (.error .FileSeekError, [{ opened := true, isOpen := true, failed := true }]) := by
    rw [readSector_of_failed shortImageTailDisc (filledDisk 2148) _ 1
      shortImageTrack1 ⟨"image.bin", 2148⟩ { opened := true, isOpen := true, failed := true }
      (by decide) (by decide) (by decide) (by decide) (by decide) (by decide) (by decide)]
    rfl
  have hafter2 : shortImageTailDisc.readSector (filledDisk 2148)
        [{ opened := true, isOpen := true, failed := true }] 2
      = (.error .FileSeekError, [{ opened := true, isOpen := true, failed := true }]) := by
    rw [readSector_of_failed shortImageTailDisc (filledDisk 2148) _ 2
      shortImageTrack1 ⟨"image.bin", 2148⟩ { opened := true, isOpen := true, failed := true }
      (by decide) (by decide) (by decide) (by decide) (by decide) (by decide) (by decide)]
    rfl
  refine ⟨shortImageTail_fromCueText, by decide, by decide, by decide, by decide, by decide,
    hn, hd1, hd2, ?_, hread2, hafter1, hafter2, ?_, ?_⟩
  · rw [readSector_of_ready shortImageTailDisc (filledDisk 2148)
      shortImageTailDisc.freshStreams 1
      shortImageTrack1 ⟨"image.bin", 2148⟩ StreamState.fresh
      (by decide) (by decide) (by decide) (by decide) (by decide) (by decide) (by decide)]
    have ho : (sectorOffset shortImageTrack1 1).toNat = 2048 := by decide
    have htake : ((filledDisk 2148 "image.bin").bytes.drop 2048).take 2048
        = (filledDisk 2148 "image.bin").bytes.drop 2048 :=
      List.take_of_length_le (by rw [hd1]; decide)
    rw [ho, hn, htake, hd1, if_pos (by decide), if_neg (by decide)]
    refine ⟨_, rfl, rfl, ?_, ?_⟩
    · show sectorBuffer _ = _
      unfold sectorBuffer
      rw [hd1]
      rfl
    · exact sectorBuffer_length (by rw [hd1]; decide)
  · rw [hread2, hafter1]
  · rw [hread2, hafter2]

end cuebin
